import Mathlib

/-!
# tekton-agentrun: the agent execution loop and its policy gate

A shallow embedding of `pkg/agent/loop.go`, `pkg/agent/provider.go` and
`pkg/agent/opa.go`.

Conventions of the embedding.

* Go `int` is modelled as `Int`; the two `+=` on the token counters are 64-bit
  two's complement additions (`addInt`).
* Go `error` values are modelled by `GoError`; `Option GoError` is a possibly
  nil error.
* `map[string]interface{}` is modelled as an association list `InputMap`.
* The three collaborators of the loop (`Provider`, `Policy`, `Tool`) are
  external and stateful.  Each is modelled as a function of the history of all
  external calls made so far in the run (the `trace`) and of its arguments, so
  a collaborator may answer differently at every call.  The trace doubles as
  the log of external calls on which the theorems are stated.
* A nil pointer dereference in `Run` itself is modelled by `Outcome.panicked`.
-/

namespace Agent

/-! ## Data model (`provider.go`, `loop.go`) -/

/-- Dynamic Go values held in an `interface{}`. -/
inductive Value where
  | null
  | bool (b : Bool)
  | num (n : Int)
  | str (s : String)
  deriving DecidableEq, Repr

/-- Go `map[string]interface{}`, as an association list with unique keys. -/
abbrev InputMap := List (String × Value)

/-- Go `error` values: a plain error text, or `fmt.Errorf(pre ++ "%w", inner)`. -/
inductive GoError where
  | text (msg : String)
  | wrapped (pre : String) (inner : GoError)
  deriving DecidableEq, Repr

/-- The method `Error()` of a Go error: its text. -/
def GoError.Error : GoError → String
  | .text msg => msg
  | .wrapped pre inner => pre ++ inner.Error

/-- Message represents a message in the conversation. -/
structure Message where
  Role : String
  Content : String
  deriving DecidableEq, Repr

/-- ToolCall represents a tool call request from the LLM. -/
structure ToolCall where
  ID : String
  Name : String
  Input : InputMap
  deriving DecidableEq, Repr

/-- Response represents the LLM response. -/
structure Response where
  Content : String
  ToolCalls : List ToolCall
  StopReason : String
  TokensIn : Int
  TokensOut : Int
  deriving DecidableEq, Repr

/-- ToolResult represents the result of a tool execution. -/
structure ToolResult where
  ToolCallID : String
  Content : String
  IsError : Bool
  deriving DecidableEq, Repr

/-- ToolCallRecord records a tool call execution. -/
structure ToolCallRecord where
  ID : String
  Name : String
  Input : InputMap
  Output : String
  Error : String
  deriving DecidableEq, Repr

/-- Result represents the result of running the loop. -/
structure Result where
  Status : String
  Iterations : Int
  ToolCalls : List ToolCallRecord
  FinalResponse : String
  TotalTokensIn : Int
  TotalTokensOut : Int
  Error : String
  deriving DecidableEq, Repr

/-- Reduction of an integer into the range of a 64-bit signed Go `int`. -/
def wrapInt64 (x : Int) : Int := (x + 2 ^ 63) % 2 ^ 64 - 2 ^ 63

/-- Go `a + b` on `int`: two's complement addition. -/
def addInt (a b : Int) : Int := wrapInt64 (a + b)

/-! ## External calls -/

/-- One call made by `Run` to a collaborator, with what the call returned.
`reflection` tells the second `Provider.Call` of an iteration (line 169) from
the first (line 79). -/
inductive Event where
  | providerCall (reflection : Bool) (messages : List Message)
      (response : Option Response) (err : Option GoError)
  | policyAllow (toolCall : ToolCall) (err : Option GoError)
  | toolExecute (toolCall : ToolCall) (output : String) (err : Option GoError)
  deriving DecidableEq, Repr

/-- Tool is the interface for agent tools; `Execute` sees the calls made so far. -/
structure Tool where
  Name : String
  Execute : List Event → InputMap → String × Option GoError

/-- Loop implements the plan-act-reflect loop.  `Provider` returns the pair
`(*Response, error)`, `Policy` is `Policy.Allow`, `Tools` is the lookup in the
map `Tools`. -/
structure Loop where
  Provider : List Event → List Message → Option Response × Option GoError
  Tools : String → Option Tool
  Policy : List Event → ToolCall → Option GoError
  Goal : String
  SystemPrompt : String
  MaxIterations : Int

/-- How a call of `Run` ends: it returns `(result, err)`, or it panics on the
nil response of a provider that returned `(nil, nil)`.  `trace` is the list of
all external calls of the run, in order. -/
inductive Outcome where
  | returned (result : Result) (err : Option GoError) (trace : List Event)
  | panicked (trace : List Event)
  deriving DecidableEq, Repr

/-- The external calls of a run. -/
def Outcome.trace : Outcome → List Event
  | .returned _ _ tr => tr
  | .panicked tr => tr

/-- The local variables of `Run` that live across iterations, with the trace. -/
structure LoopState where
  result : Result
  messages : List Message
  trace : List Event
  deriving DecidableEq, Repr

/-! ## `Loop.Run` (`loop.go`, lines 53-197) -/

/-- How the inner `for _, toolCall := range response.ToolCalls` ends: it runs
to its end, or `Run` returns from inside it. -/
inductive BatchOutcome where
  | completed (result : Result) (toolResults : List ToolResult) (trace : List Event)
  | aborted (result : Result) (err : GoError) (trace : List Event)
  deriving DecidableEq, Repr

/-- Lines 108-150: the policy check, the lookup and the execution of each tool
call of a response, in order. -/
def processToolCalls (l : Loop) :
    List ToolCall → Result → List ToolResult → List Event → BatchOutcome
  | [], result, toolResults, trace => .completed result toolResults trace
  | toolCall :: rest, result, toolResults, trace =>
    match l.Policy trace toolCall with
    | some err =>
      .aborted
        { result with
          Status := "failed"
          Error := "Policy violation for tool " ++ toolCall.Name ++ ": " ++ err.Error }
        (.wrapped "policy violation: " err)
        (trace ++ [.policyAllow toolCall (some err)])
    | none =>
      let trace1 := trace ++ [.policyAllow toolCall none]
      match l.Tools toolCall.Name with
      | none =>
        .aborted
          { result with
            Status := "failed"
            Error := "Tool not found: " ++ toolCall.Name }
          (.text ("tool not found: " ++ toolCall.Name))
          trace1
      | some tool =>
        match tool.Execute trace1 toolCall.Input with
        | (output, some e) =>
          processToolCalls l rest
            { result with
              ToolCalls := result.ToolCalls ++
                [{ ID := toolCall.ID, Name := toolCall.Name, Input := toolCall.Input,
                   Output := "", Error := e.Error }] }
            (toolResults ++
              [{ ToolCallID := toolCall.ID, Content := e.Error, IsError := true }])
            (trace1 ++ [.toolExecute toolCall output (some e)])
        | (output, none) =>
          processToolCalls l rest
            { result with
              ToolCalls := result.ToolCalls ++
                [{ ID := toolCall.ID, Name := toolCall.Name, Input := toolCall.Input,
                   Output := output, Error := "" }] }
            (toolResults ++
              [{ ToolCallID := toolCall.ID, Content := output, IsError := false }])
            (trace1 ++ [.toolExecute toolCall output none])

/-- Lines 154-161: the text of the user message that reports the tool results. -/
def toolResultsContent (toolResults : List ToolResult) : String :=
  toolResults.foldl
    (fun acc tr =>
      if tr.IsError then
        acc ++ ("Tool call " ++ tr.ToolCallID ++ " failed: " ++ tr.Content ++ "\n")
      else
        acc ++ ("Tool call " ++ tr.ToolCallID ++ " result: " ++ tr.Content ++ "\n"))
    ""

/-- The user message appended when a response carries no tool call (line 101). -/
def continuePrompt : String :=
  "Please continue analyzing the goal. If you need more information, use the available tools. If you're confident the goal is achieved, provide your final answer."

/-- How one pass through the body of the outer `for` ends: the loop goes on to
the next iteration with the updated variables, or `Run` ends. -/
inductive StepOutcome where
  | next (st : LoopState)
  | exit (o : Outcome)
  deriving DecidableEq, Repr

/-- Lines 76-191: the body of the outer `for`, at loop counter `iteration`. -/
def iterationBody (l : Loop) (iteration : Nat) (st : LoopState) : StepOutcome :=
  let result := { st.result with Iterations := (iteration : Int) + 1 }
  match l.Provider st.trace st.messages with
  | (response, some err) =>
    .exit (.returned
      { result with Status := "failed", Error := "LLM call failed: " ++ err.Error }
      (some err)
      (st.trace ++ [.providerCall false st.messages response (some err)]))
  | (none, none) =>
    .exit (.panicked (st.trace ++ [.providerCall false st.messages none none]))
  | (some response, none) =>
    let trace1 := st.trace ++ [.providerCall false st.messages (some response) none]
    let result :=
      { result with
        TotalTokensIn := addInt result.TotalTokensIn response.TokensIn
        TotalTokensOut := addInt result.TotalTokensOut response.TokensOut }
    let messages := st.messages ++ [{ Role := "assistant", Content := response.Content }]
    if response.ToolCalls.length = 0 then
      .next
        { result := { result with FinalResponse := response.Content }
          messages := messages ++ [{ Role := "user", Content := continuePrompt }]
          trace := trace1 }
    else
      match processToolCalls l response.ToolCalls result [] trace1 with
      | .aborted result err trace2 => .exit (.returned result (some err) trace2)
      | .completed result toolResults trace2 =>
        let messages :=
          messages ++ [{ Role := "user", Content := toolResultsContent toolResults }]
        match l.Provider trace2 messages with
        | (reflectResponse, some err) =>
          .exit (.returned
            { result with
              Status := "failed"
              Error := "Reflection call failed: " ++ err.Error }
            (some err)
            (trace2 ++ [.providerCall true messages reflectResponse (some err)]))
        | (none, none) =>
          .exit (.panicked (trace2 ++ [.providerCall true messages none none]))
        | (some reflectResponse, none) =>
          let trace3 :=
            trace2 ++ [.providerCall true messages (some reflectResponse) none]
          let result :=
            { result with
              TotalTokensIn := addInt result.TotalTokensIn reflectResponse.TokensIn
              TotalTokensOut := addInt result.TotalTokensOut reflectResponse.TokensOut }
          let messages :=
            messages ++ [{ Role := "assistant", Content := reflectResponse.Content }]
          let result := { result with FinalResponse := reflectResponse.Content }
          if reflectResponse.ToolCalls.length = 0 ∧ reflectResponse.StopReason = "end_turn" then
            .exit (.returned { result with Status := "succeeded" } none trace3)
          else
            .next { result := result, messages := messages, trace := trace3 }

/-- Lines 75-196: the outer `for iteration := 0; iteration < l.MaxIterations;
iteration++`, with `remaining = MaxIterations - iteration` passes left, and
the return that follows it. -/
def runLoop (l : Loop) : (remaining : Nat) → (iteration : Nat) → LoopState → Outcome
  | 0, _, st => .returned { st.result with Status := "max_iterations" } none st.trace
  | remaining + 1, iteration, st =>
    match iterationBody l iteration st with
    | .exit o => o
    | .next st' => runLoop l remaining (iteration + 1) st'

/-- Lines 59-73: the conversation before the first iteration. -/
def seedMessages (l : Loop) : List Message :=
  (if l.SystemPrompt ≠ "" then [{ Role := "system", Content := l.SystemPrompt }] else []) ++
    [{ Role := "user"
       Content := "Goal: " ++ l.Goal ++
         "\n\nPlease analyze this goal and take the necessary actions to achieve it." }]

/-- Lines 54-57: the result before the first iteration. -/
def initialResult : Result :=
  { Status := "succeeded", Iterations := 0, ToolCalls := [], FinalResponse := "",
    TotalTokensIn := 0, TotalTokensOut := 0, Error := "" }

/-- Run executes the plan-act-reflect loop. -/
def Loop.Run (l : Loop) : Outcome :=
  runLoop l l.MaxIterations.toNat 0
    { result := initialResult, messages := seedMessages l, trace := [] }

/-! ## `OPAPolicy.Allow` (`opa.go`, lines 46-80) -/

/-- Go `m[k] = v` on a map. -/
def mapSet (m : InputMap) (k : String) (v : Value) : InputMap :=
  if m.any (fun kv => kv.1 = k) then
    m.map (fun kv => if kv.1 = k then (k, v) else kv)
  else
    m ++ [(k, v)]

/-- Go `v, ok := m[k]` on a map: the value under the key, if there is one. -/
def mapGet (m : InputMap) (k : String) : Option Value :=
  (m.find? (fun kv => kv.1 = k)).map Prod.snd

/-- The type `rego.ExpressionValue`: the value of one expression of the query. -/
structure ExpressionValue where
  Value : Value
  Text : String
  deriving DecidableEq, Repr

/-- The type `rego.Result`; `Expressions` is a slice of pointers. -/
structure RegoResult where
  Expressions : List (Option ExpressionValue)
  deriving DecidableEq, Repr

/-- OPAPolicy implements the Policy interface using Open Policy Agent.  `query`
is `query.Eval` on the prepared query: from the input map to the pair
`(rego.ResultSet, error)`. -/
structure OPAPolicy where
  PolicyContent : String
  Data : Option InputMap
  query : InputMap → List RegoResult × Option GoError

/-- How a call of `Allow` ends: it returns an error (nil to allow), or it
panics on an index out of range or a nil pointer. -/
inductive AllowOutcome where
  | returned (err : Option GoError)
  | panicked
  deriving DecidableEq, Repr

/-- Lines 48-55: the input map handed to the evaluator. -/
def policyInput (toolCall : ToolCall) : InputMap :=
  toolCall.Input.foldl (fun input kv => mapSet input kv.1 kv.2)
    [("tool", Value.str toolCall.Name)]

/-- Allow checks if a tool call is allowed by the policy. -/
def OPAPolicy.Allow (o : OPAPolicy) (toolCall : ToolCall) : AllowOutcome :=
  match o.query (policyInput toolCall) with
  | (_, some err) => .returned (some (.wrapped "policy evaluation failed: " err))
  | (results, none) =>
    if results.length = 0 then
      .returned (some (.text "policy denied: no matching allow rule"))
    else
      match results.head? with
      | none => .panicked
      | some first =>
        match first.Expressions.head? with
        | none => .panicked
        | some none => .panicked
        | some (some expr) =>
          match expr.Value with
          | .bool allowed =>
            if !allowed then
              .returned (some (.text "policy denied: allow rule returned false"))
            else
              .returned none
          | _ => .returned (some (.text "policy denied: invalid result type"))

/-! ## Reading a trace -/

/-- The audit record of an executed tool call: it copies the ID, the name and
the input of the call, with the output of the tool on success and the text of
its error on failure. -/
def Event.record : Event → Option ToolCallRecord
  | .toolExecute toolCall _ (some e) =>
    some { ID := toolCall.ID, Name := toolCall.Name, Input := toolCall.Input,
           Output := "", Error := e.Error }
  | .toolExecute toolCall output none =>
    some { ID := toolCall.ID, Name := toolCall.Name, Input := toolCall.Input,
           Output := output, Error := "" }
  | _ => none

/-- The audit records of the tool calls executed in a trace, in order. -/
def recordsOf (trace : List Event) : List ToolCallRecord :=
  trace.filterMap Event.record

/-- The event is a call of the provider. -/
def Event.isProviderCall : Event → Bool
  | .providerCall _ _ _ _ => true
  | _ => false

/-- The event is a reflection call of the provider. -/
def Event.isReflection : Event → Bool
  | .providerCall true _ _ _ => true
  | _ => false

/-- The response of a provider call that returned one with a nil error. -/
def Event.response : Event → Option Response
  | .providerCall _ _ (some response) none => some response
  | _ => none

/-- The responses the provider has returned in a trace, in order. -/
def responsesOf (trace : List Event) : List Response :=
  trace.filterMap Event.response

/-- The number of provider calls in a trace. -/
def providerCalls (trace : List Event) : Nat :=
  trace.countP Event.isProviderCall

/-- What the loop keeps of an executed tool call for the conversation. -/
def Event.toolResult : Event → Option ToolResult
  | .toolExecute toolCall _ (some e) =>
    some { ToolCallID := toolCall.ID, Content := e.Error, IsError := true }
  | .toolExecute toolCall output none =>
    some { ToolCallID := toolCall.ID, Content := output, IsError := false }
  | _ => none

/-- The tool results of the tool calls executed in a trace, in order. -/
def toolResultsOf (trace : List Event) : List ToolResult :=
  trace.filterMap Event.toolResult

/-- The events of a batch whose calls were all allowed and executed: for each
call the policy check, then the execution with what it returned. -/
def batchEvents : List ToolCall → List (String × Option GoError) → List Event
  | toolCall :: rest, out :: outs =>
    .policyAllow toolCall none :: .toolExecute toolCall out.1 out.2 :: batchEvents rest outs
  | _, _ => []

/-- An external call after which `Run` cannot go on: a provider call that
returned an error or no response, a policy check that returned an error, or an
allowed call to a tool that is not registered. -/
def Event.fatal (l : Loop) : Event → Bool
  | .providerCall _ _ response err => err.isSome || response.isNone
  | .policyAllow toolCall err => err.isSome || (l.Tools toolCall.Name).isNone
  | .toolExecute _ _ _ => false

/-- No call of the trace is fatal. -/
def Clean (l : Loop) (trace : List Event) : Prop :=
  ∀ ev ∈ trace, ev.fatal l = false

/-- The sum, as a Go `int`, of the input tokens of the responses of a trace. -/
def tokensInOf (trace : List Event) : Int :=
  wrapInt64 ((responsesOf trace).map (fun r => r.TokensIn)).sum

/-- The sum, as a Go `int`, of the output tokens of the responses of a trace. -/
def tokensOutOf (trace : List Event) : Int :=
  wrapInt64 ((responsesOf trace).map (fun r => r.TokensOut)).sum

/-- The variables of the loop agree with the calls made so far: no call was
fatal, the audit list holds the records of the executed calls, and the token
counters hold the sums over the responses received. -/
structure Consistent (l : Loop) (st : LoopState) : Prop where
  clean : Clean l st.trace
  records : st.result.ToolCalls = recordsOf st.trace
  tokensIn : st.result.TotalTokensIn = tokensInOf st.trace
  tokensOut : st.result.TotalTokensOut = tokensOutOf st.trace

/-! ## The test doubles of `loop_test.go` -/

/-- The provider of the tests: it returns its responses in order, then an error. -/
def mockProvider (responses : List Response) :
    List Event → List Message → Option Response × Option GoError :=
  fun trace _ =>
    match responses.get? (providerCalls trace) with
    | some response => (some response, none)
    | none => (none, some (.text "no more responses"))

/-- The tool of the tests: it returns its error when it has one, else its result. -/
def mockTool (name result : String) (err : Option GoError) : Tool :=
  { Name := name
    Execute := fun _ _ =>
      match err with
      | some e => ("", some e)
      | none => (result, none) }

/-- The policy of the tests: it allows every call or denies every call. -/
def mockPolicy (allowAll : Bool) : List Event → ToolCall → Option GoError :=
  fun _ _ => if allowAll then none else some (.text "policy violation")

/-- The tool call of the tests. -/
def testToolCall : ToolCall :=
  { ID := "1", Name := "k8s_get_resources", Input := [] }

/-- The tool call "unknown tool" of `TestOPAPolicy_Allow`, with one more input
field, named "tool". -/
def shadowingToolCall : ToolCall :=
  { ID := "", Name := "unknown_tool"
    Input := [("namespace", .str "default"), ("tool", .str "k8s_get_resources")] }

/-- The loop of `TestLoop_PolicyViolation`. -/
def policyViolationLoop : Loop :=
  { Provider := mockProvider
      [{ Content := "Let me check the pods", ToolCalls := [testToolCall],
         StopReason := "tool_use", TokensIn := 100, TokensOut := 50 }]
    Tools := fun name =>
      if name = "k8s_get_resources" then
        some (mockTool "k8s_get_resources" "should not get here" none)
      else none
    Policy := mockPolicy false
    Goal := "Test goal"
    SystemPrompt := ""
    MaxIterations := 3 }

/-- The first response of the provider of `TestLoop_SuccessfulCompletion`. -/
def planResponse : Response :=
  { Content := "I've analyzed the goal and here's the plan"
    ToolCalls :=
      [{ ID := "1", Name := "k8s_get_resources"
         Input := [("namespace", .str "default"), ("resourceType", .str "pods")] }]
    StopReason := "tool_use"
    TokensIn := 100
    TokensOut := 50 }

/-- The second response of the provider of `TestLoop_SuccessfulCompletion`. -/
def confidentResponse : Response :=
  { Content := "Based on the results, I'm confident the goal is achieved"
    ToolCalls := []
    StopReason := "end_turn"
    TokensIn := 200
    TokensOut := 30 }

/-- The loop of `TestLoop_SuccessfulCompletion`. -/
def successLoop : Loop :=
  { Provider := mockProvider [planResponse, confidentResponse]
    Tools := fun name =>
      if name = "k8s_get_resources" then
        some (mockTool "k8s_get_resources"
          "\x7b\"pods\": [\x7b\"name\": \"test-pod\"\x7d]\x7d" none)
      else none
    Policy := mockPolicy true
    Goal := "Check pods in default namespace"
    SystemPrompt := ""
    MaxIterations := 3 }

/-- The calls of the run of `TestLoop_SuccessfulCompletion` before its
reflection call. -/
def successPrefix : List Event :=
  successLoop.Run.trace.take 3

/-- The conversation handed to the reflection call of
`TestLoop_SuccessfulCompletion`. -/
def successReflectMessages : List Message :=
  [{ Role := "user"
     Content := "Goal: Check pods in default namespace\n\nPlease analyze this goal and take the necessary actions to achieve it." },
   { Role := "assistant", Content := "I've analyzed the goal and here's the plan" },
   { Role := "user"
     Content := "Tool call 1 result: \x7b\"pods\": [\x7b\"name\": \"test-pod\"\x7d]\x7d\n" }]

/-- The tool call of `TestLoop_ToolNotFound`. -/
def unknownToolCall : ToolCall :=
  { ID := "1", Name := "unknown_tool", Input := [] }

/-- The loop of `TestLoop_ToolNotFound`. -/
def toolNotFoundLoop : Loop :=
  { Provider := mockProvider
      [{ Content := "Let me use unknown tool", ToolCalls := [unknownToolCall],
         StopReason := "tool_use", TokensIn := 100, TokensOut := 50 }]
    Tools := fun _ => none
    Policy := mockPolicy true
    Goal := "Test goal"
    SystemPrompt := ""
    MaxIterations := 3 }

/-- A loop whose provider has no response to give: its first call fails. -/
def providerErrorLoop : Loop :=
  { Provider := mockProvider []
    Tools := fun _ => none
    Policy := mockPolicy true
    Goal := "Test goal"
    SystemPrompt := ""
    MaxIterations := 3 }

/-- A loop whose provider returns a nil response with a nil error at every
call. -/
def nilLoop : Loop :=
  { providerErrorLoop with Provider := fun _ _ => (none, none) }

/-- The result of the run of `TestLoop_SuccessfulCompletion`. -/
def successResult : Result :=
  { Status := "succeeded"
    Iterations := 1
    ToolCalls :=
      [{ ID := "1", Name := "k8s_get_resources"
         Input := [("namespace", .str "default"), ("resourceType", .str "pods")]
         Output := "\x7b\"pods\": [\x7b\"name\": \"test-pod\"\x7d]\x7d"
         Error := "" }]
    FinalResponse := "Based on the results, I'm confident the goal is achieved"
    TotalTokensIn := 300
    TotalTokensOut := 80
    Error := "" }

/-- The error of the failing tool of `toolErrorLoop`. -/
def toolError : GoError := .text "connection refused"

/-- The loop of `TestLoop_SuccessfulCompletion` with a tool that fails, as
`mockTool` does when its `err` is set. -/
def toolErrorLoop : Loop :=
  { Provider := mockProvider
      [{ Content := "Let me check the pods", ToolCalls := [testToolCall],
         StopReason := "tool_use", TokensIn := 100, TokensOut := 50 },
       confidentResponse]
    Tools := fun name =>
      if name = "k8s_get_resources" then
        some (mockTool "k8s_get_resources" "" (some toolError))
      else none
    Policy := mockPolicy true
    Goal := "Test goal"
    SystemPrompt := ""
    MaxIterations := 3 }

/-- The loop of `TestLoop_MaxIterationsReached`. -/
def maxIterationsLoop : Loop :=
  { Provider := mockProvider
      [{ Content := "Iteration 1", ToolCalls := [], StopReason := "end_turn",
         TokensIn := 100, TokensOut := 50 },
       { Content := "Iteration 2", ToolCalls := [], StopReason := "end_turn",
         TokensIn := 100, TokensOut := 50 },
       { Content := "Iteration 3", ToolCalls := [], StopReason := "end_turn",
         TokensIn := 100, TokensOut := 50 }]
    Tools := fun _ => none
    Policy := mockPolicy true
    Goal := "Test goal"
    SystemPrompt := ""
    MaxIterations := 3 }

/-- A prepared policy whose evaluation yields the one value `v`, as the query
`data.agent.tools.allow` does when the rule is defined. -/
def constantPolicy (v : Value) : OPAPolicy :=
  { PolicyContent := "package agent.tools"
    Data := none
    query := fun _ =>
      ([{ Expressions := [some { Value := v, Text := "data.agent.tools.allow" }] }], none) }

/-- The response ends the turn: it carries no tool call and its stop reason is
exactly "end_turn" (the test of line 188). -/
def EndTurn (r : Response) : Prop :=
  r.ToolCalls = [] ∧ r.StopReason = "end_turn"

/-- The calls start with the first provider call of an iteration. -/
def StartsWithCall (trace : List Event) : Prop :=
  ∃ msgs resp err rest, trace = .providerCall false msgs resp err :: rest

/-- In the trace of a loop that goes on, no answered reflection call ended
the turn, and each is the last call so far or is followed by the first
provider call of the next iteration. -/
def ReflectionsPassed (trace : List Event) : Prop :=
  ∀ pre msgs rr post, trace = pre ++ .providerCall true msgs (some rr) none :: post →
    ¬ EndTurn rr ∧ (post = [] ∨ StartsWithCall post)

/-- What an answered reflection call of a run decides: when its response ends
the turn, it is the last call and the run returns "succeeded"; otherwise the
next iteration begins, or the run returns "max_iterations". -/
def ReflectionsDecide (o : Outcome) : Prop :=
  ∀ pre msgs rr post, o.trace = pre ++ .providerCall true msgs (some rr) none :: post →
    (EndTurn rr →
      post = [] ∧ ∃ result, o = .returned result none o.trace ∧ result.Status = "succeeded") ∧
    (¬ EndTurn rr →
      StartsWithCall post ∨
      (post = [] ∧
        ∃ result, o = .returned result none o.trace ∧ result.Status = "max_iterations"))

/-- The tool call of an execution. -/
def Event.executed : Event → Option ToolCall
  | .toolExecute toolCall _ _ => some toolCall
  | _ => none

/-- The tool calls executed in a trace, in the order of their execution. -/
def executedCalls (trace : List Event) : List ToolCall :=
  trace.filterMap Event.executed

/-- The batch of tool calls received with the response to the first provider
call of an iteration. -/
def Event.received : Event → List ToolCall
  | .providerCall false _ (some response) none => response.ToolCalls
  | _ => []

/-- The tool calls received for execution in a trace: the batches of the
iterations in order, each in the order the provider listed its calls. -/
def receivedCalls (trace : List Event) : List ToolCall :=
  (trace.map Event.received).flatten

/-- What a record copies from its tool call. -/
def ToolCallRecord.call (record : ToolCallRecord) : ToolCall :=
  { ID := record.ID, Name := record.Name, Input := record.Input }

/-- Every execution of the trace that returned an error was that of an
allowed call to a registered tool, in the batch of a response `r`, and was
followed by the policy check of the next call of the batch or, after the last
call of the batch, by the reflection call of the provider. -/
def FailureFollowed (l : Loop) (trace : List Event) : Prop :=
  ∀ pre tc out e post, trace = pre ++ .toolExecute tc out (some e) :: post →
    ∃ before msgs r done remaining outs,
      pre = before ++ [.providerCall false msgs (some r) none] ++ batchEvents done outs ++
        [.policyAllow tc none] ∧
      r.ToolCalls = done ++ tc :: remaining ∧
      outs.length = done.length ∧
      (l.Tools tc.Name).isSome = true ∧
      ((remaining = [] ∧ ∃ m resp err rest, post = .providerCall true m resp err :: rest) ∨
       (∃ next rem err rest, remaining = next :: rem ∧ post = .policyAllow next err :: rest))

/-! ## One iteration, case by case -/

/-- The trace after the first provider call of an iteration returned `r`. -/
def callTrace (st : LoopState) (r : Response) : List Event :=
  st.trace ++ [.providerCall false st.messages (some r) none]

/-- The conversation after the first provider call of an iteration returned `r`. -/
def callMessages (st : LoopState) (r : Response) : List Message :=
  st.messages ++ [{ Role := "assistant", Content := r.Content }]

/-- The result after the first provider call of iteration `i` returned `r`. -/
def calledResult (st : LoopState) (i : Nat) (r : Response) : Result :=
  { st.result with
    Iterations := (i : Int) + 1
    TotalTokensIn := addInt st.result.TotalTokensIn r.TokensIn
    TotalTokensOut := addInt st.result.TotalTokensOut r.TokensOut }

/-- The trace after the calls `tcs` of the batch were executed, returning `outs`. -/
def batchTrace (st : LoopState) (r : Response) (tcs : List ToolCall)
    (outs : List (String × Option GoError)) : List Event :=
  callTrace st r ++ batchEvents tcs outs

/-- The result after the calls `tcs` of the batch were executed, returning `outs`. -/
def batchResult (st : LoopState) (i : Nat) (r : Response) (tcs : List ToolCall)
    (outs : List (String × Option GoError)) : Result :=
  { calledResult st i r with
    ToolCalls := st.result.ToolCalls ++ recordsOf (batchEvents tcs outs) }

/-- The conversation handed to the reflection call. -/
def reflectMessages (st : LoopState) (r : Response)
    (outs : List (String × Option GoError)) : List Message :=
  callMessages st r ++
    [{ Role := "user"
       Content := toolResultsContent (toolResultsOf (batchEvents r.ToolCalls outs)) }]

/-- The ways through the body of the outer loop, one constructor for each. -/
inductive Step (l : Loop) (i : Nat) (st : LoopState) : StepOutcome → Prop
  | callFailed (resp : Option Response) (err : GoError)
      (hcall : l.Provider st.trace st.messages = (resp, some err)) :
      Step l i st (.exit (.returned
        { st.result with
          Iterations := (i : Int) + 1
          Status := "failed"
          Error := "LLM call failed: " ++ err.Error }
        (some err)
        (st.trace ++ [.providerCall false st.messages resp (some err)])))
  | callNil (hcall : l.Provider st.trace st.messages = (none, none)) :
      Step l i st (.exit (.panicked
        (st.trace ++ [.providerCall false st.messages none none])))
  | noToolCalls (r : Response)
      (hcall : l.Provider st.trace st.messages = (some r, none))
      (hnone : r.ToolCalls = []) :
      Step l i st (.next
        { result := { calledResult st i r with FinalResponse := r.Content }
          messages := callMessages st r ++ [{ Role := "user", Content := continuePrompt }]
          trace := callTrace st r })
  | denied (r : Response) (pre : List ToolCall) (toolCall : ToolCall)
      (post : List ToolCall) (outs : List (String × Option GoError)) (e : GoError)
      (hcall : l.Provider st.trace st.messages = (some r, none))
      (hsplit : r.ToolCalls = pre ++ toolCall :: post)
      (hlen : outs.length = pre.length)
      (hreg : ∀ tc ∈ pre, (l.Tools tc.Name).isSome = true)
      (hpol : l.Policy (batchTrace st r pre outs) toolCall = some e) :
      Step l i st (.exit (.returned
        { batchResult st i r pre outs with
          Status := "failed"
          Error := "Policy violation for tool " ++ toolCall.Name ++ ": " ++ e.Error }
        (some (.wrapped "policy violation: " e))
        (batchTrace st r pre outs ++ [.policyAllow toolCall (some e)])))
  | notFound (r : Response) (pre : List ToolCall) (toolCall : ToolCall)
      (post : List ToolCall) (outs : List (String × Option GoError))
      (hcall : l.Provider st.trace st.messages = (some r, none))
      (hsplit : r.ToolCalls = pre ++ toolCall :: post)
      (hlen : outs.length = pre.length)
      (hreg : ∀ tc ∈ pre, (l.Tools tc.Name).isSome = true)
      (hpol : l.Policy (batchTrace st r pre outs) toolCall = none)
      (htool : l.Tools toolCall.Name = none) :
      Step l i st (.exit (.returned
        { batchResult st i r pre outs with
          Status := "failed"
          Error := "Tool not found: " ++ toolCall.Name }
        (some (.text ("tool not found: " ++ toolCall.Name)))
        (batchTrace st r pre outs ++ [.policyAllow toolCall none])))
  | reflectFailed (r : Response) (outs : List (String × Option GoError))
      (resp : Option Response) (err : GoError)
      (hcall : l.Provider st.trace st.messages = (some r, none))
      (hsome : r.ToolCalls ≠ [])
      (hlen : outs.length = r.ToolCalls.length)
      (hreg : ∀ tc ∈ r.ToolCalls, (l.Tools tc.Name).isSome = true)
      (hreflect : l.Provider (batchTrace st r r.ToolCalls outs) (reflectMessages st r outs) =
        (resp, some err)) :
      Step l i st (.exit (.returned
        { batchResult st i r r.ToolCalls outs with
          Status := "failed"
          Error := "Reflection call failed: " ++ err.Error }
        (some err)
        (batchTrace st r r.ToolCalls outs ++
          [.providerCall true (reflectMessages st r outs) resp (some err)])))
  | reflectNil (r : Response) (outs : List (String × Option GoError))
      (hcall : l.Provider st.trace st.messages = (some r, none))
      (hsome : r.ToolCalls ≠ [])
      (hlen : outs.length = r.ToolCalls.length)
      (hreg : ∀ tc ∈ r.ToolCalls, (l.Tools tc.Name).isSome = true)
      (hreflect : l.Provider (batchTrace st r r.ToolCalls outs) (reflectMessages st r outs) =
        (none, none)) :
      Step l i st (.exit (.panicked
        (batchTrace st r r.ToolCalls outs ++
          [.providerCall true (reflectMessages st r outs) none none])))
  | succeeded (r : Response) (outs : List (String × Option GoError)) (rr : Response)
      (hcall : l.Provider st.trace st.messages = (some r, none))
      (hsome : r.ToolCalls ≠ [])
      (hlen : outs.length = r.ToolCalls.length)
      (hreg : ∀ tc ∈ r.ToolCalls, (l.Tools tc.Name).isSome = true)
      (hreflect : l.Provider (batchTrace st r r.ToolCalls outs) (reflectMessages st r outs) =
        (some rr, none))
      (hend : rr.ToolCalls = [] ∧ rr.StopReason = "end_turn") :
      Step l i st (.exit (.returned
        { batchResult st i r r.ToolCalls outs with
          TotalTokensIn := addInt (calledResult st i r).TotalTokensIn rr.TokensIn
          TotalTokensOut := addInt (calledResult st i r).TotalTokensOut rr.TokensOut
          FinalResponse := rr.Content
          Status := "succeeded" }
        none
        (batchTrace st r r.ToolCalls outs ++
          [.providerCall true (reflectMessages st r outs) (some rr) none])))
  | reflected (r : Response) (outs : List (String × Option GoError)) (rr : Response)
      (hcall : l.Provider st.trace st.messages = (some r, none))
      (hsome : r.ToolCalls ≠ [])
      (hlen : outs.length = r.ToolCalls.length)
      (hreg : ∀ tc ∈ r.ToolCalls, (l.Tools tc.Name).isSome = true)
      (hreflect : l.Provider (batchTrace st r r.ToolCalls outs) (reflectMessages st r outs) =
        (some rr, none))
      (hend : ¬ (rr.ToolCalls = [] ∧ rr.StopReason = "end_turn")) :
      Step l i st (.next
        { result :=
            { batchResult st i r r.ToolCalls outs with
              TotalTokensIn := addInt (calledResult st i r).TotalTokensIn rr.TokensIn
              TotalTokensOut := addInt (calledResult st i r).TotalTokensOut rr.TokensOut
              FinalResponse := rr.Content }
          messages := reflectMessages st r outs ++
            [{ Role := "assistant", Content := rr.Content }]
          trace := batchTrace st r r.ToolCalls outs ++
            [.providerCall true (reflectMessages st r outs) (some rr) none] })

/-! ## The conversation of a run -/

/-- The message list handed to a provider call. -/
def Event.conversation : Event → Option (List Message)
  | .providerCall _ messages _ _ => some messages
  | _ => none

/-- The message lists handed to the provider calls of a trace, in order. -/
def conversationsOf (trace : List Event) : List (List Message) :=
  trace.filterMap Event.conversation

/-- The list `b` is the list `a` with at least one message appended: `a` is a
strict prefix of `b`. -/
def Extends (a b : List Message) : Prop :=
  ∃ added, added ≠ [] ∧ b = a ++ added

/-- The message lists start with the seed of the loop, and each one after the
first is the one before it with at least one message appended. -/
def FromSeed (l : Loop) (convs : List (List Message)) : Prop :=
  List.Chain' Extends convs ∧ ∀ m ∈ convs.head?, m = seedMessages l

/-! ## The order of the external calls -/

/-- Where the loop stands between two external calls: before the first
provider call of an iteration, before the policy check of the head of the
calls left of a batch, before the execution of an allowed call, before the
reflection call, or after its last call. -/
inductive Phase where
  | idle
  | checking (pending : List ToolCall)
  | executing (toolCall : ToolCall) (rest : List ToolCall)
  | reflecting
  | ended
  deriving DecidableEq, Repr

/-- The tool calls the loop still has to act on. -/
def Phase.pending : Phase → List ToolCall
  | .checking pending => pending
  | .executing toolCall rest => toolCall :: rest
  | _ => []

/-- Lines 110-166: where the loop stands once a call of the batch was executed
and `rest` is left of the batch. -/
def afterBatch (rest : List ToolCall) : Phase :=
  if rest = [] then .reflecting else .checking rest

/-- The external call the loop may make where it stands, and where it stands
after it; `none` for a call it does not make there.  The tool calls of the
response to a reflection call (lines 168-192) go nowhere. -/
def protocolStep (l : Loop) : Phase → Event → Option Phase
  | .idle, .providerCall false _ response err =>
    match response, err with
    | some r, none => some (if r.ToolCalls = [] then .idle else .checking r.ToolCalls)
    | _, _ => some .ended
  | .checking (tc :: rest), .policyAllow toolCall err =>
    if tc = toolCall then
      some (if err = none ∧ (l.Tools tc.Name).isSome = true then .executing tc rest else .ended)
    else none
  | .executing tc rest, .toolExecute toolCall _ _ =>
    if tc = toolCall then some (afterBatch rest) else none
  | .reflecting, .providerCall true _ response err =>
    match response, err with
    | some rr, none =>
      some (if rr.ToolCalls = [] ∧ rr.StopReason = "end_turn" then .ended else .idle)
    | _, _ => some .ended
  | _, _ => none

/-- Where the loop stands after the calls of a trace, made in order from
`phase`; `none` when one of them is not made where the loop stands. -/
def protocolRun (l : Loop) : Phase → List Event → Option Phase
  | phase, [] => some phase
  | phase, ev :: rest => (protocolStep l phase ev).bind (fun p => protocolRun l p rest)

/-- The calls of the trace are made in the order of the loop, from the start
of an iteration. -/
def FollowsProtocol (l : Loop) (trace : List Event) : Prop :=
  ∃ phase, protocolRun l .idle trace = some phase

/-- The batch after an event: the tool calls of the response to the first
provider call of an iteration, nothing after any other provider call, and the
batch before it after a policy check or an execution. -/
def Event.batch (batch : List ToolCall) : Event → List ToolCall
  | .providerCall false _ (some r) none => r.ToolCalls
  | .providerCall _ _ _ _ => []
  | _ => batch

/-- The batch of the last provider call of a trace. -/
def batchOf (trace : List Event) : List ToolCall :=
  trace.foldl Event.batch []

/-- A provider whose reflection response asks for a tool: the plan of
`TestLoop_SuccessfulCompletion`, then a reflection that carries the tool call
of `TestOPAPolicy_Allow`, then a response without tool calls. -/
def eagerReflectionLoop : Loop :=
  { successLoop with
    Provider := mockProvider
      [planResponse,
       { Content := "One more call is needed", ToolCalls := [shadowingToolCall],
         StopReason := "tool_use", TokensIn := 200, TokensOut := 30 },
       { Content := "Nothing more to do", ToolCalls := [],
         StopReason := "end_turn", TokensIn := 10, TokensOut := 5 }] }

end Agent

/-!
# The reconciliation controller and the resource provisioner

A shallow embedding of `pkg/apis/agent/v1alpha1`, `pkg/security/rbac.go`,
`pkg/pod/builder.go` and `pkg/reconciler/agentrun/agentrun.go`.

Conventions of the embedding.

* Kubernetes API types are records with the fields the code reads or writes;
  a pointer field is an `Option`.
* The clientset and the clock are external.  They are modelled as operations
  on a state `ω` of the world, passed explicitly; every call of the clientset
  is also logged, with what it returned, in the list `calls`.
* `Reconcile` mutates the `AgentRun` it is given; the model returns the
  mutated value.
-/

namespace Controller

/-! ## API types (`k8s.io/apimachinery`, `k8s.io/api`) -/

/-- The type `metav1.Time`, as seconds since the epoch. -/
structure Time where
  seconds : Int
  deriving DecidableEq, Repr

/-- The type `metav1.OwnerReference`. -/
structure OwnerReference where
  APIVersion : String
  Kind : String
  Name : String
  UID : String
  Controller : Option Bool
  BlockOwnerDeletion : Option Bool
  deriving DecidableEq, Repr

/-- The fields of `metav1.ObjectMeta` that the code uses. -/
structure ObjectMeta where
  Name : String
  Namespace : String
  UID : String
  Labels : List (String × String)
  OwnerReferences : List OwnerReference
  deriving DecidableEq, Repr

/-- The type `metav1.Condition`; `Type_` is its field `Type`. -/
structure Condition where
  Type_ : String
  Status : String
  Reason : String
  Message : String
  deriving DecidableEq, Repr

/-- The type `rbacv1.PolicyRule`. -/
structure PolicyRule where
  APIGroups : List String
  Resources : List String
  Verbs : List String
  deriving DecidableEq, Repr

/-- The type `rbacv1.Role`. -/
structure Role where
  ObjectMeta : ObjectMeta
  Rules : List PolicyRule
  deriving DecidableEq, Repr

/-- The type `rbacv1.RoleRef`. -/
structure RoleRef where
  APIGroup : String
  Kind : String
  Name : String
  deriving DecidableEq, Repr

/-- The type `rbacv1.Subject`. -/
structure Subject where
  Kind : String
  Name : String
  Namespace : String
  deriving DecidableEq, Repr

/-- The type `rbacv1.RoleBinding`. -/
structure RoleBinding where
  ObjectMeta : ObjectMeta
  RoleRef : RoleRef
  Subjects : List Subject
  deriving DecidableEq, Repr

/-- The type `corev1.SeccompProfile`; `Type_` is its field `Type`. -/
structure SeccompProfile where
  Type_ : String
  deriving DecidableEq, Repr

/-- The type `corev1.PodSecurityContext`. -/
structure PodSecurityContext where
  RunAsNonRoot : Option Bool
  RunAsUser : Option Int
  FSGroup : Option Int
  SeccompProfile : Option SeccompProfile
  deriving DecidableEq, Repr

/-- The type `corev1.Capabilities`. -/
structure Capabilities where
  Add : List String
  Drop : List String
  deriving DecidableEq, Repr

/-- The type `corev1.SecurityContext`. -/
structure SecurityContext where
  AllowPrivilegeEscalation : Option Bool
  ReadOnlyRootFilesystem : Option Bool
  RunAsNonRoot : Option Bool
  Capabilities : Option Capabilities
  SeccompProfile : Option SeccompProfile
  deriving DecidableEq, Repr

/-- The type `corev1.VolumeMount`. -/
structure VolumeMount where
  Name : String
  MountPath : String
  ReadOnly : Bool
  deriving DecidableEq, Repr

/-- The type `corev1.EnvVar`. -/
structure EnvVar where
  Name : String
  Value : String
  deriving DecidableEq, Repr

/-- The type `corev1.KeyToPath`. -/
structure KeyToPath where
  Key : String
  Path : String
  deriving DecidableEq, Repr

/-- The type `corev1.ConfigMapVolumeSource`. -/
structure ConfigMapVolumeSource where
  Name : String
  Items : List KeyToPath
  deriving DecidableEq, Repr

/-- The type `corev1.EmptyDirVolumeSource`. -/
structure EmptyDirVolumeSource where
  Medium : String
  deriving DecidableEq, Repr

/-- The type `corev1.SecretVolumeSource`. -/
structure SecretVolumeSource where
  SecretName : String
  deriving DecidableEq, Repr

/-- The type `corev1.PersistentVolumeClaimVolumeSource`. -/
structure PersistentVolumeClaimVolumeSource where
  ClaimName : String
  ReadOnly : Bool
  deriving DecidableEq, Repr

/-- The sources of `corev1.VolumeSource` that concern the agent pod. -/
structure VolumeSource where
  ConfigMap : Option ConfigMapVolumeSource
  EmptyDir : Option EmptyDirVolumeSource
  Secret : Option SecretVolumeSource
  PersistentVolumeClaim : Option PersistentVolumeClaimVolumeSource
  deriving DecidableEq, Repr

/-- The type `corev1.Volume`. -/
structure Volume where
  Name : String
  VolumeSource : VolumeSource
  deriving DecidableEq, Repr

/-- The type `corev1.Container`. -/
structure Container where
  Name : String
  Image : String
  ImagePullPolicy : String
  SecurityContext : Option SecurityContext
  VolumeMounts : List VolumeMount
  Env : List EnvVar
  deriving DecidableEq, Repr

/-- The type `corev1.PodSpec`. -/
structure PodSpec where
  ServiceAccountName : String
  RestartPolicy : String
  SecurityContext : Option PodSecurityContext
  Containers : List Container
  Volumes : List Volume
  deriving DecidableEq, Repr

/-- The type `corev1.PodStatus`. -/
structure PodStatus where
  Phase : String
  deriving DecidableEq, Repr

/-- The type `corev1.Pod`. -/
structure Pod where
  ObjectMeta : ObjectMeta
  Spec : PodSpec
  Status : PodStatus
  deriving DecidableEq, Repr

/-! ## `AgentRun` and `AgentConfig` (`pkg/apis/agent/v1alpha1`) -/

/-- ConfigRef references an AgentConfig. -/
structure ConfigRef where
  Name : String
  deriving DecidableEq, Repr

/-- AgentContext provides additional context for agent execution. -/
structure AgentContext where
  Hints : List String
  deriving DecidableEq, Repr

/-- AgentRunSpec defines the desired state of AgentRun. -/
structure AgentRunSpec where
  ConfigRef : ConfigRef
  Goal : String
  Context : AgentContext
  deriving DecidableEq, Repr

/-- AgentResult represents a result from the agent. -/
structure AgentResult where
  Name : String
  Value : String
  deriving DecidableEq, Repr

/-- AgentRunStatus defines the observed state of AgentRun. -/
structure AgentRunStatus where
  Conditions : List Condition
  Phase : String
  StartTime : Option Time
  CompletionTime : Option Time
  Iterations : Int
  Results : List AgentResult
  deriving DecidableEq, Repr

/-- AgentRun represents a single execution of an agent. -/
structure AgentRun where
  ObjectMeta : ObjectMeta
  Spec : AgentRunSpec
  Status : AgentRunStatus
  deriving DecidableEq, Repr

/-- PolicySpec defines OPA policy configuration. -/
structure PolicySpec where
  OPA : String
  deriving DecidableEq, Repr

/-- AgentConfigSpec defines the desired state of AgentConfig; `Timeout` is a
duration in nanoseconds. -/
structure AgentConfigSpec where
  ServiceAccount : String
  ConfigPVC : String
  MaxIterations : Int
  Timeout : Option Int
  PreHooks : List String
  PostHooks : List String
  Policy : PolicySpec
  NetworkPolicy : String
  Provider : String
  deriving DecidableEq, Repr

/-- AgentConfig defines the configuration for agent execution. -/
structure AgentConfig where
  ObjectMeta : ObjectMeta
  Spec : AgentConfigSpec
  deriving DecidableEq, Repr

/-- The phase constant `AgentRunPhasePending`. -/
def AgentRunPhasePending : String := "Pending"

/-- The phase constant `AgentRunPhasePreHooks`. -/
def AgentRunPhasePreHooks : String := "PreHooks"

/-- The phase constant `AgentRunPhasePlanning`. -/
def AgentRunPhasePlanning : String := "Planning"

/-- The phase constant `AgentRunPhaseActing`. -/
def AgentRunPhaseActing : String := "Acting"

/-- The phase constant `AgentRunPhaseReflecting`. -/
def AgentRunPhaseReflecting : String := "Reflecting"

/-- The phase constant `AgentRunPhasePostHooks`. -/
def AgentRunPhasePostHooks : String := "PostHooks"

/-- The phase constant `AgentRunPhaseSucceeded`. -/
def AgentRunPhaseSucceeded : String := "Succeeded"

/-- The phase constant `AgentRunPhaseFailed`. -/
def AgentRunPhaseFailed : String := "Failed"

/-- IsDone returns true if the AgentRun has completed (succeeded or failed). -/
def AgentRun.IsDone (ar : AgentRun) : Bool :=
  ar.Status.Phase == AgentRunPhaseSucceeded || ar.Status.Phase == AgentRunPhaseFailed

/-- HasStarted returns true if the AgentRun has started. -/
def AgentRun.HasStarted (ar : AgentRun) : Bool :=
  ar.Status.StartTime.isSome

/-- The library call `metav1.NewControllerRef(agentRun,
SchemeGroupVersion.WithKind("AgentRun"))`, with the group version
`agent.tekton.dev/v1alpha1` of `register.go`: a reference to the owner by name
and UID, marked as controller and as blocking the deletion of the owner. -/
def NewControllerRef (agentRun : AgentRun) : OwnerReference :=
  { APIVersion := "agent.tekton.dev" ++ "/" ++ "v1alpha1"
    Kind := "AgentRun"
    Name := agentRun.ObjectMeta.Name
    UID := agentRun.ObjectMeta.UID
    Controller := some true
    BlockOwnerDeletion := some true }

/-! ## `agentconfig_validation.go` and `agentconfig_defaults.go` -/

/-- Validate validates the AgentConfigSpec. -/
def AgentConfigSpec.Validate (acs : AgentConfigSpec) : Option Agent.GoError :=
  if acs.ConfigPVC = "" then
    some (.text "configPVC is required")
  else if acs.MaxIterations < 0 ∨ acs.MaxIterations > 10 then
    some (.text "maxIterations must be between 0 and 10")
  else if acs.Provider ≠ "" ∧ acs.Provider ≠ "claude" ∧ acs.Provider ≠ "gemini" then
    some (.text "provider must be either 'claude' or 'gemini'")
  else if acs.NetworkPolicy ≠ "" ∧ acs.NetworkPolicy ≠ "strict" ∧
      acs.NetworkPolicy ≠ "permissive" then
    some (.text "networkPolicy must be either 'strict' or 'permissive'")
  else if acs.Policy.OPA ≠ "" ∧ acs.Policy.OPA ≠ "strict" ∧
      acs.Policy.OPA ≠ "permissive" then
    some (.text "policy.opa must be either 'strict' or 'permissive'")
  else
    none

/-- The constant `DefaultMaxIterations`. -/
def DefaultMaxIterations : Int := 3

/-- The constant `DefaultTimeout`, `8 * time.Minute`, in nanoseconds. -/
def DefaultTimeout : Int := 8 * (60 * 1000000000)

/-- The constant `DefaultProvider`. -/
def DefaultProvider : String := "claude"

/-- The constant `DefaultNetworkPolicy`. -/
def DefaultNetworkPolicy : String := "strict"

/-- The constant `DefaultOPAPolicy`. -/
def DefaultOPAPolicy : String := "strict"

/-- The constant `DefaultServiceAccount`. -/
def DefaultServiceAccount : String := "default"

/-- SetDefaults sets default values for AgentConfigSpec: the value of the
receiver after the call. -/
def AgentConfigSpec.SetDefaults (acs : AgentConfigSpec) : AgentConfigSpec :=
  let acs :=
    if acs.ServiceAccount = "" then { acs with ServiceAccount := DefaultServiceAccount }
    else acs
  let acs :=
    if acs.MaxIterations = 0 then { acs with MaxIterations := DefaultMaxIterations } else acs
  let acs := if acs.Timeout = none then { acs with Timeout := some DefaultTimeout } else acs
  let acs := if acs.Provider = "" then { acs with Provider := DefaultProvider } else acs
  let acs :=
    if acs.NetworkPolicy = "" then { acs with NetworkPolicy := DefaultNetworkPolicy } else acs
  if acs.Policy.OPA = "" then { acs with Policy.OPA := DefaultOPAPolicy } else acs

/-! ## `pkg/security/rbac.go` -/

/-- GenerateRoleName generates a consistent Role name for an AgentRun. -/
def GenerateRoleName (agentRun : AgentRun) : String :=
  "agentrun-" ++ agentRun.ObjectMeta.Name

/-- GenerateRoleBindingName generates a consistent RoleBinding name for an
AgentRun. -/
def GenerateRoleBindingName (agentRun : AgentRun) : String :=
  "agentrun-" ++ agentRun.ObjectMeta.Name

/-- GenerateRole creates a read-only Role for an AgentRun. -/
def GenerateRole (agentRun : AgentRun) : Role :=
  { ObjectMeta :=
      { Name := GenerateRoleName agentRun
        Namespace := agentRun.ObjectMeta.Namespace
        UID := ""
        OwnerReferences := [NewControllerRef agentRun]
        Labels :=
          [("agent.tekton.dev/agentrun", agentRun.ObjectMeta.Name),
           ("app.kubernetes.io/component", "agent-rbac"),
           ("app.kubernetes.io/managed-by", "agentrun-controller")] }
    Rules :=
      [{ APIGroups := [""]
         Resources := ["pods", "services", "endpoints"]
         Verbs := ["get", "list", "watch"] },
       { APIGroups := ["apps"]
         Resources := ["deployments", "replicasets", "statefulsets", "daemonsets"]
         Verbs := ["get", "list", "watch"] },
       { APIGroups := [""]
         Resources := ["events"]
         Verbs := ["get", "list", "watch"] }] }

/-- GenerateRoleBinding creates a RoleBinding linking the Role to the
ServiceAccount. -/
def GenerateRoleBinding (agentRun : AgentRun) (agentConfig : AgentConfig)
    (roleName : String) : RoleBinding :=
  { ObjectMeta :=
      { Name := GenerateRoleBindingName agentRun
        Namespace := agentRun.ObjectMeta.Namespace
        UID := ""
        OwnerReferences := [NewControllerRef agentRun]
        Labels :=
          [("agent.tekton.dev/agentrun", agentRun.ObjectMeta.Name),
           ("app.kubernetes.io/component", "agent-rbac"),
           ("app.kubernetes.io/managed-by", "agentrun-controller")] }
    RoleRef :=
      { APIGroup := "rbac.authorization.k8s.io"
        Kind := "Role"
        Name := roleName }
    Subjects :=
      [{ Kind := "ServiceAccount"
         Name := agentConfig.Spec.ServiceAccount
         Namespace := agentRun.ObjectMeta.Namespace }] }

/-! ## `pkg/pod/builder.go` -/

/-- Builder builds Pod specs for agent execution. -/
structure Builder where
  Image : String
  deriving DecidableEq, Repr

/-- The method `buildPodSecurityContext`. -/
def Builder.buildPodSecurityContext (_b : Builder) : PodSecurityContext :=
  { RunAsNonRoot := some true
    RunAsUser := some 65532
    FSGroup := some 65532
    SeccompProfile := some { Type_ := "RuntimeDefault" } }

/-- The method `buildContainerSecurityContext`. -/
def Builder.buildContainerSecurityContext (_b : Builder) : SecurityContext :=
  { AllowPrivilegeEscalation := some false
    ReadOnlyRootFilesystem := some true
    RunAsNonRoot := some true
    Capabilities := some { Add := [], Drop := ["ALL"] }
    SeccompProfile := some { Type_ := "RuntimeDefault" } }

/-- The method `buildVolumeMounts`. -/
def Builder.buildVolumeMounts (_b : Builder) : List VolumeMount :=
  [{ Name := "config", MountPath := "/workspace/config", ReadOnly := true },
   { Name := "data", MountPath := "/workspace/data", ReadOnly := false },
   { Name := "secrets", MountPath := "/workspace/secrets", ReadOnly := true }]

/-- The method `buildVolumes`. -/
def Builder.buildVolumes (_b : Builder) (_agentConfig : AgentConfig) : List Volume :=
  [{ Name := "config"
     VolumeSource :=
       { ConfigMap := some
           { Name := "agent-prompts"
             Items :=
               [{ Key := "system.txt", Path := "prompts/system.txt" },
                { Key := "planner.txt", Path := "prompts/planner.txt" },
                { Key := "reflector.txt", Path := "prompts/reflector.txt" }] }
         EmptyDir := none
         Secret := none
         PersistentVolumeClaim := none } },
   { Name := "data"
     VolumeSource :=
       { ConfigMap := none
         EmptyDir := some { Medium := "" }
         Secret := none
         PersistentVolumeClaim := none } },
   { Name := "secrets"
     VolumeSource :=
       { ConfigMap := none
         EmptyDir := none
         Secret := some { SecretName := "claude-api-key" }
         PersistentVolumeClaim := none } }]

/-- Build creates a Pod spec for an AgentRun; it returns the pod and a nil
error. -/
def Builder.Build (b : Builder) (agentRun : AgentRun) (agentConfig : AgentConfig) :
    Pod × Option Agent.GoError :=
  ({ ObjectMeta :=
       { Name := agentRun.ObjectMeta.Name ++ "-agent"
         Namespace := agentRun.ObjectMeta.Namespace
         UID := ""
         Labels :=
           [("agent.tekton.dev/agentrun", agentRun.ObjectMeta.Name),
            ("agent.tekton.dev/config", agentConfig.ObjectMeta.Name),
            ("app.kubernetes.io/component", "agent-runtime"),
            ("app.kubernetes.io/managed-by", "agentrun-controller")]
         OwnerReferences := [NewControllerRef agentRun] }
     Spec :=
       { ServiceAccountName := agentConfig.Spec.ServiceAccount
         RestartPolicy := "Never"
         SecurityContext := some b.buildPodSecurityContext
         Containers :=
           [{ Name := "agent"
              Image := b.Image
              ImagePullPolicy := "IfNotPresent"
              SecurityContext := some b.buildContainerSecurityContext
              VolumeMounts := b.buildVolumeMounts
              Env :=
                [{ Name := "AGENTRUN_NAME", Value := agentRun.ObjectMeta.Name },
                 { Name := "AGENTRUN_UID", Value := agentRun.ObjectMeta.UID },
                 { Name := "AGENTRUN_NAMESPACE", Value := agentRun.ObjectMeta.Namespace },
                 { Name := "AGENTRUN_GOAL", Value := agentRun.Spec.Goal },
                 { Name := "AGENTCONFIG_NAME", Value := agentConfig.ObjectMeta.Name },
                 { Name := "LLM_PROVIDER", Value := agentConfig.Spec.Provider }] }]
         Volumes := b.buildVolumes agentConfig }
     Status := { Phase := "" } },
   none)

/-! ## The clientset and the clock (`k8s.io/client-go`) -/

/-- An error returned by the clientset: its text, and what the library
predicates `errors.IsNotFound` and `errors.IsAlreadyExists` say of it. -/
structure ClientError where
  Message : String
  IsNotFound : Bool
  IsAlreadyExists : Bool
  deriving DecidableEq, Repr

/-- What `Pods(ns).Get` returns: a pod with a nil error, or an error. -/
inductive GetResult where
  | found (pod : Pod)
  | failed (err : ClientError)
  deriving DecidableEq, Repr

/-- One call of the clientset made by the reconciler, with what it returned. -/
inductive ClientCall where
  | createRole (ns : String) (role : Role) (err : Option ClientError)
  | createRoleBinding (ns : String) (roleBinding : RoleBinding) (err : Option ClientError)
  | createPod (ns : String) (pod : Pod) (err : Option ClientError)
  | getPod (ns : String) (name : String) (result : GetResult)
  deriving DecidableEq, Repr

/-- The calls of `kubernetes.Interface` that the reconciler makes, as
operations on the state `ω` of the cluster: `RbacV1().Roles(ns).Create`,
`RbacV1().RoleBindings(ns).Create`, `CoreV1().Pods(ns).Create` (of which the
code keeps only the error) and `CoreV1().Pods(ns).Get`. -/
structure Clientset (ω : Type) where
  CreateRole : ω → String → Role → Option ClientError × ω
  CreateRoleBinding : ω → String → RoleBinding → Option ClientError × ω
  CreatePod : ω → String → Pod → Option ClientError × ω
  GetPod : ω → String → String → GetResult × ω

/-- The pod phase constant `corev1.PodSucceeded`. -/
def PodSucceeded : String := "Succeeded"

/-- The pod phase constant `corev1.PodFailed`. -/
def PodFailed : String := "Failed"

/-! ## `pkg/reconciler/agentrun/agentrun.go` -/

/-- Reconciler reconciles AgentRun objects.  `AgentConfigs` is the lookup in
the map of that name, whose values are not nil; `Now` is the library call
`metav1.Now()`, a reading of the clock of the world. -/
structure Reconciler (ω : Type) where
  KubeClient : Clientset ω
  Image : String
  AgentConfigs : String → Option AgentConfig
  Now : ω → Time

/-- What a helper of the reconciler leaves: the error it returns, the state of
the world and the calls it made. -/
structure Effect (ω : Type) where
  err : Option Agent.GoError
  world : ω
  calls : List ClientCall

/-- What `Reconcile` leaves: the request as mutated, the error returned, the
state of the world and the calls made. -/
structure Reconciled (ω : Type) where
  agentRun : AgentRun
  err : Option Agent.GoError
  world : ω
  calls : List ClientCall

/-- The test `err != nil && !errors.IsAlreadyExists(err)` on the error of a
`Create`. -/
def createFailed (err : Option ClientError) : Bool :=
  match err with
  | some e => !e.IsAlreadyExists
  | none => false

/-- The error `fmt.Errorf(pre ++ "%w", err)` around an error of the clientset. -/
def wrapClientError (pre : String) (err : Option ClientError) : Agent.GoError :=
  match err with
  | some e => .wrapped pre (.text e.Message)
  | none => .wrapped pre (.text "%!w(<nil>)")

/-- The verb `%q` of `fmt` on a string without characters to escape. -/
def quoted (s : String) : String :=
  "\"" ++ s ++ "\""

/-- The method `getAgentConfig`: the cached profile, or an error. -/
def Reconciler.getAgentConfig {ω : Type} (r : Reconciler ω) (agentRun : AgentRun) :
    Except Agent.GoError AgentConfig :=
  match r.AgentConfigs agentRun.Spec.ConfigRef.Name with
  | none =>
    .error (.text ("AgentConfig " ++ quoted agentRun.Spec.ConfigRef.Name ++ " not found"))
  | some config => .ok config

/-- The method `createRBAC`. -/
def Reconciler.createRBAC {ω : Type} (r : Reconciler ω) (w : ω) (agentRun : AgentRun)
    (agentConfig : AgentConfig) : Effect ω :=
  let role := GenerateRole agentRun
  match r.KubeClient.CreateRole w agentRun.ObjectMeta.Namespace role with
  | (err, w1) =>
    let calls1 := [ClientCall.createRole agentRun.ObjectMeta.Namespace role err]
    if createFailed err then
      { err := some (wrapClientError "failed to create role: " err)
        world := w1
        calls := calls1 }
    else
      let roleBinding := GenerateRoleBinding agentRun agentConfig role.ObjectMeta.Name
      match r.KubeClient.CreateRoleBinding w1 agentRun.ObjectMeta.Namespace roleBinding with
      | (err2, w2) =>
        let calls2 := calls1 ++
          [ClientCall.createRoleBinding agentRun.ObjectMeta.Namespace roleBinding err2]
        if createFailed err2 then
          { err := some (wrapClientError "failed to create rolebinding: " err2)
            world := w2
            calls := calls2 }
        else
          { err := none, world := w2, calls := calls2 }

/-- The method `createAgentPod`. -/
def Reconciler.createAgentPod {ω : Type} (r : Reconciler ω) (w : ω) (agentRun : AgentRun)
    (agentConfig : AgentConfig) : Effect ω :=
  let builder : Builder := { Image := r.Image }
  match builder.Build agentRun agentConfig with
  | (_, some err) =>
    { err := some (.wrapped "failed to build pod: " err), world := w, calls := [] }
  | (agentPod, none) =>
    match r.KubeClient.CreatePod w agentRun.ObjectMeta.Namespace agentPod with
    | (err, w1) =>
      let calls1 := [ClientCall.createPod agentRun.ObjectMeta.Namespace agentPod err]
      if createFailed err then
        { err := some (wrapClientError "failed to create pod: " err)
          world := w1
          calls := calls1 }
      else
        { err := none, world := w1, calls := calls1 }

/-- The method `handlePending`. -/
def Reconciler.handlePending {ω : Type} (r : Reconciler ω) (w : ω) (agentRun : AgentRun)
    (agentConfig : AgentConfig) : Reconciled ω :=
  let rbac := r.createRBAC w agentRun agentConfig
  match rbac.err with
  | some err =>
    { agentRun := agentRun
      err := some (.wrapped "failed to create RBAC: " err)
      world := rbac.world
      calls := rbac.calls }
  | none =>
    let created := r.createAgentPod rbac.world agentRun agentConfig
    match created.err with
    | some err =>
      { agentRun := agentRun
        err := some (.wrapped "failed to create agent pod: " err)
        world := created.world
        calls := rbac.calls ++ created.calls }
    | none =>
      { agentRun := { agentRun with Status.Phase := AgentRunPhaseActing }
        err := none
        world := created.world
        calls := rbac.calls ++ created.calls }

/-- The method `handleActing`. -/
def Reconciler.handleActing {ω : Type} (r : Reconciler ω) (w : ω) (agentRun : AgentRun) :
    Reconciled ω :=
  let podName := agentRun.ObjectMeta.Name ++ "-agent"
  match r.KubeClient.GetPod w agentRun.ObjectMeta.Namespace podName with
  | (.failed err, w1) =>
    let calls := [ClientCall.getPod agentRun.ObjectMeta.Namespace podName (.failed err)]
    if err.IsNotFound then
      { agentRun := { agentRun with Status.Phase := AgentRunPhasePending }
        err := none
        world := w1
        calls := calls }
    else
      { agentRun := agentRun
        err := some (wrapClientError "failed to get agent pod: " (some err))
        world := w1
        calls := calls }
  | (.found agentPod, w1) =>
    let calls := [ClientCall.getPod agentRun.ObjectMeta.Namespace podName (.found agentPod)]
    if agentPod.Status.Phase = PodSucceeded then
      { agentRun :=
          { agentRun with
            Status.Phase := AgentRunPhaseSucceeded
            Status.CompletionTime := some (r.Now w1) }
        err := none
        world := w1
        calls := calls }
    else if agentPod.Status.Phase = PodFailed then
      { agentRun :=
          { agentRun with
            Status.Phase := AgentRunPhaseFailed
            Status.CompletionTime := some (r.Now w1) }
        err := none
        world := w1
        calls := calls }
    else
      { agentRun := agentRun, err := none, world := w1, calls := calls }

/-- Reconcile handles the reconciliation of an AgentRun. -/
def Reconciler.Reconcile {ω : Type} (r : Reconciler ω) (w : ω) (agentRun : AgentRun) :
    Reconciled ω :=
  if agentRun.IsDone then
    { agentRun := agentRun, err := none, world := w, calls := [] }
  else
    match r.getAgentConfig agentRun with
    | .error err =>
      { agentRun := agentRun
        err := some (.wrapped "failed to get AgentConfig: " err)
        world := w
        calls := [] }
    | .ok agentConfig =>
      let agentRun :=
        if !agentRun.HasStarted then
          { agentRun with Status.StartTime := some (r.Now w) }
        else agentRun
      if agentRun.Status.Phase = AgentRunPhasePending then
        r.handlePending w agentRun agentConfig
      else if agentRun.Status.Phase = AgentRunPhaseActing then
        r.handleActing w agentRun
      else
        { agentRun := { agentRun with Status.Phase := AgentRunPhasePending }
          err := none
          world := w
          calls := [] }

/-- A sequence of calls of `Reconcile` on one request, each in the world as it
is at the time of the call. -/
def Reconciler.reconcileIn {ω : Type} (r : Reconciler ω) : List ω → AgentRun → AgentRun
  | [], agentRun => agentRun
  | w :: ws, agentRun => r.reconcileIn ws (r.Reconcile w agentRun).agentRun

/-- A sequence of `n` calls of `Reconcile` on one request against one cluster:
each call starts from the world and the request that the call before left. -/
def Reconciler.reconcileTimes {ω : Type} (r : Reconciler ω) : Nat → ω → AgentRun → ω × AgentRun
  | 0, w, agentRun => (w, agentRun)
  | n + 1, w, agentRun =>
    r.reconcileTimes n (r.Reconcile w agentRun).world (r.Reconcile w agentRun).agentRun

/-! ## A cluster store -/

/-- A cluster store: the roles, role bindings and pods it holds. -/
structure Store where
  roles : List Role
  roleBindings : List RoleBinding
  pods : List Pod
  deriving DecidableEq, Repr

/-- The error of a `Create` of a name that is already present. -/
def alreadyExistsError (name : String) : ClientError :=
  { Message := quoted name ++ " already exists", IsNotFound := false, IsAlreadyExists := true }

/-- The error of a `Get` of a name that is absent. -/
def notFoundError (name : String) : ClientError :=
  { Message := quoted name ++ " not found", IsNotFound := true, IsAlreadyExists := false }

/-- The object is the one of that name in that namespace. -/
def ObjectMeta.named (meta : ObjectMeta) (ns name : String) : Bool :=
  meta.Namespace == ns && meta.Name == name

/-- A clientset on a cluster store in which `Create` of an already-present name
reports AlreadyExists and leaves the store as it is, `Create` of a new name adds
the object in the namespace of the call, and `Get` returns the pod of that name
or reports NotFound. -/
def storeClient : Clientset Store :=
  { CreateRole := fun s ns role =>
      if s.roles.any (fun x => x.ObjectMeta.named ns role.ObjectMeta.Name) then
        (some (alreadyExistsError role.ObjectMeta.Name), s)
      else
        (none, { s with roles := s.roles ++ [{ role with ObjectMeta.Namespace := ns }] })
    CreateRoleBinding := fun s ns rb =>
      if s.roleBindings.any (fun x => x.ObjectMeta.named ns rb.ObjectMeta.Name) then
        (some (alreadyExistsError rb.ObjectMeta.Name), s)
      else
        (none,
          { s with roleBindings := s.roleBindings ++ [{ rb with ObjectMeta.Namespace := ns }] })
    CreatePod := fun s ns pod =>
      if s.pods.any (fun x => x.ObjectMeta.named ns pod.ObjectMeta.Name) then
        (some (alreadyExistsError pod.ObjectMeta.Name), s)
      else
        (none, { s with pods := s.pods ++ [{ pod with ObjectMeta.Namespace := ns }] })
    GetPod := fun s ns name =>
      match s.pods.find? (fun x => x.ObjectMeta.named ns name) with
      | some pod => (.found pod, s)
      | none => (.failed (notFoundError name), s) }

/-- The empty cluster store, as `fake.NewSimpleClientset()` starts. -/
def emptyStore : Store :=
  { roles := [], roleBindings := [], pods := [] }

/-! ## The fixtures of `agentrun_test.go` -/

/-- The request of the tests, in a given phase. -/
def testRun (phase : String) : AgentRun :=
  { ObjectMeta :=
      { Name := "test-run", Namespace := "default", UID := "test-uid", Labels := [],
        OwnerReferences := [] }
    Spec :=
      { ConfigRef := { Name := "test-config" }, Goal := "Test goal", Context := { Hints := [] } }
    Status :=
      { Conditions := [], Phase := phase, StartTime := none, CompletionTime := none,
        Iterations := 0, Results := [] } }

/-- The profile of `TestReconcile_NewAgentRun`. -/
def testConfig : AgentConfig :=
  { ObjectMeta :=
      { Name := "test-config", Namespace := "", UID := "", Labels := [],
        OwnerReferences := [] }
    Spec :=
      { ServiceAccount := "default", ConfigPVC := "test-config-pvc", MaxIterations := 3,
        Timeout := none, PreHooks := [], PostHooks := [], Policy := { OPA := "" },
        NetworkPolicy := "", Provider := "claude" } }

/-- The reconciler of the tests, on a cluster store. -/
def testReconciler : Reconciler Store :=
  { KubeClient := storeClient
    Image := "agentrun-runtime:test"
    AgentConfigs := fun name => if name = "test-config" then some testConfig else none
    Now := fun _ => { seconds := 1700000000 } }

/-- The reconciler of the tests with an empty cache of profiles. -/
def uncachedReconciler : Reconciler Store :=
  { testReconciler with AgentConfigs := fun _ => none }

/-- The completed pod of `TestReconcile_UpdateStatusFromPod`. -/
def completedPod : Pod :=
  { ObjectMeta :=
      { Name := "test-run-agent", Namespace := "default", UID := ""
        Labels := [("agent.tekton.dev/agentrun", "test-run")], OwnerReferences := [] }
    Spec :=
      { ServiceAccountName := "", RestartPolicy := "", SecurityContext := none,
        Containers := [], Volumes := [] }
    Status := { Phase := PodSucceeded } }

/-- The store of `TestReconcile_UpdateStatusFromPod`: it holds the completed pod. -/
def completedStore : Store :=
  { roles := [], roleBindings := [], pods := [completedPod] }

/-- A clientset on a cluster store that refuses to create roles. -/
def refusingClient : Clientset Store :=
  { storeClient with
    CreateRole := fun s _ _ =>
      (some { Message := "forbidden", IsNotFound := false, IsAlreadyExists := false }, s) }

/-- The reconciler of the tests against a cluster that refuses to create roles. -/
def refusedReconciler : Reconciler Store :=
  { testReconciler with KubeClient := refusingClient }

/-! ## The fixtures of `builder_test.go` -/

/-- The request of `TestBuild`, `TestBuildSecurityContext` and
`TestBuildVolumes`. -/
def builderTestRun : AgentRun :=
  { ObjectMeta :=
      { Name := "test-run", Namespace := "default", UID := "test-uid", Labels := [],
        OwnerReferences := [] }
    Spec :=
      { ConfigRef := { Name := "test-config" }, Goal := "Test goal", Context := { Hints := [] } }
    Status :=
      { Conditions := [], Phase := "", StartTime := none, CompletionTime := none,
        Iterations := 0, Results := [] } }

/-- The profile of `TestBuild`, `TestBuildSecurityContext` and
`TestBuildVolumes`. -/
def builderTestConfig : AgentConfig :=
  { ObjectMeta :=
      { Name := "test-config", Namespace := "", UID := "", Labels := [],
        OwnerReferences := [] }
    Spec :=
      { ServiceAccount := "test-sa", ConfigPVC := "test-config-pvc", MaxIterations := 0,
        Timeout := none, PreHooks := [], PostHooks := [], Policy := { OPA := "" },
        NetworkPolicy := "", Provider := "claude" } }

/-- The builder of the tests. -/
def testBuilder : Builder :=
  { Image := "agentrun-runtime:latest" }

/-- The loop `for i := range pod.Spec.Volumes` of `TestBuildVolumes`: the first
volume of the given name. -/
def findVolume (pod : Pod) (name : String) : Option Volume :=
  pod.Spec.Volumes.find? (fun v => v.Name = name)

/-! ## Fixtures for the pod of an Acting request -/

/-- The pod of the request of the tests, in phase Running. -/
def runningPod : Pod :=
  { completedPod with Status := { Phase := "Running" } }

/-- A store that holds the running pod. -/
def runningStore : Store :=
  { roles := [], roleBindings := [], pods := [runningPod] }

/-- An error of the clientset that is neither NotFound nor AlreadyExists. -/
def forbiddenError : ClientError :=
  { Message := "forbidden", IsNotFound := false, IsAlreadyExists := false }

/-- The reconciler of the tests against a cluster that refuses to read pods. -/
def unreadableReconciler : Reconciler Store :=
  { testReconciler with
    KubeClient := { storeClient with GetPod := fun s _ _ => (.failed forbiddenError, s) } }

/-! ## One reconciliation, case by case -/

/-- Lines 37-40 of `agentrun.go`: the start time is set when it was nil. -/
def AgentRun.start (ar : AgentRun) (now : Time) : AgentRun :=
  if !ar.HasStarted then { ar with Status.StartTime := some now } else ar

/-- The ways through `Reconcile`, one constructor for each. -/
inductive Reconciles {ω : Type} (r : Reconciler ω) (w : ω) (agentRun : AgentRun) :
    Reconciled ω → Prop
  | done (hdone : agentRun.IsDone = true) :
      Reconciles r w agentRun { agentRun := agentRun, err := none, world := w, calls := [] }
  | uncached (hdone : agentRun.IsDone = false)
      (hcache : r.AgentConfigs agentRun.Spec.ConfigRef.Name = none) :
      Reconciles r w agentRun
        { agentRun := agentRun
          err := some (.wrapped "failed to get AgentConfig: "
            (.text ("AgentConfig " ++ quoted agentRun.Spec.ConfigRef.Name ++ " not found")))
          world := w
          calls := [] }
  | roleFailed (agentConfig : AgentConfig) (err1 : Option ClientError) (w1 : ω)
      (hdone : agentRun.IsDone = false)
      (hcache : r.AgentConfigs agentRun.Spec.ConfigRef.Name = some agentConfig)
      (hphase : agentRun.Status.Phase = AgentRunPhasePending)
      (hrole : r.KubeClient.CreateRole w agentRun.ObjectMeta.Namespace
        (GenerateRole agentRun) = (err1, w1))
      (hfail : createFailed err1 = true) :
      Reconciles r w agentRun
        { agentRun := agentRun.start (r.Now w)
          err := some (.wrapped "failed to create RBAC: "
            (wrapClientError "failed to create role: " err1))
          world := w1
          calls := [.createRole agentRun.ObjectMeta.Namespace (GenerateRole agentRun) err1] }
  | bindingFailed (agentConfig : AgentConfig) (err1 err2 : Option ClientError) (w1 w2 : ω)
      (hdone : agentRun.IsDone = false)
      (hcache : r.AgentConfigs agentRun.Spec.ConfigRef.Name = some agentConfig)
      (hphase : agentRun.Status.Phase = AgentRunPhasePending)
      (hrole : r.KubeClient.CreateRole w agentRun.ObjectMeta.Namespace
        (GenerateRole agentRun) = (err1, w1))
      (hok1 : createFailed err1 = false)
      (hbinding : r.KubeClient.CreateRoleBinding w1 agentRun.ObjectMeta.Namespace
        (GenerateRoleBinding agentRun agentConfig (GenerateRole agentRun).ObjectMeta.Name) =
          (err2, w2))
      (hfail : createFailed err2 = true) :
      Reconciles r w agentRun
        { agentRun := agentRun.start (r.Now w)
          err := some (.wrapped "failed to create RBAC: "
            (wrapClientError "failed to create rolebinding: " err2))
          world := w2
          calls :=
            [.createRole agentRun.ObjectMeta.Namespace (GenerateRole agentRun) err1,
             .createRoleBinding agentRun.ObjectMeta.Namespace
               (GenerateRoleBinding agentRun agentConfig
                 (GenerateRole agentRun).ObjectMeta.Name) err2] }
  | podFailed (agentConfig : AgentConfig) (err1 err2 err3 : Option ClientError)
      (w1 w2 w3 : ω)
      (hdone : agentRun.IsDone = false)
      (hcache : r.AgentConfigs agentRun.Spec.ConfigRef.Name = some agentConfig)
      (hphase : agentRun.Status.Phase = AgentRunPhasePending)
      (hrole : r.KubeClient.CreateRole w agentRun.ObjectMeta.Namespace
        (GenerateRole agentRun) = (err1, w1))
      (hok1 : createFailed err1 = false)
      (hbinding : r.KubeClient.CreateRoleBinding w1 agentRun.ObjectMeta.Namespace
        (GenerateRoleBinding agentRun agentConfig (GenerateRole agentRun).ObjectMeta.Name) =
          (err2, w2))
      (hok2 : createFailed err2 = false)
      (hpod : r.KubeClient.CreatePod w2 agentRun.ObjectMeta.Namespace
        (Builder.Build { Image := r.Image } agentRun agentConfig).1 = (err3, w3))
      (hfail : createFailed err3 = true) :
      Reconciles r w agentRun
        { agentRun := agentRun.start (r.Now w)
          err := some (.wrapped "failed to create agent pod: "
            (wrapClientError "failed to create pod: " err3))
          world := w3
          calls :=
            [.createRole agentRun.ObjectMeta.Namespace (GenerateRole agentRun) err1,
             .createRoleBinding agentRun.ObjectMeta.Namespace
               (GenerateRoleBinding agentRun agentConfig
                 (GenerateRole agentRun).ObjectMeta.Name) err2,
             .createPod agentRun.ObjectMeta.Namespace
               (Builder.Build { Image := r.Image } agentRun agentConfig).1 err3] }
  | provisioned (agentConfig : AgentConfig) (err1 err2 err3 : Option ClientError)
      (w1 w2 w3 : ω)
      (hdone : agentRun.IsDone = false)
      (hcache : r.AgentConfigs agentRun.Spec.ConfigRef.Name = some agentConfig)
      (hphase : agentRun.Status.Phase = AgentRunPhasePending)
      (hrole : r.KubeClient.CreateRole w agentRun.ObjectMeta.Namespace
        (GenerateRole agentRun) = (err1, w1))
      (hok1 : createFailed err1 = false)
      (hbinding : r.KubeClient.CreateRoleBinding w1 agentRun.ObjectMeta.Namespace
        (GenerateRoleBinding agentRun agentConfig (GenerateRole agentRun).ObjectMeta.Name) =
          (err2, w2))
      (hok2 : createFailed err2 = false)
      (hpod : r.KubeClient.CreatePod w2 agentRun.ObjectMeta.Namespace
        (Builder.Build { Image := r.Image } agentRun agentConfig).1 = (err3, w3))
      (hok3 : createFailed err3 = false) :
      Reconciles r w agentRun
        { agentRun :=
            { agentRun.start (r.Now w) with Status.Phase := AgentRunPhaseActing }
          err := none
          world := w3
          calls :=
            [.createRole agentRun.ObjectMeta.Namespace (GenerateRole agentRun) err1,
             .createRoleBinding agentRun.ObjectMeta.Namespace
               (GenerateRoleBinding agentRun agentConfig
                 (GenerateRole agentRun).ObjectMeta.Name) err2,
             .createPod agentRun.ObjectMeta.Namespace
               (Builder.Build { Image := r.Image } agentRun agentConfig).1 err3] }
  | podAbsent (agentConfig : AgentConfig) (err : ClientError) (w1 : ω)
      (hdone : agentRun.IsDone = false)
      (hcache : r.AgentConfigs agentRun.Spec.ConfigRef.Name = some agentConfig)
      (hphase : agentRun.Status.Phase = AgentRunPhaseActing)
      (hget : r.KubeClient.GetPod w agentRun.ObjectMeta.Namespace
        (agentRun.ObjectMeta.Name ++ "-agent") = (.failed err, w1))
      (habsent : err.IsNotFound = true) :
      Reconciles r w agentRun
        { agentRun :=
            { agentRun.start (r.Now w) with Status.Phase := AgentRunPhasePending }
          err := none
          world := w1
          calls :=
            [.getPod agentRun.ObjectMeta.Namespace (agentRun.ObjectMeta.Name ++ "-agent")
              (.failed err)] }
  | getFailed (agentConfig : AgentConfig) (err : ClientError) (w1 : ω)
      (hdone : agentRun.IsDone = false)
      (hcache : r.AgentConfigs agentRun.Spec.ConfigRef.Name = some agentConfig)
      (hphase : agentRun.Status.Phase = AgentRunPhaseActing)
      (hget : r.KubeClient.GetPod w agentRun.ObjectMeta.Namespace
        (agentRun.ObjectMeta.Name ++ "-agent") = (.failed err, w1))
      (hother : err.IsNotFound = false) :
      Reconciles r w agentRun
        { agentRun := agentRun.start (r.Now w)
          err := some (wrapClientError "failed to get agent pod: " (some err))
          world := w1
          calls :=
            [.getPod agentRun.ObjectMeta.Namespace (agentRun.ObjectMeta.Name ++ "-agent")
              (.failed err)] }
  | podSucceeded (agentConfig : AgentConfig) (agentPod : Pod) (w1 : ω)
      (hdone : agentRun.IsDone = false)
      (hcache : r.AgentConfigs agentRun.Spec.ConfigRef.Name = some agentConfig)
      (hphase : agentRun.Status.Phase = AgentRunPhaseActing)
      (hget : r.KubeClient.GetPod w agentRun.ObjectMeta.Namespace
        (agentRun.ObjectMeta.Name ++ "-agent") = (.found agentPod, w1))
      (hpod : agentPod.Status.Phase = PodSucceeded) :
      Reconciles r w agentRun
        { agentRun :=
            { agentRun.start (r.Now w) with
              Status.Phase := AgentRunPhaseSucceeded
              Status.CompletionTime := some (r.Now w1) }
          err := none
          world := w1
          calls :=
            [.getPod agentRun.ObjectMeta.Namespace (agentRun.ObjectMeta.Name ++ "-agent")
              (.found agentPod)] }
  | podFailedPhase (agentConfig : AgentConfig) (agentPod : Pod) (w1 : ω)
      (hdone : agentRun.IsDone = false)
      (hcache : r.AgentConfigs agentRun.Spec.ConfigRef.Name = some agentConfig)
      (hphase : agentRun.Status.Phase = AgentRunPhaseActing)
      (hget : r.KubeClient.GetPod w agentRun.ObjectMeta.Namespace
        (agentRun.ObjectMeta.Name ++ "-agent") = (.found agentPod, w1))
      (hnot : agentPod.Status.Phase ≠ PodSucceeded)
      (hpod : agentPod.Status.Phase = PodFailed) :
      Reconciles r w agentRun
        { agentRun :=
            { agentRun.start (r.Now w) with
              Status.Phase := AgentRunPhaseFailed
              Status.CompletionTime := some (r.Now w1) }
          err := none
          world := w1
          calls :=
            [.getPod agentRun.ObjectMeta.Namespace (agentRun.ObjectMeta.Name ++ "-agent")
              (.found agentPod)] }
  | podRunning (agentConfig : AgentConfig) (agentPod : Pod) (w1 : ω)
      (hdone : agentRun.IsDone = false)
      (hcache : r.AgentConfigs agentRun.Spec.ConfigRef.Name = some agentConfig)
      (hphase : agentRun.Status.Phase = AgentRunPhaseActing)
      (hget : r.KubeClient.GetPod w agentRun.ObjectMeta.Namespace
        (agentRun.ObjectMeta.Name ++ "-agent") = (.found agentPod, w1))
      (hnot : agentPod.Status.Phase ≠ PodSucceeded)
      (hnot' : agentPod.Status.Phase ≠ PodFailed) :
      Reconciles r w agentRun
        { agentRun := agentRun.start (r.Now w)
          err := none
          world := w1
          calls :=
            [.getPod agentRun.ObjectMeta.Namespace (agentRun.ObjectMeta.Name ++ "-agent")
              (.found agentPod)] }
  | normalized (agentConfig : AgentConfig)
      (hdone : agentRun.IsDone = false)
      (hcache : r.AgentConfigs agentRun.Spec.ConfigRef.Name = some agentConfig)
      (hpending : agentRun.Status.Phase ≠ AgentRunPhasePending)
      (hacting : agentRun.Status.Phase ≠ AgentRunPhaseActing) :
      Reconciles r w agentRun
        { agentRun :=
            { agentRun.start (r.Now w) with Status.Phase := AgentRunPhasePending }
          err := none
          world := w
          calls := [] }

/-- The call of the clientset is a `Create` whose error the code does not
tolerate: a non-nil error other than AlreadyExists. -/
def ClientCall.failedCreate : ClientCall → Bool
  | .createRole _ _ err => createFailed err
  | .createRoleBinding _ _ err => createFailed err
  | .createPod _ _ err => createFailed err
  | .getPod _ _ _ => false

/-- The call of the clientset is a `Create`. -/
def ClientCall.isCreate : ClientCall → Bool
  | .getPod _ _ _ => false
  | _ => true

/-- The moves of the phase of a request that one reconciliation may make. -/
def PhaseEdge (p q : String) : Prop :=
  (p = AgentRunPhasePending ∧ q = AgentRunPhaseActing) ∨
  (p = AgentRunPhaseActing ∧ q = AgentRunPhaseSucceeded) ∨
  (p = AgentRunPhaseActing ∧ q = AgentRunPhaseFailed) ∨
  (p = AgentRunPhaseActing ∧ q = AgentRunPhasePending)

/-! ## What a sequence of reconciliations adds to the store -/

/-- Between two states of a list of objects, nothing was added, or one object
with the given key was added at the end and no object with that key was there
before. -/
def AddsAtMostOne {α : Type} (key : α → Bool) (before after : List α) : Prop :=
  after = before ∨ (before.any key = false ∧ ∃ x, key x = true ∧ after = before ++ [x])

/-- Between two states of the store, for a request of the given namespace and
name: at most one role and one role binding named `agentrun-<name>` and one pod
named `<name>-agent` were added in that namespace, each only when the store
held none of that name, and nothing else changed. -/
def StoreGrows (ns name : String) (s s2 : Store) : Prop :=
  AddsAtMostOne (fun x : Role => x.ObjectMeta.named ns ("agentrun-" ++ name))
    s.roles s2.roles ∧
  AddsAtMostOne (fun x : RoleBinding => x.ObjectMeta.named ns ("agentrun-" ++ name))
    s.roleBindings s2.roleBindings ∧
  AddsAtMostOne (fun x : Pod => x.ObjectMeta.named ns (name ++ "-agent")) s.pods s2.pods

end Controller

/-!
# The agent process

A shallow embedding of `loadOPAPolicy` of `cmd/agent/main.go`, with the library
functions `filepath.Join` and `filepath.Clean` on a Unix system.  The file
system is external: `os.ReadFile` is a function from the path to the pair of
data and error it returns.  The standard logger is modelled by the list of the
messages written to it.
-/

namespace Main

/-- The elements of a path between its separators, empty ones included: the
characters read so far of the current element, in reverse, and the rest. -/
def splitElems : List Char → List Char → List (List Char)
  | cur, [] => [cur.reverse]
  | cur, c :: cs => if c = '/' then cur.reverse :: splitElems [] cs else splitElems (c :: cur) cs

/-- The loop of `filepath.Clean`: the elements kept so far, last first, and the
elements still to read.  An empty element and `.` are dropped; `..` removes the
element before it, is kept when there is none to remove and the path is not
rooted, and is dropped at the root. -/
def cleanElems (rooted : Bool) : List (List Char) → List (List Char) → List (List Char)
  | out, [] => out.reverse
  | out, e :: es =>
    if e = [] ∨ e = ['.'] then cleanElems rooted out es
    else if e = ['.', '.'] then
      match out with
      | top :: below =>
        if top = ['.', '.'] then cleanElems rooted (e :: out) es
        else cleanElems rooted below es
      | [] => if rooted then cleanElems rooted [] es else cleanElems rooted [e] es
    else cleanElems rooted (e :: out) es

/-- The library function `filepath.Clean` on Unix: the shortest path name
equivalent to `path` by purely lexical processing. -/
def Clean (path : String) : String :=
  let rooted := path.data.head? = some '/'
  let elems := cleanElems rooted [] (splitElems [] path.data)
  let body := String.mk (List.intercalate ['/'] elems)
  if rooted then "/" ++ body else if body = "" then "." else body

/-- The library function `filepath.Join` on Unix: the elements from the first
non-empty one on, joined by the separator and cleaned; the empty string when
every element is empty. -/
def Join (elem : List String) : String :=
  match elem.dropWhile (fun e => e = "") with
  | [] => ""
  | rest => Clean ("/".intercalate rest)

/-- What a call of `loadOPAPolicy` leaves: the pair it returns and the messages
it wrote to the standard logger. -/
structure Loaded where
  content : String
  err : Option Agent.GoError
  logged : List String
  deriving DecidableEq, Repr

/-- The text of the policy that `loadOPAPolicy` returns when it reads no file. -/
def defaultPolicy : String :=
  "\npackage agent.tools\ndefault allow = true\n"

/-- The function `loadOPAPolicy`; `ReadFile` is `os.ReadFile` on the file
system of the process. -/
def loadOPAPolicy (ReadFile : String → String × Option Agent.GoError) (configPath : String) :
    Loaded :=
  let path := Join [configPath, "guardrails", "policy.rego"]
  match ReadFile path with
  | (_, some _) =>
    { content := defaultPolicy
      err := none
      logged := ["No policy found at " ++ path ++ ", using default policy"] }
  | (data, none) => { content := data, err := none, logged := [] }

/-- A file system that holds one file. -/
def oneFile (path content : String) : String → String × Option Agent.GoError :=
  fun p =>
    if p = path then (content, none)
    else ("", some (.text ("open " ++ p ++ ": no such file or directory")))

/-- The lines of a list of characters: the characters read so far of the
current line, in reverse, and the rest. -/
def splitLines : List Char → List Char → List (List Char)
  | cur, [] => [cur.reverse]
  | cur, c :: cs =>
    if c = '\n' then cur.reverse :: splitLines [] cs else splitLines (c :: cur) cs

/-- The lines of a text. -/
def linesOf (text : String) : List String :=
  (splitLines [] text.data).map String.mk

/-- The files that a pod puts in its containers from the ConfigMap volumes of
the given name: for each mount of the volume and each item of the ConfigMap,
the path of the item under the mount path. -/
def projectedFiles (pod : Controller.Pod) (volume : String) : List String :=
  (((pod.Spec.Containers.map (fun c => c.VolumeMounts)).flatten.filter
    (fun m => m.Name = volume)).map (fun m =>
      ((pod.Spec.Volumes.filter (fun v => v.Name = volume)).map (fun v =>
        match v.VolumeSource.ConfigMap with
        | some source => source.Items.map (fun item => Join [m.MountPath, item.Path])
        | none => [])).flatten)).flatten

end Main

/-!
# The result of a run as a JSON document

A shallow embedding of the types `Result` and `ToolCallRecord` of
`pkg/agent/loop.go` with their field tags, and of what the package
`encoding/json` of the Go library does with them.

Conventions of the embedding.

* `encoding/json` works on the bytes of a string, so here a Go string is the
  sequence of its bytes (`GoString`).
* A JSON document is modelled by the value it denotes (`Json`); the text of the
  document is not modelled.  Numbers are integers, which is what `Marshal`
  writes for the fields of type `int`.
* `Input`, a `map[string]interface{}`, is kept as the JSON object that
  `Marshal` writes for it, or nil.
-/

namespace JSON

/-- A Go string: the sequence of its bytes. -/
abbrev GoString := List (Fin 256)

/-- The value of a JSON document. -/
inductive Json where
  | null
  | bool (b : Bool)
  | num (n : Int)
  | str (s : GoString)
  | arr (items : List Json)
  | obj (members : List (String × Json))

/-- ToolCallRecord records a tool call execution. -/
structure ToolCallRecord where
  ID : GoString
  Name : GoString
  Input : Option (List (String × Json))
  Output : GoString
  Error : GoString

/-- Result represents the result of running the loop. -/
structure Result where
  Status : GoString
  Iterations : Int
  ToolCalls : List ToolCallRecord
  FinalResponse : GoString
  TotalTokensIn : Int
  TotalTokensOut : Int
  Error : GoString

/-- The byte is a continuation byte of UTF-8, `0x80..0xBF`. -/
def isCont (b : Fin 256) : Bool :=
  0x80 ≤ b.val && b.val ≤ 0xBF

/-- The library function `utf8.DecodeRune`, as far as its width goes: the
number of bytes of the UTF-8 encoding at the head of the string, or `none` when
the head is not a valid encoding (the function then returns `RuneError` with
width 1). -/
def runeLen : GoString → Option Nat
  | [] => none
  | b0 :: rest =>
    if b0.val < 0x80 then some 1
    else if 0xC2 ≤ b0.val ∧ b0.val ≤ 0xDF then
      match rest with
      | b1 :: _ => if isCont b1 then some 2 else none
      | _ => none
    else if 0xE0 ≤ b0.val ∧ b0.val ≤ 0xEF then
      match rest with
      | b1 :: b2 :: _ =>
        if (if b0.val = 0xE0 then 0xA0 ≤ b1.val ∧ b1.val ≤ 0xBF
            else if b0.val = 0xED then 0x80 ≤ b1.val ∧ b1.val ≤ 0x9F
            else isCont b1 = true) ∧ isCont b2 = true then some 3
        else none
      | _ => none
    else if 0xF0 ≤ b0.val ∧ b0.val ≤ 0xF4 then
      match rest with
      | b1 :: b2 :: b3 :: _ =>
        if (if b0.val = 0xF0 then 0x90 ≤ b1.val ∧ b1.val ≤ 0xBF
            else if b0.val = 0xF4 then 0x80 ≤ b1.val ∧ b1.val ≤ 0x8F
            else isCont b1 = true) ∧ isCont b2 = true ∧ isCont b3 = true then some 4
        else none
      | _ => none
    else none

/-- The UTF-8 encoding of U+FFFD, the replacement character. -/
def replacement : GoString := [0xEF, 0xBF, 0xBD]

/-- The coercion of a string to valid UTF-8 that `Marshal` applies to every
string it writes: each byte that does not start a valid encoding is replaced by
U+FFFD.  `skip` counts the bytes still to copy of an encoding found valid. -/
def coerce : Nat → GoString → GoString
  | _, [] => []
  | skip + 1, b :: rest => b :: coerce skip rest
  | 0, b :: rest =>
    match runeLen (b :: rest) with
    | some n => b :: coerce (n - 1) rest
    | none => replacement ++ coerce 0 rest

/-- The string a JSON document holds for a Go string. -/
def toValidUTF8 (s : GoString) : GoString :=
  coerce 0 s

/-- The library function `utf8.Valid`, with the bytes still to skip of an
encoding found valid. -/
def validFrom : Nat → GoString → Bool
  | _, [] => true
  | skip + 1, _ :: rest => validFrom skip rest
  | 0, b :: rest =>
    match runeLen (b :: rest) with
    | some n => validFrom (n - 1) rest
    | none => false

/-- The library function `utf8.Valid`. -/
def validUTF8 (s : GoString) : Bool :=
  validFrom 0 s

/-! ## `Marshal` -/

/-- What `Marshal` writes for a string. -/
def marshalString (s : GoString) : Json :=
  .str (toValidUTF8 s)

/-- What `Marshal` writes for a `ToolCallRecord`: an object with the members
that the field tags name, in the order of the fields; `error` is left out when
it is empty. -/
def ToolCallRecord.Marshal (c : ToolCallRecord) : Json :=
  .obj
    ([("id", marshalString c.ID),
      ("name", marshalString c.Name),
      ("input", match c.Input with
        | none => .null
        | some members => .obj members),
      ("output", marshalString c.Output)] ++
     (if c.Error = [] then [] else [("error", marshalString c.Error)]))

/-- What `Marshal` writes for a `Result`: an object with the members that the
field tags name, in the order of the fields; `error` is left out when it is
empty. -/
def Result.Marshal (r : Result) : Json :=
  .obj
    ([("status", marshalString r.Status),
      ("iterations", .num r.Iterations),
      ("tool_calls", .arr (r.ToolCalls.map ToolCallRecord.Marshal)),
      ("final_response", marshalString r.FinalResponse),
      ("total_tokens_in", .num r.TotalTokensIn),
      ("total_tokens_out", .num r.TotalTokensOut)] ++
     (if r.Error = [] then [] else [("error", marshalString r.Error)]))

/-! ## `Unmarshal` -/

/-- The folding of a character under which `Unmarshal` compares the key of a
member with the name of a field, for names made of ASCII characters. -/
def foldChar (c : Char) : Char :=
  if 'a' ≤ c ∧ c ≤ 'z' then Char.ofNat (c.toNat - 32)
  else if c = Char.ofNat 0x17F then 'S'
  else if c = Char.ofNat 0x212A then 'K'
  else c

/-- The folding of a name. -/
def foldName (s : String) : String :=
  String.mk (s.data.map foldChar)

/-- The field that the key of a member names: the field whose tag is the key
or, when there is none, the first field whose tag equals the key under
folding. -/
def fieldOf (tags : List String) (key : String) : Option String :=
  match tags.find? (fun t => t = key) with
  | some t => some t
  | none => tags.find? (fun t => foldName t = foldName key)

/-- The error `UnmarshalTypeError` of a value that does not fit a field. -/
def typeError (value field : String) : Agent.GoError :=
  .text ("json: cannot unmarshal " ++ value ++ " into Go struct field " ++ field)

/-- The name of the kind of a value in an `UnmarshalTypeError`. -/
def Json.kind : Json → String
  | .null => "null"
  | .bool _ => "bool"
  | .num _ => "number"
  | .str _ => "string"
  | .arr _ => "array"
  | .obj _ => "object"

/-- A value into a field of type `string`: null has no effect. -/
def decodeString (field : String) (old : GoString) : Json → Except Agent.GoError GoString
  | .null => .ok old
  | .str s => .ok s
  | j => .error (typeError j.kind field)

/-- A value into a field of type `int`: null has no effect, and a number that
does not fit 64 bits is an error. -/
def decodeInt (field : String) (old : Int) : Json → Except Agent.GoError Int
  | .null => .ok old
  | .num n =>
    if -2 ^ 63 ≤ n ∧ n < 2 ^ 63 then .ok n else .error (typeError "number" field)
  | j => .error (typeError j.kind field)

/-- Go `m[k] = v` on the members of an object. -/
def setMember (m : List (String × Json)) (k : String) (v : Json) : List (String × Json) :=
  if m.any (fun kv => kv.1 = k) then
    m.map (fun kv => if kv.1 = k then (k, v) else kv)
  else
    m ++ [(k, v)]

/-- A value into a field of type `map[string]interface{}`: null sets the map
to nil, an object stores its members in the map. -/
def decodeInput (field : String) (old : Option (List (String × Json))) :
    Json → Except Agent.GoError (Option (List (String × Json)))
  | .null => .ok none
  | .obj members =>
    .ok (some (members.foldl (fun m kv => setMember m kv.1 kv.2) (old.getD [])))
  | j => .error (typeError j.kind field)

/-- The zero value of `ToolCallRecord`. -/
def ToolCallRecord.zero : ToolCallRecord :=
  { ID := [], Name := [], Input := none, Output := [], Error := [] }

/-- The zero value of `Result`. -/
def Result.zero : Result :=
  { Status := [], Iterations := 0, ToolCalls := [], FinalResponse := [],
    TotalTokensIn := 0, TotalTokensOut := 0, Error := [] }

/-- One member of an object into the field of a `ToolCallRecord` that its key
names; a key that names no field is skipped. -/
def ToolCallRecord.setField (c : ToolCallRecord) (key : String) (v : Json) :
    Except Agent.GoError ToolCallRecord :=
  match fieldOf ["id", "name", "input", "output", "error"] key with
  | some "id" =>
    match decodeString "ToolCallRecord.id" c.ID v with
    | .ok s => .ok { c with ID := s }
    | .error e => .error e
  | some "name" =>
    match decodeString "ToolCallRecord.name" c.Name v with
    | .ok s => .ok { c with Name := s }
    | .error e => .error e
  | some "input" =>
    match decodeInput "ToolCallRecord.input" c.Input v with
    | .ok m => .ok { c with Input := m }
    | .error e => .error e
  | some "output" =>
    match decodeString "ToolCallRecord.output" c.Output v with
    | .ok s => .ok { c with Output := s }
    | .error e => .error e
  | some "error" =>
    match decodeString "ToolCallRecord.error" c.Error v with
    | .ok s => .ok { c with Error := s }
    | .error e => .error e
  | _ => .ok c

/-- The members of an object into a `ToolCallRecord`, in order. -/
def ToolCallRecord.setFields (c : ToolCallRecord) :
    List (String × Json) → Except Agent.GoError ToolCallRecord
  | [] => .ok c
  | kv :: rest =>
    match c.setField kv.1 kv.2 with
    | .ok c2 => ToolCallRecord.setFields c2 rest
    | .error e => .error e

/-- A value into a `ToolCallRecord`: null has no effect. -/
def ToolCallRecord.Unmarshal (c : ToolCallRecord) : Json → Except Agent.GoError ToolCallRecord
  | .null => .ok c
  | .obj members => c.setFields members
  | j => .error (typeError j.kind "ToolCallRecord")

/-- The items of an array into a slice of `ToolCallRecord`: item `i` goes into
element `i` of the slice when the slice has one, else into a zero value. -/
def decodeItems : List ToolCallRecord → List Json → Except Agent.GoError (List ToolCallRecord)
  | _, [] => .ok []
  | old, j :: js =>
    match (old.headD ToolCallRecord.zero).Unmarshal j with
    | .ok c =>
      match decodeItems old.tail js with
      | .ok cs => .ok (c :: cs)
      | .error e => .error e
    | .error e => .error e

/-- A value into a field of type `[]ToolCallRecord`: null sets the slice to
nil. -/
def decodeToolCalls (field : String) (old : List ToolCallRecord) :
    Json → Except Agent.GoError (List ToolCallRecord)
  | .null => .ok []
  | .arr items => decodeItems old items
  | j => .error (typeError j.kind field)

/-- One member of an object into the field of a `Result` that its key names; a
key that names no field is skipped. -/
def Result.setField (r : Result) (key : String) (v : Json) : Except Agent.GoError Result :=
  match fieldOf ["status", "iterations", "tool_calls", "final_response", "total_tokens_in",
      "total_tokens_out", "error"] key with
  | some "status" =>
    match decodeString "Result.status" r.Status v with
    | .ok s => .ok { r with Status := s }
    | .error e => .error e
  | some "iterations" =>
    match decodeInt "Result.iterations" r.Iterations v with
    | .ok n => .ok { r with Iterations := n }
    | .error e => .error e
  | some "tool_calls" =>
    match decodeToolCalls "Result.tool_calls" r.ToolCalls v with
    | .ok cs => .ok { r with ToolCalls := cs }
    | .error e => .error e
  | some "final_response" =>
    match decodeString "Result.final_response" r.FinalResponse v with
    | .ok s => .ok { r with FinalResponse := s }
    | .error e => .error e
  | some "total_tokens_in" =>
    match decodeInt "Result.total_tokens_in" r.TotalTokensIn v with
    | .ok n => .ok { r with TotalTokensIn := n }
    | .error e => .error e
  | some "total_tokens_out" =>
    match decodeInt "Result.total_tokens_out" r.TotalTokensOut v with
    | .ok n => .ok { r with TotalTokensOut := n }
    | .error e => .error e
  | some "error" =>
    match decodeString "Result.error" r.Error v with
    | .ok s => .ok { r with Error := s }
    | .error e => .error e
  | _ => .ok r

/-- The members of an object into a `Result`, in order. -/
def Result.setFields (r : Result) : List (String × Json) → Except Agent.GoError Result
  | [] => .ok r
  | kv :: rest =>
    match r.setField kv.1 kv.2 with
    | .ok r2 => Result.setFields r2 rest
    | .error e => .error e

/-- The call `json.Unmarshal(data, &result)` on a `Result` that holds its zero
value, for a document with the value `j`. -/
def Result.Unmarshal : Json → Except Agent.GoError Result
  | .null => .ok Result.zero
  | .obj members => Result.zero.setFields members
  | j => .error (typeError j.kind "Result")

/-- The value is a Go `int`: it fits 64 bits. -/
def IsInt (n : Int) : Prop :=
  -2 ^ 63 ≤ n ∧ n < 2 ^ 63

/-- A result whose one tool call returned the byte `0xFF`, as the log of a pod
may hold. -/
def binaryLogResult : Result :=
  { Status := [], Iterations := 1
    ToolCalls := [{ ID := [0x31], Name := [0x6C, 0x6F, 0x67], Input := some [],
                    Output := [0xFF], Error := [] }]
    FinalResponse := [], TotalTokensIn := 100, TotalTokensOut := 50, Error := [] }

/-- The outputs of the tool calls of the result that `Unmarshal` returns. -/
def outputsOf : Except Agent.GoError Result → Option (List GoString)
  | .ok r => some (r.ToolCalls.map (fun c => c.Output))
  | .error _ => none

/-- The record that `Unmarshal` reads back from what `Marshal` wrote for `c`. -/
def ToolCallRecord.readBack (c : ToolCallRecord) : ToolCallRecord :=
  { ID := toValidUTF8 c.ID
    Name := toValidUTF8 c.Name
    Input := match c.Input with
      | none => none
      | some members => some (members.foldl (fun m kv => setMember m kv.1 kv.2) [])
    Output := toValidUTF8 c.Output
    Error := toValidUTF8 c.Error }

/-- The result that `Unmarshal` reads back from what `Marshal` wrote for `r`. -/
def Result.readBack (r : Result) : Result :=
  { Status := toValidUTF8 r.Status
    Iterations := r.Iterations
    ToolCalls := r.ToolCalls.map ToolCallRecord.readBack
    FinalResponse := toValidUTF8 r.FinalResponse
    TotalTokensIn := r.TotalTokensIn
    TotalTokensOut := r.TotalTokensOut
    Error := toValidUTF8 r.Error }

/-- A result whose strings are ASCII text: the call "1" of the tool "log"
returned "ok". -/
def textResult : Result :=
  { Status := [0x73, 0x75, 0x63, 0x63, 0x65, 0x65, 0x64, 0x65, 0x64], Iterations := 1
    ToolCalls := [{ ID := [0x31], Name := [0x6C, 0x6F, 0x67], Input := some [],
                    Output := [0x6F, 0x6B], Error := [] }]
    FinalResponse := [0x64, 0x6F, 0x6E, 0x65], TotalTokensIn := 250, TotalTokensOut := 125
    Error := [] }

end JSON

/-!
# The tool `k8s_get_resources`

A shallow embedding of `pkg/tools/k8s/get_resources.go`.  The Kubernetes API is
external: each `List` call of the client is a function from the namespace, the
label selector and the limit of its options to the items and the error it
returns.  `json.MarshalIndent` is a function from the slice it is handed to the
text and the error it returns.  A run-time panic of `Execute` is modelled by
`Outcome.panicked`.
-/

namespace K8s

/-! ## The tool `k8s_get_resources` (`pkg/tools/k8s/get_resources.go`) -/

/-- The dynamic types of the values of a tool input that `Execute` tells apart.
A `float64` is kept by the result of the conversion `int64(l)`, the only use
`Execute` makes of it; JSON numbers arrive as `float64`, the tests pass `int`. -/
inductive Value where
  | string (s : String)
  | float64 (toInt64 : Int)
  | int (n : Int)
  | other
  deriving DecidableEq, Repr

/-- Go `map[string]interface{}`, as an association list with unique keys. -/
abbrev Input := List (String × Value)

/-- Go `m[key]` on the input: the value under the key, if there is one. -/
def Input.get (input : Input) (key : String) : Option Value :=
  (input.find? (fun kv => kv.1 = key)).map Prod.snd

/-- Go `v, ok := x.(string)`. -/
def asString : Option Value → Option String
  | some (.string s) => some s
  | _ => none

/-- The type `corev1.ContainerStatus`, with the fields `getPods` reads. -/
structure ContainerStatus where
  Ready : Bool
  RestartCount : Int
  deriving DecidableEq, Repr

/-- The type `corev1.Pod`, with the fields `getPods` reads; the creation
timestamp is `none` when `IsZero()`, else its text `String()`. -/
structure Pod where
  Name : String
  Namespace : String
  Labels : List (String × String)
  CreationTimestamp : Option String
  Phase : String
  ContainerStatuses : List ContainerStatus
  deriving DecidableEq, Repr

/-- The type `appsv1.Deployment`, with the fields `getDeployments` reads;
`Replicas` is the pointer `Spec.Replicas`. -/
structure Deployment where
  Name : String
  Namespace : String
  Labels : List (String × String)
  CreationTimestamp : Option String
  Replicas : Option Int
  ReadyReplicas : Int
  deriving DecidableEq, Repr

/-- The type `corev1.ServicePort`, with the fields `getServices` reads. -/
structure ServicePort where
  Port : Int
  Protocol : String
  deriving DecidableEq, Repr

/-- The type `corev1.Service`, with the fields `getServices` reads; `Type_` is
`Spec.Type`. -/
structure Service where
  Name : String
  Namespace : String
  Labels : List (String × String)
  CreationTimestamp : Option String
  Type_ : String
  ClusterIP : String
  Ports : List ServicePort
  deriving DecidableEq, Repr

/-- The type `appsv1.ReplicaSet`, with the fields `getReplicaSets` reads. -/
structure ReplicaSet where
  Name : String
  Namespace : String
  Labels : List (String × String)
  CreationTimestamp : Option String
  Replicas : Option Int
  ReadyReplicas : Int
  deriving DecidableEq, Repr

/-- The local type `podInfo` of `getPods`. -/
structure podInfo where
  Name : String
  Namespace : String
  Phase : String
  Labels : List (String × String)
  Ready : String
  Restarts : Int
  Age : String
  deriving DecidableEq, Repr

/-- The local type `deploymentInfo` of `getDeployments`. -/
structure deploymentInfo where
  Name : String
  Namespace : String
  Replicas : String
  Labels : List (String × String)
  Age : String
  deriving DecidableEq, Repr

/-- The local type `serviceInfo` of `getServices`; `Type_` is its field `Type`. -/
structure serviceInfo where
  Name : String
  Namespace : String
  Type_ : String
  ClusterIP : String
  Ports : List String
  Labels : List (String × String)
  Age : String
  deriving DecidableEq, Repr

/-- The local type `replicaSetInfo` of `getReplicaSets`. -/
structure replicaSetInfo where
  Name : String
  Namespace : String
  Replicas : String
  Labels : List (String × String)
  Age : String
  deriving DecidableEq, Repr

/-- The slice handed to `json.MarshalIndent`, one entry for each resource listed. -/
inductive Listing where
  | pods (result : List podInfo)
  | deployments (result : List deploymentInfo)
  | services (result : List serviceInfo)
  | replicaSets (result : List replicaSetInfo)
  deriving DecidableEq, Repr

/-- The number of resources of a listing. -/
def Listing.length : Listing → Nat
  | .pods result => result.length
  | .deployments result => result.length
  | .services result => result.length
  | .replicaSets result => result.length

/-- The `List` calls of `kubernetes.Interface` that the tool makes, each with
the namespace, the label selector and the limit of its `ListOptions`; they
return the items of the list and the error. -/
structure KubeClient where
  ListPods : String → String → Int → List Pod × Option Agent.GoError
  ListDeployments : String → String → Int → List Deployment × Option Agent.GoError
  ListServices : String → String → Int → List Service × Option Agent.GoError
  ListReplicaSets : String → String → Int → List ReplicaSet × Option Agent.GoError

/-- GetResources implements the k8s_get_resources tool. -/
structure GetResources where
  KubeClient : KubeClient

/-- What a call of `Execute` does: it returns its output and its error, or it
panics. -/
inductive Outcome where
  | returned (output : String) (err : Option Agent.GoError)
  | panicked
  deriving DecidableEq, Repr

/-- A Go `int32` sum: it wraps around. -/
def wrapInt32 (n : Int) : Int :=
  (n + 2 ^ 31) % 2 ^ 32 - 2 ^ 31

/-- Go `if int64(len(items)) > limit { items = items[:limit] }`: the slice
expression panics (`none`) when `limit` is negative. -/
def truncate {α : Type} (items : List α) (limit : Int) : Option (List α) :=
  if (items.length : Int) > limit then
    if limit < 0 then none else some (items.take limit.toNat)
  else
    some items

/-- The age of a resource: the text of its creation timestamp, "unknown" for
the zero time. -/
def ageOf (creationTimestamp : Option String) : String :=
  match creationTimestamp with
  | some text => text
  | none => "unknown"

/-- Lines 96-120: the entry of a pod. -/
def podInfoOf (pod : Pod) : podInfo :=
  let readyCount := pod.ContainerStatuses.countP (fun cs => cs.Ready)
  let totalCount := pod.ContainerStatuses.length
  let restarts := pod.ContainerStatuses.foldl (fun r cs => wrapInt32 (r + cs.RestartCount)) 0
  { Name := pod.Name
    Namespace := pod.Namespace
    Phase := pod.Phase
    Labels := pod.Labels
    Ready := toString readyCount ++ "/" ++ toString totalCount
    Restarts := restarts
    Age := ageOf pod.CreationTimestamp }

/-- The text of the replicas of a deployment or a replica set. -/
def replicasOf (replicas : Option Int) (readyReplicas : Int) : String :=
  match replicas with
  | some n => toString readyReplicas ++ "/" ++ toString n
  | none => "0/0"

/-- The entry of a deployment. -/
def deploymentInfoOf (deploy : Deployment) : deploymentInfo :=
  { Name := deploy.Name
    Namespace := deploy.Namespace
    Replicas := replicasOf deploy.Replicas deploy.ReadyReplicas
    Labels := deploy.Labels
    Age := ageOf deploy.CreationTimestamp }

/-- The entry of a service. -/
def serviceInfoOf (svc : Service) : serviceInfo :=
  { Name := svc.Name
    Namespace := svc.Namespace
    Type_ := svc.Type_
    ClusterIP := svc.ClusterIP
    Ports := svc.Ports.map (fun p => toString p.Port ++ "/" ++ p.Protocol)
    Labels := svc.Labels
    Age := ageOf svc.CreationTimestamp }

/-- The entry of a replica set. -/
def replicaSetInfoOf (rs : ReplicaSet) : replicaSetInfo :=
  { Name := rs.Name
    Namespace := rs.Namespace
    Replicas := replicasOf rs.Replicas rs.ReadyReplicas
    Labels := rs.Labels
    Age := ageOf rs.CreationTimestamp }

/-- The end of the four `get` functions: the listing is marshalled and
returned, or the error of `json.MarshalIndent` is. -/
def marshalOutput (MarshalIndent : Listing → String × Option Agent.GoError)
    (listing : Listing) : Outcome :=
  match MarshalIndent listing with
  | (_, some err) => .returned "" (some (.wrapped "failed to marshal output: " err))
  | (output, none) => .returned output none

/-- The function `getPods`. -/
def GetResources.getPods (g : GetResources)
    (MarshalIndent : Listing → String × Option Agent.GoError)
    (ns labelSelector : String) (limit : Int) : Outcome :=
  match g.KubeClient.ListPods ns labelSelector limit with
  | (_, some err) => .returned "" (some (.wrapped "failed to list pods: " err))
  | (pods, none) =>
    match truncate pods limit with
    | none => .panicked
    | some items => marshalOutput MarshalIndent (.pods (items.map podInfoOf))

/-- The function `getDeployments`. -/
def GetResources.getDeployments (g : GetResources)
    (MarshalIndent : Listing → String × Option Agent.GoError)
    (ns labelSelector : String) (limit : Int) : Outcome :=
  match g.KubeClient.ListDeployments ns labelSelector limit with
  | (_, some err) => .returned "" (some (.wrapped "failed to list deployments: " err))
  | (deployments, none) =>
    match truncate deployments limit with
    | none => .panicked
    | some items => marshalOutput MarshalIndent (.deployments (items.map deploymentInfoOf))

/-- The function `getServices`. -/
def GetResources.getServices (g : GetResources)
    (MarshalIndent : Listing → String × Option Agent.GoError)
    (ns labelSelector : String) (limit : Int) : Outcome :=
  match g.KubeClient.ListServices ns labelSelector limit with
  | (_, some err) => .returned "" (some (.wrapped "failed to list services: " err))
  | (services, none) =>
    match truncate services limit with
    | none => .panicked
    | some items => marshalOutput MarshalIndent (.services (items.map serviceInfoOf))

/-- The function `getReplicaSets`. -/
def GetResources.getReplicaSets (g : GetResources)
    (MarshalIndent : Listing → String × Option Agent.GoError)
    (ns labelSelector : String) (limit : Int) : Outcome :=
  match g.KubeClient.ListReplicaSets ns labelSelector limit with
  | (_, some err) => .returned "" (some (.wrapped "failed to list replicasets: " err))
  | (replicaSets, none) =>
    match truncate replicaSets limit with
    | none => .panicked
    | some items => marshalOutput MarshalIndent (.replicaSets (items.map replicaSetInfoOf))

/-- Lines 40-45: the limit the input asks for, 100 when it gives no number. -/
def requestedLimit (input : Input) : Int :=
  match input.get "limit" with
  | some (.float64 l) => l
  | some (.int l) => l
  | _ => 100

/-- The method `Execute`: it runs the tool. -/
def GetResources.Execute (g : GetResources)
    (MarshalIndent : Listing → String × Option Agent.GoError) (input : Input) : Outcome :=
  match asString (input.get "namespace") with
  | none => .returned "" (some (.text "namespace is required"))
  | some ns =>
    if ns = "" then .returned "" (some (.text "namespace is required"))
    else
      match asString (input.get "resourceType") with
      | none => .returned "" (some (.text "resourceType is required"))
      | some resourceType =>
        if resourceType = "" then .returned "" (some (.text "resourceType is required"))
        else
          let labelSelector := (asString (input.get "labelSelector")).getD ""
          let limit := requestedLimit input
          let limit := if limit > 100 then 100 else limit
          if resourceType = "pods" then
            g.getPods MarshalIndent ns labelSelector limit
          else if resourceType = "deployments" then
            g.getDeployments MarshalIndent ns labelSelector limit
          else if resourceType = "services" then
            g.getServices MarshalIndent ns labelSelector limit
          else if resourceType = "replicasets" then
            g.getReplicaSets MarshalIndent ns labelSelector limit
          else
            .returned ""
              (some (.text ("invalid resourceType: " ++ resourceType ++
                " (must be one of: pods, deployments, services, replicasets)")))

/-! ## The test doubles of `get_resources_test.go` -/

/-- A client whose `List` calls return these pods, nothing of the other
types, and a nil error, whatever the options: the fake client "doesn't respect
Limit". -/
def podsClient (pods : List Pod) : KubeClient :=
  { ListPods := fun _ _ _ => (pods, none)
    ListDeployments := fun _ _ _ => ([], none)
    ListServices := fun _ _ _ => ([], none)
    ListReplicaSets := fun _ _ _ => ([], none) }

/-- A pod of `TestGetResources_Limit`. -/
def limitTestPod (name : String) : Pod :=
  { Name := name, Namespace := "default", Labels := [], CreationTimestamp := none
    Phase := "", ContainerStatuses := [] }

/-- The tool of `TestGetResources_Limit`, over its ten pods. -/
def limitTestTool : GetResources :=
  { KubeClient := podsClient
      (["pod-a", "pod-b", "pod-c", "pod-d", "pod-e", "pod-f", "pod-g", "pod-h", "pod-i",
        "pod-j"].map limitTestPod) }

/-- The input of `TestGetResources_Limit` with the limit `limit`, given as an
`int` as the test does. -/
def limitTestInput (limit : Int) : Input :=
  [("namespace", .string "default"), ("resourceType", .string "pods"), ("limit", .int limit)]

/-- The names of the pods of a listing, in order. -/
def Listing.podNames : Listing → List String
  | .pods result => result.map (fun info => info.Name)
  | _ => []

/-- A stand-in for `json.MarshalIndent` that keeps the names of the pods
listed, one on each line, and does not fail. -/
def namesOnly (listing : Listing) : String × Option Agent.GoError :=
  (String.join (listing.podNames.map (fun name => name ++ "\n")), none)

end K8s

namespace Agent

/-! ## Lemmas on the batch of tool calls -/

theorem recordsOf_append (a b : List Event) :
    recordsOf (a ++ b) = recordsOf a ++ recordsOf b := by
  simp [recordsOf, List.filterMap_append]

theorem batchEvents_cons (toolCall : ToolCall) (rest : List ToolCall)
    (out : String × Option GoError) (outs : List (String × Option GoError)) :
    batchEvents (toolCall :: rest) (out :: outs) =
      [.policyAllow toolCall none, .toolExecute toolCall out.1 out.2] ++
        batchEvents rest outs := by
  simp [batchEvents]

/-- What the inner loop does: it executes a prefix of the batch, each call
after its policy check, and either reaches the end of the batch or stops at
the first call that is denied or names no registered tool. -/
theorem processToolCalls_spec (l : Loop) (toolCalls : List ToolCall) :
    ∀ (result : Result) (toolResults : List ToolResult) (trace : List Event),
    match processToolCalls l toolCalls result toolResults trace with
    | .completed result' toolResults' trace' =>
      ∃ outs, outs.length = toolCalls.length ∧
        (∀ tc ∈ toolCalls, (l.Tools tc.Name).isSome = true) ∧
        trace' = trace ++ batchEvents toolCalls outs ∧
        result' = { result with
                    ToolCalls := result.ToolCalls ++ recordsOf (batchEvents toolCalls outs) } ∧
        toolResults' = toolResults ++ toolResultsOf (batchEvents toolCalls outs)
    | .aborted result' err trace' =>
      ∃ pre toolCall post outs, toolCalls = pre ++ toolCall :: post ∧
        outs.length = pre.length ∧
        (∀ tc ∈ pre, (l.Tools tc.Name).isSome = true) ∧
        ((∃ e, l.Policy (trace ++ batchEvents pre outs) toolCall = some e ∧
            trace' = trace ++ batchEvents pre outs ++ [.policyAllow toolCall (some e)] ∧
            err = .wrapped "policy violation: " e ∧
            result' = { result with
              ToolCalls := result.ToolCalls ++ recordsOf (batchEvents pre outs)
              Status := "failed"
              Error := "Policy violation for tool " ++ toolCall.Name ++ ": " ++ e.Error }) ∨
         (l.Policy (trace ++ batchEvents pre outs) toolCall = none ∧
            l.Tools toolCall.Name = none ∧
            trace' = trace ++ batchEvents pre outs ++ [.policyAllow toolCall none] ∧
            err = .text ("tool not found: " ++ toolCall.Name) ∧
            result' = { result with
              ToolCalls := result.ToolCalls ++ recordsOf (batchEvents pre outs)
              Status := "failed"
              Error := "Tool not found: " ++ toolCall.Name })) := by
  induction toolCalls with
  | nil =>
    intro result toolResults trace
    simp only [processToolCalls]
    exact ⟨[], by simp [batchEvents, recordsOf, toolResultsOf]⟩
  | cons toolCall rest ih =>
    intro result toolResults trace
    rw [processToolCalls]
    cases hpol : l.Policy trace toolCall with
    | some e =>
      simp only
      exact ⟨[], toolCall, rest, [], by simp [batchEvents, recordsOf, hpol]⟩
    | none =>
      simp only
      cases htool : l.Tools toolCall.Name with
      | none =>
        simp only
        exact ⟨[], toolCall, rest, [], by simp [batchEvents, recordsOf, hpol, htool]⟩
      | some tool =>
        simp only
        generalize tool.Execute (trace ++ [.policyAllow toolCall none]) toolCall.Input = out
        rcases out with ⟨output, err⟩
        cases err with
        | some e =>
          simp only
          have h := ih
            { result with
              ToolCalls := result.ToolCalls ++
                [{ ID := toolCall.ID, Name := toolCall.Name, Input := toolCall.Input,
                   Output := "", Error := e.Error }] }
            (toolResults ++
              [{ ToolCallID := toolCall.ID, Content := e.Error, IsError := true }])
            (trace ++ [.policyAllow toolCall none] ++ [.toolExecute toolCall output (some e)])
          revert h
          cases processToolCalls l rest _ _ _ with
          | completed result' trs' trace' =>
            simp only
            rintro ⟨outs, hlen, hreg, htr, hres, htrs⟩
            refine ⟨(output, some e) :: outs, by simp [hlen], ?_, ?_, ?_, ?_⟩
            · intro tc htc
              rcases List.mem_cons.mp htc with rfl | htc
              · simp [htool]
              · exact hreg tc htc
            · simp [htr, batchEvents]
            · simp [hres, batchEvents, recordsOf, List.filterMap_cons, Event.record]
            · simp [htrs, batchEvents, toolResultsOf, List.filterMap_cons, Event.toolResult]
          | aborted result' err' trace' =>
            simp only
            rintro ⟨pre, tc, post, outs, hsplit, hlen, hreg, hcase⟩
            refine ⟨toolCall :: pre, tc, post, (output, some e) :: outs, by simp [hsplit],
              by simp [hlen], ?_, ?_⟩
            · intro tc' htc
              rcases List.mem_cons.mp htc with rfl | htc
              · simp [htool]
              · exact hreg tc' htc
            · rcases hcase with ⟨e', hp, htr, herr, hres⟩ | ⟨hp, hnone, htr, herr, hres⟩
              · left
                refine ⟨e', ?_, ?_, herr, ?_⟩
                · simpa [batchEvents] using hp
                · simp [htr, batchEvents]
                · simp [hres, batchEvents, recordsOf, List.filterMap_cons, Event.record]
              · right
                refine ⟨?_, hnone, ?_, herr, ?_⟩
                · simpa [batchEvents] using hp
                · simp [htr, batchEvents]
                · simp [hres, batchEvents, recordsOf, List.filterMap_cons, Event.record]
        | none =>
          simp only
          have h := ih
            { result with
              ToolCalls := result.ToolCalls ++
                [{ ID := toolCall.ID, Name := toolCall.Name, Input := toolCall.Input,
                   Output := output, Error := "" }] }
            (toolResults ++
              [{ ToolCallID := toolCall.ID, Content := output, IsError := false }])
            (trace ++ [.policyAllow toolCall none] ++ [.toolExecute toolCall output none])
          revert h
          cases processToolCalls l rest _ _ _ with
          | completed result' trs' trace' =>
            simp only
            rintro ⟨outs, hlen, hreg, htr, hres, htrs⟩
            refine ⟨(output, none) :: outs, by simp [hlen], ?_, ?_, ?_, ?_⟩
            · intro tc htc
              rcases List.mem_cons.mp htc with rfl | htc
              · simp [htool]
              · exact hreg tc htc
            · simp [htr, batchEvents]
            · simp [hres, batchEvents, recordsOf, List.filterMap_cons, Event.record]
            · simp [htrs, batchEvents, toolResultsOf, List.filterMap_cons, Event.toolResult]
          | aborted result' err' trace' =>
            simp only
            rintro ⟨pre, tc, post, outs, hsplit, hlen, hreg, hcase⟩
            refine ⟨toolCall :: pre, tc, post, (output, none) :: outs, by simp [hsplit],
              by simp [hlen], ?_, ?_⟩
            · intro tc' htc
              rcases List.mem_cons.mp htc with rfl | htc
              · simp [htool]
              · exact hreg tc' htc
            · rcases hcase with ⟨e', hp, htr, herr, hres⟩ | ⟨hp, hnone, htr, herr, hres⟩
              · left
                refine ⟨e', ?_, ?_, herr, ?_⟩
                · simpa [batchEvents] using hp
                · simp [htr, batchEvents]
                · simp [hres, batchEvents, recordsOf, List.filterMap_cons, Event.record]
              · right
                refine ⟨?_, hnone, ?_, herr, ?_⟩
                · simpa [batchEvents] using hp
                · simp [htr, batchEvents]
                · simp [hres, batchEvents, recordsOf, List.filterMap_cons, Event.record]

/-! ## Lemmas on the outer loop -/

/-- Every pass through the body of the outer loop is one of the cases of `Step`. -/
theorem iterationBody_step (l : Loop) (i : Nat) (st : LoopState) :
    Step l i st (iterationBody l i st) := by
  unfold iterationBody
  rcases hcall : l.Provider st.trace st.messages with ⟨resp, err⟩
  cases err with
  | some err => cases resp <;> exact @Step.callFailed l i st _ err hcall
  | none =>
    cases resp with
    | none => exact @Step.callNil l i st hcall
    | some r =>
      simp only
      by_cases h0 : r.ToolCalls.length = 0
      · rw [if_pos h0]
        exact @Step.noToolCalls l i st r hcall (List.length_eq_zero.mp h0)
      · rw [if_neg h0]
        have hsome : r.ToolCalls ≠ [] := fun h => h0 (by simp [h])
        have hspec := processToolCalls_spec l r.ToolCalls (calledResult st i r) []
          (callTrace st r)
        change Step l i st
          (match processToolCalls l r.ToolCalls (calledResult st i r) [] (callTrace st r) with
           | .aborted result err trace2 => _
           | .completed result toolResults trace2 => _)
        revert hspec
        cases processToolCalls l r.ToolCalls (calledResult st i r) [] (callTrace st r) with
        | aborted result' err' trace' =>
          simp only
          rintro ⟨pre, tc, post, outs, hsplit, hlen, hreg, hcase⟩
          rcases hcase with ⟨e, hp, htr, herr, hres⟩ | ⟨hp, hnone, htr, herr, hres⟩
          · subst htr herr hres
            exact @Step.denied l i st r pre tc post outs e hcall hsplit hlen hreg hp
          · subst htr herr hres
            exact @Step.notFound l i st r pre tc post outs hcall hsplit hlen hreg hp hnone
        | completed result' toolResults' trace' =>
          simp only
          rintro ⟨outs, hlen, hreg, htr, hres, htrs⟩
          subst htr hres htrs
          simp only [List.nil_append]
          rcases hreflect : l.Provider (batchTrace st r r.ToolCalls outs)
              (reflectMessages st r outs) with ⟨resp, err⟩
          change l.Provider (callTrace st r ++ batchEvents r.ToolCalls outs)
              (st.messages ++ [{ Role := "assistant", Content := r.Content }] ++
                [{ Role := "user"
                   Content := toolResultsContent
                     (toolResultsOf (batchEvents r.ToolCalls outs)) }]) = _ at hreflect
          rw [hreflect]
          cases err with
          | some err =>
            cases resp <;>
              exact @Step.reflectFailed l i st r outs _ err hcall hsome hlen hreg hreflect
          | none =>
            cases resp with
            | none => exact @Step.reflectNil l i st r outs hcall hsome hlen hreg hreflect
            | some rr =>
              simp only
              by_cases hend : rr.ToolCalls.length = 0 ∧ rr.StopReason = "end_turn"
              · rw [if_pos hend]
                exact @Step.succeeded l i st r outs rr hcall hsome hlen hreg hreflect
                  ⟨List.length_eq_zero.mp hend.1, hend.2⟩
              · rw [if_neg hend]
                exact @Step.reflected l i st r outs rr hcall hsome hlen hreg hreflect
                  (fun h => hend ⟨by simp [h.1], h.2⟩)

/-- The loop, by induction on the passes left: an invariant `Inv` of the loop
variables that holds at the start and is kept by every pass that goes on gives
`Post` of the outcome, when every exit from the body and the exit at the bound
give it. -/
theorem runLoop_induct (l : Loop) (total : Nat) (Inv : Nat → LoopState → Prop)
    (Post : Outcome → Prop)
    (hnext : ∀ i st st', i < total → Inv i st → Step l i st (.next st') → Inv (i + 1) st')
    (hexit : ∀ i st o, i < total → Inv i st → Step l i st (.exit o) → Post o)
    (hend : ∀ st, Inv total st →
      Post (.returned { st.result with Status := "max_iterations" } none st.trace)) :
    ∀ (n i : Nat) (st : LoopState), i + n = total → Inv i st → Post (runLoop l n i st) := by
  intro n
  induction n with
  | zero =>
    intro i st hi hinv
    have : i = total := by omega
    subst this
    simpa [runLoop] using hend st hinv
  | succ n ih =>
    intro i st hi hinv
    have hstep := iterationBody_step l i st
    rw [runLoop]
    revert hstep
    cases iterationBody l i st with
    | exit o => exact fun hstep => hexit i st o (by omega) hinv hstep
    | next st' =>
      exact fun hstep => ih (i + 1) st' (by omega) (hnext i st st' (by omega) hinv hstep)

/-- The induction principle of the loop, for `Run`. -/
theorem Run_induct (l : Loop) (Inv : Nat → LoopState → Prop) (Post : Outcome → Prop)
    (hinit : Inv 0 { result := initialResult, messages := seedMessages l, trace := [] })
    (hnext : ∀ i st st', i < l.MaxIterations.toNat → Inv i st →
      Step l i st (.next st') → Inv (i + 1) st')
    (hexit : ∀ i st o, i < l.MaxIterations.toNat → Inv i st →
      Step l i st (.exit o) → Post o)
    (hend : ∀ st, Inv l.MaxIterations.toNat st →
      Post (.returned { st.result with Status := "max_iterations" } none st.trace)) :
    Post l.Run :=
  runLoop_induct l l.MaxIterations.toNat Inv Post hnext hexit hend _ 0 _ (by simp) hinit

theorem wrapInt64_zero : wrapInt64 0 = 0 := by
  simp [wrapInt64]

theorem addInt_wrapInt64 (a b : Int) : addInt (wrapInt64 a) b = wrapInt64 (a + b) := by
  unfold addInt wrapInt64
  have h : (a + 2 ^ 63) % 2 ^ 64 - 2 ^ 63 + b + 2 ^ 63 = (a + 2 ^ 63) % 2 ^ 64 + b := by ring
  rw [h, Int.emod_add_emod]
  congr 2
  ring

/-! ## Reading the trace of one iteration -/

theorem responsesOf_append (a b : List Event) :
    responsesOf (a ++ b) = responsesOf a ++ responsesOf b := by
  simp [responsesOf, List.filterMap_append]

theorem responsesOf_batchEvents (tcs : List ToolCall) :
    ∀ outs : List (String × Option GoError), responsesOf (batchEvents tcs outs) = [] := by
  induction tcs with
  | nil => intro outs; simp [batchEvents, responsesOf]
  | cons tc rest ih =>
    intro outs
    cases outs with
    | nil => simp [batchEvents, responsesOf]
    | cons out outs =>
      have h := ih outs
      simp only [responsesOf] at h
      simp [batchEvents, responsesOf, List.filterMap_cons, Event.response, h]

theorem tokensInOf_append_batch (tr : List Event) (tcs : List ToolCall)
    (outs : List (String × Option GoError)) :
    tokensInOf (tr ++ batchEvents tcs outs) = tokensInOf tr := by
  simp [tokensInOf, responsesOf_append, responsesOf_batchEvents]

theorem tokensOutOf_append_batch (tr : List Event) (tcs : List ToolCall)
    (outs : List (String × Option GoError)) :
    tokensOutOf (tr ++ batchEvents tcs outs) = tokensOutOf tr := by
  simp [tokensOutOf, responsesOf_append, responsesOf_batchEvents]

theorem tokensInOf_append_response (tr : List Event) (b : Bool) (msgs : List Message)
    (r : Response) :
    tokensInOf (tr ++ [.providerCall b msgs (some r) none]) =
      addInt (tokensInOf tr) r.TokensIn := by
  simp [tokensInOf, responsesOf_append, responsesOf, Event.response, addInt_wrapInt64]

theorem tokensOutOf_append_response (tr : List Event) (b : Bool) (msgs : List Message)
    (r : Response) :
    tokensOutOf (tr ++ [.providerCall b msgs (some r) none]) =
      addInt (tokensOutOf tr) r.TokensOut := by
  simp [tokensOutOf, responsesOf_append, responsesOf, Event.response, addInt_wrapInt64]

theorem tokensInOf_append_other (tr : List Event) (ev : Event) (h : ev.response = none) :
    tokensInOf (tr ++ [ev]) = tokensInOf tr := by
  simp [tokensInOf, responsesOf_append, responsesOf, h]

theorem tokensOutOf_append_other (tr : List Event) (ev : Event) (h : ev.response = none) :
    tokensOutOf (tr ++ [ev]) = tokensOutOf tr := by
  simp [tokensOutOf, responsesOf_append, responsesOf, h]

theorem tokensInOf_append_failed (tr : List Event) (b : Bool) (msgs : List Message)
    (resp : Option Response) (err : GoError) :
    tokensInOf (tr ++ [.providerCall b msgs resp (some err)]) = tokensInOf tr :=
  tokensInOf_append_other _ _ (by cases resp <;> rfl)

theorem tokensOutOf_append_failed (tr : List Event) (b : Bool) (msgs : List Message)
    (resp : Option Response) (err : GoError) :
    tokensOutOf (tr ++ [.providerCall b msgs resp (some err)]) = tokensOutOf tr :=
  tokensOutOf_append_other _ _ (by cases resp <;> rfl)

theorem tokensInOf_append_policy (tr : List Event) (tc : ToolCall) (err : Option GoError) :
    tokensInOf (tr ++ [.policyAllow tc err]) = tokensInOf tr :=
  tokensInOf_append_other _ _ rfl

theorem tokensOutOf_append_policy (tr : List Event) (tc : ToolCall) (err : Option GoError) :
    tokensOutOf (tr ++ [.policyAllow tc err]) = tokensOutOf tr :=
  tokensOutOf_append_other _ _ rfl

theorem recordsOf_append_call (tr : List Event) (b : Bool) (msgs : List Message)
    (resp : Option Response) (err : Option GoError) :
    recordsOf (tr ++ [.providerCall b msgs resp err]) = recordsOf tr := by
  simp [recordsOf, Event.record]

theorem recordsOf_append_policy (tr : List Event) (tc : ToolCall) (err : Option GoError) :
    recordsOf (tr ++ [.policyAllow tc err]) = recordsOf tr := by
  simp [recordsOf, Event.record]

theorem clean_append {l : Loop} {a b : List Event} (ha : Clean l a) (hb : Clean l b) :
    Clean l (a ++ b) := by
  intro ev hev
  rcases List.mem_append.mp hev with h | h
  · exact ha ev h
  · exact hb ev h

theorem clean_response (l : Loop) (b : Bool) (msgs : List Message) (r : Response) :
    Clean l [.providerCall b msgs (some r) none] := by
  intro ev hev
  simp only [List.mem_singleton] at hev
  subst hev
  rfl

theorem clean_batchEvents (l : Loop) (tcs : List ToolCall)
    (hreg : ∀ tc ∈ tcs, (l.Tools tc.Name).isSome = true) :
    ∀ outs : List (String × Option GoError), Clean l (batchEvents tcs outs) := by
  induction tcs with
  | nil => intro outs ev hev; simp [batchEvents] at hev
  | cons tc rest ih =>
    intro outs
    cases outs with
    | nil => intro ev hev; simp [batchEvents] at hev
    | cons out outs =>
      intro ev hev
      simp only [batchEvents, List.mem_cons] at hev
      rcases hev with rfl | rfl | hev
      · have := hreg tc (List.mem_cons_self _ _)
        cases htool : l.Tools tc.Name with
        | none => simp [htool] at this
        | some t => simp [Event.fatal, htool]
      · rfl
      · exact ih (fun tc' h => hreg tc' (List.mem_cons_of_mem _ h)) outs ev hev

theorem clean_callTrace {l : Loop} {st : LoopState} (h : Clean l st.trace) (r : Response) :
    Clean l (callTrace st r) :=
  clean_append h (clean_response l false st.messages r)

theorem clean_batchTrace {l : Loop} {st : LoopState} (h : Clean l st.trace) (r : Response)
    (tcs : List ToolCall) (hreg : ∀ tc ∈ tcs, (l.Tools tc.Name).isSome = true)
    (outs : List (String × Option GoError)) :
    Clean l (batchTrace st r tcs outs) :=
  clean_append (clean_callTrace h r) (clean_batchEvents l tcs hreg outs)

/-- The consistency of the loop variables with the trace survives every pass
that goes on to the next iteration. -/
theorem step_next_consistent {l : Loop} {i : Nat} {st st' : LoopState}
    (h : Consistent l st) (hstep : Step l i st (.next st')) : Consistent l st' := by
  obtain ⟨hclean, hrec, hin, hout⟩ := h
  cases hstep with
  | noToolCalls r hcall hnone =>
    refine ⟨clean_callTrace hclean r, ?_, ?_, ?_⟩
    · simpa [calledResult, callTrace, recordsOf_append_call] using hrec
    · simp [calledResult, callTrace, tokensInOf_append_response, hin]
    · simp [calledResult, callTrace, tokensOutOf_append_response, hout]
  | reflected r outs rr hcall hsome hlen hreg hreflect hend =>
    refine ⟨clean_append (clean_batchTrace hclean r _ hreg outs) (clean_response l _ _ rr),
      ?_, ?_, ?_⟩
    · show st.result.ToolCalls ++ recordsOf (batchEvents r.ToolCalls outs) = _
      simp only [batchTrace, callTrace]
      rw [recordsOf_append_call, recordsOf_append, recordsOf_append_call, hrec]
    · show addInt (addInt st.result.TotalTokensIn r.TokensIn) rr.TokensIn = _
      simp only [batchTrace, callTrace]
      rw [tokensInOf_append_response, tokensInOf_append_batch, tokensInOf_append_response, hin]
    · show addInt (addInt st.result.TotalTokensOut r.TokensOut) rr.TokensOut = _
      simp only [batchTrace, callTrace]
      rw [tokensOutOf_append_response, tokensOutOf_append_batch,
        tokensOutOf_append_response, hout]

theorem consistent_initial (l : Loop) :
    Consistent l { result := initialResult, messages := seedMessages l, trace := [] } := by
  refine ⟨?_, ?_, ?_, ?_⟩
  · intro ev hev; simp at hev
  · simp [initialResult, recordsOf]
  · simp [initialResult, tokensInOf, responsesOf, wrapInt64_zero]
  · simp [initialResult, tokensOutOf, responsesOf, wrapInt64_zero]

theorem length_recordsOf_batchEvents (tcs : List ToolCall) :
    ∀ outs : List (String × Option GoError), outs.length = tcs.length →
      (recordsOf (batchEvents tcs outs)).length = tcs.length := by
  induction tcs with
  | nil => intro outs _; simp [batchEvents, recordsOf]
  | cons tc rest ih =>
    intro outs hlen
    cases outs with
    | nil => simp at hlen
    | cons out outs =>
      have h := ih outs (by simpa using hlen)
      simp only [recordsOf] at h
      rcases out with ⟨output, _ | e⟩ <;>
        simp [batchEvents, recordsOf, List.filterMap_cons, Event.record, h]

/-- A fatal call of a trace whose calls but the last are not fatal is the last. -/
theorem eq_last_of_fatal {l : Loop} {pre : List Event} {last ev : Event}
    (hpre : Clean l pre) (hmem : ev ∈ pre ++ [last]) (hfatal : ev.fatal l = true) :
    ev = last := by
  rcases List.mem_append.mp hmem with h | h
  · have := hpre ev h
    rw [hfatal] at this
    exact absurd this (by decide)
  · simpa using h

/-- C1: when `Policy.Allow` returns an error `e` for a tool call, `Run` returns
the error wrapping `e` with a result of status "failed"; the denied check is
the last external call of the run, so neither the tool of that call nor any later
call of the batch is executed and the provider is not called again; and the
audit list holds exactly the records of the calls executed before: those of
the earlier iterations and of the calls of the batch that precede the denied
one. -/
theorem policy_denial_fails_run (l : Loop) (toolCall : ToolCall) (e : GoError)
    (hdenied : Event.policyAllow toolCall (some e) ∈ l.Run.trace) :
    ∃ result pre msgs r done post outs,
      l.Run = .returned result (some (.wrapped "policy violation: " e))
        (pre ++ [.providerCall false msgs (some r) none] ++ batchEvents done outs ++
          [.policyAllow toolCall (some e)]) ∧
      r.ToolCalls = done ++ toolCall :: post ∧
      outs.length = done.length ∧
      result.Status = "failed" ∧
      result.Error = "Policy violation for tool " ++ toolCall.Name ++ ": " ++ e.Error ∧
      result.ToolCalls = recordsOf pre ++ recordsOf (batchEvents done outs) ∧
      result.ToolCalls.length = (recordsOf pre).length + done.length := by
  revert hdenied
  revert toolCall e
  refine Run_induct l (fun _ st => Consistent l st)
    (fun o => ∀ (toolCall : ToolCall) (e : GoError),
      Event.policyAllow toolCall (some e) ∈ o.trace →
      ∃ result pre msgs r done post outs,
        o = .returned result (some (.wrapped "policy violation: " e))
          (pre ++ [.providerCall false msgs (some r) none] ++ batchEvents done outs ++
            [.policyAllow toolCall (some e)]) ∧
        r.ToolCalls = done ++ toolCall :: post ∧
        outs.length = done.length ∧
        result.Status = "failed" ∧
        result.Error = "Policy violation for tool " ++ toolCall.Name ++ ": " ++ e.Error ∧
        result.ToolCalls = recordsOf pre ++ recordsOf (batchEvents done outs) ∧
        result.ToolCalls.length = (recordsOf pre).length + done.length)
    (consistent_initial l) (fun _ _ _ _ h hs => step_next_consistent h hs) ?_ ?_
  · intro i st o _ hinv hstep tc e hmem
    have hfatal : (Event.policyAllow tc (some e)).fatal l = true := rfl
    cases hstep with
    | callFailed resp err hcall =>
      have := eq_last_of_fatal hinv.clean hmem hfatal
      simp at this
    | callNil hcall =>
      have := eq_last_of_fatal hinv.clean hmem hfatal
      simp at this
    | denied r pre tc' post outs e' hcall hsplit hlen hreg hpol =>
      have := eq_last_of_fatal (clean_batchTrace hinv.clean r pre hreg outs) hmem hfatal
      simp only [Event.policyAllow.injEq, Option.some.injEq] at this
      obtain ⟨rfl, rfl⟩ := this
      refine ⟨_, st.trace, st.messages, r, pre, post, outs, rfl, hsplit, hlen, rfl, rfl, ?_, ?_⟩
      · show st.result.ToolCalls ++ _ = _
        rw [hinv.records]
      · show (st.result.ToolCalls ++ _).length = _
        rw [hinv.records, List.length_append, length_recordsOf_batchEvents pre outs hlen]
    | notFound r pre tc' post outs hcall hsplit hlen hreg hpol htool =>
      have := eq_last_of_fatal (clean_batchTrace hinv.clean r pre hreg outs) hmem hfatal
      simp at this
    | reflectFailed r outs resp err hcall hsome hlen hreg hreflect =>
      have := eq_last_of_fatal (clean_batchTrace hinv.clean r _ hreg outs) hmem hfatal
      simp at this
    | reflectNil r outs hcall hsome hlen hreg hreflect =>
      have := eq_last_of_fatal (clean_batchTrace hinv.clean r _ hreg outs) hmem hfatal
      simp at this
    | succeeded r outs rr hcall hsome hlen hreg hreflect hend =>
      have := eq_last_of_fatal (clean_batchTrace hinv.clean r _ hreg outs) hmem hfatal
      simp at this
  · intro st hinv tc e hmem
    have := hinv.clean _ hmem
    simp [Event.fatal] at this

/-- C1, on the run of `TestLoop_PolicyViolation`. -/
theorem policy_denial_fails_run_witness :
    Event.policyAllow testToolCall (some (.text "policy violation")) ∈
        policyViolationLoop.Run.trace ∧
    ∃ result pre msgs r done post outs,
      policyViolationLoop.Run =
        .returned result (some (.wrapped "policy violation: " (.text "policy violation")))
          (pre ++ [.providerCall false msgs (some r) none] ++ batchEvents done outs ++
            [.policyAllow testToolCall (some (.text "policy violation"))]) ∧
      r.ToolCalls = done ++ testToolCall :: post ∧
      outs.length = done.length ∧
      result.Status = "failed" ∧
      result.Error = "Policy violation for tool " ++ testToolCall.Name ++ ": " ++
        (GoError.text "policy violation").Error ∧
      result.ToolCalls = recordsOf pre ++ recordsOf (batchEvents done outs) ∧
      result.ToolCalls.length = (recordsOf pre).length + done.length :=
  ⟨by decide, policy_denial_fails_run policyViolationLoop testToolCall _ (by decide)⟩

/-! ## The policy gate -/

/-- C2: `OPAPolicy.Allow` fails closed.  It returns nil exactly when the
evaluator returns no error and a non-empty result set whose first result has
the boolean true as its first expression value; an evaluation error, an empty
result set, a first value that is not a boolean and the boolean false each
make it return a non-nil error. -/
theorem opa_allow_fail_closed (o : OPAPolicy) (toolCall : ToolCall) :
    (o.Allow toolCall = .returned none ↔
      ∃ first rest expr exprs,
        o.query (policyInput toolCall) = (first :: rest, none) ∧
        first.Expressions = some expr :: exprs ∧ expr.Value = .bool true) ∧
    (∀ results err, o.query (policyInput toolCall) = (results, some err) →
      o.Allow toolCall =
        .returned (some (.wrapped "policy evaluation failed: " err))) ∧
    (o.query (policyInput toolCall) = ([], none) →
      o.Allow toolCall =
        .returned (some (.text "policy denied: no matching allow rule"))) ∧
    (∀ first rest expr exprs,
      o.query (policyInput toolCall) = (first :: rest, none) →
      first.Expressions = some expr :: exprs →
      (∀ b, expr.Value ≠ .bool b) →
      o.Allow toolCall = .returned (some (.text "policy denied: invalid result type"))) ∧
    (∀ first rest expr exprs,
      o.query (policyInput toolCall) = (first :: rest, none) →
      first.Expressions = some expr :: exprs →
      expr.Value = .bool false →
      o.Allow toolCall =
        .returned (some (.text "policy denied: allow rule returned false"))) := by
  unfold OPAPolicy.Allow
  rcases hq : o.query (policyInput toolCall) with ⟨results, err⟩
  cases err with
  | some err => simp
  | none =>
    cases results with
    | nil => simp
    | cons first rest =>
      rcases first with ⟨exprs⟩
      cases exprs with
      | nil =>
        simp only [List.length_cons, List.head?_cons]
        refine ⟨⟨fun h => ?_, fun ⟨f, rs, ex, exs, h1, h2, h3⟩ => ?_⟩, fun rs e h => ?_,
          fun h => ?_, fun f rs ex exs h1 h2 h3 => ?_, fun f rs ex exs h1 h2 h3 => ?_⟩
        · simp at h
        · simp only [Prod.mk.injEq, List.cons.injEq] at h1
          obtain ⟨⟨rfl, rfl⟩, -⟩ := h1
          simp at h2
        · simp at h
        · simp at h
        · simp only [Prod.mk.injEq, List.cons.injEq] at h1
          obtain ⟨⟨rfl, rfl⟩, -⟩ := h1
          simp at h2
        · simp only [Prod.mk.injEq, List.cons.injEq] at h1
          obtain ⟨⟨rfl, rfl⟩, -⟩ := h1
          simp at h2
      | cons expr exprs =>
        cases expr with
        | none =>
          simp only [List.length_cons, List.head?_cons]
          refine ⟨⟨fun h => ?_, fun ⟨f, rs, ex, exs, h1, h2, h3⟩ => ?_⟩, fun rs e h => ?_,
            fun h => ?_, fun f rs ex exs h1 h2 h3 => ?_, fun f rs ex exs h1 h2 h3 => ?_⟩
          · simp at h
          · simp only [Prod.mk.injEq, List.cons.injEq] at h1
            obtain ⟨⟨rfl, rfl⟩, -⟩ := h1
            simp at h2
          · simp at h
          · simp at h
          · simp only [Prod.mk.injEq, List.cons.injEq] at h1
            obtain ⟨⟨rfl, rfl⟩, -⟩ := h1
            simp at h2
          · simp only [Prod.mk.injEq, List.cons.injEq] at h1
            obtain ⟨⟨rfl, rfl⟩, -⟩ := h1
            simp at h2
        | some expr =>
          rcases expr with ⟨v, text⟩
          simp only [List.length_cons, List.head?_cons]
          refine ⟨⟨fun h => ?_, fun ⟨f, rs, ex, exs, h1, h2, h3⟩ => ?_⟩, fun rs e h => ?_,
            fun h => ?_, fun f rs ex exs h1 h2 h3 => ?_, fun f rs ex exs h1 h2 h3 => ?_⟩
          · cases v with
            | bool b => cases b <;> simp at h ⊢
            | null => simp at h
            | num n => simp at h
            | str t => simp at h
          · simp only [Prod.mk.injEq, List.cons.injEq] at h1
            obtain ⟨⟨rfl, rfl⟩, -⟩ := h1
            simp only [List.cons.injEq, Option.some.injEq] at h2
            obtain ⟨rfl, rfl⟩ := h2
            simp only at h3
            subst h3
            simp
          · simp at h
          · simp at h
          · simp only [Prod.mk.injEq, List.cons.injEq] at h1
            obtain ⟨⟨rfl, rfl⟩, -⟩ := h1
            simp only [List.cons.injEq, Option.some.injEq] at h2
            obtain ⟨rfl, rfl⟩ := h2
            simp only at h3
            cases v with
            | bool b => exact absurd rfl (h3 b)
            | null => simp
            | num n => simp
            | str t => simp
          · simp only [Prod.mk.injEq, List.cons.injEq] at h1
            obtain ⟨⟨rfl, rfl⟩, -⟩ := h1
            simp only [List.cons.injEq, Option.some.injEq] at h2
            obtain ⟨rfl, rfl⟩ := h2
            simp only at h3
            subst h3
            simp

/-- C2, on a policy that evaluates to true. -/
theorem opa_allow_fail_closed_witness :
    (constantPolicy (.bool true)).Allow testToolCall = .returned none ∧
    (constantPolicy (.bool false)).Allow testToolCall =
      .returned (some (.text "policy denied: allow rule returned false")) ∧
    (constantPolicy (.str "true")).Allow testToolCall =
      .returned (some (.text "policy denied: invalid result type")) :=
  ⟨((opa_allow_fail_closed (constantPolicy (.bool true)) testToolCall).1).2
      ⟨_, _, _, _, rfl, rfl, rfl⟩,
    (opa_allow_fail_closed (constantPolicy (.bool false)) testToolCall).2.2.2.2
      _ _ _ _ rfl rfl rfl,
    (opa_allow_fail_closed (constantPolicy (.str "true")) testToolCall).2.2.2.1
      _ _ _ _ rfl rfl (by intro b h; cases h)⟩

/-! ## Runs that succeed -/

theorem providerCalls_append (a b : List Event) :
    providerCalls (a ++ b) = providerCalls a + providerCalls b := by
  simp [providerCalls, List.countP_append]

theorem providerCalls_batchEvents (tcs : List ToolCall) :
    ∀ outs : List (String × Option GoError), providerCalls (batchEvents tcs outs) = 0 := by
  induction tcs with
  | nil => intro outs; simp [batchEvents, providerCalls]
  | cons tc rest ih =>
    intro outs
    cases outs with
    | nil => simp [batchEvents, providerCalls]
    | cons out outs =>
      have h := ih outs
      simp only [providerCalls] at h
      simp [batchEvents, providerCalls, List.countP_cons, Event.isProviderCall, h]

theorem providerCalls_callTrace (st : LoopState) (r : Response) :
    providerCalls (callTrace st r) = providerCalls st.trace + 1 := by
  simp [callTrace, providerCalls, List.countP_append, Event.isProviderCall]

theorem providerCalls_batchTrace (st : LoopState) (r : Response) (tcs : List ToolCall)
    (outs : List (String × Option GoError)) :
    providerCalls (batchTrace st r tcs outs) = providerCalls st.trace + 1 := by
  rw [batchTrace, providerCalls_append, providerCalls_batchEvents, providerCalls_callTrace]

theorem wrapInt64_of_range (x : Int) (hlo : -2 ^ 63 ≤ x) (hhi : x < 2 ^ 63) :
    wrapInt64 x = x := by
  unfold wrapInt64
  rw [Int.emod_eq_of_lt (by omega) (by omega)]
  ring

theorem addInt_zero_left (a b : Int) : addInt (addInt 0 a) b = wrapInt64 (a + b) := by
  have h : addInt 0 a = wrapInt64 a := by simp [addInt]
  rw [h, addInt_wrapInt64]

/-- C3: with `MaxIterations >= 1`, a policy that allows every call, a first
provider response `r1` with at least one tool call, all to registered tools,
and a second provider response `r2` with no tool call and stop reason
"end_turn", `Run` returns a nil error and a result with status "succeeded",
one iteration, as many records as `r1` has tool calls, and the token counters
equal to the sums (as Go `int`s) over the two responses; the sums are the
exact ones when they fit in 64 bits. -/
theorem run_succeeds_after_one_reflection (l : Loop) (r1 r2 : Response)
    (hmax : 1 ≤ l.MaxIterations)
    (hpolicy : ∀ trace toolCall, l.Policy trace toolCall = none)
    (hfirst : ∀ msgs, l.Provider [] msgs = (some r1, none))
    (hcalls : r1.ToolCalls ≠ [])
    (hreg : ∀ tc ∈ r1.ToolCalls, (l.Tools tc.Name).isSome = true)
    (hsecond : ∀ trace msgs, providerCalls trace = 1 → l.Provider trace msgs = (some r2, none))
    (hnone : r2.ToolCalls = [])
    (hstop : r2.StopReason = "end_turn") :
    ∃ result trace,
      l.Run = .returned result none trace ∧
      result.Status = "succeeded" ∧
      result.Iterations = 1 ∧
      result.ToolCalls.length = r1.ToolCalls.length ∧
      result.TotalTokensIn = wrapInt64 (r1.TokensIn + r2.TokensIn) ∧
      result.TotalTokensOut = wrapInt64 (r1.TokensOut + r2.TokensOut) ∧
      (-2 ^ 63 ≤ r1.TokensIn + r2.TokensIn → r1.TokensIn + r2.TokensIn < 2 ^ 63 →
        result.TotalTokensIn = r1.TokensIn + r2.TokensIn) ∧
      (-2 ^ 63 ≤ r1.TokensOut + r2.TokensOut → r1.TokensOut + r2.TokensOut < 2 ^ 63 →
        result.TotalTokensOut = r1.TokensOut + r2.TokensOut) := by
  obtain ⟨m, hm⟩ : ∃ m, l.MaxIterations.toNat = m + 1 :=
    ⟨l.MaxIterations.toNat - 1, by omega⟩
  have hstep := iterationBody_step l 0
    { result := initialResult, messages := seedMessages l, trace := [] }
  unfold Loop.Run
  rw [hm, runLoop]
  generalize iterationBody l 0
    { result := initialResult, messages := seedMessages l, trace := [] } = so at hstep
  cases hstep with
  | callFailed resp err hcall => rw [hfirst] at hcall; simp at hcall
  | callNil hcall => rw [hfirst] at hcall; simp at hcall
  | noToolCalls r hcall hempty =>
    rw [hfirst] at hcall
    simp only [Prod.mk.injEq, Option.some.injEq, and_true] at hcall
    subst hcall
    exact absurd hempty hcalls
  | denied r pre tc post outs e hcall hsplit hlen hreg' hpol =>
    rw [hpolicy] at hpol
    simp at hpol
  | notFound r pre tc post outs hcall hsplit hlen hreg' hpol htool =>
    rw [hfirst] at hcall
    simp only [Prod.mk.injEq, Option.some.injEq, and_true] at hcall
    subst hcall
    have := hreg tc (by rw [hsplit]; simp)
    rw [htool] at this
    simp at this
  | reflectFailed r outs resp err hcall hsome hlen hreg' hreflect =>
    rw [hsecond _ _ (by rw [providerCalls_batchTrace]; rfl)] at hreflect
    simp at hreflect
  | reflectNil r outs hcall hsome hlen hreg' hreflect =>
    rw [hsecond _ _ (by rw [providerCalls_batchTrace]; rfl)] at hreflect
    simp at hreflect
  | reflected r outs rr hcall hsome hlen hreg' hreflect hend =>
    rw [hsecond _ _ (by rw [providerCalls_batchTrace]; rfl)] at hreflect
    simp only [Prod.mk.injEq, Option.some.injEq, and_true] at hreflect
    subst hreflect
    exact absurd ⟨hnone, hstop⟩ hend
  | succeeded r outs rr hcall hsome hlen hreg' hreflect hend =>
    rw [hfirst] at hcall
    simp only [Prod.mk.injEq, Option.some.injEq, and_true] at hcall
    subst hcall
    rw [hsecond _ _ (by rw [providerCalls_batchTrace]; rfl)] at hreflect
    simp only [Prod.mk.injEq, Option.some.injEq, and_true] at hreflect
    subst hreflect
    have hin : addInt (addInt 0 r1.TokensIn) r2.TokensIn =
        wrapInt64 (r1.TokensIn + r2.TokensIn) := addInt_zero_left _ _
    have hout : addInt (addInt 0 r1.TokensOut) r2.TokensOut =
        wrapInt64 (r1.TokensOut + r2.TokensOut) := addInt_zero_left _ _
    refine ⟨_, _, rfl, rfl, ?_, ?_, hin, hout, ?_, ?_⟩
    · show ((0 : Nat) : Int) + 1 = 1
      simp
    · show ([] ++ recordsOf (batchEvents r1.ToolCalls outs)).length = _
      rw [List.nil_append, length_recordsOf_batchEvents _ _ hlen]
    · intro hlo hhi
      exact hin.trans (wrapInt64_of_range _ hlo hhi)
    · intro hlo hhi
      exact hout.trans (wrapInt64_of_range _ hlo hhi)

/-- C3, on the run of `TestLoop_SuccessfulCompletion`: 100 + 200 = 300 tokens in. -/
theorem run_succeeds_after_one_reflection_witness :
    ∃ result trace,
      successLoop.Run = .returned result none trace ∧
      result.Status = "succeeded" ∧
      result.Iterations = 1 ∧
      result.ToolCalls.length = planResponse.ToolCalls.length ∧
      result.TotalTokensIn = wrapInt64 (planResponse.TokensIn + confidentResponse.TokensIn) ∧
      result.TotalTokensOut =
        wrapInt64 (planResponse.TokensOut + confidentResponse.TokensOut) ∧
      (-2 ^ 63 ≤ planResponse.TokensIn + confidentResponse.TokensIn →
        planResponse.TokensIn + confidentResponse.TokensIn < 2 ^ 63 →
        result.TotalTokensIn = planResponse.TokensIn + confidentResponse.TokensIn) ∧
      (-2 ^ 63 ≤ planResponse.TokensOut + confidentResponse.TokensOut →
        planResponse.TokensOut + confidentResponse.TokensOut < 2 ^ 63 →
        result.TotalTokensOut = planResponse.TokensOut + confidentResponse.TokensOut) :=
  run_succeeds_after_one_reflection successLoop planResponse confidentResponse
    (by decide) (fun _ _ => rfl) (fun _ => rfl) (by decide)
    (by decide)
    (by
      intro trace msgs h
      show mockProvider [planResponse, confidentResponse] trace msgs = _
      simp [mockProvider, h])
    rfl rfl

/-! ## Runs that reach the bound -/

/-- C4: when `MaxIterations = n` and each of the first `n` provider calls
returns a response without tool calls, whatever its stop reason, `Run` returns
a nil error and a result with status "max_iterations" and `Iterations = n`;
the provider was called exactly `n` times, these calls are all the external
calls of the run, and none of them is a reflection call. -/
theorem run_without_tool_calls_reaches_bound (l : Loop) (n : Nat)
    (hmax : l.MaxIterations = n)
    (hresp : ∀ trace msgs, providerCalls trace < n →
      ∃ r, l.Provider trace msgs = (some r, none) ∧ r.ToolCalls = []) :
    ∃ result trace,
      l.Run = .returned result none trace ∧
      result.Status = "max_iterations" ∧
      result.Iterations = n ∧
      providerCalls trace = n ∧
      trace.length = n ∧
      ∀ ev ∈ trace, ev.isReflection = false := by
  have htotal : l.MaxIterations.toNat = n := by rw [hmax]; simp
  refine Run_induct l
    (fun i st => providerCalls st.trace = i ∧ st.trace.length = i ∧
      st.result.Iterations = i ∧ ∀ ev ∈ st.trace, ev.isReflection = false)
    (fun o => ∃ result trace,
      o = .returned result none trace ∧
      result.Status = "max_iterations" ∧
      result.Iterations = n ∧
      providerCalls trace = n ∧
      trace.length = n ∧
      ∀ ev ∈ trace, ev.isReflection = false)
    ?_ ?_ ?_ ?_
  · exact ⟨rfl, rfl, rfl, fun ev hev => by simp at hev⟩
  · intro i st st' hi ⟨hcount, hlen, hiter, hrefl⟩ hstep
    rw [htotal] at hi
    obtain ⟨r0, hr0, hempty⟩ := hresp st.trace st.messages (by omega)
    cases hstep with
    | noToolCalls r hcall hnone =>
      refine ⟨?_, ?_, ?_, ?_⟩
      · show providerCalls (callTrace st r) = i + 1
        rw [providerCalls_callTrace, hcount]
      · show (callTrace st r).length = i + 1
        simp [callTrace, hlen]
      · show ((i : Nat) : Int) + 1 = ((i + 1 : Nat) : Int)
        simp
      · intro ev hev
        rcases List.mem_append.mp hev with h | h
        · exact hrefl ev h
        · simp only [List.mem_singleton] at h
          subst h
          rfl
    | reflected r outs rr hcall hsome hlen' hreg hreflect hend =>
      rw [hr0] at hcall
      simp only [Prod.mk.injEq, Option.some.injEq, and_true] at hcall
      subst hcall
      exact absurd hempty hsome
  · intro i st o hi ⟨hcount, hlen, hiter, hrefl⟩ hstep
    rw [htotal] at hi
    obtain ⟨r0, hr0, hempty⟩ := hresp st.trace st.messages (by omega)
    cases hstep with
    | callFailed resp err hcall => rw [hr0] at hcall; simp at hcall
    | callNil hcall => rw [hr0] at hcall; simp at hcall
    | denied r pre tc post outs e hcall hsplit hlen' hreg hpol =>
      rw [hr0] at hcall
      simp only [Prod.mk.injEq, Option.some.injEq, and_true] at hcall
      subst hcall
      rw [hempty] at hsplit
      simp at hsplit
    | notFound r pre tc post outs hcall hsplit hlen' hreg hpol htool =>
      rw [hr0] at hcall
      simp only [Prod.mk.injEq, Option.some.injEq, and_true] at hcall
      subst hcall
      rw [hempty] at hsplit
      simp at hsplit
    | reflectFailed r outs resp err hcall hsome hlen' hreg hreflect =>
      rw [hr0] at hcall
      simp only [Prod.mk.injEq, Option.some.injEq, and_true] at hcall
      subst hcall
      exact absurd hempty hsome
    | reflectNil r outs hcall hsome hlen' hreg hreflect =>
      rw [hr0] at hcall
      simp only [Prod.mk.injEq, Option.some.injEq, and_true] at hcall
      subst hcall
      exact absurd hempty hsome
    | succeeded r outs rr hcall hsome hlen' hreg hreflect hend =>
      rw [hr0] at hcall
      simp only [Prod.mk.injEq, Option.some.injEq, and_true] at hcall
      subst hcall
      exact absurd hempty hsome
  · intro st ⟨hcount, hlen, hiter, hrefl⟩
    rw [htotal] at hcount hlen hiter
    exact ⟨_, _, rfl, rfl, hiter, hcount, hlen, hrefl⟩

/-- C4, on the run of `TestLoop_MaxIterationsReached` (`n = 3`, every response
with stop reason "end_turn"). -/
theorem run_without_tool_calls_reaches_bound_witness :
    ∃ result trace,
      maxIterationsLoop.Run = .returned result none trace ∧
      result.Status = "max_iterations" ∧
      result.Iterations = (3 : Nat) ∧
      providerCalls trace = 3 ∧
      trace.length = 3 ∧
      ∀ ev ∈ trace, ev.isReflection = false :=
  run_without_tool_calls_reaches_bound maxIterationsLoop 3 rfl
    (by
      intro trace msgs h
      show ∃ r, mockProvider _ trace msgs = (some r, none) ∧ r.ToolCalls = []
      have h3 : providerCalls trace = 0 ∨ providerCalls trace = 1 ∨
          providerCalls trace = 2 := by omega
      rcases h3 with h0 | h0 | h0 <;> simp [mockProvider, h0])

/-! ## The reflection step -/

theorem eq_last_of_split {α : Type} {xs a post : List α} {last e : α}
    (h : xs ++ [last] = a ++ e :: post) (hne : e ∉ xs) : post = [] ∧ e = last := by
  rcases List.eq_nil_or_concat post with rfl | ⟨p, z, rfl⟩
  · have := List.append_inj' h rfl
    simp at this
    exact ⟨rfl, this.2.symm⟩
  · have h' : xs ++ [last] = (a ++ e :: p) ++ [z] := by simpa using h
    have := List.append_inj' h' rfl
    exact absurd (by rw [this.1]; simp) hne

theorem not_mem_batchEvents_of_isProviderCall (tcs : List ToolCall)
    (outs : List (String × Option GoError)) (e : Event) (he : e.isProviderCall = true) :
    e ∉ batchEvents tcs outs := by
  intro hmem
  have h := providerCalls_batchEvents tcs outs
  rw [providerCalls, List.countP_eq_zero] at h
  exact h e hmem he

/-- A provider call found in the calls of a batch followed by one more call is
that last call. -/
theorem batch_split {tcs : List ToolCall} {outs : List (String × Option GoError)}
    {last e : Event} {a post : List Event}
    (h : batchEvents tcs outs ++ [last] = a ++ e :: post)
    (he : e.isProviderCall = true) : post = [] ∧ e = last :=
  eq_last_of_split h (not_mem_batchEvents_of_isProviderCall tcs outs e he)

theorem startsWithCall_append {c : List Event} (new : List Event)
    (hc : c = [] ∨ StartsWithCall c) (hnew : StartsWithCall new) :
    StartsWithCall (c ++ new) := by
  rcases hc with rfl | ⟨m, r, e, rest, rfl⟩
  · simpa using hnew
  · exact ⟨m, r, e, rest ++ new, by simp⟩

/-- Where an answered reflection call sits in a trace that was extended by the
calls of one more iteration. -/
theorem reflection_split {tr rest pre post : List Event} {m msgs : List Message}
    {resp : Option Response} {err : Option GoError} {rr : Response}
    (h : tr ++ .providerCall false m resp err :: rest =
      pre ++ .providerCall true msgs (some rr) none :: post) :
    (∃ c, tr = pre ++ .providerCall true msgs (some rr) none :: c ∧
      post = c ++ .providerCall false m resp err :: rest) ∨
    (∃ a, rest = a ++ .providerCall true msgs (some rr) none :: post) := by
  rcases List.append_eq_append_iff.mp h with ⟨a, hpre, hnew⟩ | ⟨c, htr, hpost⟩
  · right
    cases a with
    | nil => simp at hnew
    | cons x a =>
      simp only [List.cons_append, List.cons.injEq] at hnew
      exact ⟨a, hnew.2⟩
  · cases c with
    | nil => simp at hpost
    | cons x c =>
      simp only [List.cons_append, List.cons.injEq] at hpost
      left
      refine ⟨c, ?_, hpost.2⟩
      rw [htr, hpost.1]

theorem reflectionsPassed_extend {tr : List Event} (m : List Message)
    (resp : Option Response) (err : Option GoError) (rest : List Event)
    (hinv : ReflectionsPassed tr)
    (hrest : ∀ a msgs rr post, rest = a ++ .providerCall true msgs (some rr) none :: post →
      post = [] ∧ ¬ EndTurn rr) :
    ReflectionsPassed (tr ++ .providerCall false m resp err :: rest) := by
  intro pre msgs rr post h
  rcases reflection_split h with ⟨c, htr, hpost⟩ | ⟨a, ha⟩
  · obtain ⟨hne, hc⟩ := hinv pre msgs rr c htr
    refine ⟨hne, Or.inr ?_⟩
    rw [hpost]
    exact startsWithCall_append _ hc ⟨m, resp, err, rest, rfl⟩
  · obtain ⟨hpost, hne⟩ := hrest a msgs rr post ha
    exact ⟨hne, Or.inl hpost⟩

theorem reflectionsDecide_exit {tr : List Event} {o : Outcome} (m : List Message)
    (resp : Option Response) (err : Option GoError) (rest : List Event)
    (hinv : ReflectionsPassed tr)
    (htrace : o.trace = tr ++ .providerCall false m resp err :: rest)
    (hrest : ∀ a msgs rr post, rest = a ++ .providerCall true msgs (some rr) none :: post →
      post = [] ∧ EndTurn rr ∧
        ∃ result, o = .returned result none o.trace ∧ result.Status = "succeeded") :
    ReflectionsDecide o := by
  intro pre msgs rr post h
  rw [htrace] at h
  rcases reflection_split h with ⟨c, htr, hpost⟩ | ⟨a, ha⟩
  · obtain ⟨hne, hc⟩ := hinv pre msgs rr c htr
    refine ⟨fun hend => absurd hend hne, fun _ => Or.inl ?_⟩
    rw [hpost]
    exact startsWithCall_append _ hc ⟨m, resp, err, rest, rfl⟩
  · obtain ⟨hpost, hend, hres⟩ := hrest a msgs rr post ha
    exact ⟨fun _ => ⟨hpost, hres⟩, fun hne => absurd hend hne⟩

theorem reflectionsDecide_run (l : Loop) : ReflectionsDecide l.Run := by
  refine Run_induct l (fun _ st => ReflectionsPassed st.trace) ReflectionsDecide ?_ ?_ ?_ ?_
  · intro pre msgs rr post h
    simp at h
  · intro i st st' _ hinv hstep
    cases hstep with
    | noToolCalls r hcall hnone =>
      refine reflectionsPassed_extend st.messages (some r) none [] hinv ?_
      intro a msgs rr post h
      simp at h
    | reflected r outs rr0 hcall hsome hlen hreg hreflect hend =>
      show ReflectionsPassed
        (st.trace ++ [.providerCall false st.messages (some r) none] ++
          batchEvents r.ToolCalls outs ++
          [.providerCall true (reflectMessages st r outs) (some rr0) none])
      rw [List.append_assoc, List.append_assoc, List.singleton_append]
      refine reflectionsPassed_extend st.messages (some r) none _ hinv ?_
      intro a msgs rr post h
      obtain ⟨hpost, he⟩ := batch_split h rfl
      simp only [Event.providerCall.injEq, Option.some.injEq, true_and, and_true] at he
      obtain ⟨-, rfl⟩ := he
      exact ⟨hpost, hend⟩
  · intro i st o _ hinv hstep
    cases hstep with
    | callFailed resp err hcall =>
      refine reflectionsDecide_exit st.messages resp (some err) [] hinv rfl ?_
      intro a msgs rr post h
      simp at h
    | callNil hcall =>
      refine reflectionsDecide_exit st.messages none none [] hinv rfl ?_
      intro a msgs rr post h
      simp at h
    | denied r pre tc post outs e hcall hsplit hlen hreg hpol =>
      refine reflectionsDecide_exit st.messages (some r) none
        (batchEvents pre outs ++ [.policyAllow tc (some e)]) hinv
        (by simp [Outcome.trace, batchTrace, callTrace]) ?_
      intro a msgs rr post' h
      have := (batch_split h rfl).2
      simp at this
    | notFound r pre tc post outs hcall hsplit hlen hreg hpol htool =>
      refine reflectionsDecide_exit st.messages (some r) none
        (batchEvents pre outs ++ [.policyAllow tc none]) hinv
        (by simp [Outcome.trace, batchTrace, callTrace]) ?_
      intro a msgs rr post' h
      have := (batch_split h rfl).2
      simp at this
    | reflectFailed r outs resp err hcall hsome hlen hreg hreflect =>
      refine reflectionsDecide_exit st.messages (some r) none
        (batchEvents r.ToolCalls outs ++
          [.providerCall true (reflectMessages st r outs) resp (some err)]) hinv
        (by simp [Outcome.trace, batchTrace, callTrace]) ?_
      intro a msgs rr post' h
      have := (batch_split h rfl).2
      simp at this
    | reflectNil r outs hcall hsome hlen hreg hreflect =>
      refine reflectionsDecide_exit st.messages (some r) none
        (batchEvents r.ToolCalls outs ++
          [.providerCall true (reflectMessages st r outs) none none]) hinv
        (by simp [Outcome.trace, batchTrace, callTrace]) ?_
      intro a msgs rr post' h
      have := (batch_split h rfl).2
      simp at this
    | succeeded r outs rr0 hcall hsome hlen hreg hreflect hend =>
      refine reflectionsDecide_exit st.messages (some r) none
        (batchEvents r.ToolCalls outs ++
          [.providerCall true (reflectMessages st r outs) (some rr0) none]) hinv
        (by simp [Outcome.trace, batchTrace, callTrace]) ?_
      intro a msgs rr post' h
      obtain ⟨hpost, he⟩ := batch_split h rfl
      simp only [Event.providerCall.injEq, Option.some.injEq, true_and, and_true] at he
      obtain ⟨-, rfl⟩ := he
      exact ⟨hpost, hend, _, rfl, rfl⟩
  · intro st hinv pre msgs rr post h
    obtain ⟨hne, hpost⟩ := hinv pre msgs rr post h
    refine ⟨fun hend => absurd hend hne, fun _ => ?_⟩
    rcases hpost with rfl | hpost
    · exact Or.inr ⟨rfl, _, rfl, rfl⟩
    · exact Or.inl hpost

/-- C5: for every reflection call of a run that returned a response `rr`
(such a call is made only after a non-empty batch was processed), the run ends
at that call with status "succeeded" if and only if `rr` has no tool call and
its stop reason is exactly "end_turn", and then the error is nil; otherwise the
call is followed by the first provider call of the next iteration, or it is the
last call and the run returns "max_iterations" with a nil error. -/
theorem reflection_decides_success (l : Loop) (pre post : List Event) (msgs : List Message)
    (rr : Response)
    (htrace : l.Run.trace = pre ++ .providerCall true msgs (some rr) none :: post) :
    ((post = [] ∧
        ∃ result err, l.Run = .returned result err l.Run.trace ∧
          result.Status = "succeeded") ↔
      (rr.ToolCalls = [] ∧ rr.StopReason = "end_turn")) ∧
    ((rr.ToolCalls = [] ∧ rr.StopReason = "end_turn") →
      post = [] ∧
      ∃ result, l.Run = .returned result none l.Run.trace ∧ result.Status = "succeeded") ∧
    (¬ (rr.ToolCalls = [] ∧ rr.StopReason = "end_turn") →
      StartsWithCall post ∨
      (post = [] ∧
        ∃ result, l.Run = .returned result none l.Run.trace ∧
          result.Status = "max_iterations")) := by
  obtain ⟨hyes, hno⟩ := reflectionsDecide_run l pre msgs rr post htrace
  refine ⟨⟨?_, ?_⟩, hyes, hno⟩
  · rintro ⟨hpost, result, err, hrun, hstatus⟩
    by_contra hne
    rcases hno hne with ⟨m, resp, e, rest, hstart⟩ | ⟨-, result', hrun', hstatus'⟩
    · rw [hpost] at hstart
      simp at hstart
    · rw [hrun] at hrun'
      simp only [Outcome.returned.injEq] at hrun'
      rw [← hrun'.1, hstatus] at hstatus'
      exact absurd hstatus' (by decide)
  · intro hend
    obtain ⟨hpost, result, hrun, hstatus⟩ := hyes hend
    exact ⟨hpost, result, none, hrun, hstatus⟩

/-- C5, on the run of `TestLoop_SuccessfulCompletion`, whose reflection call
is answered with stop reason "end_turn" and no tool call. -/
theorem reflection_decides_success_witness :
    successLoop.Run.trace =
      successPrefix ++
        .providerCall true successReflectMessages (some confidentResponse) none :: [] ∧
    (([] : List Event) = [] ∧
      ∃ result, successLoop.Run = .returned result none successLoop.Run.trace ∧
        result.Status = "succeeded") :=
  ⟨by decide,
    (reflection_decides_success successLoop successPrefix [] successReflectMessages
      confidentResponse (by decide)).2.1 ⟨rfl, rfl⟩⟩

/-! ## Runs that fail -/

/-- C6: when the policy allowed a tool call whose name is not a key of
`Tools`, `Run` returns a non-nil error and a result with status "failed" and
error text "Tool not found: " followed by the name; the allowed check is the
last external call of the run, so no tool is executed for that call or for a
later call of the batch and the provider is not called again; and the audit
list holds only the records of the calls executed before, none for that call. -/
theorem tool_not_found_fails_run (l : Loop) (toolCall : ToolCall)
    (hallowed : Event.policyAllow toolCall none ∈ l.Run.trace)
    (habsent : l.Tools toolCall.Name = none) :
    ∃ result pre msgs r done post outs,
      l.Run = .returned result (some (.text ("tool not found: " ++ toolCall.Name)))
        (pre ++ [.providerCall false msgs (some r) none] ++ batchEvents done outs ++
          [.policyAllow toolCall none]) ∧
      r.ToolCalls = done ++ toolCall :: post ∧
      outs.length = done.length ∧
      result.Status = "failed" ∧
      result.Error = "Tool not found: " ++ toolCall.Name ∧
      result.ToolCalls = recordsOf pre ++ recordsOf (batchEvents done outs) ∧
      result.ToolCalls.length = (recordsOf pre).length + done.length := by
  revert hallowed
  refine Run_induct l (fun _ st => Consistent l st)
    (fun o => Event.policyAllow toolCall none ∈ o.trace →
      ∃ result pre msgs r done post outs,
        o = .returned result (some (.text ("tool not found: " ++ toolCall.Name)))
          (pre ++ [.providerCall false msgs (some r) none] ++ batchEvents done outs ++
            [.policyAllow toolCall none]) ∧
        r.ToolCalls = done ++ toolCall :: post ∧
        outs.length = done.length ∧
        result.Status = "failed" ∧
        result.Error = "Tool not found: " ++ toolCall.Name ∧
        result.ToolCalls = recordsOf pre ++ recordsOf (batchEvents done outs) ∧
        result.ToolCalls.length = (recordsOf pre).length + done.length)
    (consistent_initial l) (fun _ _ _ _ h hs => step_next_consistent h hs) ?_ ?_
  · intro i st o _ hinv hstep hmem
    have hfatal : (Event.policyAllow toolCall none).fatal l = true := by
      simp [Event.fatal, habsent]
    cases hstep with
    | callFailed resp err hcall =>
      have := eq_last_of_fatal hinv.clean hmem hfatal
      simp at this
    | callNil hcall =>
      have := eq_last_of_fatal hinv.clean hmem hfatal
      simp at this
    | denied r pre tc' post outs e' hcall hsplit hlen hreg hpol =>
      have := eq_last_of_fatal (clean_batchTrace hinv.clean r pre hreg outs) hmem hfatal
      simp at this
    | notFound r pre tc' post outs hcall hsplit hlen hreg hpol htool =>
      have := eq_last_of_fatal (clean_batchTrace hinv.clean r pre hreg outs) hmem hfatal
      simp only [Event.policyAllow.injEq, and_true] at this
      subst this
      refine ⟨_, st.trace, st.messages, r, pre, post, outs, rfl, hsplit, hlen, rfl, rfl, ?_, ?_⟩
      · show st.result.ToolCalls ++ _ = _
        rw [hinv.records]
      · show (st.result.ToolCalls ++ _).length = _
        rw [hinv.records, List.length_append, length_recordsOf_batchEvents pre outs hlen]
    | reflectFailed r outs resp err hcall hsome hlen hreg hreflect =>
      have := eq_last_of_fatal (clean_batchTrace hinv.clean r _ hreg outs) hmem hfatal
      simp at this
    | reflectNil r outs hcall hsome hlen hreg hreflect =>
      have := eq_last_of_fatal (clean_batchTrace hinv.clean r _ hreg outs) hmem hfatal
      simp at this
    | succeeded r outs rr hcall hsome hlen hreg hreflect hend =>
      have := eq_last_of_fatal (clean_batchTrace hinv.clean r _ hreg outs) hmem hfatal
      simp at this
  · intro st hinv hmem
    have := hinv.clean _ hmem
    simp [Event.fatal, habsent] at this

/-- C6, on the run of `TestLoop_ToolNotFound`. -/
theorem tool_not_found_fails_run_witness :
    Event.policyAllow unknownToolCall none ∈ toolNotFoundLoop.Run.trace ∧
    toolNotFoundLoop.Tools unknownToolCall.Name = none ∧
    ∃ result pre msgs r done post outs,
      toolNotFoundLoop.Run =
        .returned result (some (.text ("tool not found: " ++ unknownToolCall.Name)))
          (pre ++ [.providerCall false msgs (some r) none] ++ batchEvents done outs ++
            [.policyAllow unknownToolCall none]) ∧
      r.ToolCalls = done ++ unknownToolCall :: post ∧
      outs.length = done.length ∧
      result.Status = "failed" ∧
      result.Error = "Tool not found: " ++ unknownToolCall.Name ∧
      result.ToolCalls = recordsOf pre ++ recordsOf (batchEvents done outs) ∧
      result.ToolCalls.length = (recordsOf pre).length + done.length :=
  ⟨by decide, rfl, tool_not_found_fails_run toolNotFoundLoop unknownToolCall (by decide) rfl⟩

/-- C8: when a call of the provider returns an error `err`, be it the first
call of an iteration or a reflection call, `Run` returns that same error and a
result with status "failed" whose error text is "LLM call failed: " (first
call) or "Reflection call failed: " (reflection) followed by the text of `err`;
the failed call is the last external call of the run: the provider is not called
again, and no policy check or tool execution follows. -/
theorem provider_error_fails_run (l : Loop) (reflection : Bool) (msgs : List Message)
    (resp : Option Response) (err : GoError)
    (hfailed : Event.providerCall reflection msgs resp (some err) ∈ l.Run.trace) :
    ∃ result pre,
      l.Run = .returned result (some err)
        (pre ++ [.providerCall reflection msgs resp (some err)]) ∧
      Clean l pre ∧
      result.Status = "failed" ∧
      result.Error =
        (if reflection then "Reflection call failed: " else "LLM call failed: ") ++
          err.Error := by
  revert hfailed
  refine Run_induct l (fun _ st => Consistent l st)
    (fun o => Event.providerCall reflection msgs resp (some err) ∈ o.trace →
      ∃ result pre,
        o = .returned result (some err)
          (pre ++ [.providerCall reflection msgs resp (some err)]) ∧
        Clean l pre ∧
        result.Status = "failed" ∧
        result.Error =
          (if reflection then "Reflection call failed: " else "LLM call failed: ") ++
            err.Error)
    (consistent_initial l) (fun _ _ _ _ h hs => step_next_consistent h hs) ?_ ?_
  · intro i st o _ hinv hstep hmem
    have hfatal : (Event.providerCall reflection msgs resp (some err)).fatal l = true := rfl
    cases hstep with
    | callFailed resp' err' hcall =>
      have := eq_last_of_fatal hinv.clean hmem hfatal
      simp only [Event.providerCall.injEq, Option.some.injEq] at this
      obtain ⟨rfl, rfl, rfl, rfl⟩ := this
      exact ⟨_, st.trace, rfl, hinv.clean, rfl, rfl⟩
    | callNil hcall =>
      have := eq_last_of_fatal hinv.clean hmem hfatal
      simp at this
    | denied r pre tc' post outs e' hcall hsplit hlen hreg hpol =>
      have := eq_last_of_fatal (clean_batchTrace hinv.clean r pre hreg outs) hmem hfatal
      simp at this
    | notFound r pre tc' post outs hcall hsplit hlen hreg hpol htool =>
      have := eq_last_of_fatal (clean_batchTrace hinv.clean r pre hreg outs) hmem hfatal
      simp at this
    | reflectFailed r outs resp' err' hcall hsome hlen hreg hreflect =>
      have := eq_last_of_fatal (clean_batchTrace hinv.clean r _ hreg outs) hmem hfatal
      simp only [Event.providerCall.injEq, Option.some.injEq] at this
      obtain ⟨rfl, rfl, rfl, rfl⟩ := this
      exact ⟨_, _, rfl, clean_batchTrace hinv.clean r _ hreg outs, rfl, rfl⟩
    | reflectNil r outs hcall hsome hlen hreg hreflect =>
      have := eq_last_of_fatal (clean_batchTrace hinv.clean r _ hreg outs) hmem hfatal
      simp at this
    | succeeded r outs rr hcall hsome hlen hreg hreflect hend =>
      have := eq_last_of_fatal (clean_batchTrace hinv.clean r _ hreg outs) hmem hfatal
      simp at this
  · intro st hinv hmem
    have := hinv.clean _ hmem
    simp [Event.fatal] at this

/-- C8, on a run whose first provider call fails. -/
theorem provider_error_fails_run_witness :
    Event.providerCall false (seedMessages providerErrorLoop) none
        (some (.text "no more responses")) ∈ providerErrorLoop.Run.trace ∧
    ∃ result pre,
      providerErrorLoop.Run = .returned result (some (.text "no more responses"))
        (pre ++ [.providerCall false (seedMessages providerErrorLoop) none
          (some (.text "no more responses"))]) ∧
      Clean providerErrorLoop pre ∧
      result.Status = "failed" ∧
      result.Error =
        (if false then "Reflection call failed: " else "LLM call failed: ") ++
          (GoError.text "no more responses").Error :=
  ⟨by decide,
    provider_error_fails_run providerErrorLoop false _ none (.text "no more responses")
      (by decide)⟩

/-! ## The totals and the audit list -/

/-- The consistency of the result with the trace holds at every return from
inside the body of the loop. -/
theorem step_exit_consistent {l : Loop} {i : Nat} {st : LoopState} {o : Outcome}
    (h : Consistent l st) (hstep : Step l i st (.exit o)) :
    ∀ result err trace, o = .returned result err trace →
      result.ToolCalls = recordsOf trace ∧
      result.TotalTokensIn = tokensInOf trace ∧
      result.TotalTokensOut = tokensOutOf trace := by
  obtain ⟨hclean, hrec, hin, hout⟩ := h
  intro result err trace ho
  cases hstep with
  | callFailed resp err' hcall =>
    simp only [Outcome.returned.injEq] at ho
    obtain ⟨rfl, -, rfl⟩ := ho
    refine ⟨?_, ?_, ?_⟩
    · show st.result.ToolCalls = _
      rw [recordsOf_append_call, hrec]
    · show st.result.TotalTokensIn = _
      rw [tokensInOf_append_failed, hin]
    · show st.result.TotalTokensOut = _
      rw [tokensOutOf_append_failed, hout]
  | callNil hcall => simp at ho
  | denied r pre tc post outs e hcall hsplit hlen hreg hpol =>
    simp only [Outcome.returned.injEq] at ho
    obtain ⟨rfl, -, rfl⟩ := ho
    refine ⟨?_, ?_, ?_⟩
    · show st.result.ToolCalls ++ recordsOf (batchEvents pre outs) = _
      simp only [batchTrace, callTrace]
      rw [recordsOf_append_policy, recordsOf_append, recordsOf_append_call, hrec]
    · show addInt st.result.TotalTokensIn r.TokensIn = _
      simp only [batchTrace, callTrace]
      rw [tokensInOf_append_policy, tokensInOf_append_batch,
        tokensInOf_append_response, hin]
    · show addInt st.result.TotalTokensOut r.TokensOut = _
      simp only [batchTrace, callTrace]
      rw [tokensOutOf_append_policy, tokensOutOf_append_batch,
        tokensOutOf_append_response, hout]
  | notFound r pre tc post outs hcall hsplit hlen hreg hpol htool =>
    simp only [Outcome.returned.injEq] at ho
    obtain ⟨rfl, -, rfl⟩ := ho
    refine ⟨?_, ?_, ?_⟩
    · show st.result.ToolCalls ++ recordsOf (batchEvents pre outs) = _
      simp only [batchTrace, callTrace]
      rw [recordsOf_append_policy, recordsOf_append, recordsOf_append_call, hrec]
    · show addInt st.result.TotalTokensIn r.TokensIn = _
      simp only [batchTrace, callTrace]
      rw [tokensInOf_append_policy, tokensInOf_append_batch,
        tokensInOf_append_response, hin]
    · show addInt st.result.TotalTokensOut r.TokensOut = _
      simp only [batchTrace, callTrace]
      rw [tokensOutOf_append_policy, tokensOutOf_append_batch,
        tokensOutOf_append_response, hout]
  | reflectFailed r outs resp err' hcall hsome hlen hreg hreflect =>
    simp only [Outcome.returned.injEq] at ho
    obtain ⟨rfl, -, rfl⟩ := ho
    refine ⟨?_, ?_, ?_⟩
    · show st.result.ToolCalls ++ recordsOf (batchEvents r.ToolCalls outs) = _
      simp only [batchTrace, callTrace]
      rw [recordsOf_append_call, recordsOf_append, recordsOf_append_call, hrec]
    · show addInt st.result.TotalTokensIn r.TokensIn = _
      simp only [batchTrace, callTrace]
      rw [tokensInOf_append_failed, tokensInOf_append_batch,
        tokensInOf_append_response, hin]
    · show addInt st.result.TotalTokensOut r.TokensOut = _
      simp only [batchTrace, callTrace]
      rw [tokensOutOf_append_failed, tokensOutOf_append_batch,
        tokensOutOf_append_response, hout]
  | reflectNil r outs hcall hsome hlen hreg hreflect => simp at ho
  | succeeded r outs rr hcall hsome hlen hreg hreflect hend =>
    simp only [Outcome.returned.injEq] at ho
    obtain ⟨rfl, -, rfl⟩ := ho
    refine ⟨?_, ?_, ?_⟩
    · show st.result.ToolCalls ++ recordsOf (batchEvents r.ToolCalls outs) = _
      simp only [batchTrace, callTrace]
      rw [recordsOf_append_call, recordsOf_append, recordsOf_append_call, hrec]
    · show addInt (addInt st.result.TotalTokensIn r.TokensIn) rr.TokensIn = _
      simp only [batchTrace, callTrace]
      rw [tokensInOf_append_response, tokensInOf_append_batch, tokensInOf_append_response,
        hin]
    · show addInt (addInt st.result.TotalTokensOut r.TokensOut) rr.TokensOut = _
      simp only [batchTrace, callTrace]
      rw [tokensOutOf_append_response, tokensOutOf_append_batch,
        tokensOutOf_append_response, hout]

/-- On every return of `Run` the result agrees with the trace of the run. -/
theorem run_consistent (l : Loop) :
    ∀ result err trace, l.Run = .returned result err trace →
      result.ToolCalls = recordsOf trace ∧
      result.TotalTokensIn = tokensInOf trace ∧
      result.TotalTokensOut = tokensOutOf trace := by
  refine Run_induct l (fun _ st => Consistent l st)
    (fun o => ∀ result err trace, o = .returned result err trace →
      result.ToolCalls = recordsOf trace ∧
      result.TotalTokensIn = tokensInOf trace ∧
      result.TotalTokensOut = tokensOutOf trace)
    (consistent_initial l) (fun _ _ _ _ h hs => step_next_consistent h hs)
    (fun _ _ _ _ h hs => step_exit_consistent h hs) ?_
  intro st hinv result err trace ho
  simp only [Outcome.returned.injEq] at ho
  obtain ⟨rfl, -, rfl⟩ := ho
  exact ⟨hinv.records, hinv.tokensIn, hinv.tokensOut⟩

/-- C9: on every return of `Run`, whatever the status, `TotalTokensIn` is the
sum of `TokensIn` and `TotalTokensOut` the sum of `TokensOut` over the provider
calls of the run, first calls and reflection calls, that returned a response
with a nil error.  The sums are those of Go `int`s: they are the exact sums
whenever these fit in 64 bits. -/
theorem totals_are_sums_of_responses (l : Loop) (result : Result) (err : Option GoError)
    (trace : List Event) (hrun : l.Run = .returned result err trace) :
    result.TotalTokensIn =
      wrapInt64 ((responsesOf trace).map (fun r => r.TokensIn)).sum ∧
    result.TotalTokensOut =
      wrapInt64 ((responsesOf trace).map (fun r => r.TokensOut)).sum ∧
    (-2 ^ 63 ≤ ((responsesOf trace).map (fun r => r.TokensIn)).sum →
      ((responsesOf trace).map (fun r => r.TokensIn)).sum < 2 ^ 63 →
      result.TotalTokensIn = ((responsesOf trace).map (fun r => r.TokensIn)).sum) ∧
    (-2 ^ 63 ≤ ((responsesOf trace).map (fun r => r.TokensOut)).sum →
      ((responsesOf trace).map (fun r => r.TokensOut)).sum < 2 ^ 63 →
      result.TotalTokensOut = ((responsesOf trace).map (fun r => r.TokensOut)).sum) := by
  obtain ⟨-, hin, hout⟩ := run_consistent l result err trace hrun
  refine ⟨hin, hout, fun hlo hhi => ?_, fun hlo hhi => ?_⟩
  · rw [hin]
    exact wrapInt64_of_range _ hlo hhi
  · rw [hout]
    exact wrapInt64_of_range _ hlo hhi

/-- C9, on the run of `TestLoop_SuccessfulCompletion`: 300 tokens in, 80 out. -/
theorem totals_are_sums_of_responses_witness :
    successLoop.Run = .returned successResult none successLoop.Run.trace ∧
    successResult.TotalTokensIn =
      wrapInt64 ((responsesOf successLoop.Run.trace).map (fun r => r.TokensIn)).sum ∧
    successResult.TotalTokensOut =
      wrapInt64 ((responsesOf successLoop.Run.trace).map (fun r => r.TokensOut)).sum ∧
    successResult.TotalTokensIn = 300 ∧
    ((responsesOf successLoop.Run.trace).map (fun r => r.TokensIn)).sum = 300 :=
  ⟨by decide,
    (totals_are_sums_of_responses successLoop successResult none successLoop.Run.trace
      (by decide)).1,
    (totals_are_sums_of_responses successLoop successResult none successLoop.Run.trace
      (by decide)).2.1,
    rfl, by decide⟩

theorem executedCalls_append (a b : List Event) :
    executedCalls (a ++ b) = executedCalls a ++ executedCalls b := by
  simp [executedCalls, List.filterMap_append]

theorem receivedCalls_append (a b : List Event) :
    receivedCalls (a ++ b) = receivedCalls a ++ receivedCalls b := by
  simp [receivedCalls]

theorem executedCalls_batchEvents (tcs : List ToolCall) :
    ∀ outs : List (String × Option GoError), outs.length = tcs.length →
      executedCalls (batchEvents tcs outs) = tcs := by
  induction tcs with
  | nil => intro outs _; simp [batchEvents, executedCalls]
  | cons tc rest ih =>
    intro outs hlen
    cases outs with
    | nil => simp at hlen
    | cons out outs =>
      have h := ih outs (by simpa using hlen)
      simp only [executedCalls] at h
      simp [batchEvents, executedCalls, List.filterMap_cons, Event.executed, h]

theorem receivedCalls_batchEvents (tcs : List ToolCall) :
    ∀ outs : List (String × Option GoError), receivedCalls (batchEvents tcs outs) = [] := by
  induction tcs with
  | nil => intro outs; simp [batchEvents, receivedCalls]
  | cons tc rest ih =>
    intro outs
    cases outs with
    | nil => simp [batchEvents, receivedCalls]
    | cons out outs =>
      have h := ih outs
      simp only [receivedCalls] at h
      simp [batchEvents, receivedCalls, Event.received, h]

theorem executedCalls_callTrace (st : LoopState) (r : Response) :
    executedCalls (callTrace st r) = executedCalls st.trace := by
  simp [callTrace, executedCalls, Event.executed]

theorem receivedCalls_callTrace (st : LoopState) (r : Response) :
    receivedCalls (callTrace st r) = receivedCalls st.trace ++ r.ToolCalls := by
  simp [callTrace, receivedCalls, Event.received]

theorem executedCalls_batchTrace (st : LoopState) (r : Response) (tcs : List ToolCall)
    (outs : List (String × Option GoError)) (hlen : outs.length = tcs.length) :
    executedCalls (batchTrace st r tcs outs) = executedCalls st.trace ++ tcs := by
  rw [batchTrace, executedCalls_append, executedCalls_callTrace,
    executedCalls_batchEvents tcs outs hlen]

theorem receivedCalls_batchTrace (st : LoopState) (r : Response) (tcs : List ToolCall)
    (outs : List (String × Option GoError)) :
    receivedCalls (batchTrace st r tcs outs) = receivedCalls st.trace ++ r.ToolCalls := by
  rw [batchTrace, receivedCalls_append, receivedCalls_callTrace, receivedCalls_batchEvents,
    List.append_nil]

theorem executedCalls_append_other (tr : List Event) (ev : Event) (h : ev.executed = none) :
    executedCalls (tr ++ [ev]) = executedCalls tr := by
  simp [executedCalls, List.filterMap_append, h]

theorem receivedCalls_append_other (tr : List Event) (ev : Event) (h : ev.received = []) :
    receivedCalls (tr ++ [ev]) = receivedCalls tr := by
  simp [receivedCalls, h]

theorem executedCalls_append_call (tr : List Event) (b : Bool) (msgs : List Message)
    (resp : Option Response) (err : Option GoError) :
    executedCalls (tr ++ [.providerCall b msgs resp err]) = executedCalls tr :=
  executedCalls_append_other _ _ rfl

theorem executedCalls_append_policy (tr : List Event) (tc : ToolCall)
    (err : Option GoError) :
    executedCalls (tr ++ [.policyAllow tc err]) = executedCalls tr :=
  executedCalls_append_other _ _ rfl

theorem receivedCalls_append_policy (tr : List Event) (tc : ToolCall)
    (err : Option GoError) :
    receivedCalls (tr ++ [.policyAllow tc err]) = receivedCalls tr :=
  receivedCalls_append_other _ _ rfl

theorem receivedCalls_append_reflection (tr : List Event) (msgs : List Message)
    (resp : Option Response) (err : Option GoError) :
    receivedCalls (tr ++ [.providerCall true msgs resp err]) = receivedCalls tr :=
  receivedCalls_append_other _ _ rfl

theorem receivedCalls_append_failed (tr : List Event) (b : Bool) (msgs : List Message)
    (resp : Option Response) (err : GoError) :
    receivedCalls (tr ++ [.providerCall b msgs resp (some err)]) = receivedCalls tr :=
  receivedCalls_append_other _ _ (by cases b <;> cases resp <;> rfl)

theorem receivedCalls_append_nil (tr : List Event) (b : Bool) (msgs : List Message)
    (err : Option GoError) :
    receivedCalls (tr ++ [.providerCall b msgs none err]) = receivedCalls tr :=
  receivedCalls_append_other _ _ (by cases b <;> rfl)

theorem map_call_recordsOf (trace : List Event) :
    (recordsOf trace).map ToolCallRecord.call = executedCalls trace := by
  induction trace with
  | nil => simp [recordsOf, executedCalls]
  | cons ev rest ih =>
    simp only [recordsOf, executedCalls] at ih
    cases ev with
    | providerCall b m r e =>
      simpa [recordsOf, executedCalls, List.filterMap_cons, Event.record, Event.executed]
        using ih
    | policyAllow tc e =>
      simpa [recordsOf, executedCalls, List.filterMap_cons, Event.record, Event.executed]
        using ih
    | toolExecute tc out e =>
      cases e <;>
        simpa [recordsOf, executedCalls, List.filterMap_cons, Event.record, Event.executed,
          ToolCallRecord.call] using ih

/-- The tool calls executed in a run are a prefix of the tool calls received. -/
theorem executed_prefix_received (l : Loop) :
    executedCalls l.Run.trace <+: receivedCalls l.Run.trace := by
  refine Run_induct l (fun _ st => executedCalls st.trace = receivedCalls st.trace)
    (fun o => executedCalls o.trace <+: receivedCalls o.trace) rfl ?_ ?_ ?_
  · intro i st st' _ hinv hstep
    cases hstep with
    | noToolCalls r hcall hnone =>
      show executedCalls (callTrace st r) = receivedCalls (callTrace st r)
      rw [executedCalls_callTrace, receivedCalls_callTrace, hnone, List.append_nil, hinv]
    | reflected r outs rr hcall hsome hlen hreg hreflect hend =>
      show executedCalls (batchTrace st r r.ToolCalls outs ++ [_]) =
        receivedCalls (batchTrace st r r.ToolCalls outs ++ [_])
      rw [executedCalls_append_call, receivedCalls_append_reflection,
        executedCalls_batchTrace _ _ _ _ hlen, receivedCalls_batchTrace, hinv]
  · intro i st o _ hinv hstep
    cases hstep with
    | callFailed resp err hcall =>
      show executedCalls (st.trace ++ [_]) <+: receivedCalls (st.trace ++ [_])
      rw [executedCalls_append_call, receivedCalls_append_failed, hinv]
    | callNil hcall =>
      show executedCalls (st.trace ++ [_]) <+: receivedCalls (st.trace ++ [_])
      rw [executedCalls_append_call, receivedCalls_append_nil, hinv]
    | denied r pre tc post outs e hcall hsplit hlen hreg hpol =>
      show executedCalls (batchTrace st r pre outs ++ [_]) <+:
        receivedCalls (batchTrace st r pre outs ++ [_])
      rw [executedCalls_append_policy, receivedCalls_append_policy,
        executedCalls_batchTrace _ _ _ _ hlen, receivedCalls_batchTrace, hinv, hsplit,
        ← List.append_assoc]
      exact List.prefix_append _ _
    | notFound r pre tc post outs hcall hsplit hlen hreg hpol htool =>
      show executedCalls (batchTrace st r pre outs ++ [_]) <+:
        receivedCalls (batchTrace st r pre outs ++ [_])
      rw [executedCalls_append_policy, receivedCalls_append_policy,
        executedCalls_batchTrace _ _ _ _ hlen, receivedCalls_batchTrace, hinv, hsplit,
        ← List.append_assoc]
      exact List.prefix_append _ _
    | reflectFailed r outs resp err hcall hsome hlen hreg hreflect =>
      show executedCalls (batchTrace st r r.ToolCalls outs ++ [_]) <+:
        receivedCalls (batchTrace st r r.ToolCalls outs ++ [_])
      rw [executedCalls_append_call, receivedCalls_append_reflection,
        executedCalls_batchTrace _ _ _ _ hlen, receivedCalls_batchTrace, hinv]
    | reflectNil r outs hcall hsome hlen hreg hreflect =>
      show executedCalls (batchTrace st r r.ToolCalls outs ++ [_]) <+:
        receivedCalls (batchTrace st r r.ToolCalls outs ++ [_])
      rw [executedCalls_append_call, receivedCalls_append_reflection,
        executedCalls_batchTrace _ _ _ _ hlen, receivedCalls_batchTrace, hinv]
    | succeeded r outs rr hcall hsome hlen hreg hreflect hend =>
      show executedCalls (batchTrace st r r.ToolCalls outs ++ [_]) <+:
        receivedCalls (batchTrace st r r.ToolCalls outs ++ [_])
      rw [executedCalls_append_call, receivedCalls_append_reflection,
        executedCalls_batchTrace _ _ _ _ hlen, receivedCalls_batchTrace, hinv]
  · intro st hinv
    show executedCalls st.trace <+: receivedCalls st.trace
    rw [hinv]

/-- C10: on every return of `Run`, the audit list is the list of the records
of the executed tool calls, in the order of their execution; each record copies
the ID, the name and the input of its call and carries the output of the tool
on success or the text of its error on failure (`recordsOf`); and the calls
were executed in the order in which they were received: iteration after
iteration and, in a batch, in the order the provider listed them. -/
theorem audit_list_follows_execution (l : Loop) (result : Result) (err : Option GoError)
    (trace : List Event) (hrun : l.Run = .returned result err trace) :
    result.ToolCalls = recordsOf trace ∧
    result.ToolCalls.map ToolCallRecord.call = executedCalls trace ∧
    executedCalls trace <+: receivedCalls trace := by
  obtain ⟨hrec, -, -⟩ := run_consistent l result err trace hrun
  refine ⟨hrec, ?_, ?_⟩
  · rw [hrec, map_call_recordsOf]
  · have h := executed_prefix_received l
    rw [hrun] at h
    exact h

/-- C10, on the run of `TestLoop_SuccessfulCompletion`. -/
theorem audit_list_follows_execution_witness :
    successLoop.Run = .returned successResult none successLoop.Run.trace ∧
    successResult.ToolCalls = recordsOf successLoop.Run.trace ∧
    successResult.ToolCalls.map ToolCallRecord.call = executedCalls successLoop.Run.trace ∧
    executedCalls successLoop.Run.trace <+: receivedCalls successLoop.Run.trace ∧
    executedCalls successLoop.Run.trace = planResponse.ToolCalls :=
  ⟨by decide,
    (audit_list_follows_execution successLoop successResult none successLoop.Run.trace
      (by decide)).1,
    (audit_list_follows_execution successLoop successResult none successLoop.Run.trace
      (by decide)).2.1,
    (audit_list_follows_execution successLoop successResult none successLoop.Run.trace
      (by decide)).2.2,
    by decide⟩

/-! ## Tool executions that fail -/

/-- Where an execution sits in the calls of a batch followed by one more call
`last` that is not an execution. -/
theorem batch_failure_split (tcs : List ToolCall) :
    ∀ (outs : List (String × Option GoError)) (a : List Event) (tc : ToolCall)
      (out : String) (e : GoError) (post : List Event) (last : Event),
      outs.length = tcs.length → last.executed = none →
      batchEvents tcs outs ++ [last] = a ++ .toolExecute tc out (some e) :: post →
      ∃ done remaining outs1,
        tcs = done ++ tc :: remaining ∧ outs1.length = done.length ∧
        a = batchEvents done outs1 ++ [.policyAllow tc none] ∧
        ((remaining = [] ∧ post = [last]) ∨
         (∃ next rem rest, remaining = next :: rem ∧ post = .policyAllow next none :: rest)) := by
  induction tcs with
  | nil =>
    intro outs a tc out e post last _ hlast h
    simp only [batchEvents, List.nil_append] at h
    cases a with
    | nil =>
      simp only [List.nil_append, List.cons.injEq] at h
      rw [h.1] at hlast
      simp [Event.executed] at hlast
    | cons x a => simp at h
  | cons tc0 rest0 ih =>
    intro outs a tc out e post last hlen hlast h
    cases outs with
    | nil => simp at hlen
    | cons o outs' =>
      have hlen' : outs'.length = rest0.length := by simpa using hlen
      simp only [batchEvents, List.cons_append] at h
      cases a with
      | nil => simp at h
      | cons x a =>
        simp only [List.cons_append, List.cons.injEq] at h
        obtain ⟨hx, h⟩ := h
        cases a with
        | nil =>
          simp only [List.nil_append, List.cons.injEq, Event.toolExecute.injEq] at h
          obtain ⟨⟨rfl, -, -⟩, hpost⟩ := h
          refine ⟨[], rest0, [], rfl, rfl, by simp [batchEvents, hx], ?_⟩
          cases rest0 with
          | nil =>
            left
            simp only [batchEvents, List.nil_append] at hpost
            exact ⟨rfl, hpost.symm⟩
          | cons next rem =>
            right
            cases outs' with
            | nil => simp at hlen'
            | cons o' outs'' =>
              simp only [batchEvents, List.cons_append] at hpost
              exact ⟨next, rem, _, rfl, hpost.symm⟩
        | cons y a =>
          simp only [List.cons_append, List.cons.injEq] at h
          obtain ⟨hy, h⟩ := h
          obtain ⟨done, remaining, outs1, hsplit, hlen1, ha, hnext⟩ :=
            ih outs' a tc out e post last hlen' hlast h
          refine ⟨tc0 :: done, remaining, o :: outs1, by simp [hsplit], by simp [hlen1],
            ?_, hnext⟩
          simp [batchEvents, hx, hy, ha]

/-- Where an execution sits in a trace that was extended by the calls of one
more iteration. -/
theorem execution_split {tr rest pre post : List Event} {m : List Message}
    {resp : Option Response} {err : Option GoError} {tc : ToolCall} {out : String}
    {e : Option GoError}
    (h : tr ++ .providerCall false m resp err :: rest = pre ++ .toolExecute tc out e :: post) :
    (∃ c, tr = pre ++ .toolExecute tc out e :: c ∧
      post = c ++ .providerCall false m resp err :: rest) ∨
    (∃ a, pre = tr ++ .providerCall false m resp err :: a ∧
      rest = a ++ .toolExecute tc out e :: post) := by
  rcases List.append_eq_append_iff.mp h with ⟨a, hpre, hnew⟩ | ⟨c, htr, hpost⟩
  · right
    cases a with
    | nil => simp at hnew
    | cons x a =>
      simp only [List.cons_append, List.cons.injEq] at hnew
      refine ⟨a, ?_, hnew.2⟩
      rw [hpre, hnew.1]
  · cases c with
    | nil => simp at hpost
    | cons x c =>
      simp only [List.cons_append, List.cons.injEq] at hpost
      left
      refine ⟨c, ?_, hpost.2⟩
      rw [htr, hpost.1]

theorem failureFollowed_append {l : Loop} {tr : List Event} (new : List Event)
    (hinv : FailureFollowed l tr)
    (hnew : ∀ pre tc out e post, tr ++ new = pre ++ .toolExecute tc out (some e) :: post →
      (∃ c, tr = pre ++ .toolExecute tc out (some e) :: c ∧ post = c ++ new) ∨
      ∃ before msgs r done remaining outs,
        pre = before ++ [.providerCall false msgs (some r) none] ++ batchEvents done outs ++
          [.policyAllow tc none] ∧
        r.ToolCalls = done ++ tc :: remaining ∧
        outs.length = done.length ∧
        (l.Tools tc.Name).isSome = true ∧
        ((remaining = [] ∧
            ∃ m resp err rest, post = .providerCall true m resp err :: rest) ∨
         (∃ next rem err rest,
            remaining = next :: rem ∧ post = .policyAllow next err :: rest))) :
    FailureFollowed l (tr ++ new) := by
  intro pre tc out e post h
  rcases hnew pre tc out e post h with ⟨c, htr, hpost⟩ | hdone
  · obtain ⟨before, msgs, r, done, remaining, outs, hpre, hsplit, hlen, hreg, hnext⟩ :=
      hinv pre tc out e c htr
    refine ⟨before, msgs, r, done, remaining, outs, hpre, hsplit, hlen, hreg, ?_⟩
    rcases hnext with ⟨hrem, m, resp, err, rest, hc⟩ | ⟨next, rem, err, rest, hrem, hc⟩
    · exact Or.inl ⟨hrem, m, resp, err, rest ++ new, by rw [hpost, hc]; simp⟩
    · exact Or.inr ⟨next, rem, err, rest ++ new, hrem, by rw [hpost, hc]; simp⟩
  · exact hdone

/-- The property `FailureFollowed` survives the calls of an iteration whose
first provider call is not followed by a batch. -/
theorem failureFollowed_call {l : Loop} {tr : List Event} (m : List Message)
    (resp : Option Response) (err : Option GoError) (hinv : FailureFollowed l tr) :
    FailureFollowed l (tr ++ [.providerCall false m resp err]) := by
  refine failureFollowed_append _ hinv ?_
  intro pre tc out e post h
  rcases execution_split h with ⟨c, htr, hpost⟩ | ⟨a, -, ha⟩
  · exact Or.inl ⟨c, htr, hpost⟩
  · simp at ha

/-- The property `FailureFollowed` survives the calls of an iteration that
executed the calls `tcs` of the batch of `r` and then made the call `last`:
the check of the next call of the batch, or the reflection call when `tcs` is
the whole batch. -/
theorem failureFollowed_batch {l : Loop} {tr : List Event} (m : List Message) (r : Response)
    (tcs suffix : List ToolCall) (outs : List (String × Option GoError)) (last : Event)
    (hinv : FailureFollowed l tr)
    (hsplit : r.ToolCalls = tcs ++ suffix)
    (hlen : outs.length = tcs.length)
    (hreg : ∀ tc ∈ tcs, (l.Tools tc.Name).isSome = true)
    (hexec : last.executed = none)
    (hlast : (suffix = [] ∧ ∃ m' resp err, last = .providerCall true m' resp err) ∨
      (∃ next rem err, suffix = next :: rem ∧ last = .policyAllow next err)) :
    FailureFollowed l
      (tr ++ .providerCall false m (some r) none :: (batchEvents tcs outs ++ [last])) := by
  refine failureFollowed_append _ hinv ?_
  intro pre tc out e post h
  rcases execution_split h with ⟨c, htr, hpost⟩ | ⟨a, hpre, ha⟩
  · exact Or.inl ⟨c, htr, hpost⟩
  · right
    obtain ⟨done, remaining, outs1, htcs, hlen1, hadone, hnext⟩ :=
      batch_failure_split tcs outs a tc out e post last hlen hexec ha
    refine ⟨tr, m, r, done, remaining ++ suffix, outs1, ?_, ?_, hlen1, ?_, ?_⟩
    · rw [hpre, hadone]
      simp
    · rw [hsplit, htcs]
      simp
    · exact hreg tc (by rw [htcs]; simp)
    · rcases hnext with ⟨hrem, hpost⟩ | ⟨next, rem, rest, hrem, hpost⟩
      · subst hrem
        rcases hlast with ⟨hsuf, m', resp, err, hl⟩ | ⟨next, rem, err, hsuf, hl⟩
        · exact Or.inl ⟨by simp [hsuf], m', resp, err, [], by rw [hpost, hl]⟩
        · exact Or.inr ⟨next, rem, err, [], by simp [hsuf], by rw [hpost, hl]⟩
      · exact Or.inr ⟨next, rem ++ suffix, none, rest, by simp [hrem], hpost⟩

theorem failureFollowed_run (l : Loop) : FailureFollowed l l.Run.trace := by
  refine Run_induct l (fun _ st => FailureFollowed l st.trace)
    (fun o => FailureFollowed l o.trace) ?_ ?_ ?_ ?_
  · intro pre tc out e post h
    simp at h
  · intro i st st' _ hinv hstep
    cases hstep with
    | noToolCalls r hcall hnone => exact failureFollowed_call _ _ _ hinv
    | reflected r outs rr hcall hsome hlen hreg hreflect hend =>
      show FailureFollowed l
        (st.trace ++ [.providerCall false st.messages (some r) none] ++
          batchEvents r.ToolCalls outs ++
          [.providerCall true (reflectMessages st r outs) (some rr) none])
      rw [List.append_assoc, List.append_assoc, List.singleton_append]
      exact failureFollowed_batch _ r r.ToolCalls [] outs _ hinv (by simp) hlen hreg rfl
        (Or.inl ⟨rfl, _, _, _, rfl⟩)
  · intro i st o _ hinv hstep
    cases hstep with
    | callFailed resp err hcall => exact failureFollowed_call _ _ _ hinv
    | callNil hcall => exact failureFollowed_call _ _ _ hinv
    | denied r pre tc post outs e hcall hsplit hlen hreg hpol =>
      show FailureFollowed l
        (st.trace ++ [.providerCall false st.messages (some r) none] ++
          batchEvents pre outs ++ [.policyAllow tc (some e)])
      rw [List.append_assoc, List.append_assoc, List.singleton_append]
      exact failureFollowed_batch _ r pre (tc :: post) outs _ hinv hsplit hlen hreg rfl
        (Or.inr ⟨tc, post, _, rfl, rfl⟩)
    | notFound r pre tc post outs hcall hsplit hlen hreg hpol htool =>
      show FailureFollowed l
        (st.trace ++ [.providerCall false st.messages (some r) none] ++
          batchEvents pre outs ++ [.policyAllow tc none])
      rw [List.append_assoc, List.append_assoc, List.singleton_append]
      exact failureFollowed_batch _ r pre (tc :: post) outs _ hinv hsplit hlen hreg rfl
        (Or.inr ⟨tc, post, _, rfl, rfl⟩)
    | reflectFailed r outs resp err hcall hsome hlen hreg hreflect =>
      show FailureFollowed l
        (st.trace ++ [.providerCall false st.messages (some r) none] ++
          batchEvents r.ToolCalls outs ++
          [.providerCall true (reflectMessages st r outs) resp (some err)])
      rw [List.append_assoc, List.append_assoc, List.singleton_append]
      exact failureFollowed_batch _ r r.ToolCalls [] outs _ hinv (by simp) hlen hreg rfl
        (Or.inl ⟨rfl, _, _, _, rfl⟩)
    | reflectNil r outs hcall hsome hlen hreg hreflect =>
      show FailureFollowed l
        (st.trace ++ [.providerCall false st.messages (some r) none] ++
          batchEvents r.ToolCalls outs ++
          [.providerCall true (reflectMessages st r outs) none none])
      rw [List.append_assoc, List.append_assoc, List.singleton_append]
      exact failureFollowed_batch _ r r.ToolCalls [] outs _ hinv (by simp) hlen hreg rfl
        (Or.inl ⟨rfl, _, _, _, rfl⟩)
    | succeeded r outs rr hcall hsome hlen hreg hreflect hend =>
      show FailureFollowed l
        (st.trace ++ [.providerCall false st.messages (some r) none] ++
          batchEvents r.ToolCalls outs ++
          [.providerCall true (reflectMessages st r outs) (some rr) none])
      rw [List.append_assoc, List.append_assoc, List.singleton_append]
      exact failureFollowed_batch _ r r.ToolCalls [] outs _ hinv (by simp) hlen hreg rfl
        (Or.inl ⟨rfl, _, _, _, rfl⟩)
  · intro st hinv
    exact hinv

/-- C7: an execution of a tool that returns an error `e` does not end the run.
It was the execution of an allowed call to a registered tool, in the batch of
a response `r`; it is followed by the policy check of the next call of the
batch or, when it was the last call of the batch, by the reflection call of
the provider; and when `Run` returns, the audit list holds, at the place of
this execution, the record with the ID, the name and the input of the call, an
empty `Output` and the text of `e` as `Error`. -/
theorem tool_error_is_recorded_and_run_goes_on (l : Loop) (pre post : List Event)
    (toolCall : ToolCall) (out : String) (e : GoError)
    (htrace : l.Run.trace = pre ++ .toolExecute toolCall out (some e) :: post) :
    (∃ before msgs r done remaining outs,
      pre = before ++ [.providerCall false msgs (some r) none] ++ batchEvents done outs ++
        [.policyAllow toolCall none] ∧
      r.ToolCalls = done ++ toolCall :: remaining ∧
      outs.length = done.length ∧
      (l.Tools toolCall.Name).isSome = true ∧
      ((remaining = [] ∧ ∃ m resp err rest, post = .providerCall true m resp err :: rest) ∨
       (∃ next rem err rest,
          remaining = next :: rem ∧ post = .policyAllow next err :: rest))) ∧
    (∀ result err, l.Run = .returned result err l.Run.trace →
      result.ToolCalls =
        recordsOf pre ++
          { ID := toolCall.ID, Name := toolCall.Name, Input := toolCall.Input,
            Output := "", Error := e.Error } :: recordsOf post) := by
  refine ⟨failureFollowed_run l pre toolCall out e post htrace, ?_⟩
  intro result err hrun
  obtain ⟨hrec, -, -⟩ := run_consistent l result err _ hrun
  rw [hrec, htrace]
  simp [recordsOf, List.filterMap_append, List.filterMap_cons, Event.record]

/-- C7, on a run whose only tool fails: the reflection call follows and the
run succeeds, with the failure in the audit list. -/
theorem tool_error_is_recorded_and_run_goes_on_witness :
    toolErrorLoop.Run.trace =
      toolErrorLoop.Run.trace.take 2 ++
        .toolExecute testToolCall "" (some toolError) :: toolErrorLoop.Run.trace.drop 3 ∧
    ∃ before msgs r done remaining outs,
      toolErrorLoop.Run.trace.take 2 =
        before ++ [.providerCall false msgs (some r) none] ++ batchEvents done outs ++
          [.policyAllow testToolCall none] ∧
      r.ToolCalls = done ++ testToolCall :: remaining ∧
      outs.length = done.length ∧
      (toolErrorLoop.Tools testToolCall.Name).isSome = true ∧
      ((remaining = [] ∧
          ∃ m resp err rest,
            toolErrorLoop.Run.trace.drop 3 = .providerCall true m resp err :: rest) ∨
       (∃ next rem err rest,
          remaining = next :: rem ∧
          toolErrorLoop.Run.trace.drop 3 = .policyAllow next err :: rest)) :=
  ⟨by decide,
    (tool_error_is_recorded_and_run_goes_on toolErrorLoop (toolErrorLoop.Run.trace.take 2)
      (toolErrorLoop.Run.trace.drop 3) testToolCall "" toolError (by decide)).1⟩

/-! ## The input of the policy -/

theorem mapGet_nil (k : String) : mapGet [] k = none := rfl

theorem mapGet_cons (kv : String × Value) (m : InputMap) (k : String) :
    mapGet (kv :: m) k = if kv.1 = k then some kv.2 else mapGet m k := by
  unfold mapGet
  by_cases h : kv.1 = k
  · simp [List.find?_cons, h]
  · simp [List.find?_cons, h]

theorem mapGet_eq_none_of_not_mem (m : InputMap) (k : String)
    (h : k ∉ m.map Prod.fst) : mapGet m k = none := by
  induction m with
  | nil => rfl
  | cons kv m ih =>
    rw [mapGet_cons]
    simp only [List.map_cons, List.mem_cons, not_or] at h
    rw [if_neg (fun e => h.1 e.symm)]
    exact ih h.2

theorem mapGet_isSome_iff (m : InputMap) (k : String) :
    (mapGet m k).isSome = true ↔ k ∈ m.map Prod.fst := by
  induction m with
  | nil => simp [mapGet_nil]
  | cons kv m ih =>
    rw [mapGet_cons]
    by_cases h : kv.1 = k
    · simp [h]
    · rw [if_neg h, ih]
      simp only [List.map_cons, List.mem_cons]
      constructor
      · exact Or.inr
      · rintro (e | e)
        · exact absurd e.symm h
        · exact e

theorem mapGet_map_other (m : InputMap) (k k2 : String) (v : Value) (h : k2 ≠ k) :
    mapGet (m.map (fun kv => if kv.1 = k then (k, v) else kv)) k2 = mapGet m k2 := by
  induction m with
  | nil => rfl
  | cons kv m ih =>
    rw [List.map_cons, mapGet_cons, mapGet_cons, ih]
    by_cases hk : kv.1 = k
    · rw [if_pos hk]
      have h1 : ¬ k = k2 := fun e => h e.symm
      have h2 : ¬ kv.1 = k2 := fun e => h (e.symm.trans hk)
      simp [h1, h2]
    · rw [if_neg hk]

theorem mapGet_map_same (m : InputMap) (k : String) (v : Value)
    (h : k ∈ m.map Prod.fst) :
    mapGet (m.map (fun kv => if kv.1 = k then (k, v) else kv)) k = some v := by
  induction m with
  | nil => simp at h
  | cons kv m ih =>
    rw [List.map_cons, mapGet_cons]
    by_cases hk : kv.1 = k
    · simp [hk]
    · rw [if_neg hk, if_neg hk]
      simp only [List.map_cons, List.mem_cons] at h
      rcases h with e | e
      · exact absurd e.symm hk
      · exact ih e

theorem mapGet_append_single (m : InputMap) (k k2 : String) (v : Value) :
    mapGet (m ++ [(k, v)]) k2 =
      match mapGet m k2 with
      | some x => some x
      | none => if k = k2 then some v else none := by
  induction m with
  | nil => simp [mapGet_cons, mapGet_nil]
  | cons kv m ih =>
    rw [List.cons_append, mapGet_cons, mapGet_cons]
    by_cases hk : kv.1 = k2
    · simp [hk]
    · rw [if_neg hk, if_neg hk, ih]

theorem mapGet_mapSet (m : InputMap) (k k2 : String) (v : Value) :
    mapGet (mapSet m k v) k2 = if k2 = k then some v else mapGet m k2 := by
  unfold mapSet
  by_cases hany : m.any (fun kv => kv.1 = k) = true
  · rw [if_pos hany]
    have hmem : k ∈ m.map Prod.fst := by
      simp only [List.any_eq_true, decide_eq_true_eq] at hany
      obtain ⟨kv, hkv, e⟩ := hany
      exact List.mem_map.mpr ⟨kv, hkv, e⟩
    by_cases h : k2 = k
    · rw [if_pos h, h]
      exact mapGet_map_same m k v hmem
    · rw [if_neg h]
      exact mapGet_map_other m k k2 v h
  · rw [if_neg hany]
    have hnot : k ∉ m.map Prod.fst := by
      intro hmem
      apply hany
      obtain ⟨kv, hkv, e⟩ := List.mem_map.mp hmem
      simp only [List.any_eq_true, decide_eq_true_eq]
      exact ⟨kv, hkv, e⟩
    rw [mapGet_append_single]
    by_cases h : k2 = k
    · rw [if_pos h, h, mapGet_eq_none_of_not_mem m k hnot]
      simp
    · rw [if_neg h]
      have h2 : ¬ k = k2 := fun e => h e.symm
      cases mapGet m k2 <;> simp [h2]

theorem mapGet_foldl_mapSet (l : InputMap) (k : String) :
    ∀ init : InputMap, (l.map Prod.fst).Nodup →
      mapGet (l.foldl (fun input kv => mapSet input kv.1 kv.2) init) k =
        match mapGet l k with
        | some v => some v
        | none => mapGet init k := by
  induction l with
  | nil =>
    intro init _
    rfl
  | cons kv l ih =>
    intro init hnodup
    rw [List.map_cons, List.nodup_cons] at hnodup
    rw [List.foldl_cons, ih _ hnodup.2, mapGet_mapSet, mapGet_cons]
    by_cases hk : kv.1 = k
    · rw [if_pos hk]
      have hnone : mapGet l k = none :=
        mapGet_eq_none_of_not_mem l k (hk ▸ hnodup.1)
      rw [hnone]
      simp [hk]
    · rw [if_neg hk]
      have h2 : ¬ k = kv.1 := fun e => hk e.symm
      cases mapGet l k <;> simp [h2]

theorem keys_mapSet_nodup (m : InputMap) (k : String) (v : Value)
    (h : (m.map Prod.fst).Nodup) : ((mapSet m k v).map Prod.fst).Nodup := by
  unfold mapSet
  by_cases hany : m.any (fun kv => kv.1 = k) = true
  · rw [if_pos hany]
    have hkeys : (m.map (fun kv => if kv.1 = k then (k, v) else kv)).map Prod.fst =
        m.map Prod.fst := by
      rw [List.map_map]
      apply List.map_congr_left
      intro kv _
      by_cases e : kv.1 = k
      · simp [e]
      · simp [e]
    rw [hkeys]
    exact h
  · rw [if_neg hany]
    have hnot : k ∉ m.map Prod.fst := by
      intro hmem
      apply hany
      obtain ⟨kv, hkv, e⟩ := List.mem_map.mp hmem
      simp only [List.any_eq_true, decide_eq_true_eq]
      exact ⟨kv, hkv, e⟩
    rw [List.map_append, List.nodup_append]
    refine ⟨h, by simp, ?_⟩
    intro a ha hb
    simp only [List.map_cons, List.map_nil, List.mem_singleton] at hb
    exact hnot (hb ▸ ha)

theorem keys_foldl_mapSet_nodup (l : InputMap) :
    ∀ init : InputMap, (init.map Prod.fst).Nodup →
      ((l.foldl (fun input kv => mapSet input kv.1 kv.2) init).map Prod.fst).Nodup := by
  induction l with
  | nil =>
    intro init h
    exact h
  | cons kv l ih =>
    intro init h
    rw [List.foldl_cons]
    exact ih _ (keys_mapSet_nodup init kv.1 kv.2 h)

/-- C25: for every tool call, the input map that `OPAPolicy.Allow` hands to the
evaluator holds every key of `toolCall.Input` with its value, and the key
"tool": when `Input` has no key "tool", "tool" maps to `toolCall.Name`; when
`Input` has a key "tool", its value stands under "tool" in place of the name of
the tool.  The map holds no other key, and `Allow` depends on the evaluator
only through what it answers on this map. -/
theorem policy_input_merges_name_and_fields (toolCall : ToolCall)
    (hkeys : (toolCall.Input.map Prod.fst).Nodup) :
    (∀ k v, (k, v) ∈ toolCall.Input → mapGet (policyInput toolCall) k = some v) ∧
    ("tool" ∉ toolCall.Input.map Prod.fst →
      mapGet (policyInput toolCall) "tool" = some (.str toolCall.Name)) ∧
    (∀ v, ("tool", v) ∈ toolCall.Input →
      mapGet (policyInput toolCall) "tool" = some v ∧
      (v ≠ .str toolCall.Name →
        mapGet (policyInput toolCall) "tool" ≠ some (.str toolCall.Name))) ∧
    (∀ k, k ≠ "tool" → k ∉ toolCall.Input.map Prod.fst →
      mapGet (policyInput toolCall) k = none) ∧
    ((policyInput toolCall).map Prod.fst).Nodup ∧
    (∀ o o2 : OPAPolicy, o.query (policyInput toolCall) = o2.query (policyInput toolCall) →
      o.Allow toolCall = o2.Allow toolCall) := by
  have hget : ∀ k, mapGet (policyInput toolCall) k =
      match mapGet toolCall.Input k with
      | some v => some v
      | none => mapGet [("tool", Value.str toolCall.Name)] k := fun k =>
    mapGet_foldl_mapSet toolCall.Input k _ hkeys
  have hmem : ∀ k v, (k, v) ∈ toolCall.Input → mapGet toolCall.Input k = some v := by
    intro k v hkv
    have hsome : (mapGet toolCall.Input k).isSome = true :=
      (mapGet_isSome_iff toolCall.Input k).mpr (List.mem_map.mpr ⟨(k, v), hkv, rfl⟩)
    obtain ⟨x, hx⟩ := Option.isSome_iff_exists.mp hsome
    rw [hx]
    have hfind : (k, x) ∈ toolCall.Input := by
      unfold mapGet at hx
      rcases hf : toolCall.Input.find? (fun kv => decide (kv.1 = k)) with _ | kv
      · rw [hf] at hx
        cases hx
      · rw [hf] at hx
        have hk := List.find?_some hf
        have hin := List.mem_of_find?_eq_some hf
        simp only [decide_eq_true_eq] at hk
        simp only [Option.map_some', Option.some.injEq] at hx
        rcases kv with ⟨a, b⟩
        simp only at hk hx
        subst hk
        subst hx
        exact hin
    have huniq : x = v := by
      have hinj := List.inj_on_of_nodup_map hkeys hfind hkv rfl
      exact (Prod.mk.inj hinj).2
    rw [huniq]
  refine ⟨?_, ?_, ?_, ?_, ?_, ?_⟩
  · intro k v hkv
    rw [hget, hmem k v hkv]
  · intro hno
    rw [hget, mapGet_eq_none_of_not_mem _ _ hno]
    rfl
  · intro v hv
    have hval : mapGet (policyInput toolCall) "tool" = some v := by
      rw [hget, hmem _ v hv]
    refine ⟨hval, fun hne => ?_⟩
    rw [hval]
    intro h
    exact hne (Option.some.inj h)
  · intro k hk hno
    rw [hget, mapGet_eq_none_of_not_mem _ _ hno, mapGet_cons, mapGet_nil]
    exact if_neg (fun e => hk e.symm)
  · exact keys_foldl_mapSet_nodup toolCall.Input _ (by simp)
  · intro o o2 hq
    unfold OPAPolicy.Allow
    rw [hq]

/-- C25, on a call of the tool "unknown_tool" whose input has a field "tool"
with the value "k8s_get_resources": the evaluator sees that value under "tool",
not the name of the tool. -/
theorem policy_input_merges_name_and_fields_witness :
    mapGet (policyInput shadowingToolCall) "tool" = some (.str "k8s_get_resources") ∧
    mapGet (policyInput shadowingToolCall) "tool" ≠ some (.str shadowingToolCall.Name) ∧
    mapGet (policyInput shadowingToolCall) "namespace" = some (.str "default") ∧
    mapGet (policyInput testToolCall) "tool" = some (.str "k8s_get_resources") :=
  ⟨((policy_input_merges_name_and_fields shadowingToolCall (by decide)).2.2.1
      (.str "k8s_get_resources") (by decide)).1,
    ((policy_input_merges_name_and_fields shadowingToolCall (by decide)).2.2.1
      (.str "k8s_get_resources") (by decide)).2 (by decide),
    (policy_input_merges_name_and_fields shadowingToolCall (by decide)).1
      "namespace" (.str "default") (by decide),
    (policy_input_merges_name_and_fields testToolCall (by decide)).2.1 (by decide)⟩

/-! ## The bound on the iterations -/

theorem providerCalls_append_providerCall (trace : List Event) (reflection : Bool)
    (messages : List Message) (response : Option Response) (err : Option GoError) :
    providerCalls (trace ++ [.providerCall reflection messages response err]) =
      providerCalls trace + 1 := by
  simp [providerCalls, List.countP_append, Event.isProviderCall]

theorem providerCalls_append_policyAllow (trace : List Event) (toolCall : ToolCall)
    (err : Option GoError) :
    providerCalls (trace ++ [.policyAllow toolCall err]) = providerCalls trace := by
  simp [providerCalls, List.countP_append, Event.isProviderCall]

/-- The provider of the tests returns a response or an error. -/
theorem mockProvider_ne_nil (responses : List Response) (trace : List Event)
    (messages : List Message) : mockProvider responses trace messages ≠ (none, none) := by
  unfold mockProvider
  cases responses.get? (providerCalls trace) <;> simp

/-- C30 as stated fails on a provider that returns a nil response with a nil
error: its call returns, and `Run` with the bound 3 dereferences the nil
response after the first call and returns no result. -/
theorem run_nil_response_counterexample :
    nilLoop.MaxIterations = 3 ∧
    nilLoop.Provider [] (seedMessages nilLoop) = (none, none) ∧
    nilLoop.Run = .panicked [.providerCall false (seedMessages nilLoop) none none] ∧
    ¬ ∃ result err trace, nilLoop.Run = .returned result err trace := by
  have hrun : nilLoop.Run = .panicked [.providerCall false (seedMessages nilLoop) none none] := by
    decide
  refine ⟨rfl, rfl, hrun, ?_⟩
  rintro ⟨result, err, trace, h⟩
  rw [hrun] at h
  cases h

/-- C30, amended: for every behaviour of the provider, the policy and the
tools, `Run` calls the provider at most `2 * n` times for `MaxIterations = n ≥ 0`
and every result it returns has `0 ≤ Iterations ≤ n`; when no call of the
provider returns a nil response with a nil error, `Run` returns a result, with
these bounds; and when `n ≤ 0` it makes no external call and returns a nil error
with status "max_iterations" and `Iterations = 0`. -/
theorem run_stays_within_bound (l : Loop) :
    providerCalls l.Run.trace ≤ 2 * l.MaxIterations.toNat ∧
    (∀ result err trace, l.Run = .returned result err trace →
      0 ≤ result.Iterations ∧ result.Iterations ≤ l.MaxIterations.toNat) ∧
    (0 ≤ l.MaxIterations →
      (providerCalls l.Run.trace : Int) ≤ 2 * l.MaxIterations ∧
      ∀ result err trace, l.Run = .returned result err trace →
        result.Iterations ≤ l.MaxIterations) ∧
    ((∀ trace messages, l.Provider trace messages ≠ (none, none)) →
      ∃ result err trace, l.Run = .returned result err trace ∧
        providerCalls trace ≤ 2 * l.MaxIterations.toNat ∧
        0 ≤ result.Iterations ∧ result.Iterations ≤ l.MaxIterations.toNat ∧
        (0 ≤ l.MaxIterations →
          (providerCalls trace : Int) ≤ 2 * l.MaxIterations ∧
          result.Iterations ≤ l.MaxIterations)) ∧
    (l.MaxIterations ≤ 0 →
      l.Run = .returned { initialResult with Status := "max_iterations" } none [] ∧
      providerCalls l.Run.trace = 0 ∧
      ({ initialResult with Status := "max_iterations" } : Result).Iterations = 0) := by
  have hmain : providerCalls l.Run.trace ≤ 2 * l.MaxIterations.toNat ∧
      (∀ result err trace, l.Run = .returned result err trace →
        0 ≤ result.Iterations ∧ result.Iterations ≤ l.MaxIterations.toNat) ∧
      ((∀ trace messages, l.Provider trace messages ≠ (none, none)) →
        ∃ result err trace, l.Run = .returned result err trace) := by
    refine Run_induct l
      (fun i st => providerCalls st.trace ≤ 2 * i ∧ 0 ≤ st.result.Iterations ∧
        st.result.Iterations ≤ i)
      (fun o => providerCalls o.trace ≤ 2 * l.MaxIterations.toNat ∧
        (∀ result err trace, o = .returned result err trace →
          0 ≤ result.Iterations ∧ result.Iterations ≤ l.MaxIterations.toNat) ∧
        ((∀ trace messages, l.Provider trace messages ≠ (none, none)) →
          ∃ result err trace, o = .returned result err trace))
      ?_ ?_ ?_ ?_
    · exact ⟨Nat.zero_le _, le_refl _, le_refl _⟩
    · intro i st st2 hi ⟨hcalls, _, _⟩ hstep
      cases hstep with
      | noToolCalls r hcall hnone =>
        refine ⟨?_, ?_, ?_⟩
        · show providerCalls (callTrace st r) ≤ 2 * (i + 1)
          rw [providerCalls_callTrace]
          omega
        · show (0 : Int) ≤ (i : Int) + 1
          omega
        · show (i : Int) + 1 ≤ ((i + 1 : Nat) : Int)
          omega
      | reflected r outs rr hcall hsome hlen hreg hreflect hend =>
        refine ⟨?_, ?_, ?_⟩
        · show providerCalls (batchTrace st r r.ToolCalls outs ++ [_]) ≤ 2 * (i + 1)
          rw [providerCalls_append_providerCall, providerCalls_batchTrace]
          omega
        · show (0 : Int) ≤ (i : Int) + 1
          omega
        · show (i : Int) + 1 ≤ ((i + 1 : Nat) : Int)
          omega
    · intro i st o hi ⟨hcalls, _, _⟩ hstep
      have hiter : (0 : Int) ≤ (i : Int) + 1 ∧ (i : Int) + 1 ≤ (l.MaxIterations.toNat : Int) :=
        ⟨by omega, by omega⟩
      cases hstep with
      | callFailed resp err hcall =>
        refine ⟨?_, ?_, fun _ => ⟨_, _, _, rfl⟩⟩
        · show providerCalls (st.trace ++ [_]) ≤ _
          rw [providerCalls_append_providerCall]
          omega
        · intro result err2 trace h
          cases h
          exact hiter
      | callNil hcall =>
        refine ⟨?_, ?_, fun hnil => absurd hcall (hnil _ _)⟩
        · show providerCalls (st.trace ++ [_]) ≤ _
          rw [providerCalls_append_providerCall]
          omega
        · intro result err2 trace h
          cases h
      | denied r pre toolCall post outs e hcall hsplit hlen hreg hpol =>
        refine ⟨?_, ?_, fun _ => ⟨_, _, _, rfl⟩⟩
        · show providerCalls (batchTrace st r pre outs ++ [_]) ≤ _
          rw [providerCalls_append_policyAllow, providerCalls_batchTrace]
          omega
        · intro result err2 trace h
          cases h
          exact hiter
      | notFound r pre toolCall post outs hcall hsplit hlen hreg hpol htool =>
        refine ⟨?_, ?_, fun _ => ⟨_, _, _, rfl⟩⟩
        · show providerCalls (batchTrace st r pre outs ++ [_]) ≤ _
          rw [providerCalls_append_policyAllow, providerCalls_batchTrace]
          omega
        · intro result err2 trace h
          cases h
          exact hiter
      | reflectFailed r outs resp err hcall hsome hlen hreg hreflect =>
        refine ⟨?_, ?_, fun _ => ⟨_, _, _, rfl⟩⟩
        · show providerCalls (batchTrace st r r.ToolCalls outs ++ [_]) ≤ _
          rw [providerCalls_append_providerCall, providerCalls_batchTrace]
          omega
        · intro result err2 trace h
          cases h
          exact hiter
      | reflectNil r outs hcall hsome hlen hreg hreflect =>
        refine ⟨?_, ?_, fun hnil => absurd hreflect (hnil _ _)⟩
        · show providerCalls (batchTrace st r r.ToolCalls outs ++ [_]) ≤ _
          rw [providerCalls_append_providerCall, providerCalls_batchTrace]
          omega
        · intro result err2 trace h
          cases h
      | succeeded r outs rr hcall hsome hlen hreg hreflect hend =>
        refine ⟨?_, ?_, fun _ => ⟨_, _, _, rfl⟩⟩
        · show providerCalls (batchTrace st r r.ToolCalls outs ++ [_]) ≤ _
          rw [providerCalls_append_providerCall, providerCalls_batchTrace]
          omega
        · intro result err2 trace h
          cases h
          exact hiter
    · intro st ⟨hcalls, hlo, hhi⟩
      refine ⟨?_, ?_, fun _ => ⟨_, _, _, rfl⟩⟩
      · exact hcalls
      · intro result err2 trace h
        cases h
        exact ⟨hlo, hhi⟩
  refine ⟨hmain.1, hmain.2.1, ?_, ?_, ?_⟩
  · intro hpos
    have hnat : (l.MaxIterations.toNat : Int) = l.MaxIterations := Int.toNat_of_nonneg hpos
    refine ⟨?_, ?_⟩
    · have h := hmain.1
      omega
    · intro result err trace hrun
      have h := (hmain.2.1 result err trace hrun).2
      omega
  · intro hprovider
    obtain ⟨result, err, trace, hrun⟩ := hmain.2.2 hprovider
    have hcalls : providerCalls trace ≤ 2 * l.MaxIterations.toNat := by
      have h := hmain.1
      rw [hrun] at h
      exact h
    have hiter := hmain.2.1 result err trace hrun
    refine ⟨result, err, trace, hrun, hcalls, hiter.1, hiter.2, fun hpos => ?_⟩
    have hnat : (l.MaxIterations.toNat : Int) = l.MaxIterations := Int.toNat_of_nonneg hpos
    have h2 := hiter.2
    exact ⟨by omega, by omega⟩
  · intro hneg
    have hzero : l.MaxIterations.toNat = 0 := Int.toNat_of_nonpos hneg
    have hrun : l.Run = .returned { initialResult with Status := "max_iterations" } none [] := by
      unfold Loop.Run
      rw [hzero]
      rfl
    refine ⟨hrun, ?_, rfl⟩
    rw [hrun]
    rfl

/-- C30, on the loop of `TestLoop_MaxIterationsReached`, whose provider returns
a response or an error at every call, and on the same loop with the bounds 0
and -1. -/
theorem run_stays_within_bound_witness :
    (∃ result err trace, maxIterationsLoop.Run = .returned result err trace ∧
      (providerCalls trace : Int) ≤ 2 * 3 ∧ result.Iterations ≤ 3) ∧
    (providerCalls maxIterationsLoop.Run.trace : Int) ≤ 2 * 3 ∧
    ({ maxIterationsLoop with MaxIterations := 0 } : Loop).Run =
      .returned { initialResult with Status := "max_iterations" } none [] ∧
    ({ maxIterationsLoop with MaxIterations := -1 } : Loop).Run =
      .returned { initialResult with Status := "max_iterations" } none [] :=
  ⟨match (run_stays_within_bound maxIterationsLoop).2.2.2.1
        (fun trace messages => mockProvider_ne_nil _ trace messages) with
    | ⟨result, err, trace, hrun, _, _, _, hbound⟩ =>
      ⟨result, err, trace, hrun, (hbound (by decide)).1, (hbound (by decide)).2⟩,
    ((run_stays_within_bound maxIterationsLoop).2.2.1 (by decide)).1,
    ((run_stays_within_bound { maxIterationsLoop with MaxIterations := 0 }).2.2.2.2
      (by decide)).1,
    ((run_stays_within_bound { maxIterationsLoop with MaxIterations := -1 }).2.2.2.2
      (by decide)).1⟩

/-! ## The status and the error of a run -/

theorem append_ne_empty (a b : String) (h : a ≠ "") : a ++ b ≠ "" := by
  intro e
  apply h
  have hdata := congrArg String.data e
  rw [String.data_append] at hdata
  have ha : a.data = [] := (List.append_eq_nil.mp hdata).1
  exact String.ext ha

/-- What `Run` returns, by its status. -/
theorem run_status_cases (l : Loop) :
    ∀ result err trace, l.Run = .returned result err trace →
      (result.Status = "succeeded" ∧ err = none ∧ result.Error = "") ∨
      (result.Status = "failed" ∧ err ≠ none ∧ result.Error ≠ "") ∨
      (result.Status = "max_iterations" ∧ err = none ∧ result.Error = "") := by
  refine Run_induct l (fun _ st => st.result.Error = "")
    (fun o => ∀ result err trace, o = .returned result err trace →
      (result.Status = "succeeded" ∧ err = none ∧ result.Error = "") ∨
      (result.Status = "failed" ∧ err ≠ none ∧ result.Error ≠ "") ∨
      (result.Status = "max_iterations" ∧ err = none ∧ result.Error = ""))
    rfl ?_ ?_ ?_
  · intro i st st2 _ hinv hstep
    cases hstep with
    | noToolCalls r hcall hnone => exact hinv
    | reflected r outs rr hcall hsome hlen hreg hreflect hend => exact hinv
  · intro i st o _ hinv hstep result err trace ho
    cases hstep with
    | callFailed resp e hcall =>
      cases ho
      exact Or.inr (Or.inl ⟨rfl, by simp, append_ne_empty _ _ (by decide)⟩)
    | callNil hcall => cases ho
    | denied r pre toolCall post outs e hcall hsplit hlen hreg hpol =>
      cases ho
      refine Or.inr (Or.inl ⟨rfl, by simp, ?_⟩)
      exact append_ne_empty _ _
        (append_ne_empty _ _ (append_ne_empty _ _ (by decide)))
    | notFound r pre toolCall post outs hcall hsplit hlen hreg hpol htool =>
      cases ho
      exact Or.inr (Or.inl ⟨rfl, by simp, append_ne_empty _ _ (by decide)⟩)
    | reflectFailed r outs resp e hcall hsome hlen hreg hreflect =>
      cases ho
      exact Or.inr (Or.inl ⟨rfl, by simp, append_ne_empty _ _ (by decide)⟩)
    | reflectNil r outs hcall hsome hlen hreg hreflect => cases ho
    | succeeded r outs rr hcall hsome hlen hreg hreflect hend =>
      cases ho
      exact Or.inl ⟨rfl, rfl, hinv⟩
  · intro st hinv result err trace ho
    cases ho
    exact Or.inr (Or.inr ⟨rfl, rfl, hinv⟩)

/-- C34: on every return of `Run`, the status is one of "succeeded", "failed"
and "max_iterations"; the error returned is non-nil if and only if the status
is "failed"; and `Result.Error` is not empty if and only if the status is
"failed". -/
theorem status_tells_the_error (l : Loop) (result : Result) (err : Option GoError)
    (trace : List Event) (hrun : l.Run = .returned result err trace) :
    (result.Status = "succeeded" ∨ result.Status = "failed" ∨
      result.Status = "max_iterations") ∧
    (err ≠ none ↔ result.Status = "failed") ∧
    (result.Error ≠ "" ↔ result.Status = "failed") := by
  rcases run_status_cases l result err trace hrun with
    ⟨hs, he, hr⟩ | ⟨hs, he, hr⟩ | ⟨hs, he, hr⟩
  · refine ⟨Or.inl hs, ?_, ?_⟩
    · rw [hs, he]
      exact ⟨fun h => absurd rfl h, fun h => absurd h (by decide)⟩
    · rw [hs, hr]
      exact ⟨fun h => absurd rfl h, fun h => absurd h (by decide)⟩
  · exact ⟨Or.inr (Or.inl hs), ⟨fun _ => hs, fun _ => he⟩, ⟨fun _ => hs, fun _ => hr⟩⟩
  · refine ⟨Or.inr (Or.inr hs), ?_, ?_⟩
    · rw [hs, he]
      exact ⟨fun h => absurd rfl h, fun h => absurd h (by decide)⟩
    · rw [hs, hr]
      exact ⟨fun h => absurd rfl h, fun h => absurd h (by decide)⟩

/-- C34, on the run of `TestLoop_SuccessfulCompletion`: the status is
"succeeded", the error is nil and `Result.Error` is empty. -/
theorem status_tells_the_error_witness :
    successLoop.Run = .returned successResult none successLoop.Run.trace ∧
    (successResult.Status = "succeeded" ∨ successResult.Status = "failed" ∨
      successResult.Status = "max_iterations") ∧
    ((none : Option GoError) ≠ none ↔ successResult.Status = "failed") ∧
    (successResult.Error ≠ "" ↔ successResult.Status = "failed") :=
  ⟨by decide,
    status_tells_the_error successLoop successResult none successLoop.Run.trace (by decide)⟩

/-! ## Runs that are reported as succeeded -/

/-- C35: whenever `Run` returns the status "succeeded", the audit list
`Result.ToolCalls` is not empty, a tool was executed in the run, and
`Iterations` is at least 1. -/
theorem success_needs_an_executed_tool (l : Loop) (result : Result) (err : Option GoError)
    (trace : List Event) (hrun : l.Run = .returned result err trace)
    (hstatus : result.Status = "succeeded") :
    result.ToolCalls ≠ [] ∧ executedCalls trace ≠ [] ∧ 1 ≤ result.Iterations := by
  have hmain : ∀ result err trace, l.Run = .returned result err trace →
      result.Status = "succeeded" → result.ToolCalls ≠ [] ∧ 1 ≤ result.Iterations := by
    refine Run_induct l (fun _ _ => True)
      (fun o => ∀ result err trace, o = .returned result err trace →
        result.Status = "succeeded" → result.ToolCalls ≠ [] ∧ 1 ≤ result.Iterations)
      trivial (fun _ _ _ _ _ _ => trivial) ?_ ?_
    · intro i st o _ _ hstep result err trace ho hs
      cases hstep with
      | callFailed resp e hcall =>
        cases ho
        exact absurd hs (show ("failed" : String) ≠ "succeeded" by decide)
      | callNil hcall => cases ho
      | denied r pre toolCall post outs e hcall hsplit hlen hreg hpol =>
        cases ho
        exact absurd hs (show ("failed" : String) ≠ "succeeded" by decide)
      | notFound r pre toolCall post outs hcall hsplit hlen hreg hpol htool =>
        cases ho
        exact absurd hs (show ("failed" : String) ≠ "succeeded" by decide)
      | reflectFailed r outs resp e hcall hsome hlen hreg hreflect =>
        cases ho
        exact absurd hs (show ("failed" : String) ≠ "succeeded" by decide)
      | reflectNil r outs hcall hsome hlen hreg hreflect => cases ho
      | succeeded r outs rr hcall hsome hlen hreg hreflect hend =>
        cases ho
        refine ⟨?_, ?_⟩
        · show st.result.ToolCalls ++ recordsOf (batchEvents r.ToolCalls outs) ≠ []
          intro hnil
          have hlen2 := length_recordsOf_batchEvents r.ToolCalls outs hlen
          rw [(List.append_eq_nil.mp hnil).2] at hlen2
          exact hsome (List.length_eq_zero.mp hlen2.symm)
        · show (1 : Int) ≤ (i : Int) + 1
          omega
    · intro st _ result err trace ho hs
      cases ho
      exact absurd hs (show ("max_iterations" : String) ≠ "succeeded" by decide)
  obtain ⟨hcalls, hiter⟩ := hmain result err trace hrun hstatus
  refine ⟨hcalls, ?_, hiter⟩
  intro hnone
  have hrec := (run_consistent l result err trace hrun).1
  have hmap := map_call_recordsOf trace
  rw [← hrec, hnone] at hmap
  exact hcalls (List.map_eq_nil_iff.mp hmap)

/-- C35, on the run of `TestLoop_SuccessfulCompletion`. -/
theorem success_needs_an_executed_tool_witness :
    successLoop.Run = .returned successResult none successLoop.Run.trace ∧
    successResult.Status = "succeeded" ∧
    successResult.ToolCalls ≠ [] ∧ executedCalls successLoop.Run.trace ≠ [] ∧
    1 ≤ successResult.Iterations :=
  ⟨by decide, rfl,
    success_needs_an_executed_tool successLoop successResult none successLoop.Run.trace
      (by decide) rfl⟩

/-! ## The conversation handed to the provider -/

theorem conversationsOf_append (a b : List Event) :
    conversationsOf (a ++ b) = conversationsOf a ++ conversationsOf b := by
  simp [conversationsOf, List.filterMap_append]

theorem conversationsOf_batchEvents (tcs : List ToolCall) :
    ∀ outs : List (String × Option GoError), conversationsOf (batchEvents tcs outs) = [] := by
  induction tcs with
  | nil => intro outs; simp [batchEvents, conversationsOf]
  | cons tc rest ih =>
    intro outs
    cases outs with
    | nil => simp [batchEvents, conversationsOf]
    | cons out outs =>
      have h := ih outs
      simp only [conversationsOf] at h
      simp [batchEvents, conversationsOf, List.filterMap_cons, Event.conversation, h]

theorem conversationsOf_callTrace (st : LoopState) (r : Response) :
    conversationsOf (callTrace st r) = conversationsOf st.trace ++ [st.messages] := by
  simp [callTrace, conversationsOf, List.filterMap_append, Event.conversation]

theorem conversationsOf_batchTrace (st : LoopState) (r : Response) (tcs : List ToolCall)
    (outs : List (String × Option GoError)) :
    conversationsOf (batchTrace st r tcs outs) = conversationsOf st.trace ++ [st.messages] := by
  rw [batchTrace, conversationsOf_append, conversationsOf_batchEvents, List.append_nil,
    conversationsOf_callTrace]

theorem conversationsOf_append_providerCall (trace : List Event) (reflection : Bool)
    (messages : List Message) (response : Option Response) (err : Option GoError) :
    conversationsOf (trace ++ [.providerCall reflection messages response err]) =
      conversationsOf trace ++ [messages] := by
  simp [conversationsOf, List.filterMap_append, Event.conversation]

theorem conversationsOf_append_policyAllow (trace : List Event) (toolCall : ToolCall)
    (err : Option GoError) :
    conversationsOf (trace ++ [.policyAllow toolCall err]) = conversationsOf trace := by
  simp [conversationsOf, List.filterMap_append, Event.conversation]

theorem extends_trans {a b c : List Message} (hab : Extends a b) (hbc : Extends b c) :
    Extends a c := by
  obtain ⟨x, hx, rfl⟩ := hab
  obtain ⟨y, _, rfl⟩ := hbc
  exact ⟨x ++ y, by simp [hx], by simp⟩

theorem extends_append (a added : List Message) (h : added ≠ []) : Extends a (a ++ added) :=
  ⟨added, h, rfl⟩

/-- The conversations of a trace form a chain from the seed, and the
conversation the loop holds extends the last one handed to the provider. -/
structure Conversing (l : Loop) (convs : List (List Message)) (messages : List Message) :
    Prop where
  chain : List.Chain' Extends convs
  last : ∀ m ∈ convs.getLast?, Extends m messages
  first : ∀ m ∈ convs.head?, m = seedMessages l
  fresh : convs = [] → messages = seedMessages l

/-- One more provider call, handed the conversation the loop holds. -/
theorem conversing_call {l : Loop} {convs : List (List Message)} {messages : List Message}
    (h : Conversing l convs messages) (next : List Message) (hnext : Extends messages next) :
    Conversing l (convs ++ [messages]) next := by
  refine ⟨?_, ?_, ?_, ?_⟩
  · rw [List.chain'_append]
    refine ⟨h.chain, List.chain'_singleton _, ?_⟩
    intro x hx y hy
    simp only [List.head?_cons, Option.mem_def, Option.some.injEq] at hy
    subst hy
    exact h.last x hx
  · intro m hm
    have hlast : (convs ++ [messages]).getLast? = some messages := by simp
    rw [hlast] at hm
    simp only [Option.mem_def, Option.some.injEq] at hm
    subst hm
    exact hnext
  · intro m hm
    cases convs with
    | nil =>
      simp only [List.nil_append, List.head?_cons, Option.mem_def, Option.some.injEq] at hm
      subst hm
      exact h.fresh rfl
    | cons c cs =>
      simp only [List.cons_append, List.head?_cons, Option.mem_def, Option.some.injEq] at hm
      subst hm
      exact h.first _ (by simp)
  · intro hnil
    simp at hnil

theorem extends_continue (st : LoopState) (r : Response) :
    Extends st.messages
      (callMessages st r ++ [{ Role := "user", Content := continuePrompt }]) :=
  ⟨[{ Role := "assistant", Content := r.Content },
      { Role := "user", Content := continuePrompt }],
    by simp, by simp [callMessages]⟩

theorem extends_reflectMessages (st : LoopState) (r : Response)
    (outs : List (String × Option GoError)) :
    Extends st.messages (reflectMessages st r outs) :=
  ⟨[{ Role := "assistant", Content := r.Content },
      { Role := "user"
        Content := toolResultsContent (toolResultsOf (batchEvents r.ToolCalls outs)) }],
    by simp, by simp [reflectMessages, callMessages]⟩

/-- The conversations of a run form a chain from the seed. -/
theorem run_conversing (l : Loop) : FromSeed l (conversationsOf l.Run.trace) := by
  refine Run_induct l (fun _ st => Conversing l (conversationsOf st.trace) st.messages)
    (fun o => FromSeed l (conversationsOf o.trace))
    ?_ ?_ ?_ ?_
  · exact ⟨List.chain'_nil, fun m hm => by simp [conversationsOf] at hm,
      fun m hm => by simp [conversationsOf] at hm, fun _ => rfl⟩
  · intro i st st2 _ hinv hstep
    cases hstep with
    | noToolCalls r hcall hnone =>
      show Conversing l (conversationsOf (callTrace st r)) _
      rw [conversationsOf_callTrace]
      exact conversing_call hinv _ (extends_continue st r)
    | reflected r outs rr hcall hsome hlen hreg hreflect hend =>
      show Conversing l (conversationsOf (batchTrace st r r.ToolCalls outs ++ [_])) _
      rw [conversationsOf_append_providerCall, conversationsOf_batchTrace]
      have h1 : Conversing l (conversationsOf st.trace ++ [st.messages])
          (reflectMessages st r outs) :=
        conversing_call hinv _ (extends_reflectMessages st r outs)
      exact conversing_call h1 _ (extends_append _ _ (by simp))
  · intro i st o _ hinv hstep
    have hcall1 : Conversing l (conversationsOf st.trace ++ [st.messages])
        (st.messages ++ [{ Role := "", Content := "" }]) :=
      conversing_call hinv _ (extends_append _ _ (by simp))
    cases hstep with
    | callFailed resp e hcall =>
      show FromSeed l (conversationsOf (st.trace ++ [_]))
      rw [conversationsOf_append_providerCall]
      exact ⟨hcall1.chain, hcall1.first⟩
    | callNil hcall =>
      show FromSeed l (conversationsOf (st.trace ++ [_]))
      rw [conversationsOf_append_providerCall]
      exact ⟨hcall1.chain, hcall1.first⟩
    | denied r pre toolCall post outs e hcall hsplit hlen hreg hpol =>
      show FromSeed l (conversationsOf (batchTrace st r pre outs ++ [_]))
      rw [conversationsOf_append_policyAllow, conversationsOf_batchTrace]
      exact ⟨hcall1.chain, hcall1.first⟩
    | notFound r pre toolCall post outs hcall hsplit hlen hreg hpol htool =>
      show FromSeed l (conversationsOf (batchTrace st r pre outs ++ [_]))
      rw [conversationsOf_append_policyAllow, conversationsOf_batchTrace]
      exact ⟨hcall1.chain, hcall1.first⟩
    | reflectFailed r outs resp e hcall hsome hlen hreg hreflect =>
      show FromSeed l (conversationsOf (batchTrace st r r.ToolCalls outs ++ [_]))
      rw [conversationsOf_append_providerCall, conversationsOf_batchTrace]
      have h1 : Conversing l (conversationsOf st.trace ++ [st.messages])
          (reflectMessages st r outs) :=
        conversing_call hinv _ (extends_reflectMessages st r outs)
      have h2 := conversing_call h1 (reflectMessages st r outs ++ [{ Role := "", Content := "" }])
        (extends_append _ _ (by simp))
      exact ⟨h2.chain, h2.first⟩
    | reflectNil r outs hcall hsome hlen hreg hreflect =>
      show FromSeed l (conversationsOf (batchTrace st r r.ToolCalls outs ++ [_]))
      rw [conversationsOf_append_providerCall, conversationsOf_batchTrace]
      have h1 : Conversing l (conversationsOf st.trace ++ [st.messages])
          (reflectMessages st r outs) :=
        conversing_call hinv _ (extends_reflectMessages st r outs)
      have h2 := conversing_call h1 (reflectMessages st r outs ++ [{ Role := "", Content := "" }])
        (extends_append _ _ (by simp))
      exact ⟨h2.chain, h2.first⟩
    | succeeded r outs rr hcall hsome hlen hreg hreflect hend =>
      show FromSeed l (conversationsOf (batchTrace st r r.ToolCalls outs ++ [_]))
      rw [conversationsOf_append_providerCall, conversationsOf_batchTrace]
      have h1 : Conversing l (conversationsOf st.trace ++ [st.messages])
          (reflectMessages st r outs) :=
        conversing_call hinv _ (extends_reflectMessages st r outs)
      have h2 := conversing_call h1 (reflectMessages st r outs ++ [{ Role := "", Content := "" }])
        (extends_append _ _ (by simp))
      exact ⟨h2.chain, h2.first⟩
  · intro st hinv
    exact ⟨hinv.chain, hinv.first⟩

/-- C31: in every run, the message list handed to the first call of the
provider is the seed: a system message with `SystemPrompt` if and only if
`SystemPrompt` is not empty, then one user message with the goal.  The list
handed to each later call is the list handed to the call before it with at
least one message appended, so the list of every earlier call is a strict
prefix of the list of every later call: messages are only appended. -/
theorem conversation_is_append_only (l : Loop) :
    seedMessages l =
      (if l.SystemPrompt ≠ "" then [{ Role := "system", Content := l.SystemPrompt }] else []) ++
        [{ Role := "user"
           Content := "Goal: " ++ l.Goal ++
             "\n\nPlease analyze this goal and take the necessary actions to achieve it." }] ∧
    (∀ first rest, conversationsOf l.Run.trace = first :: rest → first = seedMessages l) ∧
    List.Chain' Extends (conversationsOf l.Run.trace) ∧
    List.Pairwise Extends (conversationsOf l.Run.trace) ∧
    (∀ a b : List Message, Extends a b → a <+: b ∧ a.length < b.length ∧ a ≠ b) := by
  have h := run_conversing l
  haveI : IsTrans (List Message) Extends := ⟨fun _ _ _ hab hbc => extends_trans hab hbc⟩
  refine ⟨rfl, ?_, h.1, List.chain'_iff_pairwise.mp h.1, ?_⟩
  · intro first rest hconv
    exact h.2 first (by rw [hconv]; simp)
  · rintro a b ⟨added, hadded, rfl⟩
    have hlen : 0 < added.length := List.length_pos.mpr hadded
    refine ⟨List.prefix_append a added, ?_, ?_⟩
    · rw [List.length_append]
      omega
    · intro heq
      have hl := congrArg List.length heq
      rw [List.length_append] at hl
      omega

/-- C31, on the run of `TestLoop_SuccessfulCompletion`: the provider is called
twice, first with the seed and then with the seed followed by the response and
the tool results. -/
theorem conversation_is_append_only_witness :
    conversationsOf successLoop.Run.trace =
      [seedMessages successLoop, successReflectMessages] ∧
    Extends (seedMessages successLoop) successReflectMessages :=
  ⟨by decide,
    List.chain'_pair.mp
      ((show conversationsOf successLoop.Run.trace =
          [seedMessages successLoop, successReflectMessages] by decide) ▸
        (conversation_is_append_only successLoop).2.2.1)⟩

/-! ## The order of the external calls of a run -/

theorem protocolRun_append (l : Loop) (a b : List Event) (p : Phase) :
    protocolRun l p (a ++ b) = (protocolRun l p a).bind (fun q => protocolRun l q b) := by
  induction a generalizing p with
  | nil => simp [protocolRun]
  | cons ev a ih =>
    simp only [List.cons_append, protocolRun]
    cases protocolStep l p ev with
    | none => simp
    | some q => simpa using ih q

theorem protocolRun_snoc (l : Loop) (a : List Event) (ev : Event) (p : Phase) :
    protocolRun l p (a ++ [ev]) = (protocolRun l p a).bind (fun q => protocolStep l q ev) := by
  rw [protocolRun_append]
  congr 1
  funext q
  simp only [protocolRun]
  cases protocolStep l q ev <;> simp [protocolRun]

theorem afterBatch_cons (tc : ToolCall) (rest : List ToolCall) :
    afterBatch (tc :: rest) = .checking (tc :: rest) := by
  simp [afterBatch]

/-- The checks and executions of the calls `tcs`, all allowed and registered,
are made in order and leave the rest of the batch. -/
theorem protocolRun_batchEvents (l : Loop) :
    ∀ (tcs : List ToolCall) (outs : List (String × Option GoError)) (rest : List ToolCall),
      outs.length = tcs.length → (∀ tc ∈ tcs, (l.Tools tc.Name).isSome = true) →
      protocolRun l (afterBatch (tcs ++ rest)) (batchEvents tcs outs) = some (afterBatch rest)
  | [], outs, rest, _, _ => by simp [batchEvents, protocolRun]
  | tc :: tcs, [], rest, hlen, _ => by simp at hlen
  | tc :: tcs, out :: outs, rest, hlen, hreg => by
    have hreg1 : (l.Tools tc.Name).isSome = true := hreg tc (by simp)
    have ih := protocolRun_batchEvents l tcs outs rest (by simpa using hlen)
      (fun t ht => hreg t (by simp [ht]))
    simp only [List.cons_append, afterBatch_cons, batchEvents, protocolRun, protocolStep,
      if_true, hreg1, and_self, Option.some_bind]
    exact ih

theorem protocolRun_callTrace {l : Loop} {st : LoopState}
    (hinv : protocolRun l .idle st.trace = some .idle) (r : Response) :
    protocolRun l .idle (callTrace st r) =
      some (if r.ToolCalls = [] then .idle else .checking r.ToolCalls) := by
  unfold callTrace
  rw [protocolRun_snoc, hinv]
  simp [protocolStep]

theorem protocolRun_batchTrace {l : Loop} {st : LoopState}
    (hinv : protocolRun l .idle st.trace = some .idle) (r : Response)
    (tcs rest : List ToolCall) (outs : List (String × Option GoError))
    (hsplit : r.ToolCalls = tcs ++ rest) (hsome : r.ToolCalls ≠ [])
    (hlen : outs.length = tcs.length) (hreg : ∀ tc ∈ tcs, (l.Tools tc.Name).isSome = true) :
    protocolRun l .idle (batchTrace st r tcs outs) = some (afterBatch rest) := by
  unfold batchTrace
  rw [protocolRun_append, protocolRun_callTrace hinv, if_neg hsome]
  have h : Phase.checking r.ToolCalls = afterBatch (tcs ++ rest) := by
    rw [← hsplit]
    simp [afterBatch, hsome]
  simp only [Option.some_bind, h]
  exact protocolRun_batchEvents l tcs outs rest hlen hreg

/-- The external calls of a run are made in the order of the loop. -/
theorem run_follows_protocol (l : Loop) : FollowsProtocol l l.Run.trace := by
  refine Run_induct l (fun _ st => protocolRun l .idle st.trace = some .idle)
    (fun o => FollowsProtocol l o.trace) ?_ ?_ ?_ ?_
  · rfl
  · intro i st st2 _ hinv hstep
    cases hstep with
    | noToolCalls r hcall hnone =>
      show protocolRun l .idle (callTrace st r) = some .idle
      rw [protocolRun_callTrace hinv, if_pos hnone]
    | reflected r outs rr hcall hsome hlen hreg hreflect hend =>
      show protocolRun l .idle (batchTrace st r r.ToolCalls outs ++ [_]) = some .idle
      rw [protocolRun_snoc,
        protocolRun_batchTrace hinv r r.ToolCalls [] outs (by simp) hsome hlen hreg]
      simp [afterBatch, protocolStep, hend]
  · intro i st o _ hinv hstep
    cases hstep with
    | callFailed resp e hcall =>
      show FollowsProtocol l (st.trace ++ [_])
      refine ⟨.ended, ?_⟩
      rw [protocolRun_snoc, hinv]
      cases resp <;> simp [protocolStep]
    | callNil hcall =>
      show FollowsProtocol l (st.trace ++ [_])
      refine ⟨.ended, ?_⟩
      rw [protocolRun_snoc, hinv]
      simp [protocolStep]
    | denied r pre toolCall post outs e hcall hsplit hlen hreg hpol =>
      show FollowsProtocol l (batchTrace st r pre outs ++ [_])
      refine ⟨.ended, ?_⟩
      rw [protocolRun_snoc, protocolRun_batchTrace hinv r pre (toolCall :: post) outs hsplit
        (by simp [hsplit]) hlen hreg]
      simp [afterBatch, protocolStep]
    | notFound r pre toolCall post outs hcall hsplit hlen hreg hpol htool =>
      show FollowsProtocol l (batchTrace st r pre outs ++ [_])
      refine ⟨.ended, ?_⟩
      rw [protocolRun_snoc, protocolRun_batchTrace hinv r pre (toolCall :: post) outs hsplit
        (by simp [hsplit]) hlen hreg]
      simp [afterBatch, protocolStep, htool]
    | reflectFailed r outs resp e hcall hsome hlen hreg hreflect =>
      show FollowsProtocol l (batchTrace st r r.ToolCalls outs ++ [_])
      refine ⟨.ended, ?_⟩
      rw [protocolRun_snoc,
        protocolRun_batchTrace hinv r r.ToolCalls [] outs (by simp) hsome hlen hreg]
      cases resp <;> simp [afterBatch, protocolStep]
    | reflectNil r outs hcall hsome hlen hreg hreflect =>
      show FollowsProtocol l (batchTrace st r r.ToolCalls outs ++ [_])
      refine ⟨.ended, ?_⟩
      rw [protocolRun_snoc,
        protocolRun_batchTrace hinv r r.ToolCalls [] outs (by simp) hsome hlen hreg]
      simp [afterBatch, protocolStep]
    | succeeded r outs rr hcall hsome hlen hreg hreflect hend =>
      show FollowsProtocol l (batchTrace st r r.ToolCalls outs ++ [_])
      refine ⟨.ended, ?_⟩
      rw [protocolRun_snoc,
        protocolRun_batchTrace hinv r r.ToolCalls [] outs (by simp) hsome hlen hreg]
      simp [afterBatch, protocolStep, hend]
  · intro st hinv
    exact ⟨.idle, hinv⟩

theorem protocolRun_split {l : Loop} {p q : Phase} {pre post : List Event} {ev : Event}
    (h : protocolRun l p (pre ++ ev :: post) = some q) :
    ∃ s s', protocolRun l p pre = some s ∧ protocolStep l s ev = some s' ∧
      protocolRun l s' post = some q := by
  rw [protocolRun_append] at h
  obtain ⟨s, hs, h2⟩ := Option.bind_eq_some.mp h
  simp only [protocolRun] at h2
  obtain ⟨s', hs', h3⟩ := Option.bind_eq_some.mp h2
  exact ⟨s, s', hs, hs', h3⟩

theorem protocolStep_ended (l : Loop) (ev : Event) : protocolStep l .ended ev = none := by
  cases ev <;> rfl

theorem protocolStep_idle {l : Loop} {ev : Event} {s : Phase}
    (h : protocolStep l .idle ev = some s) :
    ∃ msgs resp e, ev = .providerCall false msgs resp e := by
  cases ev with
  | providerCall reflection msgs resp e =>
    cases reflection
    · exact ⟨msgs, resp, e, rfl⟩
    · simp [protocolStep] at h
  | policyAllow toolCall e => simp [protocolStep] at h
  | toolExecute toolCall output e => simp [protocolStep] at h

/-- After a reflection call the loop is at the start of an iteration or has
made its last call, whatever the response carries. -/
theorem protocolStep_reflection {l : Loop} {s s' : Phase} {msgs : List Message}
    {resp : Option Response} {e : Option GoError}
    (h : protocolStep l s (.providerCall true msgs resp e) = some s') :
    s' = .idle ∨ s' = .ended := by
  cases s with
  | idle => simp [protocolStep] at h
  | checking pending => cases pending <;> simp [protocolStep] at h
  | executing toolCall rest => simp [protocolStep] at h
  | ended => simp [protocolStep] at h
  | reflecting =>
    cases resp with
    | none =>
      simp [protocolStep] at h
      exact Or.inr h.symm
    | some rr =>
      cases e with
      | some err =>
        simp [protocolStep] at h
        exact Or.inr h.symm
      | none =>
        simp only [protocolStep, Option.some.injEq] at h
        subst h
        split
        · exact Or.inr rfl
        · exact Or.inl rfl

theorem protocolStep_policyAllow {l : Loop} {s s' : Phase} {toolCall : ToolCall}
    {e : Option GoError} (h : protocolStep l s (.policyAllow toolCall e) = some s') :
    toolCall ∈ s.pending := by
  cases s with
  | idle => simp [protocolStep] at h
  | executing tc rest => simp [protocolStep] at h
  | ended => simp [protocolStep] at h
  | reflecting => simp [protocolStep] at h
  | checking pending =>
    cases pending with
    | nil => simp [protocolStep] at h
    | cons tc rest =>
      by_cases htc : tc = toolCall
      · simp [Phase.pending, htc]
      · simp [protocolStep, htc] at h

theorem protocolStep_toolExecute {l : Loop} {s s' : Phase} {toolCall : ToolCall}
    {output : String} {e : Option GoError}
    (h : protocolStep l s (.toolExecute toolCall output e) = some s') :
    toolCall ∈ s.pending := by
  cases s with
  | idle => simp [protocolStep] at h
  | checking pending => cases pending <;> simp [protocolStep] at h
  | ended => simp [protocolStep] at h
  | reflecting => simp [protocolStep] at h
  | executing tc rest =>
    by_cases htc : tc = toolCall
    · simp [Phase.pending, htc]
    · simp [protocolStep, htc] at h

/-- What the loop has left to act on is the end of the batch of the last
provider call. -/
theorem protocolStep_pending {l : Loop} {s s' : Phase} {ev : Event} {b : List ToolCall}
    (h : protocolStep l s ev = some s') (hb : s.pending <:+ b) :
    s'.pending <:+ Event.batch b ev := by
  cases s with
  | ended => simp [protocolStep_ended] at h
  | idle =>
    obtain ⟨msgs, resp, e, rfl⟩ := protocolStep_idle h
    cases resp with
    | none =>
      simp [protocolStep] at h
      subst h
      simp [Phase.pending]
    | some r =>
      cases e with
      | some err =>
        simp [protocolStep] at h
        subst h
        simp [Phase.pending]
      | none =>
        simp only [protocolStep, Option.some.injEq] at h
        subst h
        by_cases hr : r.ToolCalls = []
        · simp [hr, Phase.pending, Event.batch]
        · simp [hr, Phase.pending, Event.batch]
  | reflecting =>
    cases ev with
    | policyAllow toolCall e => simp [protocolStep] at h
    | toolExecute toolCall output e => simp [protocolStep] at h
    | providerCall reflection msgs resp e =>
      cases reflection
      · simp [protocolStep] at h
      · rcases protocolStep_reflection h with rfl | rfl <;> simp [Phase.pending]
  | checking pending =>
    cases ev with
    | providerCall reflection msgs resp e => cases pending <;> simp [protocolStep] at h
    | toolExecute toolCall output e => cases pending <;> simp [protocolStep] at h
    | policyAllow toolCall e =>
      cases pending with
      | nil => simp [protocolStep] at h
      | cons tc rest =>
        by_cases htc : tc = toolCall
        · simp only [protocolStep, htc, if_true, Option.some.injEq] at h
          subst h
          split
          · simpa [Phase.pending, Event.batch, htc] using hb
          · simp [Phase.pending]
        · simp [protocolStep, htc] at h
  | executing tc rest =>
    cases ev with
    | providerCall reflection msgs resp e => simp [protocolStep] at h
    | policyAllow toolCall e => simp [protocolStep] at h
    | toolExecute toolCall output e =>
      by_cases htc : tc = toolCall
      · simp only [protocolStep, htc, if_true, Option.some.injEq] at h
        subst h
        have hrest : rest <:+ b := (List.suffix_cons tc rest).trans hb
        unfold afterBatch
        split
        · simp [Phase.pending]
        · simpa [Phase.pending, Event.batch] using hrest
      · simp [protocolStep, htc] at h

theorem protocolRun_pending (l : Loop) :
    ∀ (trace : List Event) (s s' : Phase) (b : List ToolCall),
      protocolRun l s trace = some s' → s.pending <:+ b →
      s'.pending <:+ trace.foldl Event.batch b
  | [], s, s', b, h, hb => by
    simp only [protocolRun, Option.some.injEq] at h
    subst h
    simpa using hb
  | ev :: rest, s, s', b, h, hb => by
    simp only [protocolRun] at h
    obtain ⟨s1, hs1, h2⟩ := Option.bind_eq_some.mp h
    simpa using protocolRun_pending l rest s1 s' (Event.batch b ev) h2
      (protocolStep_pending hs1 hb)

theorem batchOf_snoc (pre : List Event) (ev : Event) :
    batchOf (pre ++ [ev]) = Event.batch (batchOf pre) ev := by
  simp [batchOf, List.foldl_append]

/-- A call of the batch of a trace came with the response to the last provider
call of the trace, the first call of an iteration. -/
theorem mem_batchOf {toolCall : ToolCall} (pre : List Event) :
    toolCall ∈ batchOf pre →
    ∃ before msgs r mid, pre = before ++ .providerCall false msgs (some r) none :: mid ∧
      (∀ ev ∈ mid, ev.isProviderCall = false) ∧ toolCall ∈ r.ToolCalls := by
  induction pre using List.reverseRecOn with
  | nil => intro h; simp [batchOf] at h
  | append_singleton pre ev ih =>
    intro h
    rw [batchOf_snoc] at h
    have hkeep : toolCall ∈ batchOf pre → ev.isProviderCall = false →
        ∃ before msgs r mid,
          pre ++ [ev] = before ++ .providerCall false msgs (some r) none :: mid ∧
          (∀ ev ∈ mid, ev.isProviderCall = false) ∧ toolCall ∈ r.ToolCalls := by
      intro hmem hev
      obtain ⟨before, msgs, r, mid, hpre, hmid, hr⟩ := ih hmem
      refine ⟨before, msgs, r, mid ++ [ev], by simp [hpre], ?_, hr⟩
      intro x hx
      rcases List.mem_append.mp hx with hx | hx
      · exact hmid x hx
      · simp only [List.mem_singleton] at hx
        rw [hx]
        exact hev
    cases ev with
    | policyAllow tc e => exact hkeep h rfl
    | toolExecute tc output e => exact hkeep h rfl
    | providerCall reflection msgs resp e =>
      cases reflection with
      | true => simp [Event.batch] at h
      | false =>
        cases resp with
        | none => simp [Event.batch] at h
        | some r =>
          cases e with
          | some err => simp [Event.batch] at h
          | none =>
            refine ⟨pre, msgs, r, [], rfl, by simp, ?_⟩
            simpa [Event.batch] using h

/-- The call of an event that acts on a tool call is of the batch of the calls
before it. -/
theorem acted_call_mem_batchOf {l : Loop} {pre post : List Event} {ev : Event}
    {toolCall : ToolCall} (h : FollowsProtocol l (pre ++ ev :: post))
    (hev : ∀ s s', protocolStep l s ev = some s' → toolCall ∈ s.pending) :
    toolCall ∈ batchOf pre := by
  obtain ⟨q, hq⟩ := h
  obtain ⟨s, s', hs, hstep, -⟩ := protocolRun_split hq
  have hsuffix : s.pending <:+ batchOf pre :=
    protocolRun_pending l pre .idle s [] hs (by simp [Phase.pending])
  exact hsuffix.subset (hev s s' hstep)

theorem mem_recordsOf {record : ToolCallRecord} {trace : List Event}
    (h : record ∈ recordsOf trace) :
    ∃ pre output e post, trace = pre ++ .toolExecute record.call output e :: post := by
  obtain ⟨ev, hev, hrec⟩ := List.mem_filterMap.mp h
  obtain ⟨pre, post, rfl⟩ := List.append_of_mem hev
  cases ev with
  | providerCall reflection msgs resp e => simp [Event.record] at hrec
  | policyAllow tc e => simp [Event.record] at hrec
  | toolExecute tc output e =>
    refine ⟨pre, output, e, post, ?_⟩
    cases e with
    | none =>
      simp only [Event.record, Option.some.injEq] at hrec
      subst hrec
      rfl
    | some err =>
      simp only [Event.record, Option.some.injEq] at hrec
      subst hrec
      rfl

/-- C36: the tool calls carried by the response to a reflection call are never
acted upon.  In every run the external calls are made in the order of the loop,
in which a reflection call is followed by nothing or by the first provider call
of the next iteration; every call passed to `Policy.Allow` and every call
executed is one of the tool calls of the response to the last provider call
before it, and that is the first call of an iteration, which returned a response
and a nil error; and every audit record of a returned result is that of such an
execution. -/
theorem reflection_tool_calls_are_dropped (l : Loop) :
    FollowsProtocol l l.Run.trace ∧
    (∀ pre messages response err next post,
      l.Run.trace = pre ++ .providerCall true messages response err :: next :: post →
      ∃ msgs resp e, next = .providerCall false msgs resp e) ∧
    (∀ pre toolCall err post, l.Run.trace = pre ++ .policyAllow toolCall err :: post →
      ∃ before msgs r mid, pre = before ++ .providerCall false msgs (some r) none :: mid ∧
        (∀ ev ∈ mid, ev.isProviderCall = false) ∧ toolCall ∈ r.ToolCalls) ∧
    (∀ pre toolCall output err post,
      l.Run.trace = pre ++ .toolExecute toolCall output err :: post →
      ∃ before msgs r mid, pre = before ++ .providerCall false msgs (some r) none :: mid ∧
        (∀ ev ∈ mid, ev.isProviderCall = false) ∧ toolCall ∈ r.ToolCalls) ∧
    (∀ result err trace record, l.Run = .returned result err trace →
      record ∈ result.ToolCalls →
      ∃ before msgs r mid output e post,
        trace = before ++ .providerCall false msgs (some r) none ::
          (mid ++ .toolExecute record.call output e :: post) ∧
        (∀ ev ∈ mid, ev.isProviderCall = false) ∧ record.call ∈ r.ToolCalls) := by
  have hrun := run_follows_protocol l
  have hexec : ∀ pre toolCall output err post,
      l.Run.trace = pre ++ .toolExecute toolCall output err :: post →
      ∃ before msgs r mid, pre = before ++ .providerCall false msgs (some r) none :: mid ∧
        (∀ ev ∈ mid, ev.isProviderCall = false) ∧ toolCall ∈ r.ToolCalls := by
    intro pre toolCall output err post htrace
    rw [htrace] at hrun
    exact mem_batchOf pre (acted_call_mem_batchOf hrun (fun _ _ h => protocolStep_toolExecute h))
  refine ⟨hrun, ?_, ?_, hexec, ?_⟩
  · intro pre messages response err next post htrace
    rw [htrace] at hrun
    obtain ⟨q, hq⟩ := hrun
    obtain ⟨s, s1, -, hstep, hrest⟩ := protocolRun_split hq
    simp only [protocolRun] at hrest
    obtain ⟨s2, hnext, -⟩ := Option.bind_eq_some.mp hrest
    rcases protocolStep_reflection hstep with rfl | rfl
    · exact protocolStep_idle hnext
    · simp [protocolStep_ended] at hnext
  · intro pre toolCall err post htrace
    rw [htrace] at hrun
    exact mem_batchOf pre (acted_call_mem_batchOf hrun (fun _ _ h => protocolStep_policyAllow h))
  · intro result err trace record hret hrecord
    have htrace : l.Run.trace = trace := by
      rw [hret]
      rfl
    rw [(run_consistent l result err trace hret).1] at hrecord
    obtain ⟨pre, output, e, post, hsplit⟩ := mem_recordsOf hrecord
    obtain ⟨before, msgs, r, mid, hpre, hmid, hr⟩ :=
      hexec pre record.call output e post (htrace.trans hsplit)
    exact ⟨before, msgs, r, mid, output, e, post, by simp [hsplit, hpre], hmid, hr⟩

/-- C36, on a run whose reflection response asks for a tool: the provider is
called four times and the only call executed is that of the plan, not the call
the reflection carried. -/
theorem reflection_tool_calls_are_dropped_witness :
    FollowsProtocol eagerReflectionLoop eagerReflectionLoop.Run.trace ∧
    providerCalls eagerReflectionLoop.Run.trace = 4 ∧
    executedCalls eagerReflectionLoop.Run.trace = planResponse.ToolCalls ∧
    shadowingToolCall ∉ executedCalls eagerReflectionLoop.Run.trace :=
  ⟨(reflection_tool_calls_are_dropped eagerReflectionLoop).1, by decide, by decide, by decide⟩

end Agent

namespace Controller

/-! ## Lemmas on one reconciliation -/

theorem start_objectMeta (ar : AgentRun) (now : Time) :
    (ar.start now).ObjectMeta = ar.ObjectMeta := by
  unfold AgentRun.start
  split <;> rfl

theorem start_spec (ar : AgentRun) (now : Time) : (ar.start now).Spec = ar.Spec := by
  unfold AgentRun.start
  split <;> rfl

theorem start_phase (ar : AgentRun) (now : Time) :
    (ar.start now).Status.Phase = ar.Status.Phase := by
  unfold AgentRun.start
  split <;> rfl

theorem start_completionTime (ar : AgentRun) (now : Time) :
    (ar.start now).Status.CompletionTime = ar.Status.CompletionTime := by
  unfold AgentRun.start
  split <;> rfl

theorem generateRole_start (ar : AgentRun) (now : Time) :
    GenerateRole (ar.start now) = GenerateRole ar := by
  simp [GenerateRole, GenerateRoleName, NewControllerRef, start_objectMeta]

theorem generateRoleBinding_start (ar : AgentRun) (now : Time) (cfg : AgentConfig)
    (roleName : String) :
    GenerateRoleBinding (ar.start now) cfg roleName = GenerateRoleBinding ar cfg roleName := by
  simp [GenerateRoleBinding, GenerateRoleBindingName, NewControllerRef, start_objectMeta]

theorem build_start (b : Builder) (ar : AgentRun) (now : Time) (cfg : AgentConfig) :
    b.Build (ar.start now) cfg = b.Build ar cfg := by
  simp [Builder.Build, NewControllerRef, start_objectMeta, start_spec]

/-- The pod step, once the result of the create call is known. -/
theorem createAgentPod_eq {ω : Type} (r : Reconciler ω) (w : ω) (agentRun : AgentRun)
    (cfg : AgentConfig) (err : Option ClientError) (w1 : ω)
    (hpod : r.KubeClient.CreatePod w agentRun.ObjectMeta.Namespace
      (Builder.Build { Image := r.Image } agentRun cfg).1 = (err, w1)) :
    r.createAgentPod w agentRun cfg =
      if createFailed err then
        { err := some (wrapClientError "failed to create pod: " err)
          world := w1
          calls := [ClientCall.createPod agentRun.ObjectMeta.Namespace
            (Builder.Build { Image := r.Image } agentRun cfg).1 err] }
      else
        { err := none
          world := w1
          calls := [ClientCall.createPod agentRun.ObjectMeta.Namespace
            (Builder.Build { Image := r.Image } agentRun cfg).1 err] } := by
  have hstep : r.createAgentPod w agentRun cfg =
      match r.KubeClient.CreatePod w agentRun.ObjectMeta.Namespace
        (Builder.Build { Image := r.Image } agentRun cfg).1 with
      | (err, w1) =>
        if createFailed err then
          { err := some (wrapClientError "failed to create pod: " err)
            world := w1
            calls := [ClientCall.createPod agentRun.ObjectMeta.Namespace
              (Builder.Build { Image := r.Image } agentRun cfg).1 err] }
        else
          { err := none
            world := w1
            calls := [ClientCall.createPod agentRun.ObjectMeta.Namespace
              (Builder.Build { Image := r.Image } agentRun cfg).1 err] } := rfl
  rw [hstep, hpod]

/-- Every call of `Reconcile` is one of the cases of `Reconciles`. -/
theorem reconcile_cases {ω : Type} (r : Reconciler ω) (w : ω) (agentRun : AgentRun) :
    Reconciles r w agentRun (r.Reconcile w agentRun) := by
  by_cases hdone : agentRun.IsDone = true
  · convert Reconciles.done hdone using 1
    simp [Reconciler.Reconcile, hdone]
  have hdone' : agentRun.IsDone = false := by simpa using hdone
  cases hcache : r.AgentConfigs agentRun.Spec.ConfigRef.Name with
  | none =>
    convert Reconciles.uncached hdone' hcache using 1
    simp [Reconciler.Reconcile, hdone', Reconciler.getAgentConfig, hcache]
  | some cfg =>
    have hrun : r.Reconcile w agentRun =
        if (agentRun.start (r.Now w)).Status.Phase = AgentRunPhasePending then
          r.handlePending w (agentRun.start (r.Now w)) cfg
        else if (agentRun.start (r.Now w)).Status.Phase = AgentRunPhaseActing then
          r.handleActing w (agentRun.start (r.Now w))
        else
          { agentRun :=
              { agentRun.start (r.Now w) with Status.Phase := AgentRunPhasePending }
            err := none
            world := w
            calls := [] } := by
      simp only [Reconciler.Reconcile, hdone', Reconciler.getAgentConfig, hcache,
        AgentRun.start]
      rfl
    rw [hrun]
    simp only [start_phase]
    by_cases hpending : agentRun.Status.Phase = AgentRunPhasePending
    · rw [if_pos hpending]
      rcases hrole : r.KubeClient.CreateRole w agentRun.ObjectMeta.Namespace
        (GenerateRole agentRun) with ⟨err1, w1⟩
      have hrole' : r.KubeClient.CreateRole w (agentRun.start (r.Now w)).ObjectMeta.Namespace
          (GenerateRole (agentRun.start (r.Now w))) = (err1, w1) := by
        rw [start_objectMeta, generateRole_start]
        exact hrole
      by_cases hf1 : createFailed err1 = true
      · convert Reconciles.roleFailed cfg err1 w1 hdone' hcache hpending hrole hf1 using 1
        unfold Reconciler.handlePending Reconciler.createRBAC
        simp only [hrole', hf1, if_true]
        simp [start_objectMeta, generateRole_start]
      have hok1 : createFailed err1 = false := by simpa using hf1
      rcases hbinding : r.KubeClient.CreateRoleBinding w1 agentRun.ObjectMeta.Namespace
        (GenerateRoleBinding agentRun cfg (GenerateRole agentRun).ObjectMeta.Name)
        with ⟨err2, w2⟩
      have hbinding' : r.KubeClient.CreateRoleBinding w1
          (agentRun.start (r.Now w)).ObjectMeta.Namespace
          (GenerateRoleBinding (agentRun.start (r.Now w)) cfg
            (GenerateRole (agentRun.start (r.Now w))).ObjectMeta.Name) = (err2, w2) := by
        rw [start_objectMeta, generateRole_start, generateRoleBinding_start]
        exact hbinding
      by_cases hf2 : createFailed err2 = true
      · convert Reconciles.bindingFailed cfg err1 err2 w1 w2 hdone' hcache hpending hrole
          hok1 hbinding hf2 using 1
        unfold Reconciler.handlePending Reconciler.createRBAC
        simp only [hrole', hok1, hbinding', hf2, if_true]
        simp [start_objectMeta, generateRole_start, generateRoleBinding_start]
      have hok2 : createFailed err2 = false := by simpa using hf2
      rcases hpod : r.KubeClient.CreatePod w2 agentRun.ObjectMeta.Namespace
        (Builder.Build { Image := r.Image } agentRun cfg).1 with ⟨err3, w3⟩
      have hpod' : r.KubeClient.CreatePod w2 (agentRun.start (r.Now w)).ObjectMeta.Namespace
          (Builder.Build { Image := r.Image } (agentRun.start (r.Now w)) cfg).1 =
            (err3, w3) := by
        rw [start_objectMeta, build_start]
        exact hpod
      by_cases hf3 : createFailed err3 = true
      · convert Reconciles.podFailed cfg err1 err2 err3 w1 w2 w3 hdone' hcache hpending hrole
          hok1 hbinding hok2 hpod hf3 using 1
        unfold Reconciler.handlePending Reconciler.createRBAC
        simp only [hrole', hok1, hbinding', hok2, Bool.false_eq_true, if_false]
        rw [createAgentPod_eq r w2 _ cfg err3 w3 hpod']
        simp only [hf3, if_true]
        simp [start_objectMeta, generateRole_start, generateRoleBinding_start, build_start]
      have hok3 : createFailed err3 = false := by simpa using hf3
      convert Reconciles.provisioned cfg err1 err2 err3 w1 w2 w3 hdone' hcache hpending hrole
        hok1 hbinding hok2 hpod hok3 using 1
      unfold Reconciler.handlePending Reconciler.createRBAC
      simp only [hrole', hok1, hbinding', hok2, Bool.false_eq_true, if_false]
      rw [createAgentPod_eq r w2 _ cfg err3 w3 hpod']
      simp only [hok3]
      simp [start_objectMeta, generateRole_start, generateRoleBinding_start, build_start]
    · rw [if_neg hpending]
      by_cases hacting : agentRun.Status.Phase = AgentRunPhaseActing
      · rw [if_pos hacting]
        rcases hget : r.KubeClient.GetPod w agentRun.ObjectMeta.Namespace
          (agentRun.ObjectMeta.Name ++ "-agent") with ⟨res, w1⟩
        have hget' : r.KubeClient.GetPod w (agentRun.start (r.Now w)).ObjectMeta.Namespace
            ((agentRun.start (r.Now w)).ObjectMeta.Name ++ "-agent") = (res, w1) := by
          rw [start_objectMeta]
          exact hget
        cases res with
        | failed err =>
          by_cases habsent : err.IsNotFound = true
          · convert Reconciles.podAbsent cfg err w1 hdone' hcache hacting hget habsent using 1
            unfold Reconciler.handleActing
            simp only [hget', habsent, if_true]
            simp [start_objectMeta]
          · have hother : err.IsNotFound = false := by simpa using habsent
            convert Reconciles.getFailed cfg err w1 hdone' hcache hacting hget hother using 1
            unfold Reconciler.handleActing
            simp only [hget', hother]
            simp [start_objectMeta]
        | found agentPod =>
          by_cases hs : agentPod.Status.Phase = PodSucceeded
          · convert Reconciles.podSucceeded cfg agentPod w1 hdone' hcache hacting hget hs
              using 1
            unfold Reconciler.handleActing
            simp only [hget', hs, if_true]
            simp [start_objectMeta]
          · by_cases hf : agentPod.Status.Phase = PodFailed
            · convert Reconciles.podFailedPhase cfg agentPod w1 hdone' hcache hacting hget hs hf
                using 1
              have hne : ¬ PodFailed = PodSucceeded := by decide
              unfold Reconciler.handleActing
              simp only [hget', hf, hne, if_true, if_false]
              simp [start_objectMeta, hne]
            · convert Reconciles.podRunning cfg agentPod w1 hdone' hcache hacting hget hs hf
                using 1
              unfold Reconciler.handleActing
              simp only [hget', hs, hf, if_false]
              simp [start_objectMeta]
      · rw [if_neg hacting]
        exact Reconciles.normalized cfg hdone' hcache hpending hacting

/-! ## Requests that are done, and phases that are not handled -/

/-- C11: for a request whose phase is Succeeded or Failed, `Reconcile` returns
nil, makes no call of the clientset, and leaves the request, so its whole
status, and the world as they were; the cache of profiles plays no part, so
this holds also when the profile of the request is absent from it. -/
theorem reconcile_done_is_noop {ω : Type} (r : Reconciler ω) (w : ω) (agentRun : AgentRun)
    (hdone : agentRun.Status.Phase = AgentRunPhaseSucceeded ∨
      agentRun.Status.Phase = AgentRunPhaseFailed) :
    (r.Reconcile w agentRun).err = none ∧
    (r.Reconcile w agentRun).calls = [] ∧
    (r.Reconcile w agentRun).agentRun = agentRun ∧
    (r.Reconcile w agentRun).agentRun.Status = agentRun.Status ∧
    (r.Reconcile w agentRun).world = w := by
  have h : agentRun.IsDone = true := by
    rcases hdone with h | h <;> simp [AgentRun.IsDone, h]
  simp [Reconciler.Reconcile, h]

/-- C11, on the request of `TestReconcile_AlreadyDone`, with a reconciler whose
cache holds no profile. -/
theorem reconcile_done_is_noop_witness :
    uncachedReconciler.AgentConfigs (testRun "Succeeded").Spec.ConfigRef.Name = none ∧
    (uncachedReconciler.Reconcile emptyStore (testRun "Succeeded")).err = none ∧
    (uncachedReconciler.Reconcile emptyStore (testRun "Succeeded")).calls = [] ∧
    (uncachedReconciler.Reconcile emptyStore (testRun "Succeeded")).agentRun =
      testRun "Succeeded" ∧
    (uncachedReconciler.Reconcile emptyStore (testRun "Succeeded")).agentRun.Status =
      (testRun "Succeeded").Status ∧
    (uncachedReconciler.Reconcile emptyStore (testRun "Succeeded")).world = emptyStore :=
  ⟨rfl, reconcile_done_is_noop uncachedReconciler emptyStore (testRun "Succeeded")
    (Or.inl rfl)⟩

/-- C18: for a request whose phase is none of Pending, Acting, Succeeded and
Failed, and whose profile is cached, `Reconcile` sets the phase to Pending,
returns nil and makes no call of the clientset. -/
theorem reconcile_normalizes_unknown_phase {ω : Type} (r : Reconciler ω) (w : ω)
    (agentRun : AgentRun) (agentConfig : AgentConfig)
    (hpending : agentRun.Status.Phase ≠ AgentRunPhasePending)
    (hacting : agentRun.Status.Phase ≠ AgentRunPhaseActing)
    (hsucceeded : agentRun.Status.Phase ≠ AgentRunPhaseSucceeded)
    (hfailed : agentRun.Status.Phase ≠ AgentRunPhaseFailed)
    (hcached : r.AgentConfigs agentRun.Spec.ConfigRef.Name = some agentConfig) :
    (r.Reconcile w agentRun).agentRun.Status.Phase = AgentRunPhasePending ∧
    (r.Reconcile w agentRun).err = none ∧
    (r.Reconcile w agentRun).calls = [] ∧
    (r.Reconcile w agentRun).world = w := by
  have h : agentRun.IsDone = false := by
    simp [AgentRun.IsDone, hsucceeded, hfailed]
  unfold Reconciler.Reconcile
  simp only [h, Reconciler.getAgentConfig, hcached]
  by_cases hs : agentRun.HasStarted = true <;>
    simp [hs, hpending, hacting]

/-- C18, on the declared phases that `Reconcile` does not handle and on the
empty phase. -/
theorem reconcile_normalizes_unknown_phase_witness :
    (∀ phase ∈ [AgentRunPhasePreHooks, AgentRunPhasePlanning, AgentRunPhaseReflecting,
        AgentRunPhasePostHooks, ""],
      (testReconciler.Reconcile emptyStore (testRun phase)).agentRun.Status.Phase =
        AgentRunPhasePending) ∧
    (testReconciler.Reconcile emptyStore (testRun "")).agentRun.Status.Phase =
      AgentRunPhasePending ∧
    (testReconciler.Reconcile emptyStore (testRun "")).err = none ∧
    (testReconciler.Reconcile emptyStore (testRun "")).calls = [] ∧
    (testReconciler.Reconcile emptyStore (testRun "")).world = emptyStore :=
  ⟨by decide,
    reconcile_normalizes_unknown_phase testReconciler emptyStore (testRun "") testConfig
      (by decide) (by decide) (by decide) (by decide) rfl⟩

/-! ## The authorization objects -/

/-- C19: every rule of the role that `GenerateRole` returns has its verbs among
get, list and watch, so none of create, update, patch, delete and the
wildcard; and the resources of the rules are, together, exactly pods, services,
endpoints, deployments, replicasets, statefulsets, daemonsets and events. -/
theorem generateRole_is_read_only (agentRun : AgentRun) :
    (∀ rule ∈ (GenerateRole agentRun).Rules, ∀ verb ∈ rule.Verbs,
      verb = "get" ∨ verb = "list" ∨ verb = "watch") ∧
    (∀ rule ∈ (GenerateRole agentRun).Rules, ∀ verb ∈ rule.Verbs,
      verb ∉ ["create", "update", "patch", "delete", "*"]) ∧
    (∀ resource,
      resource ∈ ((GenerateRole agentRun).Rules.map (fun rule => rule.Resources)).flatten ↔
        resource ∈ ["pods", "services", "endpoints", "deployments", "replicasets",
          "statefulsets", "daemonsets", "events"]) := by
  refine ⟨?_, ?_, ?_⟩
  · intro rule hrule verb hverb
    simp only [GenerateRole, List.mem_cons, List.mem_singleton, List.not_mem_nil,
      or_false] at hrule
    rcases hrule with rfl | rfl | rfl <;> simpa using hverb
  · intro rule hrule verb hverb
    simp only [GenerateRole, List.mem_cons, List.mem_singleton, List.not_mem_nil,
      or_false] at hrule
    rcases hrule with rfl | rfl | rfl <;>
      · simp only [List.mem_cons, List.mem_singleton, List.not_mem_nil, or_false] at hverb
        rcases hverb with rfl | rfl | rfl <;> decide
  · intro resource
    simp [GenerateRole]

/-- C20: the role binding that `GenerateRoleBinding` returns has exactly one
subject, of kind ServiceAccount, with the name of the service account of the
profile and the namespace of the request, and its role reference has kind Role
and the role name given; and every role binding that `createRBAC` hands to the
clientset is generated with the name of the role generated for the same
request. -/
theorem generateRoleBinding_binds_service_account {ω : Type} (agentRun : AgentRun)
    (agentConfig : AgentConfig) (roleName : String) :
    (GenerateRoleBinding agentRun agentConfig roleName).Subjects =
      [{ Kind := "ServiceAccount"
         Name := agentConfig.Spec.ServiceAccount
         Namespace := agentRun.ObjectMeta.Namespace }] ∧
    (GenerateRoleBinding agentRun agentConfig roleName).RoleRef.Kind = "Role" ∧
    (GenerateRoleBinding agentRun agentConfig roleName).RoleRef.Name = roleName ∧
    (∀ (r : Reconciler ω) (w : ω) ns roleBinding err,
      ClientCall.createRoleBinding ns roleBinding err ∈
          (r.createRBAC w agentRun agentConfig).calls →
        roleBinding =
          GenerateRoleBinding agentRun agentConfig (GenerateRole agentRun).ObjectMeta.Name ∧
        roleBinding.RoleRef.Name = (GenerateRole agentRun).ObjectMeta.Name ∧
        ns = agentRun.ObjectMeta.Namespace) := by
  refine ⟨rfl, rfl, rfl, ?_⟩
  intro r w ns roleBinding err hmem
  unfold Reconciler.createRBAC at hmem
  rcases h1 : r.KubeClient.CreateRole w agentRun.ObjectMeta.Namespace (GenerateRole agentRun)
    with ⟨err1, w1⟩
  simp only [h1] at hmem
  by_cases hf1 : createFailed err1 = true
  · simp [hf1] at hmem
  · rcases h2 : r.KubeClient.CreateRoleBinding w1 agentRun.ObjectMeta.Namespace
        (GenerateRoleBinding agentRun agentConfig (GenerateRole agentRun).ObjectMeta.Name)
      with ⟨err2, w2⟩
    simp only [hf1, h2] at hmem
    by_cases hf2 : createFailed err2 = true
    · simp [hf2] at hmem
      obtain ⟨rfl, rfl, -⟩ := hmem
      exact ⟨rfl, rfl, rfl⟩
    · simp [hf2] at hmem
      obtain ⟨rfl, rfl, -⟩ := hmem
      exact ⟨rfl, rfl, rfl⟩

/-- C20, on the request and the profile of `TestGenerateRoleBinding`'s kind:
the binding created on an empty store names the role "agentrun-test-run". -/
theorem generateRoleBinding_binds_service_account_witness :
    ClientCall.createRoleBinding "default"
        (GenerateRoleBinding (testRun "Pending") testConfig "agentrun-test-run") none ∈
      (testReconciler.createRBAC emptyStore (testRun "Pending") testConfig).calls ∧
    (GenerateRoleBinding (testRun "Pending") testConfig "agentrun-test-run").RoleRef.Name =
      (GenerateRole (testRun "Pending")).ObjectMeta.Name ∧
    (GenerateRoleBinding (testRun "Pending") testConfig "agentrun-test-run").Subjects =
      [{ Kind := "ServiceAccount", Name := "default", Namespace := "default" }] :=
  ⟨by decide,
    ((generateRoleBinding_binds_service_account (testRun "Pending") testConfig
      "agentrun-test-run").2.2.2 testReconciler emptyStore "default" _ none (by decide)).2.1,
    (@generateRoleBinding_binds_service_account Store (testRun "Pending") testConfig
      "agentrun-test-run").1⟩

/-! ## Provisioning -/

/-- A reconciliation of an Acting request whose pod is found and is neither
succeeded nor failed: one `Get`, no error, and the phase stays Acting. -/
theorem reconcile_acting_running {ω : Type} (r : Reconciler ω) (w : ω) (agentRun : AgentRun)
    (agentConfig : AgentConfig) (agentPod : Pod)
    (hphase : agentRun.Status.Phase = AgentRunPhaseActing)
    (hcached : r.AgentConfigs agentRun.Spec.ConfigRef.Name = some agentConfig)
    (hget : (r.KubeClient.GetPod w agentRun.ObjectMeta.Namespace
      (agentRun.ObjectMeta.Name ++ "-agent")).1 = .found agentPod)
    (hs : agentPod.Status.Phase ≠ PodSucceeded) (hf : agentPod.Status.Phase ≠ PodFailed) :
    (r.Reconcile w agentRun).err = none ∧
    (r.Reconcile w agentRun).agentRun.Status.Phase = AgentRunPhaseActing ∧
    (r.Reconcile w agentRun).calls =
      [.getPod agentRun.ObjectMeta.Namespace (agentRun.ObjectMeta.Name ++ "-agent")
        (.found agentPod)] := by
  have hne : AgentRunPhaseActing ≠ AgentRunPhasePending := by decide
  have h := reconcile_cases r w agentRun
  generalize r.Reconcile w agentRun = res at h ⊢
  cases h with
  | done hdone =>
    rw [AgentRun.IsDone, hphase] at hdone
    exact absurd hdone (by decide)
  | uncached hdone hcache =>
    rw [hcached] at hcache
    cases hcache
  | roleFailed cfg err1 w1 hdone hcache hph hrole hfail =>
    rw [hphase] at hph
    exact absurd hph hne
  | bindingFailed cfg err1 err2 w1 w2 hdone hcache hph hrole hok1 hbinding hfail =>
    rw [hphase] at hph
    exact absurd hph hne
  | podFailed cfg err1 err2 err3 w1 w2 w3 hdone hcache hph hrole hok1 hbinding hok2 hpod
      hfail =>
    rw [hphase] at hph
    exact absurd hph hne
  | provisioned cfg err1 err2 err3 w1 w2 w3 hdone hcache hph hrole hok1 hbinding hok2 hpod
      hok3 =>
    rw [hphase] at hph
    exact absurd hph hne
  | podAbsent cfg err w1 hdone hcache hph hget2 habsent =>
    rw [hget2] at hget
    cases hget
  | getFailed cfg err w1 hdone hcache hph hget2 hother =>
    rw [hget2] at hget
    cases hget
  | podSucceeded cfg pod w1 hdone hcache hph hget2 hpod =>
    rw [hget2] at hget
    cases hget
    exact absurd hpod hs
  | podFailedPhase cfg pod w1 hdone hcache hph hget2 hnot hpod =>
    rw [hget2] at hget
    cases hget
    exact absurd hpod hf
  | podRunning cfg pod w1 hdone hcache hph hget2 hnot hnot2 =>
    rw [hget2] at hget
    cases hget
    exact ⟨rfl, by simp [start_phase, hphase], rfl⟩
  | normalized cfg hdone hcache hpending hacting => exact absurd hphase hacting

/-- C12: for a Pending request whose profile is cached, when none of the calls
that create the role, the role binding and the pod returns an error other than
AlreadyExists, `Reconcile` makes these three calls, returns nil and sets the
phase to Acting; and a second `Reconcile` on the request it left, in any world
in which the `Get` of the pod of the request finds a pod that is neither
succeeded nor failed, returns nil, makes that one `Get` and no creation, and
leaves the phase Acting. -/
theorem pending_request_is_provisioned_once {ω : Type} (r : Reconciler ω) (w : ω)
    (agentRun : AgentRun) (agentConfig : AgentConfig)
    (hphase : agentRun.Status.Phase = AgentRunPhasePending)
    (hcached : r.AgentConfigs agentRun.Spec.ConfigRef.Name = some agentConfig)
    (hbenign : ∀ call ∈ (r.Reconcile w agentRun).calls, call.failedCreate = false) :
    (r.Reconcile w agentRun).err = none ∧
    (r.Reconcile w agentRun).agentRun.Status.Phase = AgentRunPhaseActing ∧
    (∃ err1 err2 err3, (r.Reconcile w agentRun).calls =
      [.createRole agentRun.ObjectMeta.Namespace (GenerateRole agentRun) err1,
       .createRoleBinding agentRun.ObjectMeta.Namespace
         (GenerateRoleBinding agentRun agentConfig (GenerateRole agentRun).ObjectMeta.Name)
         err2,
       .createPod agentRun.ObjectMeta.Namespace
         (Builder.Build { Image := r.Image } agentRun agentConfig).1 err3]) ∧
    (∀ (w2 : ω) (agentPod : Pod),
      (r.KubeClient.GetPod w2 agentRun.ObjectMeta.Namespace
        (agentRun.ObjectMeta.Name ++ "-agent")).1 = .found agentPod →
      agentPod.Status.Phase ≠ PodSucceeded → agentPod.Status.Phase ≠ PodFailed →
      (r.Reconcile w2 (r.Reconcile w agentRun).agentRun).err = none ∧
      (r.Reconcile w2 (r.Reconcile w agentRun).agentRun).agentRun.Status.Phase =
        AgentRunPhaseActing ∧
      (r.Reconcile w2 (r.Reconcile w agentRun).agentRun).calls =
        [.getPod agentRun.ObjectMeta.Namespace (agentRun.ObjectMeta.Name ++ "-agent")
          (.found agentPod)] ∧
      ∀ call ∈ (r.Reconcile w2 (r.Reconcile w agentRun).agentRun).calls,
        call.isCreate = false) := by
  have hne : AgentRunPhaseActing ≠ AgentRunPhasePending := by decide
  have h := reconcile_cases r w agentRun
  generalize r.Reconcile w agentRun = res at h hbenign ⊢
  cases h with
  | done hdone =>
    rw [AgentRun.IsDone, hphase] at hdone
    exact absurd hdone (by decide)
  | uncached hdone hcache =>
    rw [hcached] at hcache
    cases hcache
  | roleFailed cfg err1 w1 hdone hcache hph hrole hfail =>
    have hb := hbenign _ (List.mem_singleton.mpr rfl)
    rw [ClientCall.failedCreate, hfail] at hb
    cases hb
  | bindingFailed cfg err1 err2 w1 w2 hdone hcache hph hrole hok1 hbinding hfail =>
    have hb := hbenign (.createRoleBinding agentRun.ObjectMeta.Namespace
      (GenerateRoleBinding agentRun cfg (GenerateRole agentRun).ObjectMeta.Name) err2)
      (by simp)
    rw [ClientCall.failedCreate, hfail] at hb
    cases hb
  | podFailed cfg err1 err2 err3 w1 w2 w3 hdone hcache hph hrole hok1 hbinding hok2 hpod
      hfail =>
    have hb := hbenign (.createPod agentRun.ObjectMeta.Namespace
      (Builder.Build { Image := r.Image } agentRun cfg).1 err3) (by simp)
    rw [ClientCall.failedCreate, hfail] at hb
    cases hb
  | provisioned cfg err1 err2 err3 w1 w2 w3 hdone hcache hph hrole hok1 hbinding hok2 hpod
      hok3 =>
    rw [hcached] at hcache
    cases hcache
    refine ⟨rfl, rfl, ⟨err1, err2, err3, rfl⟩, ?_⟩
    intro w4 agentPod hget hs hf
    dsimp only
    obtain ⟨h1, h2, h3⟩ := reconcile_acting_running r w4
      { agentRun.start (r.Now w) with Status.Phase := AgentRunPhaseActing } agentConfig
      agentPod rfl (by simpa [start_spec] using hcached)
      (by simpa [start_objectMeta] using hget) hs hf
    dsimp only at h1 h2 h3
    refine ⟨h1, h2, h3.trans (by rw [start_objectMeta]), ?_⟩
    intro call hcall
    rw [h3] at hcall
    simp only [List.mem_singleton] at hcall
    subst hcall
    rfl
  | podAbsent cfg err w1 hdone hcache hph hget2 habsent =>
    rw [hph] at hphase
    exact absurd hphase hne
  | getFailed cfg err w1 hdone hcache hph hget2 hother =>
    rw [hph] at hphase
    exact absurd hphase hne
  | podSucceeded cfg pod w1 hdone hcache hph hget2 hpod =>
    rw [hph] at hphase
    exact absurd hphase hne
  | podFailedPhase cfg pod w1 hdone hcache hph hget2 hnot hpod =>
    rw [hph] at hphase
    exact absurd hphase hne
  | podRunning cfg pod w1 hdone hcache hph hget2 hnot hnot2 =>
    rw [hph] at hphase
    exact absurd hphase hne
  | normalized cfg hdone hcache hpending hacting => exact absurd hphase hpending

/-- C12, on `TestReconcile_NewAgentRun`: on the empty store the fresh request
becomes Acting with one pod in the store, and a second call on the store and
the request that the first call left makes one `Get`, returns nil, leaves the
phase Acting and leaves one pod in the store. -/
theorem pending_request_is_provisioned_once_witness :
    (testReconciler.Reconcile emptyStore (testRun "Pending")).err = none ∧
    (testReconciler.Reconcile emptyStore (testRun "Pending")).agentRun.Status.Phase =
      AgentRunPhaseActing ∧
    (testReconciler.Reconcile emptyStore (testRun "Pending")).world.pods.length = 1 ∧
    (testReconciler.Reconcile
      (testReconciler.Reconcile emptyStore (testRun "Pending")).world
      (testReconciler.Reconcile emptyStore (testRun "Pending")).agentRun).world.pods.length =
        1 ∧
    (testReconciler.Reconcile
      (testReconciler.Reconcile emptyStore (testRun "Pending")).world
      (testReconciler.Reconcile emptyStore (testRun "Pending")).agentRun).err = none ∧
    (testReconciler.Reconcile
      (testReconciler.Reconcile emptyStore (testRun "Pending")).world
      (testReconciler.Reconcile emptyStore (testRun "Pending")).agentRun).agentRun.Status.Phase =
        AgentRunPhaseActing :=
  ⟨(pending_request_is_provisioned_once testReconciler emptyStore (testRun "Pending")
      testConfig rfl rfl (by decide)).1,
    (pending_request_is_provisioned_once testReconciler emptyStore (testRun "Pending")
      testConfig rfl rfl (by decide)).2.1,
    by decide, by decide,
    ((pending_request_is_provisioned_once testReconciler emptyStore (testRun "Pending")
      testConfig rfl rfl (by decide)).2.2.2
        (testReconciler.Reconcile emptyStore (testRun "Pending")).world
        (Builder.Build { Image := testReconciler.Image } (testRun "Pending") testConfig).1
        (by decide) (by decide) (by decide)).1,
    ((pending_request_is_provisioned_once testReconciler emptyStore (testRun "Pending")
      testConfig rfl rfl (by decide)).2.2.2
        (testReconciler.Reconcile emptyStore (testRun "Pending")).world
        (Builder.Build { Image := testReconciler.Image } (testRun "Pending") testConfig).1
        (by decide) (by decide) (by decide)).2.1⟩

/-! ## Provisioning errors -/

/-- C13: for a Pending request, when a call that creates the role, the role
binding or the pod returns an error other than AlreadyExists, `Reconcile`
returns a non-nil error and leaves the phase Pending, and the failing call is
the last call made: after a failing creation of the role no other call was made,
and after a failing creation of the role binding only the role had been
created, so no pod. -/
theorem hard_create_error_aborts_provisioning {ω : Type} (r : Reconciler ω) (w : ω)
    (agentRun : AgentRun) (call : ClientCall)
    (hphase : agentRun.Status.Phase = AgentRunPhasePending)
    (hcall : call ∈ (r.Reconcile w agentRun).calls)
    (hfail : call.failedCreate = true) :
    (r.Reconcile w agentRun).err ≠ none ∧
    (r.Reconcile w agentRun).agentRun.Status.Phase = AgentRunPhasePending ∧
    (∃ before, (r.Reconcile w agentRun).calls = before ++ [call] ∧
      ∀ c ∈ before, c.failedCreate = false) ∧
    (∀ ns role err, call = .createRole ns role err →
      (r.Reconcile w agentRun).calls = [call]) ∧
    (∀ ns roleBinding err, call = .createRoleBinding ns roleBinding err →
      ∃ role err1, (r.Reconcile w agentRun).calls = [.createRole ns role err1, call]) := by
  have h := reconcile_cases r w agentRun
  generalize r.Reconcile w agentRun = res at h hcall ⊢
  cases h with
  | done hdone => simp at hcall
  | uncached hdone hcache => simp at hcall
  | roleFailed cfg err1 w1 hdone hcache hph hrole hf =>
    simp only [List.mem_singleton] at hcall
    subst hcall
    refine ⟨by simp, by simp [start_phase, hphase], ⟨[], rfl, by simp⟩, ?_, ?_⟩
    · intro ns role err _
      rfl
    · intro ns roleBinding err hk
      cases hk
  | bindingFailed cfg err1 err2 w1 w2 hdone hcache hph hrole hok1 hbinding hf =>
    simp only [List.mem_cons, List.mem_singleton, List.not_mem_nil, or_false] at hcall
    rcases hcall with rfl | rfl
    · simp [ClientCall.failedCreate, hok1] at hfail
    · refine ⟨by simp, by simp [start_phase, hphase], ⟨[_], rfl, ?_⟩, ?_, ?_⟩
      · intro c hc
        simp only [List.mem_singleton] at hc
        subst hc
        simpa [ClientCall.failedCreate] using hok1
      · intro ns role err hk
        cases hk
      · intro ns roleBinding err hk
        cases hk
        exact ⟨_, _, rfl⟩
  | podFailed cfg err1 err2 err3 w1 w2 w3 hdone hcache hph hrole hok1 hbinding hok2 hpod hf =>
    simp only [List.mem_cons, List.mem_singleton, List.not_mem_nil, or_false] at hcall
    rcases hcall with rfl | rfl | rfl
    · simp [ClientCall.failedCreate, hok1] at hfail
    · simp [ClientCall.failedCreate, hok2] at hfail
    · refine ⟨by simp, by simp [start_phase, hphase], ⟨[_, _], rfl, ?_⟩, ?_, ?_⟩
      · intro c hc
        simp only [List.mem_cons, List.mem_singleton, List.not_mem_nil, or_false] at hc
        rcases hc with rfl | rfl
        · simpa [ClientCall.failedCreate] using hok1
        · simpa [ClientCall.failedCreate] using hok2
      · intro ns role err hk
        cases hk
      · intro ns roleBinding err hk
        cases hk
  | provisioned cfg err1 err2 err3 w1 w2 w3 hdone hcache hph hrole hok1 hbinding hok2 hpod
      hok3 =>
    simp only [List.mem_cons, List.mem_singleton, List.not_mem_nil, or_false] at hcall
    rcases hcall with rfl | rfl | rfl
    · simp [ClientCall.failedCreate, hok1] at hfail
    · simp [ClientCall.failedCreate, hok2] at hfail
    · simp [ClientCall.failedCreate, hok3] at hfail
  | podAbsent cfg err w1 hdone hcache hph hget habsent =>
    simp only [List.mem_singleton] at hcall
    subst hcall
    simp [ClientCall.failedCreate] at hfail
  | getFailed cfg err w1 hdone hcache hph hget hother =>
    simp only [List.mem_singleton] at hcall
    subst hcall
    simp [ClientCall.failedCreate] at hfail
  | podSucceeded cfg agentPod w1 hdone hcache hph hget hpod =>
    simp only [List.mem_singleton] at hcall
    subst hcall
    simp [ClientCall.failedCreate] at hfail
  | podFailedPhase cfg agentPod w1 hdone hcache hph hget hnot hpod =>
    simp only [List.mem_singleton] at hcall
    subst hcall
    simp [ClientCall.failedCreate] at hfail
  | podRunning cfg agentPod w1 hdone hcache hph hget hnot hnot2 =>
    simp only [List.mem_singleton] at hcall
    subst hcall
    simp [ClientCall.failedCreate] at hfail
  | normalized cfg hdone hcache hpending hacting => simp at hcall

/-- C13, against a cluster that refuses to create roles: the one call made is
the creation of the role, the error is non-nil and the phase stays Pending. -/
theorem hard_create_error_aborts_provisioning_witness :
    (refusedReconciler.Reconcile emptyStore (testRun "Pending")).calls =
      [.createRole "default" (GenerateRole (testRun "Pending"))
        (some { Message := "forbidden", IsNotFound := false, IsAlreadyExists := false })] ∧
    (refusedReconciler.Reconcile emptyStore (testRun "Pending")).err ≠ none ∧
    (refusedReconciler.Reconcile emptyStore (testRun "Pending")).agentRun.Status.Phase =
      AgentRunPhasePending :=
  ⟨by decide,
    (hard_create_error_aborts_provisioning refusedReconciler emptyStore (testRun "Pending")
      (.createRole "default" (GenerateRole (testRun "Pending"))
        (some { Message := "forbidden", IsNotFound := false, IsAlreadyExists := false }))
      rfl (by decide) (by decide)).1,
    (hard_create_error_aborts_provisioning refusedReconciler emptyStore (testRun "Pending")
      (.createRole "default" (GenerateRole (testRun "Pending"))
        (some { Message := "forbidden", IsNotFound := false, IsAlreadyExists := false }))
      rfl (by decide) (by decide)).2.1⟩

/-! ## The pod of a request in phase Acting -/

/-- C14 as stated fails on a request whose profile is not cached: the pod of
the Acting request of the tests is found in phase Succeeded in the store of
`TestReconcile_UpdateStatusFromPod`, and `Reconcile` with an empty cache of
profiles returns an error and leaves the phase Acting and the completion time
nil. -/
theorem completed_pod_uncached_counterexample :
    (testRun "Acting").Status.Phase = AgentRunPhaseActing ∧
    (uncachedReconciler.KubeClient.GetPod completedStore "default" "test-run-agent").1 =
      .found completedPod ∧
    completedPod.Status.Phase = PodSucceeded ∧
    (uncachedReconciler.Reconcile completedStore (testRun "Acting")).err ≠ none ∧
    (uncachedReconciler.Reconcile completedStore (testRun "Acting")).agentRun.Status.Phase =
      AgentRunPhaseActing ∧
    (uncachedReconciler.Reconcile completedStore
      (testRun "Acting")).agentRun.Status.CompletionTime = none ∧
    ¬ ((uncachedReconciler.Reconcile completedStore (testRun "Acting")).err = none ∧
      (uncachedReconciler.Reconcile completedStore (testRun "Acting")).agentRun.Status.Phase =
        AgentRunPhaseSucceeded ∧
      (uncachedReconciler.Reconcile completedStore
        (testRun "Acting")).agentRun.Status.CompletionTime ≠ none) := by
  decide

/-- C14, amended: for an Acting request whose profile is cached and whose pod
is found, that is, for which the `Get` of the pod named `<request name>-agent`
in the namespace of the request returns a pod: `Reconcile` makes that `Get` and
no other call; if the phase of the pod is Succeeded, `Reconcile` returns nil
and sets the phase of the request to Succeeded and a completion time; if the
phase of the pod is Failed, `Reconcile` returns nil and sets the phase of the
request to Failed and a completion time. -/
theorem completed_pod_completes_request {ω : Type} (r : Reconciler ω) (w : ω)
    (agentRun : AgentRun) (agentConfig : AgentConfig) (agentPod : Pod)
    (hphase : agentRun.Status.Phase = AgentRunPhaseActing)
    (hcached : r.AgentConfigs agentRun.Spec.ConfigRef.Name = some agentConfig)
    (hfound : (r.KubeClient.GetPod w agentRun.ObjectMeta.Namespace
      (agentRun.ObjectMeta.Name ++ "-agent")).1 = .found agentPod) :
    (r.Reconcile w agentRun).calls =
      [.getPod agentRun.ObjectMeta.Namespace (agentRun.ObjectMeta.Name ++ "-agent")
        (.found agentPod)] ∧
    (agentPod.Status.Phase = PodSucceeded →
      (r.Reconcile w agentRun).err = none ∧
      (r.Reconcile w agentRun).agentRun.Status.Phase = AgentRunPhaseSucceeded ∧
      (r.Reconcile w agentRun).agentRun.Status.CompletionTime ≠ none) ∧
    (agentPod.Status.Phase = PodFailed →
      (r.Reconcile w agentRun).err = none ∧
      (r.Reconcile w agentRun).agentRun.Status.Phase = AgentRunPhaseFailed ∧
      (r.Reconcile w agentRun).agentRun.Status.CompletionTime ≠ none) := by
  have hne : AgentRunPhaseActing ≠ AgentRunPhasePending := by decide
  have h := reconcile_cases r w agentRun
  generalize r.Reconcile w agentRun = res at h ⊢
  cases h with
  | done hdone =>
    rw [AgentRun.IsDone, hphase] at hdone
    exact absurd hdone (by decide)
  | uncached hdone hcache =>
    rw [hcached] at hcache
    cases hcache
  | roleFailed cfg err1 w1 hdone hcache hph hrole hf =>
    exact absurd (hphase.symm.trans hph) hne
  | bindingFailed cfg err1 err2 w1 w2 hdone hcache hph hrole hok1 hbinding hf =>
    exact absurd (hphase.symm.trans hph) hne
  | podFailed cfg err1 err2 err3 w1 w2 w3 hdone hcache hph hrole hok1 hbinding hok2 hpod hf =>
    exact absurd (hphase.symm.trans hph) hne
  | provisioned cfg err1 err2 err3 w1 w2 w3 hdone hcache hph hrole hok1 hbinding hok2 hpod
      hok3 =>
    exact absurd (hphase.symm.trans hph) hne
  | podAbsent cfg err w1 hdone hcache hph hget habsent => simp [hget] at hfound
  | getFailed cfg err w1 hdone hcache hph hget hother => simp [hget] at hfound
  | podSucceeded cfg pod w1 hdone hcache hph hget hpod =>
    obtain rfl : pod = agentPod := by simpa [hget] using hfound
    refine ⟨rfl, fun _ => ⟨rfl, rfl, by simp⟩, fun hfailed => ?_⟩
    rw [hpod] at hfailed
    exact absurd hfailed (by decide)
  | podFailedPhase cfg pod w1 hdone hcache hph hget hnot hpod =>
    obtain rfl : pod = agentPod := by simpa [hget] using hfound
    exact ⟨rfl, fun hs => absurd hs hnot, fun _ => ⟨rfl, rfl, by simp⟩⟩
  | podRunning cfg pod w1 hdone hcache hph hget hnot hnot2 =>
    obtain rfl : pod = agentPod := by simpa [hget] using hfound
    exact ⟨rfl, fun hs => absurd hs hnot, fun hf => absurd hf hnot2⟩
  | normalized cfg hdone hcache hpending hacting => exact absurd hphase hacting

/-- C14, on `TestReconcile_UpdateStatusFromPod`: the profile is cached and the
store holds the completed pod of the request; `Reconcile` reads it, and the
request ends in phase Succeeded with a completion time. -/
theorem completed_pod_completes_request_witness :
    (testReconciler.Reconcile completedStore (testRun "Acting")).calls =
      [.getPod "default" "test-run-agent" (.found completedPod)] ∧
    (testReconciler.Reconcile completedStore (testRun "Acting")).err = none ∧
    (testReconciler.Reconcile completedStore (testRun "Acting")).agentRun.Status.Phase =
      AgentRunPhaseSucceeded ∧
    (testReconciler.Reconcile completedStore (testRun "Acting")).agentRun.Status.CompletionTime
      ≠ none :=
  ⟨(completed_pod_completes_request testReconciler completedStore (testRun "Acting")
      testConfig completedPod rfl rfl (by decide)).1,
    (completed_pod_completes_request testReconciler completedStore (testRun "Acting")
      testConfig completedPod rfl rfl (by decide)).2.1 rfl⟩

/-- C15: for an Acting request, `Reconcile` moves the phase back to Pending if
and only if the call of `Get` for the pod named `<request name>-agent` in the
namespace of the request reports NotFound; it then returns nil and leaves the
completion time as it was.  Every `Get` that `Reconcile` makes is for that name
in that namespace, and that name and namespace are the ones `Builder.Build`
gives the pod. -/
theorem acting_regresses_iff_pod_not_found {ω : Type} (r : Reconciler ω) (w : ω)
    (agentRun : AgentRun)
    (hphase : agentRun.Status.Phase = AgentRunPhaseActing) :
    ((r.Reconcile w agentRun).agentRun.Status.Phase = AgentRunPhasePending ↔
      ∃ err, ClientCall.getPod agentRun.ObjectMeta.Namespace
          (agentRun.ObjectMeta.Name ++ "-agent") (.failed err) ∈
            (r.Reconcile w agentRun).calls ∧
        err.IsNotFound = true) ∧
    ((r.Reconcile w agentRun).agentRun.Status.Phase = AgentRunPhasePending →
      (r.Reconcile w agentRun).err = none ∧
      (r.Reconcile w agentRun).agentRun.Status.CompletionTime =
        agentRun.Status.CompletionTime) ∧
    (∀ ns name result, ClientCall.getPod ns name result ∈ (r.Reconcile w agentRun).calls →
      ns = agentRun.ObjectMeta.Namespace ∧ name = agentRun.ObjectMeta.Name ++ "-agent" ∧
      (r.KubeClient.GetPod w ns name).1 = result) ∧
    (∀ (b : Builder) (agentConfig : AgentConfig),
      (b.Build agentRun agentConfig).1.ObjectMeta.Name =
        agentRun.ObjectMeta.Name ++ "-agent" ∧
      (b.Build agentRun agentConfig).1.ObjectMeta.Namespace =
        agentRun.ObjectMeta.Namespace) := by
  have hne : AgentRunPhaseActing ≠ AgentRunPhasePending := by decide
  have hbuild : ∀ (b : Builder) (agentConfig : AgentConfig),
      (b.Build agentRun agentConfig).1.ObjectMeta.Name =
        agentRun.ObjectMeta.Name ++ "-agent" ∧
      (b.Build agentRun agentConfig).1.ObjectMeta.Namespace =
        agentRun.ObjectMeta.Namespace := fun _ _ => ⟨rfl, rfl⟩
  have h := reconcile_cases r w agentRun
  generalize r.Reconcile w agentRun = res at h ⊢
  cases h with
  | done hdone =>
    rw [AgentRun.IsDone, hphase] at hdone
    exact absurd hdone (by decide)
  | uncached hdone hcache =>
    refine ⟨?_, ?_, ?_, hbuild⟩
    · simp [hphase, hne]
    · intro hp
      rw [hphase] at hp
      exact absurd hp hne
    · intro ns name result hmem
      simp at hmem
  | roleFailed cfg err1 w1 hdone hcache hph hrole hf =>
    rw [hphase] at hph
    exact absurd hph hne
  | bindingFailed cfg err1 err2 w1 w2 hdone hcache hph hrole hok1 hbinding hf =>
    rw [hphase] at hph
    exact absurd hph hne
  | podFailed cfg err1 err2 err3 w1 w2 w3 hdone hcache hph hrole hok1 hbinding hok2 hpod hf =>
    rw [hphase] at hph
    exact absurd hph hne
  | provisioned cfg err1 err2 err3 w1 w2 w3 hdone hcache hph hrole hok1 hbinding hok2 hpod
      hok3 =>
    rw [hphase] at hph
    exact absurd hph hne
  | podAbsent cfg err w1 hdone hcache hph hget habsent =>
    refine ⟨?_, ?_, ?_, hbuild⟩
    · exact ⟨fun _ => ⟨err, by simp, habsent⟩, fun _ => rfl⟩
    · intro _
      exact ⟨rfl, by simp [start_completionTime]⟩
    · intro ns name result hmem
      simp only [List.mem_singleton, ClientCall.getPod.injEq] at hmem
      obtain ⟨rfl, rfl, rfl⟩ := hmem
      exact ⟨rfl, rfl, by rw [hget]⟩
  | getFailed cfg err w1 hdone hcache hph hget hother =>
    refine ⟨?_, ?_, ?_, hbuild⟩
    · constructor
      · intro hp
        simp only [start_phase, hphase] at hp
        exact absurd hp hne
      · rintro ⟨err2, hmem, habsent⟩
        simp only [List.mem_singleton, ClientCall.getPod.injEq, GetResult.failed.injEq,
          true_and] at hmem
        subst hmem
        rw [hother] at habsent
        exact absurd habsent (by decide)
    · intro hp
      simp only [start_phase, hphase] at hp
      exact absurd hp hne
    · intro ns name result hmem
      simp only [List.mem_singleton, ClientCall.getPod.injEq] at hmem
      obtain ⟨rfl, rfl, rfl⟩ := hmem
      exact ⟨rfl, rfl, by rw [hget]⟩
  | podSucceeded cfg pod w1 hdone hcache hph hget hpod =>
    refine ⟨?_, ?_, ?_, hbuild⟩
    · constructor
      · intro hp
        exact absurd hp (show AgentRunPhaseSucceeded ≠ AgentRunPhasePending by decide)
      · rintro ⟨err2, hmem, -⟩
        simp at hmem
    · intro hp
      exact absurd hp (show AgentRunPhaseSucceeded ≠ AgentRunPhasePending by decide)
    · intro ns name result hmem
      simp only [List.mem_singleton, ClientCall.getPod.injEq] at hmem
      obtain ⟨rfl, rfl, rfl⟩ := hmem
      exact ⟨rfl, rfl, by rw [hget]⟩
  | podFailedPhase cfg pod w1 hdone hcache hph hget hnot hpod =>
    refine ⟨?_, ?_, ?_, hbuild⟩
    · constructor
      · intro hp
        exact absurd hp (show AgentRunPhaseFailed ≠ AgentRunPhasePending by decide)
      · rintro ⟨err2, hmem, -⟩
        simp at hmem
    · intro hp
      exact absurd hp (show AgentRunPhaseFailed ≠ AgentRunPhasePending by decide)
    · intro ns name result hmem
      simp only [List.mem_singleton, ClientCall.getPod.injEq] at hmem
      obtain ⟨rfl, rfl, rfl⟩ := hmem
      exact ⟨rfl, rfl, by rw [hget]⟩
  | podRunning cfg pod w1 hdone hcache hph hget hnot hnot2 =>
    refine ⟨?_, ?_, ?_, hbuild⟩
    · constructor
      · intro hp
        simp only [start_phase, hphase] at hp
        exact absurd hp hne
      · rintro ⟨err2, hmem, -⟩
        simp at hmem
    · intro hp
      simp only [start_phase, hphase] at hp
      exact absurd hp hne
    · intro ns name result hmem
      simp only [List.mem_singleton, ClientCall.getPod.injEq] at hmem
      obtain ⟨rfl, rfl, rfl⟩ := hmem
      exact ⟨rfl, rfl, by rw [hget]⟩
  | normalized cfg hdone hcache hpending hacting => exact absurd hphase hacting

/-- C15, on an Acting request against the empty store: the `Get` of
"test-run-agent" reports NotFound, the request goes back to Pending, no error
is returned and the completion time stays nil. -/
theorem acting_regresses_iff_pod_not_found_witness :
    (testReconciler.Reconcile emptyStore (testRun "Acting")).calls =
      [.getPod "default" "test-run-agent" (.failed (notFoundError "test-run-agent"))] ∧
    (testReconciler.Reconcile emptyStore (testRun "Acting")).agentRun.Status.Phase =
      AgentRunPhasePending ∧
    (testReconciler.Reconcile emptyStore (testRun "Acting")).err = none ∧
    (testReconciler.Reconcile emptyStore (testRun "Acting")).agentRun.Status.CompletionTime =
      none :=
  ⟨by decide,
    (acting_regresses_iff_pod_not_found testReconciler emptyStore (testRun "Acting") rfl).1.2
      ⟨notFoundError "test-run-agent", by decide, rfl⟩,
    (acting_regresses_iff_pod_not_found testReconciler emptyStore (testRun "Acting") rfl).2.1
      (by decide)⟩

/-! ## The moves of the phase -/

/-- A reconciliation of a request that is done returns the request as it was. -/
theorem reconcile_done_agentRun {ω : Type} (r : Reconciler ω) (w : ω) (agentRun : AgentRun)
    (hdone : agentRun.IsDone = true) : (r.Reconcile w agentRun).agentRun = agentRun := by
  simp [Reconciler.Reconcile, hdone]

/-- Reconciliations of a request that is done, in any worlds, return the request
as it was. -/
theorem reconcileIn_done {ω : Type} (r : Reconciler ω) (ws : List ω) (agentRun : AgentRun)
    (hdone : agentRun.IsDone = true) : r.reconcileIn ws agentRun = agentRun := by
  induction ws with
  | nil => rfl
  | cons w ws ih =>
    show r.reconcileIn ws (r.Reconcile w agentRun).agentRun = agentRun
    rw [reconcile_done_agentRun r w agentRun hdone]
    exact ih

/-- C16: one call of `Reconcile` on a request whose phase is Pending, Acting,
Succeeded or Failed leaves the phase as it was or moves it along one of the
edges Pending to Acting, Acting to Succeeded, Acting to Failed, Acting to
Pending; a Pending request is not moved to Succeeded or to Failed; and a request
in Succeeded or Failed is left as it was, phase included, by every sequence of
calls of `Reconcile`, whatever the state of the world at each call. -/
theorem phase_follows_edges {ω : Type} (r : Reconciler ω) (w : ω) (agentRun : AgentRun)
    (hphase : agentRun.Status.Phase = AgentRunPhasePending ∨
      agentRun.Status.Phase = AgentRunPhaseActing ∨
      agentRun.Status.Phase = AgentRunPhaseSucceeded ∨
      agentRun.Status.Phase = AgentRunPhaseFailed) :
    ((r.Reconcile w agentRun).agentRun.Status.Phase = agentRun.Status.Phase ∨
      PhaseEdge agentRun.Status.Phase (r.Reconcile w agentRun).agentRun.Status.Phase) ∧
    (agentRun.Status.Phase = AgentRunPhasePending →
      (r.Reconcile w agentRun).agentRun.Status.Phase ≠ AgentRunPhaseSucceeded ∧
      (r.Reconcile w agentRun).agentRun.Status.Phase ≠ AgentRunPhaseFailed) ∧
    (agentRun.Status.Phase = AgentRunPhaseSucceeded ∨
        agentRun.Status.Phase = AgentRunPhaseFailed →
      ∀ ws : List ω,
        r.reconcileIn ws agentRun = agentRun ∧
        (r.reconcileIn ws agentRun).Status.Phase = agentRun.Status.Phase) := by
  have hedge : (r.Reconcile w agentRun).agentRun.Status.Phase = agentRun.Status.Phase ∨
      PhaseEdge agentRun.Status.Phase (r.Reconcile w agentRun).agentRun.Status.Phase := by
    have h := reconcile_cases r w agentRun
    generalize r.Reconcile w agentRun = res at h ⊢
    cases h with
    | done hdone => exact Or.inl rfl
    | uncached hdone hcache => exact Or.inl rfl
    | roleFailed cfg err1 w1 hdone hcache hph hrole hf => exact Or.inl (start_phase _ _)
    | bindingFailed cfg err1 err2 w1 w2 hdone hcache hph hrole hok1 hbinding hf =>
      exact Or.inl (start_phase _ _)
    | podFailed cfg err1 err2 err3 w1 w2 w3 hdone hcache hph hrole hok1 hbinding hok2 hpod
        hf =>
      exact Or.inl (start_phase _ _)
    | provisioned cfg err1 err2 err3 w1 w2 w3 hdone hcache hph hrole hok1 hbinding hok2 hpod
        hok3 =>
      exact Or.inr (Or.inl ⟨hph, rfl⟩)
    | podAbsent cfg err w1 hdone hcache hph hget habsent =>
      exact Or.inr (Or.inr (Or.inr (Or.inr ⟨hph, rfl⟩)))
    | getFailed cfg err w1 hdone hcache hph hget hother => exact Or.inl (start_phase _ _)
    | podSucceeded cfg pod w1 hdone hcache hph hget hpod =>
      exact Or.inr (Or.inr (Or.inl ⟨hph, rfl⟩))
    | podFailedPhase cfg pod w1 hdone hcache hph hget hnot hpod =>
      exact Or.inr (Or.inr (Or.inr (Or.inl ⟨hph, rfl⟩)))
    | podRunning cfg pod w1 hdone hcache hph hget hnot hnot2 =>
      exact Or.inl (start_phase _ _)
    | normalized cfg hdone hcache hpending hacting =>
      rcases hphase with hp | hp | hp | hp
      · exact absurd hp hpending
      · exact absurd hp hacting
      · simp [AgentRun.IsDone, hp] at hdone
      · simp [AgentRun.IsDone, hp] at hdone
  refine ⟨hedge, ?_, ?_⟩
  · intro hp
    have hp2 : AgentRunPhasePending ≠ AgentRunPhaseSucceeded := by decide
    have hp3 : AgentRunPhasePending ≠ AgentRunPhaseFailed := by decide
    have ha2 : AgentRunPhaseActing ≠ AgentRunPhaseSucceeded := by decide
    have ha3 : AgentRunPhaseActing ≠ AgentRunPhaseFailed := by decide
    have hpa : AgentRunPhasePending ≠ AgentRunPhaseActing := by decide
    rcases hedge with hsame | hmove
    · rw [hsame, hp]
      exact ⟨hp2, hp3⟩
    · rcases hmove with ⟨-, hq⟩ | ⟨hq, -⟩ | ⟨hq, -⟩ | ⟨hq, -⟩
      · rw [hq]
        exact ⟨ha2, ha3⟩
      · rw [hp] at hq
        exact absurd hq hpa
      · rw [hp] at hq
        exact absurd hq hpa
      · rw [hp] at hq
        exact absurd hq hpa
  · intro hterminal ws
    have hdone : agentRun.IsDone = true := by
      rcases hterminal with hp | hp <;> simp [AgentRun.IsDone, hp]
    rw [reconcileIn_done r ws agentRun hdone]
    exact ⟨rfl, rfl⟩

/-- C16, on the requests of the tests: the fresh request moves from Pending to
Acting, and the request that succeeded stays as it is under three calls in
different stores. -/
theorem phase_follows_edges_witness :
    PhaseEdge (testRun "Pending").Status.Phase
      (testReconciler.Reconcile emptyStore (testRun "Pending")).agentRun.Status.Phase ∧
    (testReconciler.Reconcile emptyStore (testRun "Pending")).agentRun.Status.Phase ≠
      AgentRunPhaseSucceeded ∧
    testReconciler.reconcileIn [emptyStore, completedStore, emptyStore]
      (testRun "Succeeded") = testRun "Succeeded" :=
  ⟨((phase_follows_edges testReconciler emptyStore (testRun "Pending")
      (Or.inl rfl)).1).resolve_left (by decide),
    ((phase_follows_edges testReconciler emptyStore (testRun "Pending")
      (Or.inl rfl)).2.1 rfl).1,
    ((phase_follows_edges testReconciler emptyStore (testRun "Succeeded")
      (Or.inr (Or.inr (Or.inl rfl)))).2.2 (Or.inl rfl)
        [emptyStore, completedStore, emptyStore]).1⟩

/-! ## The objects in the store -/

theorem addsAtMostOne_refl {α : Type} (key : α → Bool) (l : List α) :
    AddsAtMostOne key l l :=
  Or.inl rfl

theorem addsAtMostOne_trans {α : Type} {key : α → Bool} {a b c : List α}
    (hab : AddsAtMostOne key a b) (hbc : AddsAtMostOne key b c) : AddsAtMostOne key a c := by
  rcases hab with rfl | ⟨hnone, x, hx, rfl⟩
  · exact hbc
  · rcases hbc with rfl | ⟨hnone2, -⟩
    · exact Or.inr ⟨hnone, x, hx, rfl⟩
    · rw [List.any_eq_false] at hnone2
      have hx2 := hnone2 x (by simp)
      rw [hx] at hx2
      exact absurd rfl hx2

theorem addsAtMostOne_count {α : Type} {key : α → Bool} {a b : List α}
    (hab : AddsAtMostOne key a b) (ha : a.countP key ≤ 1) : b.countP key ≤ 1 := by
  rcases hab with rfl | ⟨hnone, x, hx, rfl⟩
  · exact ha
  · have hzero : a.countP key = 0 := by
      rw [List.countP_eq_zero]
      intro y hy
      rw [List.any_eq_false] at hnone
      exact hnone y hy
    rw [List.countP_append, hzero]
    simp [List.countP_cons, hx]

theorem storeGrows_refl (ns name : String) (s : Store) : StoreGrows ns name s s :=
  ⟨Or.inl rfl, Or.inl rfl, Or.inl rfl⟩

theorem storeGrows_trans {ns name : String} {a b c : Store} (hab : StoreGrows ns name a b)
    (hbc : StoreGrows ns name b c) : StoreGrows ns name a c :=
  ⟨addsAtMostOne_trans hab.1 hbc.1, addsAtMostOne_trans hab.2.1 hbc.2.1,
    addsAtMostOne_trans hab.2.2 hbc.2.2⟩

/-- The creation of the role of a request in the store. -/
theorem storeGrows_createRole (agentRun : AgentRun) (s : Store) :
    StoreGrows agentRun.ObjectMeta.Namespace agentRun.ObjectMeta.Name s
      (storeClient.CreateRole s agentRun.ObjectMeta.Namespace (GenerateRole agentRun)).2 := by
  by_cases h : s.roles.any (fun x : Role => x.ObjectMeta.named agentRun.ObjectMeta.Namespace
      (GenerateRole agentRun).ObjectMeta.Name) = true
  · have e : storeClient.CreateRole s agentRun.ObjectMeta.Namespace (GenerateRole agentRun) =
        (some (alreadyExistsError (GenerateRole agentRun).ObjectMeta.Name), s) := by
      show (if _ then _ else _) = _
      rw [if_pos h]
    rw [e]
    exact storeGrows_refl _ _ s
  · have e : storeClient.CreateRole s agentRun.ObjectMeta.Namespace (GenerateRole agentRun) =
        (none, { s with roles := s.roles ++
          [{ GenerateRole agentRun with
              ObjectMeta.Namespace := agentRun.ObjectMeta.Namespace }] }) := by
      show (if _ then _ else _) = _
      rw [if_neg h]
    rw [e]
    refine ⟨Or.inr ⟨by simpa using h, _, ?_, rfl⟩, Or.inl rfl, Or.inl rfl⟩
    simp [ObjectMeta.named, GenerateRole, GenerateRoleName]

/-- The creation of the role binding of a request in the store. -/
theorem storeGrows_createRoleBinding (agentRun : AgentRun) (agentConfig : AgentConfig)
    (roleName : String) (s : Store) :
    StoreGrows agentRun.ObjectMeta.Namespace agentRun.ObjectMeta.Name s
      (storeClient.CreateRoleBinding s agentRun.ObjectMeta.Namespace
        (GenerateRoleBinding agentRun agentConfig roleName)).2 := by
  by_cases h : s.roleBindings.any
      (fun x : RoleBinding => x.ObjectMeta.named agentRun.ObjectMeta.Namespace
        (GenerateRoleBinding agentRun agentConfig roleName).ObjectMeta.Name) = true
  · have e : storeClient.CreateRoleBinding s agentRun.ObjectMeta.Namespace
        (GenerateRoleBinding agentRun agentConfig roleName) =
        (some (alreadyExistsError
          (GenerateRoleBinding agentRun agentConfig roleName).ObjectMeta.Name), s) := by
      show (if _ then _ else _) = _
      rw [if_pos h]
    rw [e]
    exact storeGrows_refl _ _ s
  · have e : storeClient.CreateRoleBinding s agentRun.ObjectMeta.Namespace
        (GenerateRoleBinding agentRun agentConfig roleName) =
        (none, { s with roleBindings := s.roleBindings ++
          [{ GenerateRoleBinding agentRun agentConfig roleName with
              ObjectMeta.Namespace := agentRun.ObjectMeta.Namespace }] }) := by
      show (if _ then _ else _) = _
      rw [if_neg h]
    rw [e]
    refine ⟨Or.inl rfl, Or.inr ⟨by simpa using h, _, ?_, rfl⟩, Or.inl rfl⟩
    simp [ObjectMeta.named, GenerateRoleBinding, GenerateRoleBindingName]

/-- The creation of the pod of a request in the store. -/
theorem storeGrows_createPod (b : Builder) (agentRun : AgentRun) (agentConfig : AgentConfig)
    (s : Store) :
    StoreGrows agentRun.ObjectMeta.Namespace agentRun.ObjectMeta.Name s
      (storeClient.CreatePod s agentRun.ObjectMeta.Namespace
        (b.Build agentRun agentConfig).1).2 := by
  by_cases h : s.pods.any (fun x : Pod => x.ObjectMeta.named agentRun.ObjectMeta.Namespace
      (b.Build agentRun agentConfig).1.ObjectMeta.Name) = true
  · have e : storeClient.CreatePod s agentRun.ObjectMeta.Namespace
        (b.Build agentRun agentConfig).1 =
        (some (alreadyExistsError (b.Build agentRun agentConfig).1.ObjectMeta.Name), s) := by
      show (if _ then _ else _) = _
      rw [if_pos h]
    rw [e]
    exact storeGrows_refl _ _ s
  · have e : storeClient.CreatePod s agentRun.ObjectMeta.Namespace
        (b.Build agentRun agentConfig).1 =
        (none, { s with pods := s.pods ++
          [{ (b.Build agentRun agentConfig).1 with
              ObjectMeta.Namespace := agentRun.ObjectMeta.Namespace }] }) := by
      show (if _ then _ else _) = _
      rw [if_neg h]
    rw [e]
    refine ⟨Or.inl rfl, Or.inl rfl, Or.inr ⟨by simpa using h, _, ?_, rfl⟩⟩
    simp [ObjectMeta.named, Builder.Build]

/-- A `Get` leaves the store as it is. -/
theorem storeClient_getPod_world (s : Store) (ns name : String) :
    (storeClient.GetPod s ns name).2 = s := by
  show (match s.pods.find? (fun x : Pod => x.ObjectMeta.named ns name) with
    | some pod => (GetResult.found pod, s)
    | none => (GetResult.failed (notFoundError name), s)).2 = s
  cases s.pods.find? (fun x : Pod => x.ObjectMeta.named ns name) <;> rfl

/-- One reconciliation leaves the name, the namespace and the other metadata
of the request as they were. -/
theorem reconcile_objectMeta {ω : Type} (r : Reconciler ω) (w : ω) (agentRun : AgentRun) :
    (r.Reconcile w agentRun).agentRun.ObjectMeta = agentRun.ObjectMeta := by
  have h := reconcile_cases r w agentRun
  generalize r.Reconcile w agentRun = res at h ⊢
  cases h <;> first | rfl | exact start_objectMeta _ _

/-- One reconciliation against the cluster store adds at most the role, the
role binding and the pod of the request, each only when it was not there. -/
theorem reconcile_store_grows (r : Reconciler Store) (hclient : r.KubeClient = storeClient)
    (s : Store) (agentRun : AgentRun) :
    StoreGrows agentRun.ObjectMeta.Namespace agentRun.ObjectMeta.Name s
      (r.Reconcile s agentRun).world := by
  have h := reconcile_cases r s agentRun
  generalize r.Reconcile s agentRun = res at h ⊢
  cases h with
  | done hdone => exact storeGrows_refl _ _ s
  | uncached hdone hcache => exact storeGrows_refl _ _ s
  | roleFailed cfg err1 w1 hdone hcache hph hrole hf =>
    rw [hclient] at hrole
    have e1 := storeGrows_createRole agentRun s
    rw [hrole] at e1
    exact e1
  | bindingFailed cfg err1 err2 w1 w2 hdone hcache hph hrole hok1 hbinding hf =>
    rw [hclient] at hrole hbinding
    have e1 := storeGrows_createRole agentRun s
    rw [hrole] at e1
    have e2 := storeGrows_createRoleBinding agentRun cfg (GenerateRole agentRun).ObjectMeta.Name
      w1
    rw [hbinding] at e2
    exact storeGrows_trans e1 e2
  | podFailed cfg err1 err2 err3 w1 w2 w3 hdone hcache hph hrole hok1 hbinding hok2 hpod hf =>
    rw [hclient] at hrole hbinding hpod
    have e1 := storeGrows_createRole agentRun s
    rw [hrole] at e1
    have e2 := storeGrows_createRoleBinding agentRun cfg (GenerateRole agentRun).ObjectMeta.Name
      w1
    rw [hbinding] at e2
    have e3 := storeGrows_createPod { Image := r.Image } agentRun cfg w2
    rw [hpod] at e3
    exact storeGrows_trans (storeGrows_trans e1 e2) e3
  | provisioned cfg err1 err2 err3 w1 w2 w3 hdone hcache hph hrole hok1 hbinding hok2 hpod
      hok3 =>
    rw [hclient] at hrole hbinding hpod
    have e1 := storeGrows_createRole agentRun s
    rw [hrole] at e1
    have e2 := storeGrows_createRoleBinding agentRun cfg (GenerateRole agentRun).ObjectMeta.Name
      w1
    rw [hbinding] at e2
    have e3 := storeGrows_createPod { Image := r.Image } agentRun cfg w2
    rw [hpod] at e3
    exact storeGrows_trans (storeGrows_trans e1 e2) e3
  | podAbsent cfg err w1 hdone hcache hph hget habsent =>
    rw [hclient] at hget
    have e1 := storeClient_getPod_world s agentRun.ObjectMeta.Namespace
      (agentRun.ObjectMeta.Name ++ "-agent")
    rw [hget] at e1
    dsimp only at e1 ⊢
    rw [e1]
    exact storeGrows_refl _ _ s
  | getFailed cfg err w1 hdone hcache hph hget hother =>
    rw [hclient] at hget
    have e1 := storeClient_getPod_world s agentRun.ObjectMeta.Namespace
      (agentRun.ObjectMeta.Name ++ "-agent")
    rw [hget] at e1
    dsimp only at e1 ⊢
    rw [e1]
    exact storeGrows_refl _ _ s
  | podSucceeded cfg pod w1 hdone hcache hph hget hpod =>
    rw [hclient] at hget
    have e1 := storeClient_getPod_world s agentRun.ObjectMeta.Namespace
      (agentRun.ObjectMeta.Name ++ "-agent")
    rw [hget] at e1
    dsimp only at e1 ⊢
    rw [e1]
    exact storeGrows_refl _ _ s
  | podFailedPhase cfg pod w1 hdone hcache hph hget hnot hpod =>
    rw [hclient] at hget
    have e1 := storeClient_getPod_world s agentRun.ObjectMeta.Namespace
      (agentRun.ObjectMeta.Name ++ "-agent")
    rw [hget] at e1
    dsimp only at e1 ⊢
    rw [e1]
    exact storeGrows_refl _ _ s
  | podRunning cfg pod w1 hdone hcache hph hget hnot hnot2 =>
    rw [hclient] at hget
    have e1 := storeClient_getPod_world s agentRun.ObjectMeta.Namespace
      (agentRun.ObjectMeta.Name ++ "-agent")
    rw [hget] at e1
    dsimp only at e1 ⊢
    rw [e1]
    exact storeGrows_refl _ _ s
  | normalized cfg hdone hcache hpending hacting => exact storeGrows_refl _ _ s

/-- A sequence of reconciliations against the cluster store adds at most the
role, the role binding and the pod of the request, each only when it was not
there. -/
theorem reconcileTimes_store_grows (r : Reconciler Store)
    (hclient : r.KubeClient = storeClient) (n : Nat) :
    ∀ (s : Store) (agentRun : AgentRun),
      StoreGrows agentRun.ObjectMeta.Namespace agentRun.ObjectMeta.Name s
        (r.reconcileTimes n s agentRun).1 := by
  induction n with
  | zero =>
    intro s agentRun
    exact storeGrows_refl _ _ s
  | succ n ih =>
    intro s agentRun
    show StoreGrows _ _ s
      (r.reconcileTimes n (r.Reconcile s agentRun).world (r.Reconcile s agentRun).agentRun).1
    have hstep := reconcile_store_grows r hclient s agentRun
    have hrest := ih (r.Reconcile s agentRun).world (r.Reconcile s agentRun).agentRun
    rw [reconcile_objectMeta] at hrest
    exact storeGrows_trans hstep hrest

/-- C17: against the cluster store, in which the creation of a name that is
present reports AlreadyExists, every sequence of calls of `Reconcile` on a
request, from any state of the store, adds at most one role and one role
binding, named `agentrun-<request name>`, and one pod, named
`<request name>-agent`, in the namespace of the request, each only when the
store held none of that name; so a store that held at most one role, one role
binding and one pod of these names holds at most one of each afterwards. -/
theorem store_holds_one_object_per_request (r : Reconciler Store)
    (hclient : r.KubeClient = storeClient) (s : Store) (agentRun : AgentRun) (n : Nat) :
    GenerateRoleName agentRun = "agentrun-" ++ agentRun.ObjectMeta.Name ∧
    GenerateRoleBindingName agentRun = "agentrun-" ++ agentRun.ObjectMeta.Name ∧
    StoreGrows agentRun.ObjectMeta.Namespace agentRun.ObjectMeta.Name s
      (r.reconcileTimes n s agentRun).1 ∧
    (s.roles.countP (fun x => x.ObjectMeta.named agentRun.ObjectMeta.Namespace
        (GenerateRoleName agentRun)) ≤ 1 →
      (r.reconcileTimes n s agentRun).1.roles.countP
        (fun x => x.ObjectMeta.named agentRun.ObjectMeta.Namespace
          (GenerateRoleName agentRun)) ≤ 1) ∧
    (s.roleBindings.countP (fun x => x.ObjectMeta.named agentRun.ObjectMeta.Namespace
        (GenerateRoleBindingName agentRun)) ≤ 1 →
      (r.reconcileTimes n s agentRun).1.roleBindings.countP
        (fun x => x.ObjectMeta.named agentRun.ObjectMeta.Namespace
          (GenerateRoleBindingName agentRun)) ≤ 1) ∧
    (s.pods.countP (fun x => x.ObjectMeta.named agentRun.ObjectMeta.Namespace
        (agentRun.ObjectMeta.Name ++ "-agent")) ≤ 1 →
      (r.reconcileTimes n s agentRun).1.pods.countP
        (fun x => x.ObjectMeta.named agentRun.ObjectMeta.Namespace
          (agentRun.ObjectMeta.Name ++ "-agent")) ≤ 1) := by
  have h := reconcileTimes_store_grows r hclient n s agentRun
  exact ⟨rfl, rfl, h, addsAtMostOne_count h.1, addsAtMostOne_count h.2.1,
    addsAtMostOne_count h.2.2⟩

/-- C17, on `TestReconcile_NewAgentRun` continued: after three calls of
`Reconcile` from the empty store, the store holds one role and one role binding
named "agentrun-test-run" and one pod named "test-run-agent". -/
theorem store_holds_one_object_per_request_witness :
    testReconciler.KubeClient = storeClient ∧
    (testReconciler.reconcileTimes 3 emptyStore (testRun "Pending")).1.roles.map
      (fun x => x.ObjectMeta.Name) = ["agentrun-test-run"] ∧
    (testReconciler.reconcileTimes 3 emptyStore (testRun "Pending")).1.roleBindings.map
      (fun x => x.ObjectMeta.Name) = ["agentrun-test-run"] ∧
    (testReconciler.reconcileTimes 3 emptyStore (testRun "Pending")).1.pods.map
      (fun x => x.ObjectMeta.Name) = ["test-run-agent"] ∧
    (testReconciler.reconcileTimes 3 emptyStore (testRun "Pending")).1.pods.countP
      (fun x => x.ObjectMeta.named "default" "test-run-agent") ≤ 1 :=
  ⟨rfl, by decide, by decide, by decide,
    (store_holds_one_object_per_request testReconciler rfl emptyStore (testRun "Pending")
      3).2.2.2.2.2 (by decide)⟩

/-! ## The pod of the agent -/

/-- C21: for every image, request and profile, `Builder.Build` returns a pod
with restart policy Never and exactly one container; the security context of
the pod sets RunAsNonRoot to true and the user and the group of the file system
to 65532, which is not 0; and the security context of the container sets
AllowPrivilegeEscalation to false and ReadOnlyRootFilesystem to true, drops the
capability ALL and names the seccomp profile RuntimeDefault. -/
theorem build_pod_is_hardened (b : Builder) (agentRun : AgentRun) (agentConfig : AgentConfig) :
    (b.Build agentRun agentConfig).2 = none ∧
    (b.Build agentRun agentConfig).1.Spec.RestartPolicy = "Never" ∧
    (b.Build agentRun agentConfig).1.Spec.Containers.length = 1 ∧
    (∃ psc, (b.Build agentRun agentConfig).1.Spec.SecurityContext = some psc ∧
      psc.RunAsNonRoot = some true ∧ psc.RunAsUser = some 65532 ∧ psc.RunAsUser ≠ some 0 ∧
      psc.FSGroup = some 65532) ∧
    (∀ c ∈ (b.Build agentRun agentConfig).1.Spec.Containers,
      ∃ sc, c.SecurityContext = some sc ∧
        sc.AllowPrivilegeEscalation = some false ∧
        sc.ReadOnlyRootFilesystem = some true ∧
        (∃ caps, sc.Capabilities = some caps ∧ caps.Drop = ["ALL"]) ∧
        sc.SeccompProfile = some { Type_ := "RuntimeDefault" }) := by
  refine ⟨rfl, rfl, rfl,
    ⟨_, rfl, rfl, rfl, show (some (65532 : Int)) ≠ some 0 by decide, rfl⟩, ?_⟩
  intro c hc
  simp only [Builder.Build, List.mem_singleton] at hc
  subst hc
  exact ⟨_, rfl, rfl, rfl, ⟨_, rfl, rfl⟩, rfl⟩

/-- C22 as stated fails on the request and the profile of `TestBuild`: the
environment of the container built holds no variable named RUN_NAME, RUN_UID,
RUN_NAMESPACE, RUN_GOAL or CONFIG_NAME. -/
theorem build_env_names_counterexample :
    ¬ (∀ c ∈ (testBuilder.Build builderTestRun builderTestConfig).1.Spec.Containers,
        ∀ e, e ∈ c.Env ↔
          e ∈ [({ Name := "RUN_NAME", Value := "test-run" } : EnvVar),
            { Name := "RUN_UID", Value := "test-uid" },
            { Name := "RUN_NAMESPACE", Value := "default" },
            { Name := "RUN_GOAL", Value := "Test goal" },
            { Name := "CONFIG_NAME", Value := "test-config" },
            { Name := "LLM_PROVIDER", Value := "claude" }]) ∧
    (∀ c ∈ (testBuilder.Build builderTestRun builderTestConfig).1.Spec.Containers,
      ∀ e ∈ c.Env,
        e.Name ∉ ["RUN_NAME", "RUN_UID", "RUN_NAMESPACE", "RUN_GOAL", "CONFIG_NAME"]) := by
  refine ⟨?_, by decide⟩
  intro h
  have hmem := (h _ (List.mem_singleton.mpr rfl)
    { Name := "RUN_NAME", Value := "test-run" }).2 (by decide)
  exact absurd hmem (by decide)

/-- C22, amended: for every image, request and profile, the pod built has one
container, whose environment is the six variables AGENTRUN_NAME, AGENTRUN_UID,
AGENTRUN_NAMESPACE, AGENTRUN_GOAL, AGENTCONFIG_NAME and LLM_PROVIDER, carrying
the name, the UID, the namespace and the goal of the request, the name of the
profile and the provider of the profile. -/
theorem build_env_is_agentrun_variables (b : Builder) (agentRun : AgentRun)
    (agentConfig : AgentConfig) :
    (b.Build agentRun agentConfig).1.Spec.Containers.map (fun c => c.Env) =
      [[{ Name := "AGENTRUN_NAME", Value := agentRun.ObjectMeta.Name },
        { Name := "AGENTRUN_UID", Value := agentRun.ObjectMeta.UID },
        { Name := "AGENTRUN_NAMESPACE", Value := agentRun.ObjectMeta.Namespace },
        { Name := "AGENTRUN_GOAL", Value := agentRun.Spec.Goal },
        { Name := "AGENTCONFIG_NAME", Value := agentConfig.ObjectMeta.Name },
        { Name := "LLM_PROVIDER", Value := agentConfig.Spec.Provider }]] :=
  rfl

/-- C23 on `TestBuildVolumes`: the volume named "config" of the pod built for
the profile with ConfigPVC "test-config-pvc" has no PersistentVolumeClaim
source; it is the ConfigMap "agent-prompts", and no volume of the pod names the
claim of the profile. -/
theorem build_config_volume_is_config_map :
    (∃ v, findVolume (testBuilder.Build builderTestRun builderTestConfig).1 "config" =
        some v ∧
      v.VolumeSource.PersistentVolumeClaim = none ∧
      (v.VolumeSource.ConfigMap.map (fun c => c.Name)) = some "agent-prompts") ∧
    builderTestConfig.Spec.ConfigPVC = "test-config-pvc" ∧
    (∀ v ∈ (testBuilder.Build builderTestRun builderTestConfig).1.Spec.Volumes,
      v.VolumeSource.PersistentVolumeClaim = none) := by
  decide

/-- C24: for every request, the role of `GenerateRole`, the role binding of
`GenerateRoleBinding` and the pod of `Builder.Build` each carry exactly one
owner reference: it has the name and the UID of the request, the kind AgentRun
of agent.tekton.dev/v1alpha1, and it is marked as the controller reference. -/
theorem generated_objects_are_owned_by_request (agentRun : AgentRun)
    (agentConfig : AgentConfig) (roleName : String) (b : Builder) :
    (GenerateRole agentRun).ObjectMeta.OwnerReferences =
      [{ APIVersion := "agent.tekton.dev/v1alpha1", Kind := "AgentRun"
         Name := agentRun.ObjectMeta.Name, UID := agentRun.ObjectMeta.UID
         Controller := some true, BlockOwnerDeletion := some true }] ∧
    (GenerateRoleBinding agentRun agentConfig roleName).ObjectMeta.OwnerReferences =
      [{ APIVersion := "agent.tekton.dev/v1alpha1", Kind := "AgentRun"
         Name := agentRun.ObjectMeta.Name, UID := agentRun.ObjectMeta.UID
         Controller := some true, BlockOwnerDeletion := some true }] ∧
    (b.Build agentRun agentConfig).1.ObjectMeta.OwnerReferences =
      [{ APIVersion := "agent.tekton.dev/v1alpha1", Kind := "AgentRun"
         Name := agentRun.ObjectMeta.Name, UID := agentRun.ObjectMeta.UID
         Controller := some true, BlockOwnerDeletion := some true }] := by
  have href : NewControllerRef agentRun =
      { APIVersion := "agent.tekton.dev/v1alpha1", Kind := "AgentRun"
        Name := agentRun.ObjectMeta.Name, UID := agentRun.ObjectMeta.UID
        Controller := some true, BlockOwnerDeletion := some true } := by
    simp only [NewControllerRef, OwnerReference.mk.injEq, and_true, true_and]
    decide
  refine ⟨?_, ?_, ?_⟩
  · show [NewControllerRef agentRun] = _
    rw [href]
  · show [NewControllerRef agentRun] = _
    rw [href]
  · show [NewControllerRef agentRun] = _
    rw [href]

/-! ## Validation and defaults of a profile -/

/-- C28: `AgentConfigSpec.Validate` returns nil if and only if ConfigPVC is not
empty, MaxIterations is 0 or within 1..10, Provider is "", "claude" or
"gemini", NetworkPolicy is "", "strict" or "permissive", and Policy.OPA is "",
"strict" or "permissive"; every MaxIterations below 0 or above 10 is
rejected. -/
theorem validate_accepts_exactly_valid_specs (acs : AgentConfigSpec) :
    (acs.Validate = none ↔
      acs.ConfigPVC ≠ "" ∧
      (acs.MaxIterations = 0 ∨ (1 ≤ acs.MaxIterations ∧ acs.MaxIterations ≤ 10)) ∧
      (acs.Provider = "" ∨ acs.Provider = "claude" ∨ acs.Provider = "gemini") ∧
      (acs.NetworkPolicy = "" ∨ acs.NetworkPolicy = "strict" ∨
        acs.NetworkPolicy = "permissive") ∧
      (acs.Policy.OPA = "" ∨ acs.Policy.OPA = "strict" ∨ acs.Policy.OPA = "permissive")) ∧
    (acs.MaxIterations < 0 ∨ 10 < acs.MaxIterations → acs.Validate ≠ none) := by
  have hrange : (acs.MaxIterations = 0 ∨ (1 ≤ acs.MaxIterations ∧ acs.MaxIterations ≤ 10)) ↔
      ¬ (acs.MaxIterations < 0 ∨ acs.MaxIterations > 10) := by omega
  constructor
  · rw [hrange]
    unfold AgentConfigSpec.Validate
    by_cases h1 : acs.ConfigPVC = ""
    · simp [h1]
    by_cases h2 : acs.MaxIterations < 0 ∨ acs.MaxIterations > 10
    · simp [h1, h2]
    by_cases h3 : acs.Provider ≠ "" ∧ acs.Provider ≠ "claude" ∧ acs.Provider ≠ "gemini"
    · rw [if_neg h1, if_neg h2, if_pos h3]
      simp [h3.1, h3.2.1, h3.2.2]
    by_cases h4 : acs.NetworkPolicy ≠ "" ∧ acs.NetworkPolicy ≠ "strict" ∧
        acs.NetworkPolicy ≠ "permissive"
    · rw [if_neg h1, if_neg h2, if_neg h3, if_pos h4]
      simp [h4.1, h4.2.1, h4.2.2]
    by_cases h5 : acs.Policy.OPA ≠ "" ∧ acs.Policy.OPA ≠ "strict" ∧
        acs.Policy.OPA ≠ "permissive"
    · rw [if_neg h1, if_neg h2, if_neg h3, if_neg h4, if_pos h5]
      simp [h5.1, h5.2.1, h5.2.2]
    rw [if_neg h1, if_neg h2, if_neg h3, if_neg h4, if_neg h5]
    refine ⟨fun _ => ⟨h1, h2, ?_, ?_, ?_⟩, fun _ => rfl⟩
    · by_contra hc
      exact h3 ⟨fun h => hc (Or.inl h), fun h => hc (Or.inr (Or.inl h)),
        fun h => hc (Or.inr (Or.inr h))⟩
    · by_contra hc
      exact h4 ⟨fun h => hc (Or.inl h), fun h => hc (Or.inr (Or.inl h)),
        fun h => hc (Or.inr (Or.inr h))⟩
    · by_contra hc
      exact h5 ⟨fun h => hc (Or.inl h), fun h => hc (Or.inr (Or.inl h)),
        fun h => hc (Or.inr (Or.inr h))⟩
  · intro hbad
    unfold AgentConfigSpec.Validate
    by_cases h1 : acs.ConfigPVC = ""
    · simp [h1]
    · have h2 : acs.MaxIterations < 0 ∨ acs.MaxIterations > 10 := hbad
      simp [h1, h2]

/-- C28, on the cases of `TestAgentConfigSpec_Validate`: MaxIterations 3 and 0
are accepted, 11 and -1 are rejected. -/
theorem validate_accepts_exactly_valid_specs_witness :
    ({ builderTestConfig.Spec with ConfigPVC := "agent-config", MaxIterations := 3 }
      : AgentConfigSpec).Validate = none ∧
    ({ builderTestConfig.Spec with ConfigPVC := "agent-config", MaxIterations := 0 }
      : AgentConfigSpec).Validate = none ∧
    ({ builderTestConfig.Spec with ConfigPVC := "agent-config", MaxIterations := 11 }
      : AgentConfigSpec).Validate ≠ none ∧
    ({ builderTestConfig.Spec with ConfigPVC := "agent-config", MaxIterations := -1 }
      : AgentConfigSpec).Validate ≠ none :=
  ⟨(validate_accepts_exactly_valid_specs _).1.2 (by decide),
    (validate_accepts_exactly_valid_specs _).1.2 (by decide),
    (validate_accepts_exactly_valid_specs _).2 (by decide),
    (validate_accepts_exactly_valid_specs _).2 (by decide)⟩

/-- C29: `AgentConfigSpec.SetDefaults` changes the fields that hold their zero
value and no other: an empty ServiceAccount becomes "default", MaxIterations 0
becomes 3, a nil Timeout becomes 8 minutes, an empty Provider becomes "claude",
an empty NetworkPolicy becomes "strict", an empty Policy.OPA becomes "strict";
ConfigPVC, the hooks and every value that is set stay as they were. -/
theorem setDefaults_fills_zero_fields (acs : AgentConfigSpec) :
    acs.SetDefaults.ServiceAccount =
      (if acs.ServiceAccount = "" then "default" else acs.ServiceAccount) ∧
    acs.SetDefaults.MaxIterations =
      (if acs.MaxIterations = 0 then 3 else acs.MaxIterations) ∧
    acs.SetDefaults.Timeout =
      (if acs.Timeout = none then some (8 * 60 * 1000000000) else acs.Timeout) ∧
    acs.SetDefaults.Provider = (if acs.Provider = "" then "claude" else acs.Provider) ∧
    acs.SetDefaults.NetworkPolicy =
      (if acs.NetworkPolicy = "" then "strict" else acs.NetworkPolicy) ∧
    acs.SetDefaults.Policy.OPA =
      (if acs.Policy.OPA = "" then "strict" else acs.Policy.OPA) ∧
    acs.SetDefaults.ConfigPVC = acs.ConfigPVC ∧
    acs.SetDefaults.PreHooks = acs.PreHooks ∧
    acs.SetDefaults.PostHooks = acs.PostHooks := by
  unfold AgentConfigSpec.SetDefaults
  by_cases h1 : acs.ServiceAccount = "" <;> by_cases h2 : acs.MaxIterations = 0 <;>
    by_cases h3 : acs.Timeout = none <;> by_cases h4 : acs.Provider = "" <;>
    by_cases h5 : acs.NetworkPolicy = "" <;> by_cases h6 : acs.Policy.OPA = "" <;>
    simp [h1, h2, h3, h4, h5, h6, DefaultServiceAccount, DefaultMaxIterations,
      DefaultTimeout, DefaultProvider, DefaultNetworkPolicy, DefaultOPAPolicy]

/-! ## Reconciliations that leave the status as it is -/

/-- C32 as stated fails on a request whose profile is not cached: the pod of
the Acting request of the tests is found in phase Running, and `Reconcile` with
an empty cache of profiles returns an error, not nil. -/
theorem found_pod_uncached_counterexample :
    (testRun "Acting").Status.Phase = AgentRunPhaseActing ∧
    (uncachedReconciler.KubeClient.GetPod runningStore "default" "test-run-agent").1 =
      .found runningPod ∧
    runningPod.Status.Phase ≠ PodSucceeded ∧
    runningPod.Status.Phase ≠ PodFailed ∧
    (uncachedReconciler.Reconcile runningStore (testRun "Acting")).calls = [] ∧
    ¬ ((uncachedReconciler.Reconcile runningStore (testRun "Acting")).err = none) := by
  decide

/-- C32, amended: for an Acting request, when the `Get` of the pod named
`<request name>-agent` in the namespace of the request fails with an error other
than NotFound, `Reconcile` returns a non-nil error and leaves the phase and the
completion time as they were, and with a cached profile that `Get` is the one
call it makes; and when the profile is cached and that `Get` finds the pod in a
phase other than Succeeded and Failed, `Reconcile` makes that one call, returns
nil and leaves the phase and the completion time as they were. -/
theorem acting_request_stays_without_terminal_pod {ω : Type} (r : Reconciler ω) (w : ω)
    (agentRun : AgentRun)
    (hphase : agentRun.Status.Phase = AgentRunPhaseActing) :
    (∀ err,
      (r.KubeClient.GetPod w agentRun.ObjectMeta.Namespace
        (agentRun.ObjectMeta.Name ++ "-agent")).1 = .failed err →
      err.IsNotFound = false →
      (r.Reconcile w agentRun).err ≠ none ∧
      (r.Reconcile w agentRun).agentRun.Status.Phase = agentRun.Status.Phase ∧
      (r.Reconcile w agentRun).agentRun.Status.CompletionTime =
        agentRun.Status.CompletionTime ∧
      (∀ agentConfig, r.AgentConfigs agentRun.Spec.ConfigRef.Name = some agentConfig →
        (r.Reconcile w agentRun).calls =
          [.getPod agentRun.ObjectMeta.Namespace (agentRun.ObjectMeta.Name ++ "-agent")
            (.failed err)])) ∧
    (∀ agentConfig agentPod,
      r.AgentConfigs agentRun.Spec.ConfigRef.Name = some agentConfig →
      (r.KubeClient.GetPod w agentRun.ObjectMeta.Namespace
        (agentRun.ObjectMeta.Name ++ "-agent")).1 = .found agentPod →
      agentPod.Status.Phase ≠ PodSucceeded →
      agentPod.Status.Phase ≠ PodFailed →
      (r.Reconcile w agentRun).err = none ∧
      (r.Reconcile w agentRun).agentRun.Status.Phase = agentRun.Status.Phase ∧
      (r.Reconcile w agentRun).agentRun.Status.CompletionTime =
        agentRun.Status.CompletionTime ∧
      (r.Reconcile w agentRun).calls =
        [.getPod agentRun.ObjectMeta.Namespace (agentRun.ObjectMeta.Name ++ "-agent")
          (.found agentPod)]) := by
  have hne : AgentRunPhaseActing ≠ AgentRunPhasePending := by decide
  have h := reconcile_cases r w agentRun
  generalize r.Reconcile w agentRun = res at h ⊢
  cases h with
  | done hdone =>
    rw [AgentRun.IsDone, hphase] at hdone
    exact absurd hdone (by decide)
  | uncached hdone hcache =>
    refine ⟨fun err _ _ => ⟨by simp, rfl, rfl, fun cfg hc => ?_⟩, fun cfg pod hc => ?_⟩
    · rw [hcache] at hc
      cases hc
    · rw [hcache] at hc
      cases hc
  | roleFailed cfg err1 w1 hdone hcache hph hrole hf =>
    exact absurd (hphase.symm.trans hph) hne
  | bindingFailed cfg err1 err2 w1 w2 hdone hcache hph hrole hok1 hbinding hf =>
    exact absurd (hphase.symm.trans hph) hne
  | podFailed cfg err1 err2 err3 w1 w2 w3 hdone hcache hph hrole hok1 hbinding hok2 hpod hf =>
    exact absurd (hphase.symm.trans hph) hne
  | provisioned cfg err1 err2 err3 w1 w2 w3 hdone hcache hph hrole hok1 hbinding hok2 hpod
      hok3 =>
    exact absurd (hphase.symm.trans hph) hne
  | podAbsent cfg err w1 hdone hcache hph hget habsent =>
    refine ⟨fun err2 he hother => ?_, fun cfg2 pod _ hf => ?_⟩
    · obtain rfl : err = err2 := by simpa [hget] using he
      rw [habsent] at hother
      cases hother
    · simp [hget] at hf
  | getFailed cfg err w1 hdone hcache hph hget hother =>
    refine ⟨fun err2 he _ => ?_, fun cfg2 pod _ hf => ?_⟩
    · obtain rfl : err = err2 := by simpa [hget] using he
      exact ⟨by simp, start_phase _ _, start_completionTime _ _, fun _ _ => rfl⟩
    · simp [hget] at hf
  | podSucceeded cfg pod w1 hdone hcache hph hget hpod =>
    refine ⟨fun err2 he _ => ?_, fun cfg2 pod2 _ hf hs _ => ?_⟩
    · simp [hget] at he
    · obtain rfl : pod = pod2 := by simpa [hget] using hf
      exact absurd hpod hs
  | podFailedPhase cfg pod w1 hdone hcache hph hget hnot hpod =>
    refine ⟨fun err2 he _ => ?_, fun cfg2 pod2 _ hf _ hfailed => ?_⟩
    · simp [hget] at he
    · obtain rfl : pod = pod2 := by simpa [hget] using hf
      exact absurd hpod hfailed
  | podRunning cfg pod w1 hdone hcache hph hget hnot hnot2 =>
    refine ⟨fun err2 he _ => ?_, fun cfg2 pod2 _ hf _ _ => ?_⟩
    · simp [hget] at he
    · obtain rfl : pod = pod2 := by simpa [hget] using hf
      exact ⟨rfl, start_phase _ _, start_completionTime _ _, rfl⟩
  | normalized cfg hdone hcache hpending hacting => exact absurd hphase hacting

/-- C32, on an Acting request with a cached profile whose pod is found in phase
Running, and on one whose `Get` is refused. -/
theorem acting_request_stays_without_terminal_pod_witness :
    (testReconciler.Reconcile runningStore (testRun "Acting")).err = none ∧
    (testReconciler.Reconcile runningStore (testRun "Acting")).agentRun.Status.Phase =
      AgentRunPhaseActing ∧
    (testReconciler.Reconcile runningStore (testRun "Acting")).agentRun.Status.CompletionTime =
      none ∧
    (testReconciler.Reconcile runningStore (testRun "Acting")).calls =
      [.getPod "default" "test-run-agent" (.found runningPod)] ∧
    (unreadableReconciler.Reconcile emptyStore (testRun "Acting")).err ≠ none ∧
    (unreadableReconciler.Reconcile emptyStore (testRun "Acting")).agentRun.Status.Phase =
      AgentRunPhaseActing :=
  ⟨((acting_request_stays_without_terminal_pod testReconciler runningStore (testRun "Acting")
      rfl).2 testConfig runningPod rfl (by decide) (by decide) (by decide)).1,
    ((acting_request_stays_without_terminal_pod testReconciler runningStore (testRun "Acting")
      rfl).2 testConfig runningPod rfl (by decide) (by decide) (by decide)).2.1,
    ((acting_request_stays_without_terminal_pod testReconciler runningStore (testRun "Acting")
      rfl).2 testConfig runningPod rfl (by decide) (by decide) (by decide)).2.2.1,
    ((acting_request_stays_without_terminal_pod testReconciler runningStore (testRun "Acting")
      rfl).2 testConfig runningPod rfl (by decide) (by decide) (by decide)).2.2.2,
    ((acting_request_stays_without_terminal_pod unreadableReconciler emptyStore
      (testRun "Acting") rfl).1 forbiddenError rfl rfl).1,
    ((acting_request_stays_without_terminal_pod unreadableReconciler emptyStore
      (testRun "Acting") rfl).1 forbiddenError rfl rfl).2.1⟩

/-- C37: for a request that is not done and whose `Spec.ConfigRef.Name` is not
a key of the map `AgentConfigs`, `Reconcile` returns a non-nil error, makes no
call of the clientset and leaves the request as it was: the status is
unchanged, the phase keeps its value and a nil StartTime stays nil. -/
theorem reconcile_uncached_changes_nothing {ω : Type} (r : Reconciler ω) (w : ω)
    (agentRun : AgentRun)
    (hdone : agentRun.IsDone = false)
    (huncached : r.AgentConfigs agentRun.Spec.ConfigRef.Name = none) :
    (r.Reconcile w agentRun).err ≠ none ∧
    (r.Reconcile w agentRun).calls = [] ∧
    (r.Reconcile w agentRun).world = w ∧
    (r.Reconcile w agentRun).agentRun = agentRun ∧
    (r.Reconcile w agentRun).agentRun.Status = agentRun.Status ∧
    (r.Reconcile w agentRun).agentRun.Status.Phase = agentRun.Status.Phase ∧
    (agentRun.Status.StartTime = none →
      (r.Reconcile w agentRun).agentRun.Status.StartTime = none) := by
  have hrun : r.Reconcile w agentRun =
      { agentRun := agentRun
        err := some (.wrapped "failed to get AgentConfig: "
          (.text ("AgentConfig " ++ quoted agentRun.Spec.ConfigRef.Name ++ " not found")))
        world := w
        calls := [] } := by
    unfold Reconciler.Reconcile
    simp [hdone, Reconciler.getAgentConfig, huncached]
  rw [hrun]
  exact ⟨by simp, rfl, rfl, rfl, rfl, rfl, fun h => h⟩

/-- C37, on a fresh request with a reconciler whose cache is empty. -/
theorem reconcile_uncached_changes_nothing_witness :
    (uncachedReconciler.Reconcile emptyStore (testRun "Pending")).err ≠ none ∧
    (uncachedReconciler.Reconcile emptyStore (testRun "Pending")).calls = [] ∧
    (uncachedReconciler.Reconcile emptyStore (testRun "Pending")).agentRun =
      testRun "Pending" ∧
    (uncachedReconciler.Reconcile emptyStore (testRun "Acting")).agentRun.Status.StartTime =
      none :=
  ⟨(reconcile_uncached_changes_nothing uncachedReconciler emptyStore (testRun "Pending")
      rfl rfl).1,
    (reconcile_uncached_changes_nothing uncachedReconciler emptyStore (testRun "Pending")
      rfl rfl).2.1,
    (reconcile_uncached_changes_nothing uncachedReconciler emptyStore (testRun "Pending")
      rfl rfl).2.2.2.1,
    (reconcile_uncached_changes_nothing uncachedReconciler emptyStore (testRun "Acting")
      rfl rfl).2.2.2.2.2.2 rfl⟩

/-! ## The pod and the profile -/

/-- C39: for every image, request, profile and role name, the service account
that the pod of `Builder.Build` runs as has the name of the one subject of the
role binding of `GenerateRoleBinding`, which is a ServiceAccount in the
namespace of the pod; and the role binding generated in `createRBAC` refers to
the read-only role of the request. -/
theorem pod_runs_as_bound_service_account (b : Builder) (agentRun : AgentRun)
    (agentConfig : AgentConfig) (roleName : String) :
    (GenerateRoleBinding agentRun agentConfig roleName).Subjects =
      [{ Kind := "ServiceAccount"
         Name := (b.Build agentRun agentConfig).1.Spec.ServiceAccountName
         Namespace := (b.Build agentRun agentConfig).1.ObjectMeta.Namespace }] ∧
    (b.Build agentRun agentConfig).1.Spec.ServiceAccountName =
      agentConfig.Spec.ServiceAccount ∧
    (b.Build agentRun agentConfig).1.ObjectMeta.Namespace =
      (GenerateRoleBinding agentRun agentConfig roleName).ObjectMeta.Namespace ∧
    (GenerateRoleBinding agentRun agentConfig
      (GenerateRole agentRun).ObjectMeta.Name).RoleRef.Name =
        (GenerateRole agentRun).ObjectMeta.Name ∧
    (GenerateRole agentRun).ObjectMeta.Namespace =
      (b.Build agentRun agentConfig).1.ObjectMeta.Namespace :=
  ⟨rfl, rfl, rfl, rfl, rfl⟩

/-- C40: `Builder.Build` returns a nil error, and for every image and request
and every two profiles with the same name, the same `Spec.ServiceAccount` and
the same `Spec.Provider` it returns the same pod, whatever the other fields of
the profiles are; so the pod is the one built for the profile that holds these
three fields and the zero value everywhere else. -/
theorem build_depends_on_three_profile_fields (b : Builder) (agentRun : AgentRun)
    (agentConfig agentConfig2 : AgentConfig) :
    (b.Build agentRun agentConfig).2 = none ∧
    (agentConfig.ObjectMeta.Name = agentConfig2.ObjectMeta.Name →
      agentConfig.Spec.ServiceAccount = agentConfig2.Spec.ServiceAccount →
      agentConfig.Spec.Provider = agentConfig2.Spec.Provider →
      b.Build agentRun agentConfig = b.Build agentRun agentConfig2) ∧
    b.Build agentRun agentConfig =
      b.Build agentRun
        { ObjectMeta :=
            { Name := agentConfig.ObjectMeta.Name, Namespace := "", UID := "", Labels := [],
              OwnerReferences := [] }
          Spec :=
            { ServiceAccount := agentConfig.Spec.ServiceAccount, ConfigPVC := ""
              MaxIterations := 0, Timeout := none, PreHooks := [], PostHooks := []
              Policy := { OPA := "" }, NetworkPolicy := ""
              Provider := agentConfig.Spec.Provider } } := by
  refine ⟨rfl, ?_, rfl⟩
  intro hname hsa hprovider
  unfold Builder.Build Builder.buildVolumes
  rw [hname, hsa, hprovider]

/-- C40, on the profile of `TestBuild` and the same profile with another
iteration bound, timeout, network policy, policy mode and ConfigPVC. -/
theorem build_depends_on_three_profile_fields_witness :
    testBuilder.Build builderTestRun builderTestConfig =
      testBuilder.Build builderTestRun
        { builderTestConfig with
          Spec :=
            { builderTestConfig.Spec with
              MaxIterations := 7, Timeout := some 60000000000, NetworkPolicy := "permissive"
              Policy := { OPA := "permissive" }, ConfigPVC := "other-pvc" } } :=
  (build_depends_on_three_profile_fields testBuilder builderTestRun builderTestConfig
    { builderTestConfig with
      Spec :=
        { builderTestConfig.Spec with
          MaxIterations := 7, Timeout := some 60000000000, NetworkPolicy := "permissive"
          Policy := { OPA := "permissive" }, ConfigPVC := "other-pvc" } }).2.1 rfl rfl rfl

end Controller

namespace Main

/-! ## The policy text loaded at start -/

/-- What `loadOPAPolicy` returns, by the result of the read. -/
theorem loadOPAPolicy_ok (ReadFile : String → String × Option Agent.GoError)
    (configPath : String) :
    (∀ data, ReadFile (Join [configPath, "guardrails", "policy.rego"]) = (data, none) →
      (loadOPAPolicy ReadFile configPath).content = data ∧
      (loadOPAPolicy ReadFile configPath).logged = []) ∧
    (∀ data e, ReadFile (Join [configPath, "guardrails", "policy.rego"]) = (data, some e) →
      (loadOPAPolicy ReadFile configPath).content = defaultPolicy ∧
      (loadOPAPolicy ReadFile configPath).logged =
        ["No policy found at " ++ Join [configPath, "guardrails", "policy.rego"] ++
          ", using default policy"]) := by
  constructor
  · intro data h
    unfold loadOPAPolicy
    simp [h]
  · intro data e h
    unfold loadOPAPolicy
    simp [h]

/-- C26: `loadOPAPolicy` returns a nil error for every file system and every
configuration path.  When the read of `guardrails/policy.rego` under the
configuration path succeeds, it returns the data read, unchanged, and logs
nothing; when the read returns an error, whatever the error, it returns the
built-in text, whose lines are the clause of the package `agent.tools` and the
one rule `default allow = true`, and logs one message. -/
theorem loadOPAPolicy_never_fails (ReadFile : String → String × Option Agent.GoError)
    (configPath : String) :
    (loadOPAPolicy ReadFile configPath).err = none ∧
    (∀ data, ReadFile (Join [configPath, "guardrails", "policy.rego"]) = (data, none) →
      (loadOPAPolicy ReadFile configPath).content = data ∧
      (loadOPAPolicy ReadFile configPath).logged = []) ∧
    (∀ data e, ReadFile (Join [configPath, "guardrails", "policy.rego"]) = (data, some e) →
      (loadOPAPolicy ReadFile configPath).content = defaultPolicy ∧
      (loadOPAPolicy ReadFile configPath).logged =
        ["No policy found at " ++ Join [configPath, "guardrails", "policy.rego"] ++
          ", using default policy"]) ∧
    linesOf defaultPolicy = ["", "package agent.tools", "default allow = true", ""] := by
  refine ⟨?_, ?_, ?_, by decide⟩
  · rcases h : ReadFile (Join [configPath, "guardrails", "policy.rego"]) with ⟨data, err⟩
    unfold loadOPAPolicy
    simp only [h]
    cases err <;> rfl
  · intro data h
    unfold loadOPAPolicy
    simp [h]
  · intro data e h
    unfold loadOPAPolicy
    simp [h]

/-- C26, on the configuration path of the agent pod: with the policy file in
place its text is returned, and on an empty file system the built-in text. -/
theorem loadOPAPolicy_never_fails_witness :
    Join ["/workspace/config", "guardrails", "policy.rego"] =
      "/workspace/config/guardrails/policy.rego" ∧
    (loadOPAPolicy
      (oneFile "/workspace/config/guardrails/policy.rego"
        "package agent.tools\ndefault allow = false\n")
      "/workspace/config").content = "package agent.tools\ndefault allow = false\n" ∧
    (loadOPAPolicy (oneFile "" "") "/workspace/config").content = defaultPolicy ∧
    (loadOPAPolicy (oneFile "" "") "/workspace/config").err = none :=
  ⟨by decide,
    ((loadOPAPolicy_never_fails
      (oneFile "/workspace/config/guardrails/policy.rego"
        "package agent.tools\ndefault allow = false\n")
      "/workspace/config").2.1 _ (by decide)).1,
    ((loadOPAPolicy_never_fails (oneFile "" "") "/workspace/config").2.2.1 ""
      (.text "open /workspace/config/guardrails/policy.rego: no such file or directory")
      (by decide)).1,
    (loadOPAPolicy_never_fails (oneFile "" "") "/workspace/config").1⟩

/-! ## The policy file and the pod -/

/-- C38: for every image, request and profile, the volume "config" of the pod
of `Builder.Build` is a ConfigMap volume that projects exactly the three paths
prompts/system.txt, prompts/planner.txt and prompts/reflector.txt, mounted at
/workspace/config; so the file guardrails/policy.rego under that mount, which
`loadOPAPolicy` reads, is not among the files that the pod mounts, and on a
file system that holds no other file `loadOPAPolicy` returns the built-in
text. -/
theorem policy_file_is_not_projected (b : Controller.Builder) (agentRun : Controller.AgentRun)
    (agentConfig : Controller.AgentConfig) :
    (∃ v source, Controller.findVolume (b.Build agentRun agentConfig).1 "config" = some v ∧
      v.VolumeSource.ConfigMap = some source ∧
      source.Items.map (fun item => item.Path) =
        ["prompts/system.txt", "prompts/planner.txt", "prompts/reflector.txt"]) ∧
    (∀ c ∈ (b.Build agentRun agentConfig).1.Spec.Containers,
      ({ Name := "config", MountPath := "/workspace/config", ReadOnly := true }
        : Controller.VolumeMount) ∈ c.VolumeMounts) ∧
    projectedFiles (b.Build agentRun agentConfig).1 "config" =
      ["/workspace/config/prompts/system.txt", "/workspace/config/prompts/planner.txt",
        "/workspace/config/prompts/reflector.txt"] ∧
    Join ["/workspace/config", "guardrails", "policy.rego"] ∉
      projectedFiles (b.Build agentRun agentConfig).1 "config" ∧
    (∀ ReadFile : String → String × Option Agent.GoError,
      (∀ path, (ReadFile path).2 = none →
        path ∈ projectedFiles (b.Build agentRun agentConfig).1 "config") →
      (loadOPAPolicy ReadFile "/workspace/config").content = defaultPolicy) := by
  have hfiles : projectedFiles (b.Build agentRun agentConfig).1 "config" =
      ["/workspace/config/prompts/system.txt", "/workspace/config/prompts/planner.txt",
        "/workspace/config/prompts/reflector.txt"] := by
    show projectedFiles (Controller.testBuilder.Build Controller.builderTestRun
      Controller.builderTestConfig).1 "config" = _
    decide
  have hnot : Join ["/workspace/config", "guardrails", "policy.rego"] ∉
      projectedFiles (b.Build agentRun agentConfig).1 "config" := by
    rw [hfiles]
    decide
  refine ⟨⟨_, _, rfl, rfl, rfl⟩, ?_, hfiles, hnot, ?_⟩
  · intro c hc
    simp only [Controller.Builder.Build, List.mem_singleton] at hc
    subst hc
    simp [Controller.Builder.buildVolumeMounts]
  · intro ReadFile honly
    rcases hread : ReadFile (Join ["/workspace/config", "guardrails", "policy.rego"])
      with ⟨data, err⟩
    cases err with
    | none =>
      have hmem := honly (Join ["/workspace/config", "guardrails", "policy.rego"])
        (by rw [hread])
      exact absurd hmem hnot
    | some e => exact ((loadOPAPolicy_ok ReadFile "/workspace/config").2 data e hread).1

/-- C38, on the pod of `TestBuild` and a file system that holds the system
prompt projected by the pod and nothing else. -/
theorem policy_file_is_not_projected_witness :
    (loadOPAPolicy (oneFile "/workspace/config/prompts/system.txt" "You are an agent.")
      "/workspace/config").content = defaultPolicy :=
  (policy_file_is_not_projected Controller.testBuilder Controller.builderTestRun
    Controller.builderTestConfig).2.2.2.2
    (oneFile "/workspace/config/prompts/system.txt" "You are an agent.")
    (fun path hpath => by
      by_cases h : path = "/workspace/config/prompts/system.txt"
      · rw [h]
        decide
      · simp [oneFile, h] at hpath)

end Main

namespace JSON

/-! ## A result written as JSON and read back -/

theorem coerce_of_valid (s : GoString) :
    ∀ skip, validFrom skip s = true → coerce skip s = s := by
  induction s with
  | nil => intro skip _; cases skip <;> rfl
  | cons b rest ih =>
    intro skip h
    cases skip with
    | succ k =>
      simp only [coerce, validFrom] at h ⊢
      rw [ih k h]
    | zero =>
      simp only [coerce, validFrom] at h ⊢
      cases hlen : runeLen (b :: rest) with
      | none => rw [hlen] at h; cases h
      | some n =>
        rw [hlen] at h
        simp only at h ⊢
        rw [ih _ h]

theorem toolCallRecord_round_trip (c : ToolCallRecord) :
    ToolCallRecord.zero.Unmarshal c.Marshal = .ok c.readBack := by
  have h1 : fieldOf ["id", "name", "input", "output", "error"] "id" = some "id" := by decide
  have h2 : fieldOf ["id", "name", "input", "output", "error"] "name" = some "name" := by
    decide
  have h3 : fieldOf ["id", "name", "input", "output", "error"] "input" = some "input" := by
    decide
  have h4 : fieldOf ["id", "name", "input", "output", "error"] "output" = some "output" := by
    decide
  have h5 : fieldOf ["id", "name", "input", "output", "error"] "error" = some "error" := by
    decide
  rcases c with ⟨id, name, input, output, error⟩
  by_cases he : error = []
  · subst he
    cases input <;>
      simp [ToolCallRecord.Marshal, ToolCallRecord.Unmarshal, ToolCallRecord.setFields,
        ToolCallRecord.setField, ToolCallRecord.zero, ToolCallRecord.readBack, h1, h2, h3, h4,
        decodeString, decodeInput, marshalString, toValidUTF8, coerce]
  · cases input <;>
      simp [ToolCallRecord.Marshal, ToolCallRecord.Unmarshal, ToolCallRecord.setFields,
        ToolCallRecord.setField, ToolCallRecord.zero, ToolCallRecord.readBack, h1, h2, h3, h4,
        h5, he, decodeString, decodeInput, marshalString]

theorem decodeItems_round_trip (cs : List ToolCallRecord) :
    decodeItems [] (cs.map ToolCallRecord.Marshal) = .ok (cs.map ToolCallRecord.readBack) := by
  induction cs with
  | nil => rfl
  | cons c cs ih =>
    simp only [List.map_cons, decodeItems, List.headD_nil, List.tail_nil,
      toolCallRecord_round_trip, ih]

theorem decodeInt_of_isInt (field : String) (old n : Int) (h : IsInt n) :
    decodeInt field old (.num n) = .ok n := by
  unfold decodeInt
  exact if_pos h

theorem result_round_trip (r : Result) (hiter : IsInt r.Iterations)
    (hin : IsInt r.TotalTokensIn) (hout : IsInt r.TotalTokensOut) :
    Result.Unmarshal r.Marshal = .ok r.readBack := by
  have h1 : fieldOf ["status", "iterations", "tool_calls", "final_response",
      "total_tokens_in", "total_tokens_out", "error"] "status" = some "status" := by decide
  have h2 : fieldOf ["status", "iterations", "tool_calls", "final_response",
      "total_tokens_in", "total_tokens_out", "error"] "iterations" = some "iterations" := by
    decide
  have h3 : fieldOf ["status", "iterations", "tool_calls", "final_response",
      "total_tokens_in", "total_tokens_out", "error"] "tool_calls" = some "tool_calls" := by
    decide
  have h4 : fieldOf ["status", "iterations", "tool_calls", "final_response",
      "total_tokens_in", "total_tokens_out", "error"] "final_response" =
        some "final_response" := by decide
  have h5 : fieldOf ["status", "iterations", "tool_calls", "final_response",
      "total_tokens_in", "total_tokens_out", "error"] "total_tokens_in" =
        some "total_tokens_in" := by decide
  have h6 : fieldOf ["status", "iterations", "tool_calls", "final_response",
      "total_tokens_in", "total_tokens_out", "error"] "total_tokens_out" =
        some "total_tokens_out" := by decide
  have h7 : fieldOf ["status", "iterations", "tool_calls", "final_response",
      "total_tokens_in", "total_tokens_out", "error"] "error" = some "error" := by decide
  rcases r with ⟨status, iterations, toolCalls, finalResponse, tokensIn, tokensOut, error⟩
  have hiter2 := decodeInt_of_isInt "Result.iterations" 0 iterations hiter
  have hin2 := decodeInt_of_isInt "Result.total_tokens_in" 0 tokensIn hin
  have hout2 := decodeInt_of_isInt "Result.total_tokens_out" 0 tokensOut hout
  by_cases he : error = []
  · subst he
    simp [Result.Marshal, Result.Unmarshal, Result.setFields, Result.setField, Result.zero,
      Result.readBack, h1, h2, h3, h4, h5, h6, decodeString, decodeToolCalls,
      marshalString, decodeItems_round_trip, hiter2, hin2, hout2, toValidUTF8, coerce]
  · simp [Result.Marshal, Result.Unmarshal, Result.setFields, Result.setField, Result.zero,
      Result.readBack, h1, h2, h3, h4, h5, h6, h7, he, decodeString,
      decodeToolCalls, marshalString, decodeItems_round_trip, hiter2, hin2, hout2]

/-- C27 as stated fails on a result whose one tool call returned the byte 0xFF:
`Marshal` writes U+FFFD for a byte that is not valid UTF-8, so the result that
`Unmarshal` reads back has another output than the result written. -/
theorem result_round_trip_counterexample :
    ∃ r2, Result.Unmarshal binaryLogResult.Marshal = .ok r2 ∧
      r2.ToolCalls.map (fun c => c.Output) = [[0xEF, 0xBF, 0xBD]] ∧
      binaryLogResult.ToolCalls.map (fun c => c.Output) = [[0xFF]] ∧
      r2.ToolCalls.map (fun c => c.Output) ≠
        binaryLogResult.ToolCalls.map (fun c => c.Output) :=
  ⟨_, result_round_trip binaryLogResult ⟨by decide, by decide⟩ ⟨by decide, by decide⟩
      ⟨by decide, by decide⟩,
    by decide, by decide, by decide⟩

/-- C27, amended: for every result, `Unmarshal` of what `Marshal` writes for it
returns a result with the same `Iterations`, `TotalTokensIn` and
`TotalTokensOut` and a list `ToolCalls` of the same length, whose records stand
in the same order and hold the ID, the name, the output and the error of the
record written with every byte that is not valid UTF-8 replaced by U+FFFD; so
these four are the same wherever they are valid UTF-8. -/
theorem result_read_back_from_json (r : Result) (hiter : IsInt r.Iterations)
    (hin : IsInt r.TotalTokensIn) (hout : IsInt r.TotalTokensOut) :
    ∃ r2, Result.Unmarshal r.Marshal = .ok r2 ∧
      r2.Iterations = r.Iterations ∧
      r2.TotalTokensIn = r.TotalTokensIn ∧
      r2.TotalTokensOut = r.TotalTokensOut ∧
      r2.ToolCalls.length = r.ToolCalls.length ∧
      r2.ToolCalls.map (fun c => (c.ID, c.Name, c.Output, c.Error)) =
        r.ToolCalls.map (fun c =>
          (toValidUTF8 c.ID, toValidUTF8 c.Name, toValidUTF8 c.Output, toValidUTF8 c.Error)) ∧
      ((∀ c ∈ r.ToolCalls, validUTF8 c.ID = true ∧ validUTF8 c.Name = true ∧
          validUTF8 c.Output = true ∧ validUTF8 c.Error = true) →
        r2.ToolCalls.map (fun c => (c.ID, c.Name, c.Output, c.Error)) =
          r.ToolCalls.map (fun c => (c.ID, c.Name, c.Output, c.Error))) := by
  have hback : (r.readBack.ToolCalls.map (fun c => (c.ID, c.Name, c.Output, c.Error))) =
      r.ToolCalls.map (fun c =>
        (toValidUTF8 c.ID, toValidUTF8 c.Name, toValidUTF8 c.Output, toValidUTF8 c.Error)) := by
    show (r.ToolCalls.map ToolCallRecord.readBack).map _ = _
    rw [List.map_map]
    rfl
  refine ⟨r.readBack, result_round_trip r hiter hin hout, rfl, rfl, rfl, ?_, hback, ?_⟩
  · show (r.ToolCalls.map ToolCallRecord.readBack).length = _
    rw [List.length_map]
  · intro hvalid
    rw [hback]
    apply List.map_congr_left
    intro c hc
    obtain ⟨h1, h2, h3, h4⟩ := hvalid c hc
    show (coerce 0 c.ID, coerce 0 c.Name, coerce 0 c.Output, coerce 0 c.Error) = _
    rw [coerce_of_valid _ 0 h1, coerce_of_valid _ 0 h2, coerce_of_valid _ 0 h3,
      coerce_of_valid _ 0 h4]

/-- C27, amended, on a result whose strings are ASCII text: it is read back
with the same iterations, token sums and outputs. -/
theorem result_read_back_from_json_witness :
    ∃ r2, Result.Unmarshal textResult.Marshal = .ok r2 ∧
      r2.Iterations = 1 ∧ r2.TotalTokensIn = 250 ∧ r2.TotalTokensOut = 125 ∧
      r2.ToolCalls.map (fun c => (c.ID, c.Name, c.Output, c.Error)) =
        textResult.ToolCalls.map (fun c => (c.ID, c.Name, c.Output, c.Error)) :=
  match result_read_back_from_json textResult ⟨by decide, by decide⟩ ⟨by decide, by decide⟩
      ⟨by decide, by decide⟩ with
  | ⟨r2, h, hi, htin, htout, _, _, hsame⟩ =>
    ⟨r2, h, hi, htin, htout, hsame (by decide)⟩

end JSON

namespace K8s

/-! ## The limit of `k8s_get_resources` -/

theorem truncate_negative {α : Type} (items : List α) (n : Nat) :
    truncate items (-((n : Int) + 1)) = none := by
  unfold truncate
  have h1 : (items.length : Int) > -((n : Int) + 1) := by omega
  have h2 : -((n : Int) + 1) < 0 := by omega
  rw [if_pos h1, if_pos h2]

theorem truncate_nonneg {α : Type} (items : List α) (limit : Int) (h : 0 ≤ limit) :
    ∃ kept, truncate items limit = some kept ∧ (kept.length : Int) ≤ limit ∧
      kept <+: items := by
  unfold truncate
  by_cases hlen : (items.length : Int) > limit
  · have h0 : ¬ limit < 0 := by omega
    refine ⟨items.take limit.toNat, by simp [hlen, h0], ?_, List.take_prefix _ _⟩
    rw [List.length_take]
    omega
  · refine ⟨items, by simp [hlen], by omega, List.prefix_refl _⟩

theorem marshalOutput_returns (MarshalIndent : Listing → String × Option Agent.GoError)
    (listing : Listing) :
    ∃ output err, marshalOutput MarshalIndent listing = .returned output err ∧
      (err = none → MarshalIndent listing = (output, none)) := by
  unfold marshalOutput
  rcases h : MarshalIndent listing with ⟨output, err⟩
  cases err with
  | none => exact ⟨output, none, rfl, fun _ => rfl⟩
  | some e => exact ⟨"", _, rfl, fun h => by cases h⟩

theorem getPods_returns (g : GetResources)
    (MarshalIndent : Listing → String × Option Agent.GoError) (ns labelSelector : String)
    (limit : Int) (h : 0 ≤ limit) :
    ∃ output err, g.getPods MarshalIndent ns labelSelector limit = .returned output err ∧
      (err = none → ∃ listing, MarshalIndent listing = (output, none) ∧
        (listing.length : Int) ≤ limit) := by
  unfold GetResources.getPods
  rcases hlist : g.KubeClient.ListPods ns labelSelector limit with ⟨items, err⟩
  cases err with
  | some e => exact ⟨"", _, rfl, fun h => by cases h⟩
  | none =>
    obtain ⟨kept, hkept, hlen, -⟩ := truncate_nonneg items limit h
    simp only [hkept]
    obtain ⟨output, err, hout, hm⟩ := marshalOutput_returns MarshalIndent
      (.pods (kept.map podInfoOf))
    exact ⟨output, err, hout, fun he => ⟨_, hm he, by simpa [Listing.length] using hlen⟩⟩

theorem getDeployments_returns (g : GetResources)
    (MarshalIndent : Listing → String × Option Agent.GoError) (ns labelSelector : String)
    (limit : Int) (h : 0 ≤ limit) :
    ∃ output err, g.getDeployments MarshalIndent ns labelSelector limit = .returned output err ∧
      (err = none → ∃ listing, MarshalIndent listing = (output, none) ∧
        (listing.length : Int) ≤ limit) := by
  unfold GetResources.getDeployments
  rcases hlist : g.KubeClient.ListDeployments ns labelSelector limit with ⟨items, err⟩
  cases err with
  | some e => exact ⟨"", _, rfl, fun h => by cases h⟩
  | none =>
    obtain ⟨kept, hkept, hlen, -⟩ := truncate_nonneg items limit h
    simp only [hkept]
    obtain ⟨output, err, hout, hm⟩ := marshalOutput_returns MarshalIndent
      (.deployments (kept.map deploymentInfoOf))
    exact ⟨output, err, hout, fun he => ⟨_, hm he, by simpa [Listing.length] using hlen⟩⟩

theorem getServices_returns (g : GetResources)
    (MarshalIndent : Listing → String × Option Agent.GoError) (ns labelSelector : String)
    (limit : Int) (h : 0 ≤ limit) :
    ∃ output err, g.getServices MarshalIndent ns labelSelector limit = .returned output err ∧
      (err = none → ∃ listing, MarshalIndent listing = (output, none) ∧
        (listing.length : Int) ≤ limit) := by
  unfold GetResources.getServices
  rcases hlist : g.KubeClient.ListServices ns labelSelector limit with ⟨items, err⟩
  cases err with
  | some e => exact ⟨"", _, rfl, fun h => by cases h⟩
  | none =>
    obtain ⟨kept, hkept, hlen, -⟩ := truncate_nonneg items limit h
    simp only [hkept]
    obtain ⟨output, err, hout, hm⟩ := marshalOutput_returns MarshalIndent
      (.services (kept.map serviceInfoOf))
    exact ⟨output, err, hout, fun he => ⟨_, hm he, by simpa [Listing.length] using hlen⟩⟩

theorem getReplicaSets_returns (g : GetResources)
    (MarshalIndent : Listing → String × Option Agent.GoError) (ns labelSelector : String)
    (limit : Int) (h : 0 ≤ limit) :
    ∃ output err, g.getReplicaSets MarshalIndent ns labelSelector limit = .returned output err ∧
      (err = none → ∃ listing, MarshalIndent listing = (output, none) ∧
        (listing.length : Int) ≤ limit) := by
  unfold GetResources.getReplicaSets
  rcases hlist : g.KubeClient.ListReplicaSets ns labelSelector limit with ⟨items, err⟩
  cases err with
  | some e => exact ⟨"", _, rfl, fun h => by cases h⟩
  | none =>
    obtain ⟨kept, hkept, hlen, -⟩ := truncate_nonneg items limit h
    simp only [hkept]
    obtain ⟨output, err, hout, hm⟩ := marshalOutput_returns MarshalIndent
      (.replicaSets (kept.map replicaSetInfoOf))
    exact ⟨output, err, hout, fun he => ⟨_, hm he, by simpa [Listing.length] using hlen⟩⟩

/-- With a valid namespace and resource type and a limit that is not negative,
or no limit, `Execute` returns, and on a nil error its output is the text of a
listing of at most `min(limit, 100)` resources. -/
theorem execute_returns_within_limit (g : GetResources)
    (MarshalIndent : Listing → String × Option Agent.GoError) (input : Input)
    (ns resourceType : String)
    (hns : input.get "namespace" = some (.string ns)) (hns0 : ns ≠ "")
    (hrt : input.get "resourceType" = some (.string resourceType))
    (hkind : resourceType ∈ ["pods", "deployments", "services", "replicasets"])
    (hlimit : 0 ≤ requestedLimit input) :
    ∃ output err, g.Execute MarshalIndent input = .returned output err ∧
      (err = none → ∃ listing, MarshalIndent listing = (output, none) ∧
        (listing.length : Int) ≤ min (requestedLimit input) 100) := by
  have hcap : (if requestedLimit input > 100 then 100 else requestedLimit input) =
      min (requestedLimit input) 100 := by
    split <;> omega
  have h0 : 0 ≤ min (requestedLimit input) 100 := by omega
  have hrt0 : resourceType ≠ "" := by
    rintro rfl
    simp at hkind
  unfold GetResources.Execute
  simp only [hns, hrt, asString, hns0, hrt0, if_false, hcap]
  simp only [List.mem_cons, List.mem_singleton, List.not_mem_nil, or_false] at hkind
  rcases hkind with rfl | rfl | rfl | rfl
  · simpa using getPods_returns g MarshalIndent ns _ _ h0
  · simpa using getDeployments_returns g MarshalIndent ns _ _ h0
  · simpa using getServices_returns g MarshalIndent ns _ _ h0
  · simpa using getReplicaSets_returns g MarshalIndent ns _ _ h0

/-- The run of `TestGetResources_Limit`: with the limit 5 the output lists the
first five of the ten pods. -/
theorem limitTest_lists_five :
    limitTestTool.Execute namesOnly (limitTestInput 5) =
      .returned "pod-a\npod-b\npod-c\npod-d\npod-e\n" none := by
  decide

/-- On a valid input for pods with a negative limit, when the API returns a
list, `Execute` panics in the truncation step. -/
theorem execute_pods_panics (g : GetResources)
    (MarshalIndent : Listing → String × Option Agent.GoError) (input : Input) (ns : String)
    (n : Nat) (hns : asString (input.get "namespace") = some ns) (hns0 : ns ≠ "")
    (hrt : asString (input.get "resourceType") = some "pods")
    (hreq : requestedLimit input = -((n : Int) + 1))
    (hlist : ∀ labelSelector limit, (g.KubeClient.ListPods ns labelSelector limit).2 = none) :
    g.Execute MarshalIndent input = .panicked := by
  have hcap : (if -((n : Int) + 1) > 100 then (100 : Int) else -((n : Int) + 1)) =
      -((n : Int) + 1) := by
    split <;> omega
  have hpods : ("pods" : String) ≠ "" := by decide
  unfold GetResources.Execute
  simp only [hns, hrt, hreq, hcap, hns0, hpods, if_false, if_true]
  unfold GetResources.getPods
  have h := hlist ((asString (input.get "labelSelector")).getD "") (-((n : Int) + 1))
  rcases hcall : g.KubeClient.ListPods ns ((asString (input.get "labelSelector")).getD "")
    (-((n : Int) + 1)) with ⟨pods, err⟩
  rw [hcall] at h
  dsimp only at h
  subst h
  simp only [truncate_negative]

/-- C33, the code on a negative limit: for every list of pods the API returns
and every negative limit, given as a `float64` or as an `int`, `Execute` on an
input with a valid namespace and the resource type "pods" does not return, as
the slice expression of the truncation step panics; so it does on the ten pods
of `TestGetResources_Limit` with the limit -1. -/
theorem execute_panics_on_negative_limit (pods : List Pod)
    (MarshalIndent : Listing → String × Option Agent.GoError) (n : Nat) :
    GetResources.Execute { KubeClient := podsClient pods } MarshalIndent
        [("namespace", .string "default"), ("resourceType", .string "pods"),
         ("limit", .float64 (-((n : Int) + 1)))] = .panicked ∧
    GetResources.Execute { KubeClient := podsClient pods } MarshalIndent
        [("namespace", .string "default"), ("resourceType", .string "pods"),
         ("limit", .int (-((n : Int) + 1)))] = .panicked ∧
    limitTestTool.Execute MarshalIndent (limitTestInput (-1)) = .panicked :=
  ⟨execute_pods_panics _ MarshalIndent _ "default" n rfl (by decide) rfl rfl (fun _ _ => rfl),
    execute_pods_panics _ MarshalIndent _ "default" n rfl (by decide) rfl rfl (fun _ _ => rfl),
    execute_pods_panics _ MarshalIndent _ "default" 0 rfl (by decide) rfl rfl (fun _ _ => rfl)⟩

end K8s
